import Mathlib

/-!
# SGD training algorithm of LBANN: control flow of `train` / `evaluate`

Shallow embedding of `src/execution_algorithms/sgd_training_algorithm.cpp`.

The algorithm object, the model, the data coordinator and the two execution
contexts (the caller's context `c` and the algorithm's private
`m_validation_context`) are gathered in one `World`.  Every call that the
algorithm makes on a collaborator is appended to `World.trace`, so that
"how often" and "in which order" questions become questions about a list.
The two `while (!term(c))` loops need not terminate (a data coordinator may
never report the end of an epoch), hence they take a fuel argument and report
`Abort.fuel_exhausted` together with the world reached so far.

Smaller embeddings follow for the peer exchange of weights
(`ltfb/checkpoint_binary.cpp`), the scale operator, the early-stopping callback
(`callbacks/lbann_callback_early_stopping.cpp`), the categorical accuracy
metric (`metrics/lbann_metric_categorical_accuracy.cpp`) and the
batch-normalization branch of the layer factory
(`proto/factories/layer_factory.cpp`).
-/

namespace lbann

/-- Execution modes that the source file mentions. -/
inductive execution_mode
  | training
  | validation
  | testing
  | prediction
  | tournament
  | invalid
  deriving DecidableEq, Repr

/-- Modelled from the spec: `SGDExecutionContext` (its header is not part of the
sources at hand).  Section 3 lists the fields; `elapsed` is the reading of the
context's timer in whole abstract units.  The counters are unbounded naturals. -/
structure SGDExecutionContext where
  mode : execution_mode
  epoch : Nat
  step : Nat
  current_mini_batch_size : Nat
  effective_mini_batch_size : Nat
  early_stop : Bool
  elapsed : Nat
  deriving DecidableEq, Repr

/-- Modelled from the spec: the three termination criteria built by
`make_factory` (`BatchTerminationCriteria`, `EpochTerminationCriteria`,
`SecondsTerminationCriteria`); their class definitions are in a header that
is not part of the sources at hand. -/
inductive SGDTerminationCriteria
  | BatchTerminationCriteria (max_batches : Nat)
  | EpochTerminationCriteria (max_epochs : Nat)
  | SecondsTerminationCriteria (max_seconds : Nat)
  deriving DecidableEq, Repr

/-- Modelled from the spec: the explicit criterion of section 4.2.
`BatchTermination` is true when `step >= maxBatches`, `EpochTermination` when
`epoch >= maxEpochs`, `SecondsTermination` when the accumulated time exceeds
the bound. -/
def SGDTerminationCriteria.criterion : SGDTerminationCriteria → SGDExecutionContext → Bool
  | .BatchTerminationCriteria n, c => decide (n ≤ c.step)
  | .EpochTerminationCriteria n, c => decide (n ≤ c.epoch)
  | .SecondsTerminationCriteria n, c => decide (n < c.elapsed)

/-- Modelled from the spec: the termination check `term(c)` of the loops,
"termination check must OR the explicit criterion with `context.early_stop`". -/
def SGDTerminationCriteria.is_done (t : SGDTerminationCriteria) (c : SGDExecutionContext) : Bool :=
  t.criterion c || c.early_stop

/-- The two context objects the algorithm works on: the context handed in by
the caller and the member `m_validation_context`. -/
inductive ContextRef
  | caller
  | validation
  deriving DecidableEq, Repr

/-- Lifecycle hooks of a callback that the algorithm dispatches. -/
inductive Hook
  | on_train_begin
  | on_train_end
  | on_epoch_begin
  | on_epoch_end
  | on_batch_begin
  | on_batch_end
  | on_batch_evaluate_begin
  | on_batch_evaluate_end
  | on_validation_begin
  | on_validation_end
  | on_test_begin
  | on_test_end
  deriving DecidableEq, Repr

/-- Names of the `ScopeTimer` objects the algorithm constructs. -/
inductive Scope
  | train
  | train_begin_callbacks
  | epoch_begin_callbacks
  | train_minibatch
  | epoch_end_callbacks
  | train_end_callbacks
  | batch_begin_callbacks
  | forward_prop
  | back_prop
  | batch_end_callbacks
  | evaluate (mode : execution_mode)
  | eval_begin_callbacks
  | eval_minibatch
  | eval_end_callbacks
  deriving DecidableEq, Repr

/-- One observable action of the algorithm on a collaborator. -/
inductive Event
  | timer_scope (s : Scope)
  | set_execution_mode (c : ContextRef) (mode : execution_mode)
  | set_mini_batch_sizes (c : ContextRef) (size : Nat)
  | start_timer (c : ContextRef)
  | stop_timer (c : ContextRef)
  | inc_step (c : ContextRef)
  | inc_epoch (c : ContextRef)
  | set_early_stop (c : ContextRef) (value : Bool)
  | model_reset_mode (c : ContextRef) (mode : execution_mode)
  | model_reset_epoch_statistics (mode : execution_mode)
  | model_clear_gradients
  | model_forward_prop (mode : execution_mode)
  | model_backward_prop
  | model_evaluate_metrics (mode : execution_mode) (size : Nat)
  | model_update_weights
  | model_update_layers
  | model_reconcile_weight_values
  | objective_start_evaluation (mode : execution_mode) (size : Nat)
  | objective_differentiate
  | objective_compute_weight_regularization
  | objective_finish_evaluation (mode : execution_mode) (size : Nat)
  | dc_reset_mode (c : ContextRef)
  | dc_fetch_data (mode : execution_mode)
  | dc_epoch_complete (mode : execution_mode) (finished : Bool)
  | callback (index : Nat) (hook : Hook)
  | print_timers
  deriving DecidableEq, Repr

/-- Modelled from the spec: a callback (the class `callback_base` is not part
of the sources at hand).  Section 4.3: a callback is invoked synchronously and
"may mutate the model or set the context's early-stop flag as an observable
side effect".  The mutation of the model is opaque to the control flow; the
decision to set the early-stop flag may depend on the hook, on everything that
happened so far and on the model's current execution context.  The interval
is what `get_batch_interval()` returns. -/
structure callback where
  batch_interval : Nat
  requests_stop : Hook → List Event → Option SGDExecutionContext → Bool

/-- Modelled from the spec: the data coordinator (an external collaborator,
section 6).  `valid` answers `is_execution_mode_valid`, `mini_batch_size`
answers `get_mini_batch_size`, `fetched mode` counts the `fetch_data(mode)`
calls so far, `complete mode n` is the answer of `epoch_complete(mode)` once
`n` mini-batches of that mode have been fetched, and `context` is the context
last handed over by `reset_mode`. -/
structure data_coordinator where
  valid : execution_mode → Bool
  mini_batch_size : execution_mode → Nat
  complete : execution_mode → Nat → Bool
  fetched : execution_mode → Nat
  context : Option ContextRef

/-- State of the algorithm object and of its collaborators. -/
structure World where
  caller_context : SGDExecutionContext
  m_validation_context : SGDExecutionContext
  m_validation_epochs : Nat
  m_stopping_criteria : SGDTerminationCriteria
  m_suppress_timer : Bool
  am_trainer_master : Bool
  m_callbacks : List callback
  m_execution_context : Option ContextRef
  dc : data_coordinator
  trace : List Event

/-- Reasons for which a run does not return normally. -/
inductive Abort
  | illegal_mode (mode : execution_mode)
  | invalid_execution_mode_for_evaluation
  | invalid_execution_mode
  | execution_context_not_set
  | fuel_exhausted
  deriving DecidableEq, Repr

/-- Result of a run: a value, or the reason of the abort with the world
reached at that point. -/
abbrev Run (α : Type) := Except (Abort × World) α

/-- State of a freshly constructed algorithm:
`m_validation_context{execution_mode::validation, 1UL}` and
`m_validation_epochs{1UL}`. -/
def fresh_validation_context : SGDExecutionContext :=
  { mode := .validation, epoch := 0, step := 0, current_mini_batch_size := 1,
    effective_mini_batch_size := 1, early_stop := false, elapsed := 0 }

/-- Context made by `do_get_new_execution_context`:
`SGDExecutionContext(execution_mode::invalid, 0)`. -/
def do_get_new_execution_context : SGDExecutionContext :=
  { mode := .invalid, epoch := 0, step := 0, current_mini_batch_size := 0,
    effective_mini_batch_size := 0, early_stop := false, elapsed := 0 }

namespace World

/-- Dereference a context. -/
def context (w : World) : ContextRef → SGDExecutionContext
  | .caller => w.caller_context
  | .validation => w.m_validation_context

/-- Overwrite a context. -/
def set_context (w : World) (r : ContextRef) (c : SGDExecutionContext) : World :=
  match r with
  | .caller => { w with caller_context := c }
  | .validation => { w with m_validation_context := c }

/-- Append an event to the trace. -/
def log (w : World) (e : Event) : World :=
  { w with trace := w.trace ++ [e] }

/-- Call `c.inc_step()`. -/
def inc_step (w : World) (r : ContextRef) : World :=
  (w.set_context r { w.context r with step := (w.context r).step + 1 }).log (.inc_step r)

/-- Call `c.inc_epoch()`. -/
def inc_epoch (w : World) (r : ContextRef) : World :=
  (w.set_context r { w.context r with epoch := (w.context r).epoch + 1 }).log (.inc_epoch r)

/-- Call `c.set_early_stop(b)`. -/
def set_early_stop (w : World) (r : ContextRef) (b : Bool) : World :=
  (w.set_context r { w.context r with early_stop := b }).log (.set_early_stop r b)

/-- Call `c.set_execution_mode(mode)`. -/
def set_execution_mode (w : World) (r : ContextRef) (mode : execution_mode) : World :=
  (w.set_context r { w.context r with mode := mode }).log (.set_execution_mode r mode)

/-- Calls `c.set_current_mini_batch_size(n)` and
`c.set_effective_mini_batch_size(n)`. -/
def set_mini_batch_sizes (w : World) (r : ContextRef) (n : Nat) : World :=
  (w.set_context r { w.context r with current_mini_batch_size := n,
                                      effective_mini_batch_size := n }).log
    (.set_mini_batch_sizes r n)

/-- Call `model.reset_mode(c, mode)`: the context becomes the model's current
execution context. -/
def model_reset_mode (w : World) (r : ContextRef) (mode : execution_mode) : World :=
  { w with m_execution_context := some r, trace := w.trace ++ [.model_reset_mode r mode] }

/-- Call `dc.reset_mode(c)`. -/
def dc_reset_mode (w : World) (r : ContextRef) : World :=
  { w with dc := { w.dc with context := some r }, trace := w.trace ++ [.dc_reset_mode r] }

/-- Call `dc.fetch_data(mode)`. -/
def dc_fetch_data (w : World) (mode : execution_mode) : World :=
  { w with
    dc := { w.dc with
            fetched := fun m => if m = mode then w.dc.fetched m + 1 else w.dc.fetched m },
    trace := w.trace ++ [.dc_fetch_data mode] }

/-- Answer of `dc.epoch_complete(mode)` in the present state. -/
def epoch_complete (w : World) (mode : execution_mode) : Bool :=
  w.dc.complete mode (w.dc.fetched mode)

/-- Call `dc.epoch_complete(mode)`; the answer is recorded in the trace. -/
def dc_epoch_complete (w : World) (mode : execution_mode) : World :=
  w.log (.dc_epoch_complete mode (w.epoch_complete mode))

/-- Source function `model::get_callbacks` (model.hpp): a new vector that
receives the entries of `m_callbacks` one by one with `push_back`. -/
def get_callbacks (w : World) : List callback :=
  w.m_callbacks.foldl (fun callback_list ptr => callback_list ++ [ptr]) []

/-- Invoke one hook of the callback at position `i`.  A stop request sets the
early-stop flag of the model's current execution context. -/
def invoke (w : World) (i : Nat) (cb : callback) (h : Hook) : World :=
  let stop := cb.requests_stop h w.trace (w.m_execution_context.map w.context)
  let w1 := w.log (.callback i h)
  match stop, w1.m_execution_context with
  | true, some r => w1.set_early_stop r true
  | _, _ => w1

end World

/-- Loop `for (const auto& cb : model.get_callbacks())`, the callbacks taken in
list order; `i` is the position of the head of the list. -/
def for_each_callback (body : Nat → callback → World → Run World) :
    Nat → List callback → World → Run World
  | _, [], w => pure w
  | i, cb :: rest, w => body i cb w >>= for_each_callback body (i + 1) rest

/-- Dispatch of a hook without gate (train begin/end, epoch begin/end). -/
def dispatch (h : Hook) (w : World) : Run World :=
  for_each_callback (fun i cb v => pure (v.invoke i cb h)) 0 w.get_callbacks w

/-- Source function `do_train_begin_cbs`. -/
def do_train_begin_cbs (w : World) : Run World :=
  dispatch .on_train_begin (w.log (.timer_scope .train_begin_callbacks))

/-- Source function `do_train_end_cbs`. -/
def do_train_end_cbs (w : World) : Run World :=
  dispatch .on_train_end (w.log (.timer_scope .train_end_callbacks))

/-- Source function `do_epoch_begin_cbs`. -/
def do_epoch_begin_cbs (w : World) : Run World :=
  dispatch .on_epoch_begin (w.log (.timer_scope .epoch_begin_callbacks))

/-- Source function `do_epoch_end_cbs`. -/
def do_epoch_end_cbs (w : World) : Run World :=
  dispatch .on_epoch_end (w.log (.timer_scope .epoch_end_callbacks))

/-- Body of the loop of `do_evaluate_begin_cbs`. -/
def evaluate_begin_body (mode : execution_mode) (i : Nat) (cb : callback) (w : World) :
    Run World :=
  match mode with
  | .validation => pure (w.invoke i cb .on_validation_begin)
  | .tournament => pure (w.invoke i cb .on_validation_begin)
  | .testing => pure (w.invoke i cb .on_test_begin)
  | _ => throw (.invalid_execution_mode, w)

/-- Source function `do_evaluate_begin_cbs`. -/
def do_evaluate_begin_cbs (mode : execution_mode) (w : World) : Run World :=
  let w := w.log (.timer_scope .eval_begin_callbacks)
  for_each_callback (evaluate_begin_body mode) 0 w.get_callbacks w

/-- Body of the loop of `do_evaluate_end_cbs`. -/
def evaluate_end_body (mode : execution_mode) (i : Nat) (cb : callback) (w : World) :
    Run World :=
  match mode with
  | .validation => pure (w.invoke i cb .on_validation_end)
  | .tournament => pure (w.invoke i cb .on_validation_end)
  | .testing => pure (w.invoke i cb .on_test_end)
  | _ => throw (.invalid_execution_mode, w)

/-- Source function `do_evaluate_end_cbs`. -/
def do_evaluate_end_cbs (mode : execution_mode) (w : World) : Run World :=
  let w := w.log (.timer_scope .eval_end_callbacks)
  for_each_callback (evaluate_end_body mode) 0 w.get_callbacks w

/-- Body of the loop of `do_batch_begin_cbs`; `r` is the context obtained from
`model.get_execution_context()` before the loop.  The source computes
`c.get_step() % cb->get_batch_interval()`, which is undefined for an interval
of 0; the value of `%` at 0 in this model carries no meaning. -/
def batch_begin_body (mode : execution_mode) (r : ContextRef) (i : Nat) (cb : callback)
    (w : World) : Run World :=
  match mode with
  | .training =>
    if (w.context r).step % cb.batch_interval = 0 then pure (w.invoke i cb .on_batch_begin)
    else pure w
  | .validation => pure (w.invoke i cb .on_batch_evaluate_begin)
  | .tournament => pure (w.invoke i cb .on_batch_evaluate_begin)
  | .testing => pure (w.invoke i cb .on_batch_evaluate_begin)
  | _ => throw (.invalid_execution_mode, w)

/-- Source function `do_batch_begin_cbs`. -/
def do_batch_begin_cbs (mode : execution_mode) (w : World) : Run World :=
  let w := w.log (.timer_scope .batch_begin_callbacks)
  match w.m_execution_context with
  | none => throw (.execution_context_not_set, w)
  | some r => for_each_callback (batch_begin_body mode r) 0 w.get_callbacks w

/-- Body of the loop of `do_batch_end_cbs`. -/
def batch_end_body (mode : execution_mode) (r : ContextRef) (i : Nat) (cb : callback)
    (w : World) : Run World :=
  match mode with
  | .training =>
    if (w.context r).step % cb.batch_interval = 0 then pure (w.invoke i cb .on_batch_end)
    else pure w
  | .validation => pure (w.invoke i cb .on_batch_evaluate_end)
  | .tournament => pure (w.invoke i cb .on_batch_evaluate_end)
  | .testing => pure (w.invoke i cb .on_batch_evaluate_end)
  | _ => throw (.invalid_execution_mode, w)

/-- Source function `do_batch_end_cbs`. -/
def do_batch_end_cbs (mode : execution_mode) (w : World) : Run World :=
  let w := w.log (.timer_scope .batch_end_callbacks)
  match w.m_execution_context with
  | none => throw (.execution_context_not_set, w)
  | some r => for_each_callback (batch_end_body mode r) 0 w.get_callbacks w

/-- The calls of `train_mini_batch` between the batch-begin callbacks and the
batch-end callbacks. -/
def train_mini_batch_core (r : ContextRef) (w : World) : World :=
  let w := w.dc_fetch_data .training
  let w := w.log .model_clear_gradients
  let w := w.log (.timer_scope .forward_prop)
  let w := w.log (.model_forward_prop .training)
  let w := w.dc_epoch_complete .training
  let w := w.log (.objective_start_evaluation .training (w.context r).current_mini_batch_size)
  let w := w.log .objective_differentiate
  let w := w.log (.timer_scope .back_prop)
  let w := w.log .model_backward_prop
  let w := w.log .objective_compute_weight_regularization
  let w := w.log (.objective_finish_evaluation .training (w.context r).current_mini_batch_size)
  let w := w.log (.model_evaluate_metrics .training (w.context r).current_mini_batch_size)
  let w := w.log .model_update_weights
  let w := w.log .model_update_layers
  w.inc_step r

/-- Source function `train_mini_batch`; the boolean is the latched answer of
`dc.epoch_complete(training)`. -/
def train_mini_batch (r : ContextRef) (w : World) : Run (Bool × World) :=
  let w := w.model_reset_mode r .training
  let w := w.dc_reset_mode r
  do_batch_begin_cbs .training w >>= fun w =>
  let finished := (w.dc_fetch_data .training).epoch_complete .training
  let w := train_mini_batch_core r w
  do_batch_end_cbs .training w >>= fun w =>
  pure (finished, w)

/-- The calls of `evaluate_mini_batch` between the batch-begin callbacks and
the batch-end callbacks. -/
def evaluate_mini_batch_core (r : ContextRef) (mode : execution_mode) (w : World) : World :=
  let w := w.dc_fetch_data mode
  let w := w.log (.model_forward_prop mode)
  let w := w.dc_epoch_complete mode
  let w := w.log (.objective_start_evaluation mode (w.context r).current_mini_batch_size)
  let w := w.log (.objective_finish_evaluation mode (w.context r).current_mini_batch_size)
  let w := w.log (.model_evaluate_metrics mode (w.context r).current_mini_batch_size)
  let w := w.log .model_update_layers
  w.inc_step r

/-- Source function `evaluate_mini_batch`. -/
def evaluate_mini_batch (r : ContextRef) (mode : execution_mode) (w : World) :
    Run (Bool × World) :=
  let w := w.model_reset_mode r mode
  let w := w.dc_reset_mode r
  do_batch_begin_cbs mode w >>= fun w =>
  let finished := (w.dc_fetch_data mode).epoch_complete mode
  let w := evaluate_mini_batch_core r mode w
  do_batch_end_cbs mode w >>= fun w =>
  pure (finished, w)

/-- The loop `while (!term(c))` of `evaluate`. -/
def evaluate_loop (r : ContextRef) (mode : execution_mode) (term : SGDTerminationCriteria) :
    Nat → World → Run World
  | 0, w => throw (.fuel_exhausted, w)
  | fuel + 1, w =>
    if term.is_done (w.context r) then pure w
    else
      evaluate_mini_batch r mode (w.log (.timer_scope .eval_minibatch)) >>= fun p =>
      evaluate_loop r mode term fuel (if p.1 then p.2.inc_epoch r else p.2)

/-- Source function `evaluate`. -/
def evaluate (fuel : Nat) (r : ContextRef) (mode : execution_mode)
    (term : SGDTerminationCriteria) (w : World) : Run World :=
  let w := w.log (.timer_scope (.evaluate mode))
  let w := w.log (.model_reset_epoch_statistics mode)
  let w := w.model_reset_mode r mode
  let w := w.dc_reset_mode r
  if w.dc.valid mode = false then pure w
  else if mode ≠ .validation ∧ mode ≠ .tournament ∧ mode ≠ .testing then
    throw (.invalid_execution_mode_for_evaluation, w)
  else
    do_evaluate_begin_cbs mode w >>= fun w =>
    evaluate_loop r mode term fuel w >>= fun w =>
    do_evaluate_end_cbs mode w

/-- The block "Initialize epoch" of `train`. -/
def initialize_epoch (w : World) : Run World :=
  let w := w.model_reset_mode .caller .training
  let w := w.log (.model_reset_epoch_statistics .training)
  let w := w.dc_reset_mode .caller
  do_epoch_begin_cbs w

/-- The block "Evaluate on validation set" of `train`. -/
def validation_pass (fuel : Nat) (w : World) : Run World :=
  if w.dc.valid .validation then
    evaluate fuel .validation .validation (.EpochTerminationCriteria w.m_validation_epochs) w
      >>= fun w =>
    let w := { w with m_validation_epochs := w.m_validation_epochs + 1 }
    pure (w.set_early_stop .caller (w.context .validation).early_stop)
  else pure w

/-- The block "Finalize epoch" of `train`. -/
def finalize_epoch (fuel : Nat) (w : World) : Run World :=
  let w := w.inc_epoch .caller
  let w := w.log .model_reconcile_weight_values
  do_epoch_end_cbs w >>= validation_pass fuel

/-- The loop `while (!term(c))` of `train`; the boolean is `is_start_of_epoch`. -/
def train_loop (term : SGDTerminationCriteria) : Nat → Bool → World → Run World
  | 0, _, w => throw (.fuel_exhausted, w)
  | fuel + 1, is_start_of_epoch, w =>
    if term.is_done (w.context .caller) then pure w
    else
      (if is_start_of_epoch then initialize_epoch w else pure w) >>= fun w =>
      train_mini_batch .caller (w.log (.timer_scope .train_minibatch)) >>= fun p =>
      if p.1 then finalize_epoch fuel p.2 >>= train_loop term fuel true
      else train_loop term fuel false p.2

/-- Source function `train`. -/
def train (fuel : Nat) (term : SGDTerminationCriteria) (w : World) : Run World :=
  let w := w.log (.timer_scope .train)
  let w := w.set_mini_batch_sizes .validation (w.dc.mini_batch_size .validation)
  let w := w.set_execution_mode .caller .training
  let w := w.model_reset_mode .caller .training
  let w := w.dc_reset_mode .caller
  do_train_begin_cbs w >>= fun w =>
  train_loop term fuel true (w.log (.start_timer .caller)) >>= fun w =>
  let w := w.log (.stop_timer .caller)
  let w := w.model_reset_mode .caller .training
  do_train_end_cbs w

/-- The tail of `apply`: the timers are printed unless suppressed. -/
def report_timers (w : World) : World :=
  if !w.m_suppress_timer && w.am_trainer_master then w.log .print_timers else w

/-- Source function `apply`. -/
def apply (fuel : Nat) (mode : execution_mode) (w : World) : Run World :=
  (match mode with
   | .training => train fuel w.m_stopping_criteria w
   | .validation => evaluate fuel .caller mode w.m_stopping_criteria w
   | .testing => evaluate fuel .caller mode w.m_stopping_criteria w
   | .prediction => evaluate fuel .caller mode w.m_stopping_criteria w
   | _ => throw (.illegal_mode mode, w)) >>= fun w =>
  pure (report_timers w)

/-! ## Auxiliary notions used to state and prove the properties -/

/-- Events produced by callback activity: the invocation of a hook and the
early-stop request a callback may make. -/
def Event.is_callback_activity : Event → Bool
  | .callback _ _ => true
  | .set_early_stop _ true => true
  | _ => false

/-- Effect of one dispatch loop in which exactly the callbacks selected by `g`
receive the hook `h`; `i` is the position of the head of the list. -/
def invoke_where (g : callback → Bool) (h : Hook) : Nat → List callback → World → World
  | _, [], w => w
  | i, cb :: rest, w => invoke_where g h (i + 1) rest (if g cb then w.invoke i cb h else w)

/-- No callback of the list ever asks for an early stop. -/
def never_stops (cbs : List callback) : Prop :=
  ∀ cb ∈ cbs, ∀ (h : Hook) (t : List Event) (c : Option SGDExecutionContext),
    cb.requests_stop h t c = false

/-- World reached by a run, whether it returned or aborted. -/
def Run.world : Run World → World
  | .ok w => w
  | .error p => p.2

/-- Number of training mini-batches started (scopes `train minibatch`). -/
def training_steps (t : List Event) : Nat := t.count (.timer_scope .train_minibatch)

/-- Number of evaluation mini-batches started (scopes `eval minibatch`). -/
def evaluation_steps (t : List Event) : Nat := t.count (.timer_scope .eval_minibatch)

/-- Number of epoch-begin callback rounds. -/
def epoch_begin_rounds (t : List Event) : Nat := t.count (.timer_scope .epoch_begin_callbacks)

/-- Number of epoch-end callback rounds. -/
def epoch_end_rounds (t : List Event) : Nat := t.count (.timer_scope .epoch_end_callbacks)

/-- Number of calls of `model.reconcile_weight_values()`. -/
def reconciliations (t : List Event) : Nat := t.count .model_reconcile_weight_values

/-- Number of training mini-batches on which the data coordinator reported the
end of the epoch. -/
def training_completions (t : List Event) : Nat := t.count (.dc_epoch_complete .training true)

/-- Modes that `evaluate` accepts. -/
def is_evaluation_mode : execution_mode → Bool
  | .validation => true
  | .tournament => true
  | .testing => true
  | _ => false

/-- Hook that the evaluate-begin dispatch selects for an evaluation mode. -/
def evaluate_begin_hook : execution_mode → Hook
  | .testing => .on_test_begin
  | _ => .on_validation_begin

/-- Hook that the evaluate-end dispatch selects for an evaluation mode. -/
def evaluate_end_hook : execution_mode → Hook
  | .testing => .on_test_end
  | _ => .on_validation_end

/-- Gate of the training batch hooks at step counter `s`. -/
def interval_gate (s : Nat) (cb : callback) : Bool := decide (s % cb.batch_interval = 0)

/-- World in which `train_mini_batch` returns (see `train_mini_batch_eq`). -/
def after_train_mini_batch (r : ContextRef) (w : World) : World :=
  let s := (w.context r).step
  let w := ((w.model_reset_mode r .training).dc_reset_mode r).log
    (.timer_scope .batch_begin_callbacks)
  let w := invoke_where (interval_gate s) .on_batch_begin 0 w.m_callbacks w
  let w := (train_mini_batch_core r w).log (.timer_scope .batch_end_callbacks)
  invoke_where (interval_gate (s + 1)) .on_batch_end 0 w.m_callbacks w

/-- World in which `evaluate_mini_batch` returns for an evaluation mode (see
`evaluate_mini_batch_eq`). -/
def after_evaluate_mini_batch (r : ContextRef) (mode : execution_mode) (w : World) : World :=
  let w := ((w.model_reset_mode r mode).dc_reset_mode r).log
    (.timer_scope .batch_begin_callbacks)
  let w := invoke_where (fun _ => true) .on_batch_evaluate_begin 0 w.m_callbacks w
  let w := (evaluate_mini_batch_core r mode w).log (.timer_scope .batch_end_callbacks)
  invoke_where (fun _ => true) .on_batch_evaluate_end 0 w.m_callbacks w


/-- Calls that one `train_mini_batch` makes on its collaborators, callback
activity left out; `finished` is the answer of `epoch_complete` and `size` the
current mini-batch size of the context. -/
def train_mini_batch_calls (r : ContextRef) (finished : Bool) (size : Nat) : List Event :=
  [.model_reset_mode r .training, .dc_reset_mode r, .timer_scope .batch_begin_callbacks,
   .dc_fetch_data .training, .model_clear_gradients, .timer_scope .forward_prop,
   .model_forward_prop .training, .dc_epoch_complete .training finished,
   .objective_start_evaluation .training size, .objective_differentiate,
   .timer_scope .back_prop, .model_backward_prop, .objective_compute_weight_regularization,
   .objective_finish_evaluation .training size, .model_evaluate_metrics .training size,
   .model_update_weights, .model_update_layers, .inc_step r,
   .timer_scope .batch_end_callbacks]

/-- Calls that one `evaluate_mini_batch` makes on its collaborators, callback
activity left out. -/
def evaluate_mini_batch_calls (r : ContextRef) (mode : execution_mode) (finished : Bool)
    (size : Nat) : List Event :=
  [.model_reset_mode r mode, .dc_reset_mode r, .timer_scope .batch_begin_callbacks,
   .dc_fetch_data mode, .model_forward_prop mode, .dc_epoch_complete mode finished,
   .objective_start_evaluation mode size, .objective_finish_evaluation mode size,
   .model_evaluate_metrics mode size, .model_update_layers, .inc_step r,
   .timer_scope .batch_end_callbacks]

/-- World after the block "Initialize epoch" of `train`. -/
def after_initialize_epoch (w : World) : World :=
  let w := w.model_reset_mode .caller .training
  let w := w.log (.model_reset_epoch_statistics .training)
  let w := w.dc_reset_mode .caller
  let w := w.log (.timer_scope .epoch_begin_callbacks)
  invoke_where (fun _ => true) .on_epoch_begin 0 w.m_callbacks w

/-- World after the first three statements of the block "Finalize epoch" of
`train`: epoch increment, weight reconciliation, epoch-end callbacks. -/
def after_epoch_end (w : World) : World :=
  let w := w.inc_epoch .caller
  let w := w.log .model_reconcile_weight_values
  let w := w.log (.timer_scope .epoch_end_callbacks)
  invoke_where (fun _ => true) .on_epoch_end 0 w.m_callbacks w


/-- Relation between the world `w` in which a loop of `evaluate` starts and the
world `w'` in which it ends after `n` mini-batches of `mode` on the context `r`
that complete one epoch, no callback asking for a stop. -/
structure EvaluatedEpoch (r : ContextRef) (mode : execution_mode) (n : Nat) (w w' : World) :
    Prop where
  callbacks : w'.m_callbacks = w.m_callbacks
  valid : w'.dc.valid = w.dc.valid
  complete : w'.dc.complete = w.dc.complete
  mini_batch_size : w'.dc.mini_batch_size = w.dc.mini_batch_size
  fetched : ∀ m, w'.dc.fetched m = if m = mode then w.dc.fetched m + n else w.dc.fetched m
  context : ∀ r', w'.context r' =
    if r' = r then
      { w.context r with epoch := (w.context r).epoch + 1, step := (w.context r).step + n }
    else w.context r'
  validation_epochs : w'.m_validation_epochs = w.m_validation_epochs
  execution_context : w'.m_execution_context = some r
  training_steps : training_steps w'.trace = training_steps w.trace
  evaluation_steps : evaluation_steps w'.trace = evaluation_steps w.trace + n
  epoch_begin_rounds : epoch_begin_rounds w'.trace = epoch_begin_rounds w.trace
  epoch_end_rounds : epoch_end_rounds w'.trace = epoch_end_rounds w.trace


/-- Number of training epochs completed by the first `s` mini-batches of a run
in which `complete n` tells whether the `n`-th mini-batch (counted from 1) ends
an epoch. -/
def completed (complete : Nat → Bool) : Nat → Nat
  | 0 => 0
  | s + 1 => completed complete s + (if complete (s + 1) then 1 else 0)

/-- Number of training epochs begun by the first `s` mini-batches of such a
run. -/
def begun (complete : Nat → Bool) : Nat → Nat
  | 0 => 0
  | s + 1 => completed complete s + 1

/-- Answers of `epoch_complete(training)` to come, counted from the state of
the data coordinator in `w`. -/
def upcoming (w : World) (n : Nat) : Bool :=
  w.dc.complete .training (w.dc.fetched .training + n)

/-- Situation of a run of the loop of `train` that started in `w0`, with
callbacks that never ask for a stop: `s` training mini-batches done, `e`
epochs finalized, `b` epochs initialized, `j` validation passes of `v`
mini-batches each done. -/
structure Progress (w0 : World) (v s e b j : Nat) (w : World) : Prop where
  callbacks : w.m_callbacks = w0.m_callbacks
  valid : w.dc.valid = w0.dc.valid
  complete : w.dc.complete = w0.dc.complete
  fetched_training : w.dc.fetched .training = w0.dc.fetched .training + s
  fetched_validation : w.dc.fetched .validation = w0.dc.fetched .validation + j * v
  caller : w.context .caller =
    { w0.context .caller with step := (w0.context .caller).step + s,
                              epoch := (w0.context .caller).epoch + e }
  validation : w.context .validation =
    { w0.context .validation with step := (w0.context .validation).step + j * v,
                                  epoch := (w0.context .validation).epoch + j }
  validation_epochs : w.m_validation_epochs = w0.m_validation_epochs + j
  training_steps : training_steps w.trace = training_steps w0.trace + s
  evaluation_steps : evaluation_steps w.trace = evaluation_steps w0.trace + j * v
  epoch_begin_rounds : epoch_begin_rounds w.trace = epoch_begin_rounds w0.trace + b
  epoch_end_rounds : epoch_end_rounds w.trace = epoch_end_rounds w0.trace + e

/-- What the loop of `train` needs of the world `w0` in which it starts for its
validation passes to run over exactly one epoch of `v` mini-batches each. -/
structure ValidationReady (v : Nat) (w0 : World) : Prop where
  positive : 1 ≤ v
  bound : w0.m_validation_epochs = (w0.context .validation).epoch + 1
  early_stop : (w0.context .validation).early_stop = false
  periodic : ∀ n, w0.dc.complete .validation (w0.dc.fetched .validation + (n + 1)) =
    decide ((n + 1) % v = 0)


/-- Number of validation passes that belong to `e` finalized epochs: one per
epoch when the data coordinator of `w0` has a validation split, none
otherwise. -/
def validation_passes (w0 : World) (e : Nat) : Nat :=
  if w0.dc.valid .validation = true then e else 0

/-- The caller's context after `s` training mini-batches of an undisturbed run
that started in `w0`. -/
def context_after (w0 : World) (s : Nat) : SGDExecutionContext :=
  { w0.context .caller with
    step := (w0.context .caller).step + s,
    epoch := (w0.context .caller).epoch + completed (upcoming w0) s }


/-- World in which `train` enters its loop. -/
def train_entry (w : World) : World :=
  let w := w.log (.timer_scope .train)
  let w := w.set_mini_batch_sizes .validation (w.dc.mini_batch_size .validation)
  let w := w.set_execution_mode .caller .training
  let w := w.model_reset_mode .caller .training
  let w := w.dc_reset_mode .caller
  let w := w.log (.timer_scope .train_begin_callbacks)
  let w := invoke_where (fun _ => true) .on_train_begin 0 w.m_callbacks w
  w.log (.start_timer .caller)

/-- World in which `train` returns when its loop ends in `w`. -/
def train_exit (w : World) : World :=
  let w := w.log (.stop_timer .caller)
  let w := w.model_reset_mode .caller .training
  let w := w.log (.timer_scope .train_end_callbacks)
  invoke_where (fun _ => true) .on_train_end 0 w.m_callbacks w


/-! ## Concrete worlds for the scenarios of the specification -/

/-- Data coordinator that reports the end of a training epoch on every `k`-th
training mini-batch and the end of a validation epoch on every `v`-th
validation mini-batch; `split` tells whether it has a validation split. -/
def periodic_coordinator (k v : Nat) (split : Bool) : data_coordinator :=
  { valid := fun m => decide (m = .training) || (split && decide (m = .validation)),
    mini_batch_size := fun _ => 1,
    complete := fun m n => if m = .training then decide (n % k = 0) else decide (n % v = 0),
    fetched := fun _ => 0,
    context := none }

/-- Callback that does nothing, with the given batch interval. -/
def passive_callback (interval : Nat) : callback :=
  { batch_interval := interval, requests_stop := fun _ _ _ => false }

/-- Callback that asks for a stop whenever it receives the hook `h`. -/
def stop_on (h : Hook) : callback :=
  { batch_interval := 1, requests_stop := fun h' _ _ => decide (h' = h) }

/-- A freshly constructed algorithm with a fresh caller's context, the given
callbacks and the given data coordinator. -/
def fresh_world (cbs : List callback) (dc : data_coordinator) : World :=
  { caller_context := do_get_new_execution_context,
    m_validation_context := fresh_validation_context,
    m_validation_epochs := 1,
    m_stopping_criteria := .EpochTerminationCriteria 1,
    m_suppress_timer := true,
    am_trainer_master := true,
    m_callbacks := cbs,
    m_execution_context := none,
    dc := dc,
    trace := [] }

/-- Outcome of a run reduced to what the scenarios look at: epoch and step of
the caller's context, number of training mini-batches, epoch-begin rounds and
epoch-end rounds. -/
def summary (x : Run World) : Option (Nat × Nat × Nat × Nat × Nat) :=
  match x with
  | .ok w => some (w.caller_context.epoch, w.caller_context.step, training_steps w.trace,
      epoch_begin_rounds w.trace, epoch_end_rounds w.trace)
  | .error _ => none


/-- Outcome of a run reduced to the validation side: validation context epoch,
`m_validation_epochs`, number of evaluation mini-batches, and the early-stop
flag of the caller's context. -/
def validation_summary (x : Run World) : Option (Nat × Nat × Nat × Bool) :=
  match x with
  | .ok w => some (w.m_validation_context.epoch, w.m_validation_epochs,
      evaluation_steps w.trace, w.caller_context.early_stop)
  | .error _ => none


/-- World reached by a mini-batch, whether it returned or aborted. -/
def Run.world_of_pair : Run (Bool × World) → World
  | .ok p => p.2
  | .error p => p.2

/-- Relation between two worlds of one run: between `w` and `w'` nothing
happened but an evaluation on the context `r` in the mode `mode`: no weight
reconciliation, no completed training epoch unless the mode is training, no
change of the epoch of the caller's context unless `r` is that context. -/
structure Quiet (r : ContextRef) (mode : execution_mode) (w w' : World) : Prop where
  reconciliations : reconciliations w'.trace = reconciliations w.trace
  training_completions : mode ≠ .training →
    training_completions w'.trace = training_completions w.trace
  epoch : r ≠ .caller → (w'.context .caller).epoch = (w.context .caller).epoch

/-- Relation between two worlds of one run of `train`: between `w` and `w'`
the weights were reconciled as often as a training mini-batch completed an
epoch, and the epoch of the caller's context grew by that number. -/
def Balanced (w w' : World) : Prop :=
  ∃ n, reconciliations w'.trace = reconciliations w.trace + n ∧
    training_completions w'.trace = training_completions w.trace + n ∧
    (w'.context .caller).epoch = (w.context .caller).epoch + n


/-- The callback invocations recorded in a trace, in their order: position of
the callback in the list and hook. -/
def callback_calls (t : List Event) : List (Nat × Hook) :=
  t.filterMap fun e =>
    match e with
    | .callback i h => some (i, h)
    | _ => none

/-- Positions of the callbacks that a gate selects, in list order; `i` is the
position of the head of the list. -/
def selected (g : callback → Bool) : Nat → List callback → List Nat
  | _, [] => []
  | i, cb :: rest => if g cb then i :: selected g (i + 1) rest else selected g (i + 1) rest

/-- Modelled from the spec: `model::add_callback` (declared in model.hpp, its
definition is not part of the sources at hand).  Section 3: "insertion order
is invocation order", so a registration appends to `m_callbacks`. -/
def World.add_callback (w : World) (cb : callback) : World :=
  { w with m_callbacks := w.m_callbacks ++ [cb] }


/-- The dispatch `f`, run in `w`, returns and has invoked the hook `h` on every
callback of the model, once each, in the order of `get_callbacks()`. -/
def DispatchesToAll (f : World → Run World) (h : Hook) (w : World) : Prop :=
  ∃ w', f w = .ok w' ∧
    callback_calls w'.trace =
      callback_calls w.trace ++ (List.range w.get_callbacks.length).map fun i => (i, h)

/-- The dispatch `f`, run in `w`, returns and has invoked the hook `h` on some
of the callbacks of the model, at most once each, in the order of
`get_callbacks()`. -/
def DispatchesInOrder (f : World → Run World) (h : Hook) (w : World) : Prop :=
  ∃ (w' : World) (positions : List Nat), f w = .ok w' ∧ positions.Pairwise (· < ·) ∧
    (∀ i ∈ positions, i < w.get_callbacks.length) ∧
    callback_calls w'.trace = callback_calls w.trace ++ positions.map fun i => (i, h)


/-- World in which `evaluate` enters its loop when the mode is accepted and
has a valid split. -/
def evaluate_entry (r : ContextRef) (mode : execution_mode) (w : World) : World :=
  let w := w.log (.timer_scope (.evaluate mode))
  let w := w.log (.model_reset_epoch_statistics mode)
  let w := w.model_reset_mode r mode
  let w := w.dc_reset_mode r
  let w := w.log (.timer_scope .eval_begin_callbacks)
  invoke_where (fun _ => true) (evaluate_begin_hook mode) 0 w.m_callbacks w

/-- World in which `evaluate` returns when its loop ends in `w`. -/
def evaluate_exit (mode : execution_mode) (w : World) : World :=
  let w := w.log (.timer_scope .eval_end_callbacks)
  invoke_where (fun _ => true) (evaluate_end_hook mode) 0 w.m_callbacks w

/-- World after one iteration of the loop of `evaluate`. -/
def after_evaluate_iteration (r : ContextRef) (mode : execution_mode) (w : World) : World :=
  if w.dc.complete mode (w.dc.fetched mode + 1) = true then
    (after_evaluate_mini_batch r mode (w.log (.timer_scope .eval_minibatch))).inc_epoch r
  else after_evaluate_mini_batch r mode (w.log (.timer_scope .eval_minibatch))


/-- Relation between the world `w` in which a validation pass starts and a
world `v` it reaches: the caller's (training) context is as it was, no step or
epoch increment was made on it, and the step and epoch counters of the
validation context grew by the number of increments made on that context. -/
structure Spared (w v : World) : Prop where
  caller : v.context .caller = w.context .caller
  inc_step_caller : v.trace.count (.inc_step .caller) = w.trace.count (.inc_step .caller)
  inc_epoch_caller : v.trace.count (.inc_epoch .caller) = w.trace.count (.inc_epoch .caller)
  step : (v.context .validation).step + w.trace.count (.inc_step .validation) =
    (w.context .validation).step + v.trace.count (.inc_step .validation)
  epoch : (v.context .validation).epoch + w.trace.count (.inc_epoch .validation) =
    (w.context .validation).epoch + v.trace.count (.inc_epoch .validation)


/-- Callback that asks for a stop when it receives the hook `h` for the
`(n + 1)`-th time. -/
def stop_on_nth (h : Hook) (n : Nat) : callback :=
  { batch_interval := 1,
    requests_stop := fun h' t _ =>
      decide (h' = h) && decide ((callback_calls t).count (0, h) = n) }


/-- What an undisturbed run of `train` over `N` mini-batches, started in `w`,
leaves in the world `R` in which it returns (callbacks that never ask for a
stop, validation epochs of `v` mini-batches). -/
structure BatchRun (w : World) (v N : Nat) (R : World) : Prop where
  callbacks : R.m_callbacks = w.m_callbacks
  valid : R.dc.valid = w.dc.valid
  complete : R.dc.complete = w.dc.complete
  fetched_training : R.dc.fetched .training = w.dc.fetched .training + N
  fetched_validation : R.dc.fetched .validation =
    w.dc.fetched .validation + validation_passes w (completed (upcoming w) N) * v
  caller : R.context .caller =
    { w.context .caller with
      mode := .training,
      step := (w.context .caller).step + N,
      epoch := (w.context .caller).epoch + completed (upcoming w) N }
  validation : R.context .validation =
    { w.context .validation with
      current_mini_batch_size := w.dc.mini_batch_size .validation,
      effective_mini_batch_size := w.dc.mini_batch_size .validation,
      step := (w.context .validation).step +
        validation_passes w (completed (upcoming w) N) * v,
      epoch := (w.context .validation).epoch +
        validation_passes w (completed (upcoming w) N) }
  validation_epochs : R.m_validation_epochs =
    w.m_validation_epochs + validation_passes w (completed (upcoming w) N)
  training_steps : training_steps R.trace = training_steps w.trace + N


/-! ## Peer exchange of model weights (`ltfb/checkpoint_binary.cpp`) -/

/-- A weights object of a model, reduced to its name and its value; the value
stands for the tensor and optimizer state that a copy of the object carries. -/
structure weights where
  name : String
  value : Nat
  deriving DecidableEq, Repr

/-- The weights of a model in the order of `model::get_weights()`; nothing else
of a model matters to the exchange. -/
abbrev weights_list := List weights

/-- Modelled from the spec: `model::copy_model` (pure virtual in model.hpp, no
implementation in the sources at hand).  Section 5: the exchange "explicitly
copies a model before exchanging/mutating the copy": the copy has the weights
of the original and shares nothing with it. -/
def copy_model (m : weights_list) : weights_list := m

/-- The loop of `get_partner_model` that fills `restore_weights`: a weights
object whose name is not in `weights_names` is copied into the map under its
name, a later entry replacing an earlier one of the same name.  The map is a
list of pairs, searched from the most recent entry. -/
def save_weights (weights_names : List String) :
    weights_list → List (String × weights) → List (String × weights)
  | [], restore_weights => restore_weights
  | w :: rest, restore_weights =>
    if w.name ∈ weights_names then save_weights weights_names rest restore_weights
    else save_weights weights_names rest ((w.name, w) :: restore_weights)

/-- Modelled from the spec: `restore_model_weights` (checkpoint_common.hpp, not
part of the sources at hand).  It restores the weights "that shouldn't be
exchanged": every weights object of the model whose name has an entry in the
map is overwritten with that entry. -/
def restore_model_weights (partner_model : weights_list)
    (restore_weights : List (String × weights)) : weights_list :=
  partner_model.map fun w =>
    match restore_weights.lookup w.name with
    | some saved => saved
    | none => w

/-- Source function `CheckpointBinary::get_partner_model`.  The argument
`exchange` stands for `exchange(comm, partner_model, partner_trainer)`
(checkpoint_common.hpp, not part of the sources at hand): what the
communication with the partner trainer turns the copy into.  The result is the
pair of the model `m` after the call and the partner model returned. -/
def get_partner_model (weights_names : List String) (exchange : weights_list → weights_list)
    (m : weights_list) : weights_list × weights_list :=
  let partner_model := copy_model m
  let restore_weights :=
    if weights_names ≠ [] then save_weights weights_names partner_model [] else []
  let partner_model := exchange partner_model
  let partner_model := restore_model_weights partner_model restore_weights
  (m, partner_model)

/-! ## The scale operator (`operators/math/unit_test/scale_test.cpp`) -/

/-- Distribution of a matrix over the processes of a trainer. -/
inductive data_layout
  | DATA_PARALLEL
  | MODEL_PARALLEL
  deriving DecidableEq, Repr

/-- A distributed matrix: its layout and its entries. -/
structure dist_matrix (α : Type) (height width : Nat) where
  layout : data_layout
  entry : Fin height → Fin width → α

/-- Modelled from the spec: `ScaleOperator` (its header is not part of the
sources at hand; the unit test scale_test.cpp states its behaviour).  The
operator holds one constant. -/
structure ScaleOperator (α : Type) where
  constant : α

/-- Modelled from the spec: the default constructor of `ScaleOperator`; the
unit test requires `get_constant() == 0` of a default-constructed operator. -/
def ScaleOperator.default_constructed {α : Type} [Zero α] : ScaleOperator α :=
  { constant := 0 }

/-- Modelled from the spec: `ScaleOperator::fp_compute({input}, {output})`; the
unit test requires the output to hold the input scaled by the constant,
whatever it held before. -/
def ScaleOperator.fp_compute {α : Type} [Mul α] {height width : Nat} (op : ScaleOperator α)
    (input output : dist_matrix α height width) : dist_matrix α height width :=
  { output with entry := fun i j => op.constant * input.entry i j }

/-- Modelled from the spec:
`ScaleOperator::bp_compute({input}, {grad_wrt_output}, {grad_wrt_input})`; the
unit test requires the gradient with respect to the input to hold the gradient
with respect to the output scaled by the constant (`El::Scale`). -/
def ScaleOperator.bp_compute {α : Type} [Mul α] {height width : Nat} (op : ScaleOperator α)
    (_input grad_wrt_output grad_wrt_input : dist_matrix α height width) :
    dist_matrix α height width :=
  { grad_wrt_input with entry := fun i j => op.constant * grad_wrt_output.entry i j }

/-- Matrix with every entry equal to `a` (`El::Fill`). -/
def dist_matrix.fill {α : Type} (layout : data_layout) (height width : Nat) (a : α) :
    dist_matrix α height width :=
  { layout := layout, entry := fun _ _ => a }


/-- Calls that only a training mini-batch or the end of a training epoch
makes on the model and on the objective function: gradient clearing,
differentiation of the objective, backward propagation, weight regularization,
weight update and weight reconciliation. -/
def Event.is_weight_update : Event → Bool
  | .model_clear_gradients => true
  | .objective_differentiate => true
  | .model_backward_prop => true
  | .objective_compute_weight_regularization => true
  | .model_update_weights => true
  | .model_reconcile_weight_values => true
  | _ => false

/-- Hooks that the dispatch functions select when they are called with the
mode `mode` from `evaluate` or `evaluate_mini_batch`. -/
def Hook.of_evaluate (mode : execution_mode) : Hook → Bool
  | .on_validation_begin => decide (mode = .validation ∨ mode = .tournament)
  | .on_validation_end => decide (mode = .validation ∨ mode = .tournament)
  | .on_test_begin => decide (mode = .testing)
  | .on_test_end => decide (mode = .testing)
  | .on_batch_evaluate_begin => is_evaluation_mode mode
  | .on_batch_evaluate_end => is_evaluation_mode mode
  | .on_batch_begin => decide (mode = .training)
  | .on_batch_end => decide (mode = .training)
  | _ => false

/-- Timer scopes that `evaluate` and `evaluate_mini_batch` open in the mode
`mode`. -/
def Scope.of_evaluate (mode : execution_mode) : Scope → Bool
  | .evaluate m => decide (m = mode)
  | .eval_begin_callbacks => true
  | .eval_minibatch => true
  | .eval_end_callbacks => true
  | .batch_begin_callbacks => true
  | .batch_end_callbacks => true
  | _ => false

/-- Events that a call `evaluate(c, model, dc, mode, term)` on the context `r`
can append to the trace. -/
def Event.of_evaluate (r : ContextRef) (mode : execution_mode) : Event → Bool
  | .timer_scope s => s.of_evaluate mode
  | .model_reset_epoch_statistics m => decide (m = mode)
  | .model_reset_mode c m => decide (c = r) && decide (m = mode)
  | .dc_reset_mode c => decide (c = r)
  | .dc_fetch_data m => decide (m = mode)
  | .model_forward_prop m => decide (m = mode)
  | .dc_epoch_complete m _ => decide (m = mode)
  | .objective_start_evaluation m _ => decide (m = mode)
  | .objective_finish_evaluation m _ => decide (m = mode)
  | .model_evaluate_metrics m _ => decide (m = mode)
  | .model_update_layers => true
  | .inc_step c => decide (c = r)
  | .inc_epoch c => decide (c = r)
  | .callback _ h => h.of_evaluate mode
  | .set_early_stop _ b => b
  | _ => false

/-- Between the worlds `w` and `w'` of one run the trace grew, and only by
events that satisfy `p`. -/
def Appends (p : Event → Bool) (w w' : World) : Prop :=
  ∃ evs, w'.trace = w.trace ++ evs ∧ ∀ e ∈ evs, p e = true


/-- Data coordinator of the scenarios with a split for every mode: the end of
an epoch is reported on every `k`-th mini-batch of a mode. -/
def full_coordinator (k : Nat) : data_coordinator :=
  { valid := fun _ => true,
    mini_batch_size := fun _ => 1,
    complete := fun _ n => decide (n % k = 0),
    fetched := fun _ => 0,
    context := none }


/-- World of the scenario "a later call of `train`": a first run of `train`
in which a callback asked for a stop in its first `on_validation_end` has
returned, and the caller hands in a new context for the next call. -/
def stopped_world : World :=
  { (train 30 (.EpochTerminationCriteria 3)
      (fresh_world [stop_on_nth .on_validation_end 0] (periodic_coordinator 2 1 true))).world with
    caller_context := do_get_new_execution_context }


/-! ## Lifecycle of a run of `train` -/

/-- What an event means to the lifecycle of a run of `train`: the scopes of the
callback rounds and of a training mini-batch, the reset of the per-epoch
statistics of the training mode, the calls that hand the caller's context to
the data coordinator and to the model, the timer of the context, the
invocation of a hook and the stop request of a callback. -/
inductive Mark
  | train_begin_round
  | train_end_round
  | epoch_begin_round
  | epoch_end_round
  | train_minibatch
  | batch_round
  | reset_epoch_statistics
  | dc_reset
  | model_reset
  | start_timer
  | stop_timer
  | hook (h : Hook)
  | stop_request
  | other
  deriving DecidableEq, Repr

/-- Mark of an event. -/
def Event.mark : Event → Mark
  | .timer_scope .train_begin_callbacks => .train_begin_round
  | .timer_scope .train_end_callbacks => .train_end_round
  | .timer_scope .epoch_begin_callbacks => .epoch_begin_round
  | .timer_scope .epoch_end_callbacks => .epoch_end_round
  | .timer_scope .train_minibatch => .train_minibatch
  | .timer_scope .batch_begin_callbacks => .batch_round
  | .timer_scope .batch_end_callbacks => .batch_round
  | .model_reset_epoch_statistics .training => .reset_epoch_statistics
  | .dc_reset_mode .caller => .dc_reset
  | .model_reset_mode .caller .training => .model_reset
  | .start_timer .caller => .start_timer
  | .stop_timer .caller => .stop_timer
  | .callback _ h => .hook h
  | .set_early_stop _ true => .stop_request
  | _ => .other

/-- Stations of a run of `train`: before the train-begin round, in it, in the
loop with no epoch open, after the reset of the statistics, after the
following reset of the data coordinator, in an open epoch, after the loop,
after the final reset of the model, in the train-end round.  The last three
remember whether the loop was left in an open epoch. -/
inductive Phase
  | start
  | begun
  | between_epochs
  | statistics_reset
  | coordinator_reset
  | in_epoch
  | stopped (in_epoch : Bool)
  | model_reset (in_epoch : Bool)
  | finished (in_epoch : Bool)
  deriving DecidableEq, Repr

/-- Marks that change no station: they are let through wherever the run is not
in the middle of a fixed sequence of calls. -/
def Mark.is_plain : Mark → Bool
  | .dc_reset => true
  | .model_reset => true
  | .stop_request => true
  | .other => true
  | _ => false

/-- Stations in which plain marks are let through. -/
def Phase.is_loose : Phase → Bool
  | .start => true
  | .begun => true
  | .between_epochs => true
  | .in_epoch => true
  | _ => false

/-- The proper nesting of the lifecycle hooks, as a transition function: the
station reached from `s` by an event with mark `m`, if the event is in order
there. -/
def Phase.step : Phase → Mark → Option Phase
  | .start, .train_begin_round => some .begun
  | .begun, .hook .on_train_begin => some .begun
  | .begun, .start_timer => some .between_epochs
  | .between_epochs, .reset_epoch_statistics => some .statistics_reset
  | .statistics_reset, .dc_reset => some .coordinator_reset
  | .coordinator_reset, .epoch_begin_round => some .in_epoch
  | .in_epoch, .hook .on_epoch_begin => some .in_epoch
  | .in_epoch, .train_minibatch => some .in_epoch
  | .in_epoch, .batch_round => some .in_epoch
  | .in_epoch, .hook .on_batch_begin => some .in_epoch
  | .in_epoch, .hook .on_batch_end => some .in_epoch
  | .in_epoch, .epoch_end_round => some .between_epochs
  | .between_epochs, .hook .on_epoch_end => some .between_epochs
  | .between_epochs, .hook .on_validation_begin => some .between_epochs
  | .between_epochs, .hook .on_validation_end => some .between_epochs
  | .between_epochs, .hook .on_batch_evaluate_begin => some .between_epochs
  | .between_epochs, .hook .on_batch_evaluate_end => some .between_epochs
  | .between_epochs, .batch_round => some .between_epochs
  | .between_epochs, .stop_timer => some (.stopped false)
  | .in_epoch, .stop_timer => some (.stopped true)
  | .stopped o, .model_reset => some (.model_reset o)
  | .model_reset o, .train_end_round => some (.finished o)
  | .finished o, .hook .on_train_end => some (.finished o)
  | .finished o, .stop_request => some (.finished o)
  | s, m => if s.is_loose && m.is_plain then some s else none

/-- Station reached from `s` by a sequence of events, if every event is in
order where it occurs. -/
def lifecycle : Phase → List Event → Option Phase
  | s, [] => some s
  | s, e :: rest => (s.step e.mark).bind fun s' => lifecycle s' rest

/-- Number of epochs open in a station: 1 in an open epoch and after a loop
that was left in one. -/
def Phase.depth : Phase → Nat
  | .in_epoch => 1
  | .stopped true => 1
  | .model_reset true => 1
  | .finished true => 1
  | _ => 0

/-- Number of resets of the training statistics that still wait for their
epoch-begin round in a station. -/
def Phase.pending : Phase → Nat
  | .statistics_reset => 1
  | .coordinator_reset => 1
  | _ => 0

/-- Number of train-begin rounds that lie before a station. -/
def Phase.started : Phase → Nat
  | .start => 0
  | _ => 1

/-- Number of train-end rounds that lie before a station. -/
def Phase.ended : Phase → Nat
  | .finished _ => 1
  | _ => 0

/-- Marks of the epoch and batch hooks: the rounds of epoch-begin and epoch-end
callbacks, the scope of a training mini-batch, the rounds of batch callbacks,
and every invocation of a hook other than `on_train_begin` and
`on_train_end`. -/
def Mark.is_epoch_or_batch_hook : Mark → Bool
  | .epoch_begin_round => true
  | .epoch_end_round => true
  | .train_minibatch => true
  | .batch_round => true
  | .hook .on_train_begin => false
  | .hook .on_train_end => false
  | .hook _ => true
  | _ => false

/-- Between the worlds `w` and `w'` of one run the trace grew by events that
are in order from the station `s` on and lead to the station `s'`. -/
def Lifecycle (s : Phase) (w : World) (s' : Phase) (w' : World) : Prop :=
  ∃ evs, w'.trace = w.trace ++ evs ∧ lifecycle s evs = some s'


/-! ## The early-stopping callback (`callbacks/lbann_callback_early_stopping.cpp`) -/

/-- The part of the interface of a metric that `on_validation_end` uses.  The
scores are values of a linearly ordered type; `report_metric` is the score the
metric reports for an execution mode. -/
structure metric (α : Type) where
  supports_early_termination : Bool
  higher_score_is_better : Bool
  lower_score_is_better : Bool
  report_metric : execution_mode → α

/-- The model as `on_validation_end` sees it: the list `m->metrics` and the
calls `m->set_terminate_training(b)` made so far, the latest first. -/
structure model (α : Type) where
  metrics : List (metric α)
  set_terminate_training_calls : List Bool

/-- Call `m->set_terminate_training(b)`. -/
def model.set_terminate_training {α : Type} (m : model α) (b : Bool) : model α :=
  { m with set_terminate_training_calls := b :: m.set_terminate_training_calls }

/-- State of the callback object: `patience`, `last_score`, `wait`.  The two
counters are 64-bit integers in the source; `wait` is only incremented while it
is below `patience`, so it never leaves their range. -/
structure lbann_callback_early_stopping (α : Type) where
  patience : Int
  last_score : α
  wait : Int

namespace lbann_callback_early_stopping

variable {α : Type}

/-- The constructor: `patience(patience), last_score(0.0f), wait(0)`. -/
def construct [Zero α] (patience : Int) : lbann_callback_early_stopping α :=
  { patience := patience, last_score := 0, wait := 0 }

/-- The condition under which `on_validation_end` takes a score for an
improvement: `(higher_score_is_better() && score > last_score) ||
(lower_score_is_better() && score < last_score)`. -/
def is_improving [LinearOrder α] (cb : lbann_callback_early_stopping α) (x : metric α) : Bool :=
  (x.higher_score_is_better && decide (x.report_metric .validation > cb.last_score)) ||
    (x.lower_score_is_better && decide (x.report_metric .validation < cb.last_score))

/-- The loop `for (auto&& metric : m->metrics)` of `on_validation_end`, which
ends with `break` at the first metric that supports early termination.  The
messages printed by the model master are left out. -/
def on_validation_end_loop [LinearOrder α] (cb : lbann_callback_early_stopping α)
    (m : model α) : List (metric α) → lbann_callback_early_stopping α × model α
  | [] => (cb, m)
  | x :: rest =>
    if x.supports_early_termination then
      if cb.is_improving x then
        ({ cb with last_score := x.report_metric .validation, wait := 0 }, m)
      else if cb.wait ≥ cb.patience then (cb, m.set_terminate_training true)
      else ({ cb with wait := cb.wait + 1 }, m)
    else on_validation_end_loop cb m rest

/-- Source function `lbann_callback_early_stopping::on_validation_end`. -/
def on_validation_end [LinearOrder α] (cb : lbann_callback_early_stopping α) (m : model α) :
    lbann_callback_early_stopping α × model α :=
  on_validation_end_loop cb m m.metrics

/-- A sequence of validations: before each call of `on_validation_end` the
metrics of the model are those of the next entry of `rounds`. -/
def validations [LinearOrder α] (cb : lbann_callback_early_stopping α) (m : model α) :
    List (List (metric α)) → lbann_callback_early_stopping α × model α
  | [] => (cb, m)
  | metrics :: rest =>
    validations (cb.on_validation_end { m with metrics := metrics }).1
      (cb.on_validation_end { m with metrics := metrics }).2 rest

/-- Whether the call of `on_validation_end` on the metrics `metrics` invokes
`set_terminate_training(true)`. -/
def stops [LinearOrder α] (cb : lbann_callback_early_stopping α) (m : model α)
    (metrics : List (metric α)) : Bool :=
  decide ((cb.on_validation_end { m with metrics := metrics }).2.set_terminate_training_calls =
    true :: m.set_terminate_training_calls)

end lbann_callback_early_stopping

/-- The metric that a validation consults: the first one of the list that
supports early termination. -/
def consulted {α : Type} (metrics : List (metric α)) : Option (metric α) :=
  metrics.find? fun x => x.supports_early_termination

/-- A validation whose consulted metric reports a score that the callback `cb`
does not take for an improvement. -/
def NonImproving {α : Type} [LinearOrder α] (cb : lbann_callback_early_stopping α)
    (metrics : List (metric α)) : Prop :=
  ∃ x, consulted metrics = some x ∧ cb.is_improving x = false


/-! ## The categorical accuracy metric (`metrics/lbann_metric_categorical_accuracy.cpp`) -/

/-- A distributed matrix as one process sees it (`ElMat`, whose class is part
of the Elemental library): the size and the entries of its local part, and the
global row and column of a local row and column. -/
structure ElMat (α : Type) where
  LocalHeight : Nat
  LocalWidth : Nat
  GetLocal : Nat → Nat → α
  GlobalRow : Nat → Nat
  GlobalCol : Nat → Nat

/-- The two reductions over the processes of a model that `compute_metric`
asks of `lbann_comm`: the entrywise maximum of a buffer
(`model_allreduce(..., mpi::MAX)`) and the sum of a number. -/
structure lbann_comm where
  model_allreduce_max : (Nat → Int) → Nat → Int
  model_allreduce : Int → Int

/-- The communicator of a model with a single process: a reduction over one
process returns what that process holds. -/
def lbann_comm.single_process : lbann_comm :=
  { model_allreduce_max := fun buffer => buffer, model_allreduce := fun n => n }

namespace categorical_accuracy

variable {α : Type}

/-- First loop nest of `compute_metric`: for every local column, the global
row of each entry equal to the column maximum is stored in `m_max_index` at the
global column, a later row overwriting an earlier one.  `YsColMaxStar` is the
copy of the column maxima and `m_max_index` starts cleared. -/
def find_max_index [DecidableEq α] (predictions_v : ElMat α) (YsColMaxStar : Nat → α) :
    Nat → Int :=
  (List.range predictions_v.LocalWidth).foldl
    (fun m_max_index mb_index =>
      let mb_global_index := predictions_v.GlobalCol mb_index
      let sample_max := YsColMaxStar mb_global_index
      (List.range predictions_v.LocalHeight).foldl
        (fun m_max_index f_index =>
          if predictions_v.GetLocal f_index mb_index = sample_max then
            Function.update m_max_index mb_global_index (predictions_v.GlobalRow f_index : Int)
          else m_max_index)
        m_max_index)
    (fun _ => 0)

/-- Inner loop of the second loop nest: the global row of the last local entry
of the column that equals 1, or -1. -/
def find_target [DecidableEq α] [One α] (groundtruth_v : ElMat α) (mb_index : Nat) : Int :=
  (List.range groundtruth_v.LocalHeight).foldl
    (fun targetidx f_index =>
      if groundtruth_v.GetLocal f_index mb_index = 1 then (groundtruth_v.GlobalRow f_index : Int)
      else targetidx)
    (-1)

/-- Second loop nest of `compute_metric`: the count of the local columns that
hold a ground-truth entry and whose reduced maximum index differs from it. -/
def count_errors [DecidableEq α] [One α] (groundtruth_v : ElMat α)
    (m_reduced_max_indicies : Nat → Int) : Int :=
  (List.range groundtruth_v.LocalWidth).foldl
    (fun num_errors mb_index =>
      let targetidx := find_target groundtruth_v mb_index
      if targetidx ≠ -1 then
        let global_mb_index := groundtruth_v.GlobalCol mb_index
        if m_reduced_max_indicies global_mb_index ≠ targetidx then num_errors + 1
        else num_errors
      else num_errors)
    0

/-- Source function `categorical_accuracy::compute_metric`.  The argument
`ColumnMax` stands for the library call `ColumnMax(predictions_v, YsColMax)`,
which is not part of the sources at hand: it yields, for every global column,
what the call stores as the maximum of that column.  The buffers have
`m_max_mini_batch_size` rows, of which the mini-batch uses the first ones. -/
def compute_metric [DecidableEq α] [One α] (comm : lbann_comm)
    (ColumnMax : ElMat α → Nat → α) (predictions_v groundtruth_v : ElMat α) : Int :=
  let YsColMax := ColumnMax predictions_v
  let YsColMaxStar := YsColMax
  let m_max_index := find_max_index predictions_v YsColMaxStar
  let m_reduced_max_indicies := comm.model_allreduce_max m_max_index
  let num_errors := count_errors groundtruth_v m_reduced_max_indicies
  comm.model_allreduce num_errors

end categorical_accuracy

/-- The highest row below `height` that satisfies `P`, if there is one. -/
def highest_row (P : Nat → Bool) : Nat → Option Nat
  | 0 => none
  | height + 1 => if P height then some height else highest_row P height

/-- The predicted class of the sample in column `j`, in the words of the
specification: the row of the maximum of the column, the highest such row if
there are several. -/
def predicted_class {α : Type} [LinearOrder α] (predictions : ElMat α) (j : Nat) : Option Nat :=
  highest_row
    (fun i => decide (∀ k < predictions.LocalHeight,
      predictions.GetLocal k j ≤ predictions.GetLocal i j))
    predictions.LocalHeight

/-- The ground-truth class of the sample in column `j`, in the words of the
specification: the highest row that holds the value 1. -/
def ground_truth_class {α : Type} [DecidableEq α] [One α] (groundtruth : ElMat α) (j : Nat) :
    Option Nat :=
  highest_row (fun i => decide (groundtruth.GetLocal i j = 1)) groundtruth.LocalHeight

/-- Whether the sample in column `j` counts as an error, in the words of the
specification: it has a ground-truth class and the predicted class differs
from it. -/
def is_error {α : Type} [LinearOrder α] [One α] (predictions groundtruth : ElMat α) (j : Nat) :
    Bool :=
  match ground_truth_class groundtruth j with
  | none => false
  | some t => decide (predicted_class predictions j ≠ some t)

/-- A reference implementation of the library call `ColumnMax` for the
scenarios: the greatest entry of the column, taken over the rows from the top
(the first entry for a matrix without rows, where it is not looked at). -/
def column_max {α : Type} [LinearOrder α] (m : ElMat α) (j : Nat) : α :=
  (List.range m.LocalHeight).foldl (fun best i => max best (m.GetLocal i j)) (m.GetLocal 0 j)

/-- The matrix of a single process with the given columns; entries outside
are 0. -/
def ElMat.of_columns (height : Nat) (columns : List (List Int)) : ElMat Int :=
  { LocalHeight := height,
    LocalWidth := columns.length,
    GetLocal := fun i j => (columns.getD j []).getD i 0,
    GlobalRow := fun i => i,
    GlobalCol := fun j => j }


/-! ## The batch-normalization branch of the layer factory (`proto/factories/layer_factory.cpp`) -/

/-- Conversion of an integer value to the C++ type `int` (32 bits, two's
complement), as done by `int statistics_group_size = ...`: a value in
[-2^31, 2^31) is kept, any other value is reduced modulo 2^32 into that
range. -/
def to_int (x : Int) : Int := (x + 2 ^ 31) % 2 ^ 32 - 2 ^ 31

/-- The message `lbann_data::Layer::BatchNormalization` as far as
`construct_layer_legacy` reads it.  The two floating-point fields are taken as
rationals.  `statistics_group_size` is the value of the protobuf field, a
64-bit integer: it is any integer here, and `construct_layer_legacy` converts
it to `int` when it reads it. -/
structure BatchNormalization where
  decay : ℚ
  epsilon : ℚ
  statistics_group_size : Int
  stats_aggregation : String

/-- What `construct_layer_legacy` passes to the constructor of
`batch_normalization_layer`; the group size is an `int`. -/
structure batch_normalization_layer where
  decay : ℚ
  epsilon : ℚ
  statistics_group_size : Int
  deriving DecidableEq

/-- Source function `construct_layer_legacy`, for a layer message whose
`layer_type` is `batch_normalization`: the branches before
`if (proto_layer.has_batch_normalization())` test other members of that oneof
and are not taken.  `procs_per_node` is `comm->get_procs_per_node()`.  The
local variable `statistics_group_size` is an `int`: the value of the field and
the number of processes per node are converted to `int` when they are stored
in it.  The result is the layer with the warnings issued on the way, or the
message of the error raised by `LBANN_ERROR`. -/
def construct_layer_legacy (Layout : data_layout) (procs_per_node : Int)
    (params : BatchNormalization) : Except String (List String × batch_normalization_layer) :=
  if Layout = .DATA_PARALLEL then
    let statistics_group_size := to_int params.statistics_group_size
    let statistics_group_size :=
      if statistics_group_size < 0 then 0
      else if statistics_group_size = 0 then 1
      else statistics_group_size
    let aggr_str := params.stats_aggregation
    let aggregation : Except String (List String × Int) :=
      if aggr_str ≠ "" then
        let warnings := ["stats_aggregation field for BatchNormalization is deprecated"]
        if aggr_str = "local" then .ok (warnings, 1)
        else if aggr_str = "node_local" then .ok (warnings, to_int procs_per_node)
        else if aggr_str = "global" then .ok (warnings, 0)
        else .error ("Invalid batch normalization stats aggregation " ++ aggr_str)
      else .ok ([], statistics_group_size)
    match aggregation with
    | .error message => .error message
    | .ok (warnings, statistics_group_size) =>
      let decay := if params.decay = 0 then 9 / 10 else params.decay
      let epsilon := if params.epsilon = 0 then 1 / 100000 else params.epsilon
      .ok (warnings,
        { decay := decay, epsilon := epsilon, statistics_group_size := statistics_group_size })
  else .error "batch normalization layer is only supported with a data-parallel layout"

end lbann

namespace lbann

/-! ## Basic facts about the primitive operations -/

section basics

variable (w : World)

@[simp] theorem ok_bind {α β : Type} (a : α) (f : α → Run β) :
    ((Except.ok a : Run α) >>= f) = f a := rfl

@[simp] theorem error_bind {α β : Type} (e : Abort × World) (f : α → Run β) :
    ((Except.error e : Run α) >>= f) = Except.error e := rfl

@[simp] theorem pure_eq_ok {α : Type} (a : α) : (pure a : Run α) = Except.ok a := rfl

@[simp] theorem throw_eq_error {α : Type} (e : Abort × World) :
    (throw e : Run α) = Except.error e := rfl

theorem context_caller : w.context .caller = w.caller_context := rfl

theorem context_validation : w.context .validation = w.m_validation_context := rfl

theorem foldl_push_back {α : Type} (acc l : List α) :
    l.foldl (fun callback_list ptr => callback_list ++ [ptr]) acc = acc ++ l := by
  induction l generalizing acc with
  | nil => simp
  | cons a l ih => simp [ih]

@[simp] theorem get_callbacks_eq : w.get_callbacks = w.m_callbacks := by
  simp [World.get_callbacks, foldl_push_back]

theorem never_stops_tail {cb : callback} {cbs : List callback} (h : never_stops (cb :: cbs)) :
    never_stops cbs :=
  fun c hc => h c (List.mem_cons_of_mem _ hc)

theorem invoke_of_never_stops {cb : callback} (i : Nat) (h : Hook)
    (hcb : ∀ (h : Hook) (t : List Event) (c : Option SGDExecutionContext),
      cb.requests_stop h t c = false) :
    w.invoke i cb h = w.log (.callback i h) := by
  simp [World.invoke, hcb]


@[simp] theorem log_context (e : Event) (r : ContextRef) : (w.log e).context r = w.context r := by
  cases r <;> rfl

@[simp] theorem log_dc (e : Event) : (w.log e).dc = w.dc := rfl

@[simp] theorem log_callbacks (e : Event) : (w.log e).m_callbacks = w.m_callbacks := rfl

@[simp] theorem log_execution_context (e : Event) :
    (w.log e).m_execution_context = w.m_execution_context := rfl

@[simp] theorem log_validation_epochs (e : Event) :
    (w.log e).m_validation_epochs = w.m_validation_epochs := rfl

@[simp] theorem log_trace (e : Event) : (w.log e).trace = w.trace ++ [e] := rfl

@[simp] theorem set_context_context (r r' : ContextRef) (c : SGDExecutionContext) :
    (w.set_context r c).context r' = if r' = r then c else w.context r' := by
  cases r <;> cases r' <;> rfl

@[simp] theorem set_context_dc (r : ContextRef) (c : SGDExecutionContext) :
    (w.set_context r c).dc = w.dc := by cases r <;> rfl

@[simp] theorem set_context_callbacks (r : ContextRef) (c : SGDExecutionContext) :
    (w.set_context r c).m_callbacks = w.m_callbacks := by cases r <;> rfl

@[simp] theorem set_context_execution_context (r : ContextRef) (c : SGDExecutionContext) :
    (w.set_context r c).m_execution_context = w.m_execution_context := by cases r <;> rfl

@[simp] theorem set_context_validation_epochs (r : ContextRef) (c : SGDExecutionContext) :
    (w.set_context r c).m_validation_epochs = w.m_validation_epochs := by cases r <;> rfl

@[simp] theorem set_context_trace (r : ContextRef) (c : SGDExecutionContext) :
    (w.set_context r c).trace = w.trace := by cases r <;> rfl

@[simp] theorem model_reset_mode_context (r r' : ContextRef) (m : execution_mode) :
    (w.model_reset_mode r m).context r' = w.context r' := by cases r' <;> rfl

@[simp] theorem model_reset_mode_dc (r : ContextRef) (m : execution_mode) :
    (w.model_reset_mode r m).dc = w.dc := rfl

@[simp] theorem model_reset_mode_callbacks (r : ContextRef) (m : execution_mode) :
    (w.model_reset_mode r m).m_callbacks = w.m_callbacks := rfl

@[simp] theorem model_reset_mode_execution_context (r : ContextRef) (m : execution_mode) :
    (w.model_reset_mode r m).m_execution_context = some r := rfl

@[simp] theorem model_reset_mode_validation_epochs (r : ContextRef) (m : execution_mode) :
    (w.model_reset_mode r m).m_validation_epochs = w.m_validation_epochs := rfl

@[simp] theorem model_reset_mode_trace (r : ContextRef) (m : execution_mode) :
    (w.model_reset_mode r m).trace = w.trace ++ [.model_reset_mode r m] := rfl

@[simp] theorem dc_reset_mode_context (r r' : ContextRef) :
    (w.dc_reset_mode r).context r' = w.context r' := by cases r' <;> rfl

@[simp] theorem dc_reset_mode_valid (r : ContextRef) :
    (w.dc_reset_mode r).dc.valid = w.dc.valid := rfl

@[simp] theorem dc_reset_mode_complete (r : ContextRef) :
    (w.dc_reset_mode r).dc.complete = w.dc.complete := rfl

@[simp] theorem dc_reset_mode_fetched (r : ContextRef) :
    (w.dc_reset_mode r).dc.fetched = w.dc.fetched := rfl

@[simp] theorem dc_reset_mode_mini_batch_size (r : ContextRef) :
    (w.dc_reset_mode r).dc.mini_batch_size = w.dc.mini_batch_size := rfl

@[simp] theorem dc_reset_mode_callbacks (r : ContextRef) :
    (w.dc_reset_mode r).m_callbacks = w.m_callbacks := rfl

@[simp] theorem dc_reset_mode_execution_context (r : ContextRef) :
    (w.dc_reset_mode r).m_execution_context = w.m_execution_context := rfl

@[simp] theorem dc_reset_mode_validation_epochs (r : ContextRef) :
    (w.dc_reset_mode r).m_validation_epochs = w.m_validation_epochs := rfl

@[simp] theorem dc_reset_mode_trace (r : ContextRef) :
    (w.dc_reset_mode r).trace = w.trace ++ [.dc_reset_mode r] := rfl

@[simp] theorem dc_fetch_data_context (m : execution_mode) (r : ContextRef) :
    (w.dc_fetch_data m).context r = w.context r := by cases r <;> rfl

@[simp] theorem dc_fetch_data_valid (m : execution_mode) :
    (w.dc_fetch_data m).dc.valid = w.dc.valid := rfl

@[simp] theorem dc_fetch_data_complete (m : execution_mode) :
    (w.dc_fetch_data m).dc.complete = w.dc.complete := rfl

@[simp] theorem dc_fetch_data_mini_batch_size (m : execution_mode) :
    (w.dc_fetch_data m).dc.mini_batch_size = w.dc.mini_batch_size := rfl

@[simp] theorem dc_fetch_data_fetched (m m' : execution_mode) :
    (w.dc_fetch_data m).dc.fetched m' = if m' = m then w.dc.fetched m' + 1 else w.dc.fetched m' :=
  rfl

@[simp] theorem dc_fetch_data_callbacks (m : execution_mode) :
    (w.dc_fetch_data m).m_callbacks = w.m_callbacks := rfl

@[simp] theorem dc_fetch_data_execution_context (m : execution_mode) :
    (w.dc_fetch_data m).m_execution_context = w.m_execution_context := rfl

@[simp] theorem dc_fetch_data_validation_epochs (m : execution_mode) :
    (w.dc_fetch_data m).m_validation_epochs = w.m_validation_epochs := rfl

@[simp] theorem dc_fetch_data_trace (m : execution_mode) :
    (w.dc_fetch_data m).trace = w.trace ++ [.dc_fetch_data m] := rfl

end basics


/-! ## Effect of callback invocations -/

section callbacks

theorem invoke_cases (w : World) (i : Nat) (cb : callback) (h : Hook) :
    w.invoke i cb h = w.log (.callback i h) ∨
    ∃ r, w.m_execution_context = some r ∧
      w.invoke i cb h = (w.log (.callback i h)).set_early_stop r true := by
  unfold World.invoke
  cases hs : cb.requests_stop h w.trace (w.m_execution_context.map w.context) with
  | false => left; simp
  | true =>
    cases hc : w.m_execution_context with
    | none => left; simp [hc]
    | some r => right; exact ⟨r, rfl, by simp [hc]⟩

/-- An invocation changes nothing of a context but, possibly, its early-stop flag. -/
theorem invoke_context (w : World) (i : Nat) (cb : callback) (h : Hook) (r : ContextRef) :
    (w.invoke i cb h).context r =
      { w.context r with early_stop := ((w.invoke i cb h).context r).early_stop } := by
  rcases invoke_cases w i cb h with e | ⟨r', _, e⟩
  · rw [e]; simp
  · rw [e]; simp only [World.set_early_stop, log_context, set_context_context]
    split
    · next hr => subst hr; rfl
    · rfl

theorem invoke_early_stop_mono (w : World) (i : Nat) (cb : callback) (h : Hook) (r : ContextRef)
    (hs : (w.context r).early_stop = true) : ((w.invoke i cb h).context r).early_stop = true := by
  rcases invoke_cases w i cb h with e | ⟨r', _, e⟩
  · rw [e]; simpa using hs
  · rw [e]; simp only [World.set_early_stop, log_context, set_context_context]
    split <;> simp [hs]

theorem invoke_other_context (w : World) (i : Nat) (cb : callback) (h : Hook) (r r' : ContextRef)
    (hc : w.m_execution_context = some r') (hne : r ≠ r') :
    (w.invoke i cb h).context r = w.context r := by
  rcases invoke_cases w i cb h with e | ⟨r'', hr, e⟩
  · rw [e]; simp
  · rw [e]
    have : r'' = r' := by rw [hc] at hr; exact (Option.some.inj hr).symm
    subst this
    simp [World.set_early_stop, hne]

@[simp] theorem invoke_dc (w : World) (i : Nat) (cb : callback) (h : Hook) :
    (w.invoke i cb h).dc = w.dc := by
  rcases invoke_cases w i cb h with e | ⟨r, _, e⟩ <;> rw [e] <;> simp [World.set_early_stop]

@[simp] theorem invoke_callbacks (w : World) (i : Nat) (cb : callback) (h : Hook) :
    (w.invoke i cb h).m_callbacks = w.m_callbacks := by
  rcases invoke_cases w i cb h with e | ⟨r, _, e⟩ <;> rw [e] <;> simp [World.set_early_stop]

@[simp] theorem invoke_execution_context (w : World) (i : Nat) (cb : callback) (h : Hook) :
    (w.invoke i cb h).m_execution_context = w.m_execution_context := by
  rcases invoke_cases w i cb h with e | ⟨r, _, e⟩ <;> rw [e] <;> simp [World.set_early_stop]

@[simp] theorem invoke_validation_epochs (w : World) (i : Nat) (cb : callback) (h : Hook) :
    (w.invoke i cb h).m_validation_epochs = w.m_validation_epochs := by
  rcases invoke_cases w i cb h with e | ⟨r, _, e⟩ <;> rw [e] <;> simp [World.set_early_stop]

/-- The events an invocation appends: the call of the hook, then possibly the
early-stop request. -/
theorem invoke_trace (w : World) (i : Nat) (cb : callback) (h : Hook) :
    ∃ evs, (w.invoke i cb h).trace = w.trace ++ .callback i h :: evs ∧
      ∀ e ∈ evs, ∃ r, e = .set_early_stop r true := by
  rcases invoke_cases w i cb h with e | ⟨r, _, e⟩
  · exact ⟨[], by rw [e]; simp, by simp⟩
  · exact ⟨[.set_early_stop r true], by rw [e]; simp [World.set_early_stop], by simp⟩

@[simp] theorem invoke_where_dc (g : callback → Bool) (h : Hook) (i : Nat) (cbs : List callback)
    (w : World) : (invoke_where g h i cbs w).dc = w.dc := by
  induction cbs generalizing i w with
  | nil => rfl
  | cons cb rest ih => simp only [invoke_where, ih]; split <;> simp

@[simp] theorem invoke_where_callbacks (g : callback → Bool) (h : Hook) (i : Nat)
    (cbs : List callback) (w : World) :
    (invoke_where g h i cbs w).m_callbacks = w.m_callbacks := by
  induction cbs generalizing i w with
  | nil => rfl
  | cons cb rest ih => simp only [invoke_where, ih]; split <;> simp

@[simp] theorem invoke_where_execution_context (g : callback → Bool) (h : Hook) (i : Nat)
    (cbs : List callback) (w : World) :
    (invoke_where g h i cbs w).m_execution_context = w.m_execution_context := by
  induction cbs generalizing i w with
  | nil => rfl
  | cons cb rest ih => simp only [invoke_where, ih]; split <;> simp

@[simp] theorem invoke_where_validation_epochs (g : callback → Bool) (h : Hook) (i : Nat)
    (cbs : List callback) (w : World) :
    (invoke_where g h i cbs w).m_validation_epochs = w.m_validation_epochs := by
  induction cbs generalizing i w with
  | nil => rfl
  | cons cb rest ih => simp only [invoke_where, ih]; split <;> simp

/-- A dispatch changes nothing of a context but, possibly, its early-stop flag. -/
theorem invoke_where_context (g : callback → Bool) (h : Hook) (i : Nat) (cbs : List callback)
    (w : World) (r : ContextRef) :
    (invoke_where g h i cbs w).context r =
      { w.context r with early_stop := ((invoke_where g h i cbs w).context r).early_stop } := by
  induction cbs generalizing i w with
  | nil => rfl
  | cons cb rest ih =>
    simp only [invoke_where]
    rw [ih]
    split
    · rw [invoke_context]
    · rfl

@[simp] theorem invoke_where_step (g : callback → Bool) (h : Hook) (i : Nat) (cbs : List callback)
    (w : World) (r : ContextRef) :
    ((invoke_where g h i cbs w).context r).step = (w.context r).step := by
  rw [invoke_where_context]

@[simp] theorem invoke_where_epoch (g : callback → Bool) (h : Hook) (i : Nat) (cbs : List callback)
    (w : World) (r : ContextRef) :
    ((invoke_where g h i cbs w).context r).epoch = (w.context r).epoch := by
  rw [invoke_where_context]

@[simp] theorem invoke_where_mode (g : callback → Bool) (h : Hook) (i : Nat) (cbs : List callback)
    (w : World) (r : ContextRef) :
    ((invoke_where g h i cbs w).context r).mode = (w.context r).mode := by
  rw [invoke_where_context]

@[simp] theorem invoke_where_current_mini_batch_size (g : callback → Bool) (h : Hook) (i : Nat)
    (cbs : List callback) (w : World) (r : ContextRef) :
    ((invoke_where g h i cbs w).context r).current_mini_batch_size =
      (w.context r).current_mini_batch_size := by
  rw [invoke_where_context]

@[simp] theorem invoke_where_effective_mini_batch_size (g : callback → Bool) (h : Hook) (i : Nat)
    (cbs : List callback) (w : World) (r : ContextRef) :
    ((invoke_where g h i cbs w).context r).effective_mini_batch_size =
      (w.context r).effective_mini_batch_size := by
  rw [invoke_where_context]

@[simp] theorem invoke_where_elapsed (g : callback → Bool) (h : Hook) (i : Nat)
    (cbs : List callback) (w : World) (r : ContextRef) :
    ((invoke_where g h i cbs w).context r).elapsed = (w.context r).elapsed := by
  rw [invoke_where_context]

theorem invoke_where_early_stop_mono (g : callback → Bool) (h : Hook) (i : Nat)
    (cbs : List callback) (w : World) (r : ContextRef)
    (hs : (w.context r).early_stop = true) :
    ((invoke_where g h i cbs w).context r).early_stop = true := by
  induction cbs generalizing i w with
  | nil => exact hs
  | cons cb rest ih =>
    simp only [invoke_where]
    apply ih
    split
    · exact invoke_early_stop_mono w i cb h r hs
    · exact hs

/-- A dispatch leaves the context that is not the model's current one untouched. -/
theorem invoke_where_other_context (g : callback → Bool) (h : Hook) (i : Nat)
    (cbs : List callback) (w : World) (r r' : ContextRef)
    (hc : w.m_execution_context = some r') (hne : r ≠ r') :
    (invoke_where g h i cbs w).context r = w.context r := by
  induction cbs generalizing i w with
  | nil => rfl
  | cons cb rest ih =>
    simp only [invoke_where]
    split
    · rw [ih _ _ (by simpa using hc), invoke_other_context w i cb h r r' hc hne]
    · exact ih _ _ hc

/-- With callbacks that never ask for a stop, a dispatch leaves every context
untouched. -/
theorem invoke_where_never_stops (g : callback → Bool) (h : Hook) (i : Nat)
    (cbs : List callback) (w : World) (r : ContextRef) (hn : never_stops cbs) :
    (invoke_where g h i cbs w).context r = w.context r := by
  induction cbs generalizing i w with
  | nil => rfl
  | cons cb rest ih =>
    simp only [invoke_where]
    rw [ih _ _ (never_stops_tail hn)]
    split
    · rw [invoke_of_never_stops w i h (hn cb (List.mem_cons_self _ _))]; simp
    · rfl

/-- The events a dispatch appends are all callback activity. -/
theorem invoke_where_trace (g : callback → Bool) (h : Hook) (i : Nat) (cbs : List callback)
    (w : World) :
    ∃ evs, (invoke_where g h i cbs w).trace = w.trace ++ evs ∧
      ∀ e ∈ evs, e.is_callback_activity = true := by
  induction cbs generalizing i w with
  | nil => exact ⟨[], by simp [invoke_where], by simp⟩
  | cons cb rest ih =>
    simp only [invoke_where]
    split
    · obtain ⟨e1, h1, a1⟩ := invoke_trace w i cb h
      obtain ⟨e2, h2, a2⟩ := ih (i + 1) (w.invoke i cb h)
      refine ⟨.callback i h :: e1 ++ e2, by rw [h2, h1]; simp, ?_⟩
      intro e he
      simp only [List.cons_append, List.mem_cons, List.mem_append] at he
      rcases he with rfl | he | he
      · rfl
      · obtain ⟨r, rfl⟩ := a1 e he; rfl
      · exact a2 e he
    · exact ih (i + 1) w

/-- A dispatch does not change how often an event that is no callback activity
occurs in the trace. -/
theorem invoke_where_count (g : callback → Bool) (h : Hook) (i : Nat) (cbs : List callback)
    (w : World) (e : Event) (he : e.is_callback_activity = false) :
    (invoke_where g h i cbs w).trace.count e = w.trace.count e := by
  obtain ⟨evs, ht, ha⟩ := invoke_where_trace g h i cbs w
  rw [ht, List.count_append]
  have : evs.count e = 0 := by
    rw [List.count_eq_zero]
    intro hm
    rw [ha e hm] at he
    exact Bool.noConfusion he
  omega

end callbacks

/-! ## The dispatch functions as total functions -/

section dispatch

theorem for_each_callback_eq (body : Nat → callback → World → Run World) (g : callback → Bool)
    (h : Hook) (I : World → Prop) (hI : ∀ v i cb, I v → I (v.invoke i cb h))
    (hb : ∀ i cb v, I v → body i cb v = .ok (if g cb then v.invoke i cb h else v))
    (i : Nat) (cbs : List callback) (w : World) (hw : I w) :
    for_each_callback body i cbs w = .ok (invoke_where g h i cbs w) := by
  induction cbs generalizing i w with
  | nil => rfl
  | cons cb rest ih =>
    simp only [for_each_callback, invoke_where, hb i cb w hw, ok_bind]
    apply ih
    split
    · exact hI _ _ _ hw
    · exact hw

theorem dispatch_eq (h : Hook) (w : World) :
    dispatch h w = .ok (invoke_where (fun _ => true) h 0 w.m_callbacks w) := by
  simp only [dispatch, get_callbacks_eq]
  exact for_each_callback_eq _ _ h (fun _ => True) (fun _ _ _ _ => trivial)
    (fun _ _ _ _ => by simp) 0 _ w trivial

theorem do_batch_begin_cbs_training (w : World) (r : ContextRef)
    (hc : w.m_execution_context = some r) :
    do_batch_begin_cbs .training w =
      .ok (invoke_where (interval_gate (w.context r).step) .on_batch_begin 0 w.m_callbacks
        (w.log (.timer_scope .batch_begin_callbacks))) := by
  simp only [do_batch_begin_cbs, log_execution_context, hc, get_callbacks_eq, log_callbacks]
  refine for_each_callback_eq _ _ _ (fun v => (v.context r).step = (w.context r).step) ?_ ?_
    0 _ _ (by simp)
  · intro v i cb hv
    rw [invoke_context]; exact hv
  · intro i cb v hv
    simp only [batch_begin_body, hv, interval_gate, pure_eq_ok, decide_eq_true_eq]
    split <;> rfl

theorem do_batch_end_cbs_training (w : World) (r : ContextRef)
    (hc : w.m_execution_context = some r) :
    do_batch_end_cbs .training w =
      .ok (invoke_where (interval_gate (w.context r).step) .on_batch_end 0 w.m_callbacks
        (w.log (.timer_scope .batch_end_callbacks))) := by
  simp only [do_batch_end_cbs, log_execution_context, hc, get_callbacks_eq, log_callbacks]
  refine for_each_callback_eq _ _ _ (fun v => (v.context r).step = (w.context r).step) ?_ ?_
    0 _ _ (by simp)
  · intro v i cb hv
    rw [invoke_context]; exact hv
  · intro i cb v hv
    simp only [batch_end_body, hv, interval_gate, pure_eq_ok, decide_eq_true_eq]
    split <;> rfl

theorem do_batch_begin_cbs_evaluate (w : World) (r : ContextRef) (mode : execution_mode)
    (hm : is_evaluation_mode mode = true) (hc : w.m_execution_context = some r) :
    do_batch_begin_cbs mode w =
      .ok (invoke_where (fun _ => true) .on_batch_evaluate_begin 0 w.m_callbacks
        (w.log (.timer_scope .batch_begin_callbacks))) := by
  simp only [do_batch_begin_cbs, log_execution_context, hc, get_callbacks_eq, log_callbacks]
  refine for_each_callback_eq _ _ _ (fun _ => True) (fun _ _ _ _ => trivial) ?_ 0 _ _ trivial
  intro i cb v _
  cases mode <;> simp [is_evaluation_mode] at hm <;> simp [batch_begin_body]

theorem do_batch_end_cbs_evaluate (w : World) (r : ContextRef) (mode : execution_mode)
    (hm : is_evaluation_mode mode = true) (hc : w.m_execution_context = some r) :
    do_batch_end_cbs mode w =
      .ok (invoke_where (fun _ => true) .on_batch_evaluate_end 0 w.m_callbacks
        (w.log (.timer_scope .batch_end_callbacks))) := by
  simp only [do_batch_end_cbs, log_execution_context, hc, get_callbacks_eq, log_callbacks]
  refine for_each_callback_eq _ _ _ (fun _ => True) (fun _ _ _ _ => trivial) ?_ 0 _ _ trivial
  intro i cb v _
  cases mode <;> simp [is_evaluation_mode] at hm <;> simp [batch_end_body]

theorem do_evaluate_begin_cbs_eq (w : World) (mode : execution_mode)
    (hm : is_evaluation_mode mode = true) :
    do_evaluate_begin_cbs mode w =
      .ok (invoke_where (fun _ => true) (evaluate_begin_hook mode) 0 w.m_callbacks
        (w.log (.timer_scope .eval_begin_callbacks))) := by
  simp only [do_evaluate_begin_cbs, get_callbacks_eq, log_callbacks]
  refine for_each_callback_eq _ _ _ (fun _ => True) (fun _ _ _ _ => trivial) ?_ 0 _ _ trivial
  intro i cb v _
  cases mode <;> simp [is_evaluation_mode] at hm <;>
    simp [evaluate_begin_body, evaluate_begin_hook]

theorem do_evaluate_end_cbs_eq (w : World) (mode : execution_mode)
    (hm : is_evaluation_mode mode = true) :
    do_evaluate_end_cbs mode w =
      .ok (invoke_where (fun _ => true) (evaluate_end_hook mode) 0 w.m_callbacks
        (w.log (.timer_scope .eval_end_callbacks))) := by
  simp only [do_evaluate_end_cbs, get_callbacks_eq, log_callbacks]
  refine for_each_callback_eq _ _ _ (fun _ => True) (fun _ _ _ _ => trivial) ?_ 0 _ _ trivial
  intro i cb v _
  cases mode <;> simp [is_evaluation_mode] at hm <;>
    simp [evaluate_end_body, evaluate_end_hook]

@[simp] theorem train_mini_batch_core_callbacks (r : ContextRef) (w : World) :
    (train_mini_batch_core r w).m_callbacks = w.m_callbacks := by
  simp [train_mini_batch_core, World.inc_step, World.dc_epoch_complete]

@[simp] theorem train_mini_batch_core_execution_context (r : ContextRef) (w : World) :
    (train_mini_batch_core r w).m_execution_context = w.m_execution_context := by
  simp [train_mini_batch_core, World.inc_step, World.dc_epoch_complete]

@[simp] theorem train_mini_batch_core_step (r : ContextRef) (w : World) :
    ((train_mini_batch_core r w).context r).step = (w.context r).step + 1 := by
  simp [train_mini_batch_core, World.inc_step, World.dc_epoch_complete]

@[simp] theorem evaluate_mini_batch_core_callbacks (r : ContextRef) (m : execution_mode)
    (w : World) : (evaluate_mini_batch_core r m w).m_callbacks = w.m_callbacks := by
  simp [evaluate_mini_batch_core, World.inc_step, World.dc_epoch_complete]

@[simp] theorem evaluate_mini_batch_core_execution_context (r : ContextRef) (m : execution_mode)
    (w : World) :
    (evaluate_mini_batch_core r m w).m_execution_context = w.m_execution_context := by
  simp [evaluate_mini_batch_core, World.inc_step, World.dc_epoch_complete]

/-- The function `train_mini_batch` always returns; it returns the answer that
the data coordinator gives after this mini-batch's fetch. -/
theorem train_mini_batch_eq (r : ContextRef) (w : World) :
    train_mini_batch r w =
      .ok (w.dc.complete .training (w.dc.fetched .training + 1), after_train_mini_batch r w) := by
  simp only [train_mini_batch]
  rw [do_batch_begin_cbs_training _ r (by simp)]
  simp only [ok_bind]
  rw [do_batch_end_cbs_training _ r (by simp)]
  simp [after_train_mini_batch, World.epoch_complete]

/-- The function `evaluate_mini_batch` always returns for an evaluation mode. -/
theorem evaluate_mini_batch_eq (r : ContextRef) (mode : execution_mode) (w : World)
    (hm : is_evaluation_mode mode = true) :
    evaluate_mini_batch r mode w =
      .ok (w.dc.complete mode (w.dc.fetched mode + 1), after_evaluate_mini_batch r mode w) := by
  simp only [evaluate_mini_batch]
  rw [do_batch_begin_cbs_evaluate _ r mode hm (by simp)]
  simp only [ok_bind]
  rw [do_batch_end_cbs_evaluate _ r mode hm (by simp)]
  simp [after_evaluate_mini_batch, World.epoch_complete]

end dispatch

/-! ## One mini-batch -/

section mini_batch

theorem after_train_mini_batch_count (r : ContextRef) (w : World) (e : Event)
    (he : e.is_callback_activity = false) :
    (after_train_mini_batch r w).trace.count e =
      w.trace.count e + (train_mini_batch_calls r (w.dc.complete .training
        (w.dc.fetched .training + 1)) (w.context r).current_mini_batch_size).count e := by
  simp only [after_train_mini_batch, invoke_where_count _ _ _ _ _ e he, log_trace,
    train_mini_batch_core, World.inc_step, World.dc_epoch_complete, World.epoch_complete,
    set_context_trace, dc_fetch_data_trace, dc_reset_mode_trace, model_reset_mode_trace,
    List.count_append, log_context, dc_fetch_data_context, invoke_where_current_mini_batch_size,
    dc_reset_mode_context, model_reset_mode_context, log_dc, dc_fetch_data_complete,
    dc_fetch_data_fetched, invoke_where_dc, dc_reset_mode_complete, dc_reset_mode_fetched,
    model_reset_mode_dc, if_true, train_mini_batch_calls, List.count_cons, List.count_nil]
  omega

theorem after_evaluate_mini_batch_count (r : ContextRef) (mode : execution_mode) (w : World)
    (e : Event) (he : e.is_callback_activity = false) :
    (after_evaluate_mini_batch r mode w).trace.count e =
      w.trace.count e + (evaluate_mini_batch_calls r mode (w.dc.complete mode
        (w.dc.fetched mode + 1)) (w.context r).current_mini_batch_size).count e := by
  simp only [after_evaluate_mini_batch, invoke_where_count _ _ _ _ _ e he, log_trace,
    evaluate_mini_batch_core, World.inc_step, World.dc_epoch_complete, World.epoch_complete,
    set_context_trace, dc_fetch_data_trace, dc_reset_mode_trace, model_reset_mode_trace,
    List.count_append, log_context, dc_fetch_data_context, invoke_where_current_mini_batch_size,
    dc_reset_mode_context, model_reset_mode_context, log_dc, dc_fetch_data_complete,
    dc_fetch_data_fetched, invoke_where_dc, dc_reset_mode_complete, dc_reset_mode_fetched,
    model_reset_mode_dc, if_true, evaluate_mini_batch_calls, List.count_cons, List.count_nil]
  omega

end mini_batch

section frames

variable (r : ContextRef) (w : World)

@[simp] theorem after_train_mini_batch_callbacks :
    (after_train_mini_batch r w).m_callbacks = w.m_callbacks := by
  simp [after_train_mini_batch]

@[simp] theorem after_train_mini_batch_execution_context :
    (after_train_mini_batch r w).m_execution_context = some r := by
  simp [after_train_mini_batch]

@[simp] theorem after_train_mini_batch_validation_epochs :
    (after_train_mini_batch r w).m_validation_epochs = w.m_validation_epochs := by
  simp [after_train_mini_batch, train_mini_batch_core, World.inc_step, World.dc_epoch_complete]

@[simp] theorem after_train_mini_batch_valid :
    (after_train_mini_batch r w).dc.valid = w.dc.valid := by
  simp [after_train_mini_batch, train_mini_batch_core, World.inc_step, World.dc_epoch_complete]

@[simp] theorem after_train_mini_batch_complete :
    (after_train_mini_batch r w).dc.complete = w.dc.complete := by
  simp [after_train_mini_batch, train_mini_batch_core, World.inc_step, World.dc_epoch_complete]

@[simp] theorem after_train_mini_batch_mini_batch_size :
    (after_train_mini_batch r w).dc.mini_batch_size = w.dc.mini_batch_size := by
  simp [after_train_mini_batch, train_mini_batch_core, World.inc_step, World.dc_epoch_complete]

@[simp] theorem after_train_mini_batch_fetched (m : execution_mode) :
    (after_train_mini_batch r w).dc.fetched m =
      if m = .training then w.dc.fetched m + 1 else w.dc.fetched m := by
  simp [after_train_mini_batch, train_mini_batch_core, World.inc_step, World.dc_epoch_complete]

@[simp] theorem after_train_mini_batch_step :
    ((after_train_mini_batch r w).context r).step = (w.context r).step + 1 := by
  simp [after_train_mini_batch]

@[simp] theorem after_train_mini_batch_epoch (r' : ContextRef) :
    ((after_train_mini_batch r w).context r').epoch = (w.context r').epoch := by
  simp only [after_train_mini_batch, train_mini_batch_core, World.inc_step,
    World.dc_epoch_complete, invoke_where_epoch, log_context, set_context_context,
    dc_fetch_data_context, dc_reset_mode_context, model_reset_mode_context]
  split <;> simp_all

@[simp] theorem after_train_mini_batch_current_mini_batch_size (r' : ContextRef) :
    ((after_train_mini_batch r w).context r').current_mini_batch_size =
      (w.context r').current_mini_batch_size := by
  simp only [after_train_mini_batch, train_mini_batch_core, World.inc_step,
    World.dc_epoch_complete, invoke_where_current_mini_batch_size, log_context,
    set_context_context, dc_fetch_data_context, dc_reset_mode_context, model_reset_mode_context]
  split <;> simp_all

theorem after_train_mini_batch_other (r' : ContextRef) (hne : r' ≠ r) :
    (after_train_mini_batch r w).context r' = w.context r' := by
  simp only [after_train_mini_batch]
  rw [invoke_where_other_context _ _ _ _ _ r' r (by simp) hne]
  simp only [log_context, train_mini_batch_core, World.inc_step, World.dc_epoch_complete,
    set_context_context, if_neg hne, dc_fetch_data_context]
  rw [invoke_where_other_context _ _ _ _ _ r' r (by simp) hne]
  simp

theorem after_train_mini_batch_never_stops (hn : never_stops w.m_callbacks) (r' : ContextRef) :
    (after_train_mini_batch r w).context r' =
      if r' = r then { w.context r with step := (w.context r).step + 1 } else w.context r' := by
  simp only [after_train_mini_batch]
  rw [invoke_where_never_stops _ _ _ _ _ _ (by simpa using hn)]
  simp only [log_context, train_mini_batch_core, World.inc_step, World.dc_epoch_complete,
    set_context_context, dc_fetch_data_context]
  rw [invoke_where_never_stops _ _ _ _ _ _ (by simpa using hn)]
  rw [invoke_where_never_stops _ _ _ _ _ _ (by simpa using hn)]
  simp

theorem after_train_mini_batch_early_stop_mono (r' : ContextRef)
    (hs : (w.context r').early_stop = true) :
    ((after_train_mini_batch r w).context r').early_stop = true := by
  simp only [after_train_mini_batch]
  apply invoke_where_early_stop_mono
  simp only [log_context, train_mini_batch_core, World.inc_step, World.dc_epoch_complete,
    set_context_context, dc_fetch_data_context]
  have h1 := invoke_where_early_stop_mono
    (interval_gate (w.context r).step) .on_batch_begin 0
    (((w.model_reset_mode r .training).dc_reset_mode r).log
      (.timer_scope .batch_begin_callbacks)).m_callbacks
    (((w.model_reset_mode r .training).dc_reset_mode r).log
      (.timer_scope .batch_begin_callbacks)) r' (by simpa using hs)
  split
  · next hr => subst hr; exact h1
  · exact h1

@[simp] theorem after_evaluate_mini_batch_callbacks (m : execution_mode) :
    (after_evaluate_mini_batch r m w).m_callbacks = w.m_callbacks := by
  simp [after_evaluate_mini_batch]

@[simp] theorem after_evaluate_mini_batch_execution_context (m : execution_mode) :
    (after_evaluate_mini_batch r m w).m_execution_context = some r := by
  simp [after_evaluate_mini_batch]

@[simp] theorem after_evaluate_mini_batch_validation_epochs (m : execution_mode) :
    (after_evaluate_mini_batch r m w).m_validation_epochs = w.m_validation_epochs := by
  simp [after_evaluate_mini_batch, evaluate_mini_batch_core, World.inc_step,
    World.dc_epoch_complete]

@[simp] theorem after_evaluate_mini_batch_valid (m : execution_mode) :
    (after_evaluate_mini_batch r m w).dc.valid = w.dc.valid := by
  simp [after_evaluate_mini_batch, evaluate_mini_batch_core, World.inc_step,
    World.dc_epoch_complete]

@[simp] theorem after_evaluate_mini_batch_complete (m : execution_mode) :
    (after_evaluate_mini_batch r m w).dc.complete = w.dc.complete := by
  simp [after_evaluate_mini_batch, evaluate_mini_batch_core, World.inc_step,
    World.dc_epoch_complete]

@[simp] theorem after_evaluate_mini_batch_mini_batch_size (m : execution_mode) :
    (after_evaluate_mini_batch r m w).dc.mini_batch_size = w.dc.mini_batch_size := by
  simp [after_evaluate_mini_batch, evaluate_mini_batch_core, World.inc_step,
    World.dc_epoch_complete]

@[simp] theorem after_evaluate_mini_batch_fetched (m m' : execution_mode) :
    (after_evaluate_mini_batch r m w).dc.fetched m' =
      if m' = m then w.dc.fetched m' + 1 else w.dc.fetched m' := by
  simp [after_evaluate_mini_batch, evaluate_mini_batch_core, World.inc_step,
    World.dc_epoch_complete]

@[simp] theorem after_evaluate_mini_batch_step (m : execution_mode) :
    ((after_evaluate_mini_batch r m w).context r).step = (w.context r).step + 1 := by
  simp [after_evaluate_mini_batch, evaluate_mini_batch_core, World.inc_step,
    World.dc_epoch_complete]

@[simp] theorem after_evaluate_mini_batch_epoch (m : execution_mode) (r' : ContextRef) :
    ((after_evaluate_mini_batch r m w).context r').epoch = (w.context r').epoch := by
  simp only [after_evaluate_mini_batch, evaluate_mini_batch_core, World.inc_step,
    World.dc_epoch_complete, invoke_where_epoch, log_context, set_context_context,
    dc_fetch_data_context, dc_reset_mode_context, model_reset_mode_context]
  split <;> simp_all

theorem after_evaluate_mini_batch_other (m : execution_mode) (r' : ContextRef) (hne : r' ≠ r) :
    (after_evaluate_mini_batch r m w).context r' = w.context r' := by
  simp only [after_evaluate_mini_batch]
  rw [invoke_where_other_context _ _ _ _ _ r' r (by simp) hne]
  simp only [log_context, evaluate_mini_batch_core, World.inc_step, World.dc_epoch_complete,
    set_context_context, if_neg hne, dc_fetch_data_context]
  rw [invoke_where_other_context _ _ _ _ _ r' r (by simp) hne]
  simp

theorem after_evaluate_mini_batch_never_stops (m : execution_mode)
    (hn : never_stops w.m_callbacks) (r' : ContextRef) :
    (after_evaluate_mini_batch r m w).context r' =
      if r' = r then { w.context r with step := (w.context r).step + 1 } else w.context r' := by
  simp only [after_evaluate_mini_batch]
  rw [invoke_where_never_stops _ _ _ _ _ _ (by simpa using hn)]
  simp only [log_context, evaluate_mini_batch_core, World.inc_step, World.dc_epoch_complete,
    set_context_context, dc_fetch_data_context]
  rw [invoke_where_never_stops _ _ _ _ _ _ (by simpa using hn)]
  rw [invoke_where_never_stops _ _ _ _ _ _ (by simpa using hn)]
  simp

end frames

/-! ## Unfolding the loops -/

section loops

theorem initialize_epoch_eq (w : World) :
    initialize_epoch w = .ok (after_initialize_epoch w) := by
  simp only [initialize_epoch, do_epoch_begin_cbs, dispatch_eq]
  rfl

theorem finalize_epoch_eq (fuel : Nat) (w : World) :
    finalize_epoch fuel w = validation_pass fuel (after_epoch_end w) := by
  simp only [finalize_epoch, do_epoch_end_cbs, dispatch_eq, ok_bind]
  rfl

theorem train_loop_done (term : SGDTerminationCriteria) (fuel : Nat) (b : Bool) (w : World)
    (h : term.is_done (w.context .caller) = true) :
    train_loop term (fuel + 1) b w = .ok w := by
  simp [train_loop, h]

/-- One iteration of the loop of `train`. -/
theorem train_loop_step (term : SGDTerminationCriteria) (fuel : Nat) (b : Bool) (w : World)
    (h : term.is_done (w.context .caller) = false) :
    train_loop term (fuel + 1) b w =
      if (bif b then after_initialize_epoch w else w).dc.complete .training
          ((bif b then after_initialize_epoch w else w).dc.fetched .training + 1) = true then
        validation_pass fuel (after_epoch_end (after_train_mini_batch .caller
          ((bif b then after_initialize_epoch w else w).log (.timer_scope .train_minibatch))))
          >>= train_loop term fuel true
      else
        train_loop term fuel false (after_train_mini_batch .caller
          ((bif b then after_initialize_epoch w else w).log (.timer_scope .train_minibatch))) := by
  rw [train_loop]
  simp only [h, Bool.false_eq_true, if_false]
  cases b
  · simp only [if_false, Bool.false_eq_true, pure_eq_ok, ok_bind, train_mini_batch_eq, log_dc,
      cond_false, finalize_epoch_eq]
  · simp only [if_true, initialize_epoch_eq, ok_bind, train_mini_batch_eq, log_dc, cond_true,
      finalize_epoch_eq]

theorem evaluate_loop_done (r : ContextRef) (mode : execution_mode)
    (term : SGDTerminationCriteria) (fuel : Nat) (w : World)
    (h : term.is_done (w.context r) = true) :
    evaluate_loop r mode term (fuel + 1) w = .ok w := by
  simp [evaluate_loop, h]

/-- One iteration of the loop of `evaluate`. -/
theorem evaluate_loop_step (r : ContextRef) (mode : execution_mode)
    (term : SGDTerminationCriteria) (fuel : Nat) (w : World)
    (hm : is_evaluation_mode mode = true) (h : term.is_done (w.context r) = false) :
    evaluate_loop r mode term (fuel + 1) w =
      evaluate_loop r mode term fuel
        (if w.dc.complete mode (w.dc.fetched mode + 1) = true then
          (after_evaluate_mini_batch r mode (w.log (.timer_scope .eval_minibatch))).inc_epoch r
        else after_evaluate_mini_batch r mode (w.log (.timer_scope .eval_minibatch))) := by
  rw [evaluate_loop]
  simp only [h, Bool.false_eq_true, if_false, evaluate_mini_batch_eq _ _ _ hm, ok_bind, log_dc]

/-- World in which `evaluate` starts its loop. -/
theorem evaluate_eq (fuel : Nat) (r : ContextRef) (mode : execution_mode)
    (term : SGDTerminationCriteria) (w : World) (hm : is_evaluation_mode mode = true)
    (hv : w.dc.valid mode = true) :
    evaluate fuel r mode term w =
      evaluate_loop r mode term fuel
        (invoke_where (fun _ => true) (evaluate_begin_hook mode) 0 w.m_callbacks
          (((((w.log (.timer_scope (.evaluate mode))).log
            (.model_reset_epoch_statistics mode)).model_reset_mode r mode).dc_reset_mode r).log
            (.timer_scope .eval_begin_callbacks))) >>= fun w =>
      .ok (invoke_where (fun _ => true) (evaluate_end_hook mode) 0 w.m_callbacks
        (w.log (.timer_scope .eval_end_callbacks))) := by
  have hne : ¬ (mode ≠ .validation ∧ mode ≠ .tournament ∧ mode ≠ .testing) := by
    cases mode <;> simp [is_evaluation_mode] at hm ⊢
  simp only [evaluate, dc_reset_mode_valid, model_reset_mode_dc, log_dc, hv, Bool.true_eq_false,
    if_false, hne, do_evaluate_begin_cbs_eq _ _ hm, ok_bind, dc_reset_mode_callbacks,
    model_reset_mode_callbacks, log_callbacks]
  congr 1
  funext v
  rw [do_evaluate_end_cbs_eq _ _ hm]

end loops

section epoch_frames

variable (w : World)

theorem after_initialize_epoch_count (e : Event) (he : e.is_callback_activity = false) :
    (after_initialize_epoch w).trace.count e =
      w.trace.count e + [Event.model_reset_mode .caller .training,
        .model_reset_epoch_statistics .training, .dc_reset_mode .caller,
        .timer_scope .epoch_begin_callbacks].count e := by
  simp only [after_initialize_epoch, invoke_where_count _ _ _ _ _ e he, log_trace,
    dc_reset_mode_trace, model_reset_mode_trace, List.count_append, List.count_cons,
    List.count_nil]
  omega

theorem after_epoch_end_count (e : Event) (he : e.is_callback_activity = false) :
    (after_epoch_end w).trace.count e =
      w.trace.count e + [Event.inc_epoch .caller, .model_reconcile_weight_values,
        .timer_scope .epoch_end_callbacks].count e := by
  simp only [after_epoch_end, invoke_where_count _ _ _ _ _ e he, log_trace, World.inc_epoch,
    set_context_trace, List.count_append, List.count_cons, List.count_nil]
  omega

@[simp] theorem after_initialize_epoch_callbacks :
    (after_initialize_epoch w).m_callbacks = w.m_callbacks := by
  simp [after_initialize_epoch]

@[simp] theorem after_initialize_epoch_execution_context :
    (after_initialize_epoch w).m_execution_context = some .caller := by
  simp [after_initialize_epoch]

@[simp] theorem after_initialize_epoch_validation_epochs :
    (after_initialize_epoch w).m_validation_epochs = w.m_validation_epochs := by
  simp [after_initialize_epoch]

@[simp] theorem after_initialize_epoch_valid :
    (after_initialize_epoch w).dc.valid = w.dc.valid := by
  simp [after_initialize_epoch]

@[simp] theorem after_initialize_epoch_complete :
    (after_initialize_epoch w).dc.complete = w.dc.complete := by
  simp [after_initialize_epoch]

@[simp] theorem after_initialize_epoch_mini_batch_size :
    (after_initialize_epoch w).dc.mini_batch_size = w.dc.mini_batch_size := by
  simp [after_initialize_epoch]

@[simp] theorem after_initialize_epoch_fetched :
    (after_initialize_epoch w).dc.fetched = w.dc.fetched := by
  simp [after_initialize_epoch]

@[simp] theorem after_initialize_epoch_step (r : ContextRef) :
    ((after_initialize_epoch w).context r).step = (w.context r).step := by
  simp [after_initialize_epoch]

@[simp] theorem after_initialize_epoch_epoch (r : ContextRef) :
    ((after_initialize_epoch w).context r).epoch = (w.context r).epoch := by
  simp [after_initialize_epoch]

theorem after_initialize_epoch_never_stops (hn : never_stops w.m_callbacks) (r : ContextRef) :
    (after_initialize_epoch w).context r = w.context r := by
  simp only [after_initialize_epoch]
  rw [invoke_where_never_stops _ _ _ _ _ _ (by simpa using hn)]
  simp

theorem after_initialize_epoch_other (r : ContextRef) (hne : r ≠ .caller) :
    (after_initialize_epoch w).context r = w.context r := by
  simp only [after_initialize_epoch]
  rw [invoke_where_other_context _ _ _ _ _ r .caller (by simp) hne]
  simp

@[simp] theorem after_epoch_end_callbacks :
    (after_epoch_end w).m_callbacks = w.m_callbacks := by
  simp [after_epoch_end, World.inc_epoch]

@[simp] theorem after_epoch_end_execution_context :
    (after_epoch_end w).m_execution_context = w.m_execution_context := by
  simp [after_epoch_end, World.inc_epoch]

@[simp] theorem after_epoch_end_validation_epochs :
    (after_epoch_end w).m_validation_epochs = w.m_validation_epochs := by
  simp [after_epoch_end, World.inc_epoch]

@[simp] theorem after_epoch_end_dc : (after_epoch_end w).dc = w.dc := by
  simp [after_epoch_end, World.inc_epoch]

@[simp] theorem after_epoch_end_step (r : ContextRef) :
    ((after_epoch_end w).context r).step = (w.context r).step := by
  simp only [after_epoch_end, World.inc_epoch, invoke_where_step, log_context,
    set_context_context]
  split <;> simp_all

@[simp] theorem after_epoch_end_epoch (r : ContextRef) :
    ((after_epoch_end w).context r).epoch =
      if r = .caller then (w.context r).epoch + 1 else (w.context r).epoch := by
  simp only [after_epoch_end, World.inc_epoch, invoke_where_epoch, log_context,
    set_context_context]
  split <;> simp_all

theorem after_epoch_end_never_stops (hn : never_stops w.m_callbacks) (r : ContextRef) :
    (after_epoch_end w).context r =
      if r = .caller then { w.context .caller with epoch := (w.context .caller).epoch + 1 }
      else w.context r := by
  simp only [after_epoch_end]
  rw [invoke_where_never_stops _ _ _ _ _ _ (by simpa [World.inc_epoch] using hn)]
  simp [World.inc_epoch]

theorem after_epoch_end_other (r : ContextRef) (hne : r ≠ .caller)
    (hc : w.m_execution_context = some .caller) :
    (after_epoch_end w).context r = w.context r := by
  simp only [after_epoch_end]
  rw [invoke_where_other_context _ _ _ _ _ r .caller (by simpa [World.inc_epoch] using hc) hne]
  simp [World.inc_epoch, hne]

end epoch_frames

/-! ## An evaluation pass over one epoch -/

section evaluation_pass

theorem epoch_criterion_not_done (B : Nat) (c : SGDExecutionContext) (he : c.epoch < B)
    (hs : c.early_stop = false) :
    (SGDTerminationCriteria.EpochTerminationCriteria B).is_done c = false := by
  simp [SGDTerminationCriteria.is_done, SGDTerminationCriteria.criterion, hs, he]

theorem epoch_criterion_done (B : Nat) (c : SGDExecutionContext) (he : B ≤ c.epoch) :
    (SGDTerminationCriteria.EpochTerminationCriteria B).is_done c = true := by
  simp [SGDTerminationCriteria.is_done, SGDTerminationCriteria.criterion, he]

theorem evaluate_loop_periodic (r : ContextRef) (mode : execution_mode)
    (hm : is_evaluation_mode mode = true) (v B F : Nat) (d : Nat) :
    ∀ (i : Nat) (w : World) (fuel : Nat), v = i + (d + 1) →
      never_stops w.m_callbacks →
      (∀ n, w.dc.complete mode (F + (n + 1)) = decide ((n + 1) % v = 0)) →
      w.dc.fetched mode = F + i → (w.context r).epoch + 1 = B →
      (w.context r).early_stop = false → d + 2 ≤ fuel →
      ∃ w', evaluate_loop r mode (.EpochTerminationCriteria B) fuel w = .ok w' ∧
        EvaluatedEpoch r mode (d + 1) w w' := by
  induction d with
  | zero =>
    intro i w fuel hv hn hc hf he hs hfuel
    obtain ⟨fuel, rfl⟩ : ∃ f, fuel = f + 2 := ⟨fuel - 2, by omega⟩
    have hfin : w.dc.complete mode (w.dc.fetched mode + 1) = true := by
      rw [hf, Nat.add_assoc, hc]; simp [hv]
    rw [evaluate_loop_step r mode _ _ w hm (epoch_criterion_not_done B _ (by omega) hs)]
    simp only [hfin, if_true]
    refine ⟨_, evaluate_loop_done r mode _ _ _ (epoch_criterion_done B _ ?_), ?_⟩
    · simp [World.inc_epoch]; omega
    · constructor
      · simp [World.inc_epoch]
      · simp [World.inc_epoch]
      · simp [World.inc_epoch]
      · simp [World.inc_epoch]
      · intro m; simp [World.inc_epoch]
      · intro r'
        simp only [World.inc_epoch, log_context, set_context_context]
        rw [after_evaluate_mini_batch_never_stops _ _ _ (by simpa using hn)]
        by_cases hr : r' = r
        · simp [hr]
        · simp only [if_neg hr]
          rw [after_evaluate_mini_batch_never_stops _ _ _ (by simpa using hn)]
          simp [hr]
      · simp [World.inc_epoch]
      · simp [World.inc_epoch]
      · simp [training_steps, World.inc_epoch, after_evaluate_mini_batch_count,
          Event.is_callback_activity, evaluate_mini_batch_calls, List.count_cons]
      · simp [evaluation_steps, World.inc_epoch, after_evaluate_mini_batch_count,
          Event.is_callback_activity, evaluate_mini_batch_calls, List.count_cons]
      · simp [epoch_begin_rounds, World.inc_epoch, after_evaluate_mini_batch_count,
          Event.is_callback_activity, evaluate_mini_batch_calls, List.count_cons]
      · simp [epoch_end_rounds, World.inc_epoch, after_evaluate_mini_batch_count,
          Event.is_callback_activity, evaluate_mini_batch_calls, List.count_cons]
  | succ d ih =>
    intro i w fuel hv hn hc hf he hs hfuel
    obtain ⟨fuel, rfl⟩ : ∃ f, fuel = f + 1 := ⟨fuel - 1, by omega⟩
    have hfin : w.dc.complete mode (w.dc.fetched mode + 1) = false := by
      rw [hf, Nat.add_assoc, hc]
      have : (i + 1) % v = i + 1 := Nat.mod_eq_of_lt (by omega)
      simp [this]
    rw [evaluate_loop_step r mode _ _ w hm (epoch_criterion_not_done B _ (by omega) hs)]
    simp only [hfin, Bool.false_eq_true, if_false]
    have hctx := after_evaluate_mini_batch_never_stops r
      (w.log (.timer_scope .eval_minibatch)) mode (by simpa using hn)
    obtain ⟨w', hrun, hw'⟩ := ih (i + 1)
      (after_evaluate_mini_batch r mode (w.log (.timer_scope .eval_minibatch))) fuel
      (by omega) (by simpa using hn) (by simpa using hc) (by simp [hf]; omega)
      (by rw [hctx]; simpa using he) (by rw [hctx]; simpa using hs) (by omega)
    refine ⟨w', hrun, ?_⟩
    constructor
    · rw [hw'.callbacks]; simp
    · rw [hw'.valid]; simp
    · rw [hw'.complete]; simp
    · rw [hw'.mini_batch_size]; simp
    · intro m
      rw [hw'.fetched]
      by_cases hmm : m = mode
      · simp [hmm]; omega
      · simp [hmm]
    · intro r'
      rw [hw'.context, hctx]
      by_cases hr : r' = r
      · simp [hr]; omega
      · simp only [if_neg hr]; rw [hctx]; simp [hr]
    · rw [hw'.validation_epochs]; simp
    · exact hw'.execution_context
    · rw [hw'.training_steps]
      simp [training_steps, after_evaluate_mini_batch_count,
        Event.is_callback_activity, evaluate_mini_batch_calls, List.count_cons]
    · rw [hw'.evaluation_steps]
      simp [evaluation_steps, after_evaluate_mini_batch_count,
        Event.is_callback_activity, evaluate_mini_batch_calls, List.count_cons]
      omega
    · rw [hw'.epoch_begin_rounds]
      simp [epoch_begin_rounds, after_evaluate_mini_batch_count,
        Event.is_callback_activity, evaluate_mini_batch_calls, List.count_cons]
    · rw [hw'.epoch_end_rounds]
      simp [epoch_end_rounds, after_evaluate_mini_batch_count,
        Event.is_callback_activity, evaluate_mini_batch_calls, List.count_cons]

end evaluation_pass

section evaluate_whole

/-- With callbacks that never ask for a stop and a data coordinator that
completes an epoch of `mode` every `v` mini-batches, `evaluate` under an epoch
criterion one above the context's epoch runs exactly `v` mini-batches. -/
theorem evaluate_periodic (r : ContextRef) (mode : execution_mode)
    (hm : is_evaluation_mode mode = true) (v : Nat) (hv : 1 ≤ v) (w : World) (fuel : Nat)
    (hvalid : w.dc.valid mode = true) (hn : never_stops w.m_callbacks)
    (hc : ∀ n, w.dc.complete mode (w.dc.fetched mode + (n + 1)) = decide ((n + 1) % v = 0))
    (hs : (w.context r).early_stop = false) (hfuel : v + 1 ≤ fuel) :
    ∃ w', evaluate fuel r mode (.EpochTerminationCriteria ((w.context r).epoch + 1)) w = .ok w' ∧
      EvaluatedEpoch r mode v w w' := by
  rw [evaluate_eq fuel r mode _ w hm hvalid]
  obtain ⟨d, rfl⟩ : ∃ d, v = d + 1 := ⟨v - 1, by omega⟩
  generalize hwb : invoke_where (fun _ => true) (evaluate_begin_hook mode) 0 w.m_callbacks
      (((((w.log (.timer_scope (.evaluate mode))).log
        (.model_reset_epoch_statistics mode)).model_reset_mode r mode).dc_reset_mode r).log
        (.timer_scope .eval_begin_callbacks)) = wb
  have hctx : ∀ r', wb.context r' = w.context r' := by
    intro r'
    rw [← hwb, invoke_where_never_stops _ _ _ _ _ _ hn]; simp
  have hcb : wb.m_callbacks = w.m_callbacks := by rw [← hwb]; simp
  have hdv : wb.dc.valid = w.dc.valid := by rw [← hwb]; simp
  have hdc : wb.dc.complete = w.dc.complete := by rw [← hwb]; simp
  have hdm : wb.dc.mini_batch_size = w.dc.mini_batch_size := by rw [← hwb]; simp
  have hdf : wb.dc.fetched = w.dc.fetched := by rw [← hwb]; simp
  have hve : wb.m_validation_epochs = w.m_validation_epochs := by rw [← hwb]; simp
  have hcount : ∀ e : Event, e.is_callback_activity = false →
      wb.trace.count e = w.trace.count e + [Event.timer_scope (.evaluate mode),
        .model_reset_epoch_statistics mode, .model_reset_mode r mode, .dc_reset_mode r,
        .timer_scope .eval_begin_callbacks].count e := by
    intro e he
    rw [← hwb, invoke_where_count _ _ _ _ _ e he]
    simp only [log_trace, dc_reset_mode_trace, model_reset_mode_trace, List.count_append,
      List.count_cons, List.count_nil]
    omega
  obtain ⟨w1, hrun, hw1⟩ := evaluate_loop_periodic r mode hm (d + 1) ((w.context r).epoch + 1)
    (w.dc.fetched mode) d 0 wb fuel (by omega) (by rw [hcb]; exact hn)
    (by rw [hdc]; exact hc) (by rw [hdf]; rfl) (by rw [hctx]) (by rw [hctx]; exact hs)
    (by omega)
  rw [hrun]
  refine ⟨_, rfl, ?_⟩
  have hn1 : never_stops w1.m_callbacks := by rw [hw1.callbacks, hcb]; exact hn
  constructor
  · simp [hw1.callbacks, hcb]
  · simp [hw1.valid, hdv]
  · simp [hw1.complete, hdc]
  · simp [hw1.mini_batch_size, hdm]
  · intro m; simp [hw1.fetched, hdf]
  · intro r'
    rw [invoke_where_never_stops _ _ _ _ _ _ (by simpa using hn1)]
    simp only [log_context]
    rw [hw1.context, hctx, hctx]
  · simp [hw1.validation_epochs, hve]
  · simp [hw1.execution_context]
  · have h1 := hcount (.timer_scope .train_minibatch) rfl
    have h2 := hw1.training_steps
    simp only [training_steps] at h2 ⊢
    rw [invoke_where_count _ _ _ _ _ (.timer_scope .train_minibatch) rfl]
    simp [List.count_cons] at h1 ⊢
    omega
  · have h1 := hcount (.timer_scope .eval_minibatch) rfl
    have h2 := hw1.evaluation_steps
    simp only [evaluation_steps] at h2 ⊢
    rw [invoke_where_count _ _ _ _ _ (.timer_scope .eval_minibatch) rfl]
    simp [List.count_cons] at h1 ⊢
    omega
  · have h1 := hcount (.timer_scope .epoch_begin_callbacks) rfl
    have h2 := hw1.epoch_begin_rounds
    simp only [epoch_begin_rounds] at h2 ⊢
    rw [invoke_where_count _ _ _ _ _ (.timer_scope .epoch_begin_callbacks) rfl]
    simp [List.count_cons] at h1 ⊢
    omega
  · have h1 := hcount (.timer_scope .epoch_end_callbacks) rfl
    have h2 := hw1.epoch_end_rounds
    simp only [epoch_end_rounds] at h2 ⊢
    rw [invoke_where_count _ _ _ _ _ (.timer_scope .epoch_end_callbacks) rfl]
    simp [List.count_cons] at h1 ⊢
    omega

end evaluate_whole

/-! ## Progress of the loop of `train` -/

section progress

variable {w0 w : World} {v s e b j : Nat}

theorem progress_start (w0 : World) (v : Nat) : Progress w0 v 0 0 0 0 w0 := by
  constructor <;> simp

theorem progress_never_stops (hn : never_stops w0.m_callbacks) (h : Progress w0 v s e b j w) :
    never_stops w.m_callbacks := by
  rw [h.callbacks]; exact hn

theorem progress_initialize (hn : never_stops w0.m_callbacks) (h : Progress w0 v s e b j w) :
    Progress w0 v s e (b + 1) j (after_initialize_epoch w) := by
  have hn' := progress_never_stops hn h
  constructor
  · simp [h.callbacks]
  · simp [h.valid]
  · simp [h.complete]
  · simp [h.fetched_training]
  · simp [h.fetched_validation]
  · rw [after_initialize_epoch_never_stops _ hn', h.caller]
  · rw [after_initialize_epoch_never_stops _ hn', h.validation]
  · simp [h.validation_epochs]
  · have := h.training_steps
    simp only [training_steps] at this ⊢
    rw [after_initialize_epoch_count _ (.timer_scope .train_minibatch) rfl, this]; simp [List.count_cons]
  · have := h.evaluation_steps
    simp only [evaluation_steps] at this ⊢
    rw [after_initialize_epoch_count _ (.timer_scope .eval_minibatch) rfl, this]; simp [List.count_cons]
  · have := h.epoch_begin_rounds
    simp only [epoch_begin_rounds] at this ⊢
    rw [after_initialize_epoch_count _ (.timer_scope .epoch_begin_callbacks) rfl, this]; simp [List.count_cons]; omega
  · have := h.epoch_end_rounds
    simp only [epoch_end_rounds] at this ⊢
    rw [after_initialize_epoch_count _ (.timer_scope .epoch_end_callbacks) rfl, this]; simp [List.count_cons]

theorem progress_mini_batch (hn : never_stops w0.m_callbacks) (h : Progress w0 v s e b j w) :
    Progress w0 v (s + 1) e b j
      (after_train_mini_batch .caller (w.log (.timer_scope .train_minibatch))) := by
  have hn' : never_stops (w.log (.timer_scope .train_minibatch)).m_callbacks := by
    simpa using progress_never_stops hn h
  constructor
  · simp [h.callbacks]
  · simp [h.valid]
  · simp [h.complete]
  · simp [h.fetched_training]; omega
  · simp [h.fetched_validation]
  · rw [after_train_mini_batch_never_stops _ _ hn']
    simp only [if_true, log_context, h.caller]
    simp; omega
  · rw [after_train_mini_batch_never_stops _ _ hn']
    simp [h.validation]
  · simp [h.validation_epochs]
  · have := h.training_steps
    simp only [training_steps] at this ⊢
    rw [after_train_mini_batch_count _ _ (.timer_scope .train_minibatch) rfl]
    simp [List.count_cons, train_mini_batch_calls, this]; omega
  · have := h.evaluation_steps
    simp only [evaluation_steps] at this ⊢
    rw [after_train_mini_batch_count _ _ (.timer_scope .eval_minibatch) rfl]
    simp [List.count_cons, train_mini_batch_calls, this]
  · have := h.epoch_begin_rounds
    simp only [epoch_begin_rounds] at this ⊢
    rw [after_train_mini_batch_count _ _ (.timer_scope .epoch_begin_callbacks) rfl]
    simp [List.count_cons, train_mini_batch_calls, this]
  · have := h.epoch_end_rounds
    simp only [epoch_end_rounds] at this ⊢
    rw [after_train_mini_batch_count _ _ (.timer_scope .epoch_end_callbacks) rfl]
    simp [List.count_cons, train_mini_batch_calls, this]

theorem progress_epoch_end (hn : never_stops w0.m_callbacks) (h : Progress w0 v s e b j w) :
    Progress w0 v s (e + 1) b j (after_epoch_end w) := by
  have hn' := progress_never_stops hn h
  constructor
  · simp [h.callbacks]
  · simp [h.valid]
  · simp [h.complete]
  · simp [h.fetched_training]
  · simp [h.fetched_validation]
  · rw [after_epoch_end_never_stops _ hn']
    simp only [if_true, h.caller]
    simp; omega
  · rw [after_epoch_end_never_stops _ hn']
    simp [h.validation]
  · simp [h.validation_epochs]
  · have := h.training_steps
    simp only [training_steps] at this ⊢
    rw [after_epoch_end_count _ (.timer_scope .train_minibatch) rfl, this]; simp [List.count_cons]
  · have := h.evaluation_steps
    simp only [evaluation_steps] at this ⊢
    rw [after_epoch_end_count _ (.timer_scope .eval_minibatch) rfl, this]; simp [List.count_cons]
  · have := h.epoch_begin_rounds
    simp only [epoch_begin_rounds] at this ⊢
    rw [after_epoch_end_count _ (.timer_scope .epoch_begin_callbacks) rfl, this]; simp [List.count_cons]
  · have := h.epoch_end_rounds
    simp only [epoch_end_rounds] at this ⊢
    rw [after_epoch_end_count _ (.timer_scope .epoch_end_callbacks) rfl, this]; simp [List.count_cons]; omega

theorem validation_pass_invalid (fuel : Nat) (w : World) (h : w.dc.valid .validation = false) :
    validation_pass fuel w = .ok w := by
  simp [validation_pass, h]

theorem progress_validation (hn : never_stops w0.m_callbacks)
    (hes : (w0.context .caller).early_stop = false) (hr : ValidationReady v w0)
    (hvalid : w0.dc.valid .validation = true) (h : Progress w0 v s e b j w) (fuel : Nat)
    (hfuel : v + 1 ≤ fuel) :
    ∃ w', validation_pass fuel w = .ok w' ∧ Progress w0 v s e b (j + 1) w' := by
  have hn' := progress_never_stops hn h
  have hv : w.dc.valid .validation = true := by rw [h.valid]; exact hvalid
  have hb : w.m_validation_epochs = (w.context .validation).epoch + 1 := by
    rw [h.validation_epochs, h.validation, hr.bound]; simp; omega
  obtain ⟨w1, hrun, hw1⟩ := evaluate_periodic .validation .validation rfl v hr.positive w fuel hv
    hn' (by
      intro n
      rw [h.complete, h.fetched_validation,
        show w0.dc.fetched .validation + j * v + (n + 1) =
          w0.dc.fetched .validation + (j * v + n + 1) by omega, hr.periodic (j * v + n)]
      rw [Nat.add_assoc, Nat.mul_add_mod']) (by rw [h.validation]; exact hr.early_stop)
    hfuel
  simp only [validation_pass, hv, if_true, hb, hrun, ok_bind, pure_eq_ok]
  refine ⟨_, rfl, ?_⟩
  have hc1 := hw1.context .caller
  have hc2 := hw1.context .validation
  simp only [if_true] at hc2
  simp only [reduceCtorEq, if_false] at hc1
  constructor
  · simp [World.set_early_stop, hw1.callbacks, h.callbacks]
  · simp [World.set_early_stop, hw1.valid, h.valid]
  · simp [World.set_early_stop, hw1.complete, h.complete]
  · simp [World.set_early_stop, hw1.fetched, h.fetched_training]
  · simp [World.set_early_stop, hw1.fetched, h.fetched_validation]; ring
  · simp only [World.set_early_stop, log_context, set_context_context, if_true]
    have e1 : ({ w1 with m_validation_epochs := w1.m_validation_epochs + 1 } : World).context
        .caller = w1.context .caller := rfl
    have e2 : ({ w1 with m_validation_epochs := w1.m_validation_epochs + 1 } : World).context
        .validation = w1.context .validation := rfl
    rw [e1, e2, hc1, hc2, h.caller, h.validation]
    simp [hr.early_stop, hes]
  · simp only [World.set_early_stop, log_context, set_context_context, reduceCtorEq, if_false]
    have e2 : ({ w1 with m_validation_epochs := w1.m_validation_epochs + 1 } : World).context
        .validation = w1.context .validation := rfl
    rw [e2, hc2, h.validation]
    simp; constructor <;> ring
  · simp [World.set_early_stop, hw1.validation_epochs, h.validation_epochs]; omega
  · have := hw1.training_steps
    simp only [training_steps] at this
    have h2 := h.training_steps
    simp only [training_steps] at h2
    simp [training_steps, World.set_early_stop, List.count_cons, this, h2]
  · have := hw1.evaluation_steps
    simp only [evaluation_steps] at this
    have h2 := h.evaluation_steps
    simp only [evaluation_steps] at h2
    simp [evaluation_steps, World.set_early_stop, List.count_cons, this, h2]; ring
  · have := hw1.epoch_begin_rounds
    simp only [epoch_begin_rounds] at this
    have h2 := h.epoch_begin_rounds
    simp only [epoch_begin_rounds] at h2
    simp [epoch_begin_rounds, World.set_early_stop, List.count_cons, this, h2]
  · have := hw1.epoch_end_rounds
    simp only [epoch_end_rounds] at this
    have h2 := h.epoch_end_rounds
    simp only [epoch_end_rounds] at h2
    simp [epoch_end_rounds, World.set_early_stop, List.count_cons, this, h2]

end progress

section run

theorem begun_succ (C : Nat → Bool) (s : Nat) :
    begun C (s + 1) = begun C s + (if (decide (s = 0) || C s) = true then 1 else 0) := by
  cases s with
  | zero => simp [begun, completed]
  | succ s => simp [begun, completed]; omega

/-- The loop of `train`, run with callbacks that never ask for a stop from a
world `w0` whose early-stop flag is clear, under a criterion that holds for the
first time after `N` mini-batches: it returns after exactly `N` mini-batches. -/
theorem train_loop_run (term : SGDTerminationCriteria) (w0 : World) (v N : Nat)
    (hn : never_stops w0.m_callbacks) (hes : (w0.context .caller).early_stop = false)
    (hr : w0.dc.valid .validation = true → ValidationReady v w0)
    (hgo : ∀ s, s < N → term.is_done (context_after w0 s) = false)
    (hstop : term.is_done (context_after w0 N) = true) (d : Nat) :
    ∀ (s : Nat) (w : World) (fuel : Nat), N = s + d →
      Progress w0 v s (completed (upcoming w0) s) (begun (upcoming w0) s)
        (validation_passes w0 (completed (upcoming w0) s)) w →
      d + v + 2 ≤ fuel →
      ∃ w', train_loop term fuel (decide (s = 0) || upcoming w0 s) w = .ok w' ∧
        Progress w0 v N (completed (upcoming w0) N) (begun (upcoming w0) N)
          (validation_passes w0 (completed (upcoming w0) N)) w' := by
  induction d with
  | zero =>
    intro s w fuel hN h hfuel
    obtain ⟨fuel, rfl⟩ : ∃ f, fuel = f + 1 := ⟨fuel - 1, by omega⟩
    have : s = N := by omega
    subst this
    refine ⟨w, train_loop_done term fuel _ w ?_, h⟩
    rw [h.caller]; exact hstop
  | succ d ih =>
    intro s w fuel hN h hfuel
    obtain ⟨fuel, rfl⟩ : ∃ f, fuel = f + 1 := ⟨fuel - 1, by omega⟩
    have hnd : term.is_done (w.context .caller) = false := by
      rw [h.caller]; exact hgo s (by omega)
    rw [train_loop_step term fuel _ w hnd]
    generalize hb : (decide (s = 0) || upcoming w0 s) = flag
    have h1 : Progress w0 v s (completed (upcoming w0) s) (begun (upcoming w0) (s + 1))
        (validation_passes w0 (completed (upcoming w0) s))
        (bif flag then after_initialize_epoch w else w) := by
      rw [begun_succ, hb]
      cases flag
      · simpa using h
      · simpa using progress_initialize hn h
    have hfin : (bif flag then after_initialize_epoch w else w).dc.complete .training
        ((bif flag then after_initialize_epoch w else w).dc.fetched .training + 1) =
        upcoming w0 (s + 1) := by
      rw [h1.complete, h1.fetched_training]; simp [upcoming, Nat.add_assoc]
    have h2 := progress_mini_batch hn h1
    rw [hfin]
    have hflag : (decide (s + 1 = 0) || upcoming w0 (s + 1)) = upcoming w0 (s + 1) := by simp
    cases hu : upcoming w0 (s + 1) with
    | false =>
      simp only [Bool.false_eq_true, if_false]
      have hc : completed (upcoming w0) (s + 1) = completed (upcoming w0) s := by
        simp [completed, hu]
      have := ih (s + 1) _ fuel (by omega) (by rw [hc]; exact h2) (by omega)
      rw [hflag, hu] at this
      exact this
    | true =>
      simp only [if_true]
      have hc : completed (upcoming w0) (s + 1) = completed (upcoming w0) s + 1 := by
        simp [completed, hu]
      have h3 := progress_epoch_end hn h2
      by_cases hvalid : w0.dc.valid .validation = true
      · have hp : ∀ e, validation_passes w0 e = e := by
          intro e; simp [validation_passes, hvalid]
        rw [hp] at h3
        obtain ⟨w4, hrun, h4⟩ := progress_validation hn hes (hr hvalid) hvalid h3 fuel (by omega)
        rw [hrun, ok_bind]
        have := ih (s + 1) w4 fuel (by omega) (by rw [hc, hp]; exact h4) (by omega)
        rw [hflag, hu] at this
        exact this
      · have hp : ∀ e, validation_passes w0 e = 0 := by
          intro e; simp [validation_passes, hvalid]
        rw [validation_pass_invalid fuel _ (by rw [h3.valid]; simpa using hvalid), ok_bind]
        have := ih (s + 1) _ fuel (by omega) (by rw [hc, hp]; rw [hp] at h3; exact h3) (by omega)
        rw [hflag, hu] at this
        exact this

end run

/-! ## The function `train` as a whole -/

section whole_train

theorem train_eq (fuel : Nat) (term : SGDTerminationCriteria) (w : World) :
    train fuel term w =
      train_loop term fuel true (train_entry w) >>= fun w => .ok (train_exit w) := by
  simp only [train, do_train_begin_cbs, dispatch_eq, ok_bind, do_train_end_cbs]
  rfl

variable (w : World)

theorem train_entry_count (e : Event) (he : e.is_callback_activity = false) :
    (train_entry w).trace.count e =
      w.trace.count e + [Event.timer_scope .train,
        .set_mini_batch_sizes .validation (w.dc.mini_batch_size .validation),
        .set_execution_mode .caller .training, .model_reset_mode .caller .training,
        .dc_reset_mode .caller, .timer_scope .train_begin_callbacks,
        .start_timer .caller].count e := by
  simp only [train_entry, log_trace, List.count_append, invoke_where_count _ _ _ _ _ e he,
    dc_reset_mode_trace, model_reset_mode_trace, World.set_execution_mode,
    World.set_mini_batch_sizes, set_context_trace, log_dc, List.count_cons, List.count_nil]
  omega

theorem train_exit_count (e : Event) (he : e.is_callback_activity = false) :
    (train_exit w).trace.count e =
      w.trace.count e + [Event.stop_timer .caller, .model_reset_mode .caller .training,
        .timer_scope .train_end_callbacks].count e := by
  simp only [train_exit, log_trace, List.count_append, invoke_where_count _ _ _ _ _ e he,
    model_reset_mode_trace, List.count_cons, List.count_nil]
  omega

@[simp] theorem train_entry_callbacks : (train_entry w).m_callbacks = w.m_callbacks := by
  simp [train_entry, World.set_execution_mode, World.set_mini_batch_sizes]

@[simp] theorem train_entry_valid : (train_entry w).dc.valid = w.dc.valid := by
  simp [train_entry, World.set_execution_mode, World.set_mini_batch_sizes]

@[simp] theorem train_entry_complete : (train_entry w).dc.complete = w.dc.complete := by
  simp [train_entry, World.set_execution_mode, World.set_mini_batch_sizes]

@[simp] theorem train_entry_fetched : (train_entry w).dc.fetched = w.dc.fetched := by
  simp [train_entry, World.set_execution_mode, World.set_mini_batch_sizes]

@[simp] theorem train_entry_validation_epochs :
    (train_entry w).m_validation_epochs = w.m_validation_epochs := by
  simp [train_entry, World.set_execution_mode, World.set_mini_batch_sizes]

@[simp] theorem train_entry_upcoming : upcoming (train_entry w) = upcoming w := by
  funext n; simp [upcoming]

theorem train_entry_never_stops (hn : never_stops w.m_callbacks) (r : ContextRef) :
    (train_entry w).context r =
      match r with
      | .caller => { w.context .caller with mode := .training }
      | .validation =>
        { w.context .validation with
          current_mini_batch_size := w.dc.mini_batch_size .validation,
          effective_mini_batch_size := w.dc.mini_batch_size .validation } := by
  simp only [train_entry, log_context]
  rw [invoke_where_never_stops _ _ _ _ _ _
    (by simpa [World.set_execution_mode, World.set_mini_batch_sizes] using hn)]
  cases r <;> simp [World.set_execution_mode, World.set_mini_batch_sizes]

@[simp] theorem train_exit_callbacks : (train_exit w).m_callbacks = w.m_callbacks := by
  simp [train_exit]

@[simp] theorem train_exit_dc : (train_exit w).dc = w.dc := by
  simp [train_exit]

@[simp] theorem train_exit_validation_epochs :
    (train_exit w).m_validation_epochs = w.m_validation_epochs := by
  simp [train_exit]

theorem train_exit_never_stops (hn : never_stops w.m_callbacks) (r : ContextRef) :
    (train_exit w).context r = w.context r := by
  simp only [train_exit]
  rw [invoke_where_never_stops _ _ _ _ _ _ (by simpa using hn)]
  simp

end whole_train

section undisturbed

theorem completed_periodic (C : Nat → Bool) (k : Nat)
    (hC : ∀ n, C (n + 1) = decide ((n + 1) % k = 0)) (s : Nat) : completed C s = s / k := by
  induction s with
  | zero => simp [completed]
  | succ s ih =>
    rw [completed, ih, hC, Nat.succ_div]
    simp [Nat.dvd_iff_mod_eq_zero]

theorem begun_periodic (C : Nat → Bool) (k : Nat) (hk : 1 ≤ k)
    (hC : ∀ n, C (n + 1) = decide ((n + 1) % k = 0)) (s : Nat) :
    begun C s = (s + (k - 1)) / k := by
  cases s with
  | zero => simp [begun]; exact (Nat.div_eq_of_lt (by omega)).symm
  | succ s =>
    rw [begun, completed_periodic C k hC,
      show s + 1 + (k - 1) = s + k by omega, Nat.add_div_right _ (by omega)]

/-- A run of `train` with callbacks that never ask for a stop, from a world
whose early-stop flag is clear, under a criterion that holds for the first time
after `N` mini-batches. -/
theorem train_undisturbed (term : SGDTerminationCriteria) (w : World) (v N fuel : Nat)
    (hn : never_stops w.m_callbacks) (hes : (w.context .caller).early_stop = false)
    (hr : w.dc.valid .validation = true → ValidationReady v w)
    (hgo : ∀ s, s < N → term.is_done (context_after (train_entry w) s) = false)
    (hstop : term.is_done (context_after (train_entry w) N) = true)
    (hfuel : N + v + 2 ≤ fuel) :
    ∃ w1, train fuel term w = .ok (train_exit w1) ∧
      Progress (train_entry w) v N (completed (upcoming w) N) (begun (upcoming w) N)
        (validation_passes w (completed (upcoming w) N)) w1 := by
  have hn0 : never_stops (train_entry w).m_callbacks := by simpa using hn
  have hctx := train_entry_never_stops w hn
  have hr0 : (train_entry w).dc.valid .validation = true → ValidationReady v (train_entry w) := by
    intro hv
    have h := hr (by simpa using hv)
    constructor
    · exact h.positive
    · rw [hctx]; simpa using h.bound
    · rw [hctx]; simpa using h.early_stop
    · simpa using h.periodic
  obtain ⟨w1, hrun, hw1⟩ := train_loop_run term (train_entry w) v N hn0
    (by rw [hctx]; simpa using hes) hr0 hgo hstop N 0 (train_entry w) fuel (by omega)
    (by simpa [completed, begun, validation_passes] using progress_start (train_entry w) v)
    (by omega)
  refine ⟨w1, ?_, ?_⟩
  · rw [train_eq]
    simp only [decide_True, Bool.true_or] at hrun
    rw [hrun]; rfl
  · simpa [validation_passes] using hw1

end undisturbed

/-! ## The claims -/

section claims

theorem never_stops_passive (i : Nat) : never_stops [passive_callback i] := by
  intro cb hcb h t c
  rw [List.mem_singleton] at hcb
  subst hcb
  rfl

/-- C1: with an `EpochTerminationCriteria(E)`, a data coordinator that reports
the end of a training epoch exactly on every `k`-th training mini-batch, no
valid validation split, callbacks that never set the early-stop flag and a
context that starts at epoch 0, step 0 with the flag clear, `train` returns
after exactly `E * k` mini-batches, `E` epoch-begin rounds and `E` epoch-end
rounds, with `epoch = E` and `step = E * k`. -/
theorem train_epoch_termination (E k : Nat) (w : World) (fuel : Nat) (hk : 1 ≤ k)
    (hcb : never_stops w.m_callbacks)
    (hdc : ∀ n, upcoming w (n + 1) = decide ((n + 1) % k = 0))
    (hsplit : w.dc.valid .validation = false)
    (hepoch : w.caller_context.epoch = 0) (hstep : w.caller_context.step = 0)
    (hflag : w.caller_context.early_stop = false) (hfuel : E * k + 2 ≤ fuel) :
    ∃ w', train fuel (.EpochTerminationCriteria E) w = .ok w' ∧
      training_steps w'.trace = training_steps w.trace + E * k ∧
      epoch_begin_rounds w'.trace = epoch_begin_rounds w.trace + E ∧
      epoch_end_rounds w'.trace = epoch_end_rounds w.trace + E ∧
      w'.caller_context.epoch = E ∧ w'.caller_context.step = E * k := by
  have hctx := train_entry_never_stops w hcb
  have hcomp := completed_periodic (upcoming w) k hdc
  have hdiv : E * k / k = E := Nat.mul_div_cancel E (by omega)
  obtain ⟨w1, hrun, hw1⟩ := train_undisturbed (.EpochTerminationCriteria E) w 0 (E * k) fuel hcb
    hflag (by rw [hsplit]; exact fun h => Bool.noConfusion h)
    (by
      intro s hs
      apply epoch_criterion_not_done
      · simp only [context_after, hctx, train_entry_upcoming, hcomp]
        show w.caller_context.epoch + s / k < E
        rw [hepoch, Nat.zero_add]
        exact (Nat.div_lt_iff_lt_mul (by omega)).mpr hs
      · simp only [context_after, hctx]; exact hflag)
    (by
      apply epoch_criterion_done
      simp only [context_after, hctx, train_entry_upcoming, hcomp, hdiv]
      omega)
    (by omega)
  have hn1 : never_stops w1.m_callbacks := by rw [hw1.callbacks]; simpa using hcb
  have hcaller : (train_exit w1).caller_context =
      { (train_entry w).context .caller with
        step := ((train_entry w).context .caller).step + E * k,
        epoch := ((train_entry w).context .caller).epoch + completed (upcoming w) (E * k) } := by
    rw [← hw1.caller, ← train_exit_never_stops w1 hn1 .caller]; rfl
  refine ⟨_, hrun, ?_, ?_, ?_, ?_, ?_⟩
  · have h := hw1.training_steps
    simp only [training_steps] at h ⊢
    rw [train_exit_count _ (.timer_scope .train_minibatch) rfl, h,
      train_entry_count _ (.timer_scope .train_minibatch) rfl]
    simp [List.count_cons]
  · have h := hw1.epoch_begin_rounds
    simp only [epoch_begin_rounds] at h ⊢
    rw [train_exit_count _ (.timer_scope .epoch_begin_callbacks) rfl, h,
      train_entry_count _ (.timer_scope .epoch_begin_callbacks) rfl,
      begun_periodic (upcoming w) k hk hdc, Nat.add_comm (E * k),
      Nat.add_mul_div_right _ _ (by omega), Nat.div_eq_of_lt (by omega)]
    simp [List.count_cons]
  · have h := hw1.epoch_end_rounds
    simp only [epoch_end_rounds] at h ⊢
    rw [train_exit_count _ (.timer_scope .epoch_end_callbacks) rfl, h,
      train_entry_count _ (.timer_scope .epoch_end_callbacks) rfl, hcomp, hdiv]
    simp [List.count_cons]
  · rw [hcaller, hctx, hcomp, hdiv]
    show w.caller_context.epoch + E = E
    omega
  · rw [hcaller, hctx]
    show w.caller_context.step + E * k = E * k
    omega

/-- Witness of C1: `E = 2`, `k = 3` gives 6 mini-batches, 2 rounds of each kind,
epoch 2 and step 6. -/
theorem train_epoch_termination_witness :
    ∃ w', train 8 (.EpochTerminationCriteria 2)
        (fresh_world [passive_callback 1] (periodic_coordinator 3 1 false)) = .ok w' ∧
      training_steps w'.trace = 0 + 2 * 3 ∧ epoch_begin_rounds w'.trace = 0 + 2 ∧
      epoch_end_rounds w'.trace = 0 + 2 ∧ w'.caller_context.epoch = 2 ∧
      w'.caller_context.step = 2 * 3 :=
  train_epoch_termination 2 3 (fresh_world [passive_callback 1] (periodic_coordinator 3 1 false))
    8 (by decide) (never_stops_passive 1)
    (fun n => by simp [upcoming, fresh_world, periodic_coordinator]) rfl rfl rfl rfl (by decide)

end claims

section claims_batch

/-- C2, as stated, fails: the claim constrains neither the callbacks nor the
initial early-stop flag.  With `BatchTerminationCriteria(5)` and `k = 3`, a
callback that asks for a stop in its first `on_batch_end` ends the run after
1 mini-batch, and a context whose flag is already set ends it after none. -/
theorem train_batch_termination_counterexample :
    summary (train 20 (.BatchTerminationCriteria 5)
      (fresh_world [stop_on .on_batch_end] (periodic_coordinator 3 1 false))) =
      some (0, 1, 1, 1, 0) ∧
    summary (train 20 (.BatchTerminationCriteria 5)
      { fresh_world [] (periodic_coordinator 3 1 false) with
        caller_context := { do_get_new_execution_context with early_stop := true } }) =
      some (0, 0, 0, 0, 0) := by
  constructor <;> decide

theorem batch_criterion_not_done (M : Nat) (c : SGDExecutionContext) (he : c.step < M)
    (hs : c.early_stop = false) :
    (SGDTerminationCriteria.BatchTerminationCriteria M).is_done c = false := by
  simp [SGDTerminationCriteria.is_done, SGDTerminationCriteria.criterion, hs, he]

theorem batch_criterion_done (M : Nat) (c : SGDExecutionContext) (he : M ≤ c.step) :
    (SGDTerminationCriteria.BatchTerminationCriteria M).is_done c = true := by
  simp [SGDTerminationCriteria.is_done, SGDTerminationCriteria.criterion, he]

/-- C2, amended: with a `BatchTerminationCriteria(M)`, a data coordinator that
reports the end of a training epoch exactly on every `k`-th training
mini-batch, no valid validation split, callbacks that never set the early-stop
flag and a context that starts at epoch 0, step 0 with the flag clear, `train`
returns after exactly `M` mini-batches with `step = M` and
`epoch = M / k`. -/
theorem train_batch_termination (M k : Nat) (w : World) (fuel : Nat)
    (hcb : never_stops w.m_callbacks)
    (hdc : ∀ n, upcoming w (n + 1) = decide ((n + 1) % k = 0))
    (hsplit : w.dc.valid .validation = false)
    (hepoch : w.caller_context.epoch = 0) (hstep : w.caller_context.step = 0)
    (hflag : w.caller_context.early_stop = false) (hfuel : M + 2 ≤ fuel) :
    ∃ w', train fuel (.BatchTerminationCriteria M) w = .ok w' ∧
      training_steps w'.trace = training_steps w.trace + M ∧
      w'.caller_context.step = M ∧ w'.caller_context.epoch = M / k := by
  have hctx := train_entry_never_stops w hcb
  have hcomp := completed_periodic (upcoming w) k hdc
  obtain ⟨w1, hrun, hw1⟩ := train_undisturbed (.BatchTerminationCriteria M) w 0 M fuel hcb
    hflag (by rw [hsplit]; exact fun h => Bool.noConfusion h)
    (by
      intro s hs
      apply batch_criterion_not_done
      · simp only [context_after, hctx]
        show w.caller_context.step + s < M
        omega
      · simp only [context_after, hctx]; exact hflag)
    (by
      apply batch_criterion_done
      simp only [context_after, hctx]
      omega)
    (by omega)
  have hn1 : never_stops w1.m_callbacks := by rw [hw1.callbacks]; simpa using hcb
  have hcaller : (train_exit w1).caller_context =
      { (train_entry w).context .caller with
        step := ((train_entry w).context .caller).step + M,
        epoch := ((train_entry w).context .caller).epoch + completed (upcoming w) M } := by
    rw [← hw1.caller, ← train_exit_never_stops w1 hn1 .caller]; rfl
  refine ⟨_, hrun, ?_, ?_, ?_⟩
  · have h := hw1.training_steps
    simp only [training_steps] at h ⊢
    rw [train_exit_count _ (.timer_scope .train_minibatch) rfl, h,
      train_entry_count _ (.timer_scope .train_minibatch) rfl]
    simp [List.count_cons]
  · rw [hcaller, hctx]
    show w.caller_context.step + M = M
    omega
  · rw [hcaller, hctx, hcomp]
    show w.caller_context.epoch + M / k = M / k
    omega

/-- Witness of C2, amended: `M = 5`, `k = 3` gives 5 mini-batches, step 5 and
epoch 1. -/
theorem train_batch_termination_witness :
    ∃ w', train 7 (.BatchTerminationCriteria 5)
        (fresh_world [passive_callback 1] (periodic_coordinator 3 1 false)) = .ok w' ∧
      training_steps w'.trace = 0 + 5 ∧ w'.caller_context.step = 5 ∧
      w'.caller_context.epoch = 5 / 3 :=
  train_batch_termination 5 3 (fresh_world [passive_callback 1] (periodic_coordinator 3 1 false))
    7 (never_stops_passive 1)
    (fun n => by simp [upcoming, fresh_world, periodic_coordinator]) rfl rfl rfl rfl (by decide)

end claims_batch

section claims_routing

/-- C3: `apply` routes by mode.  Mode `training` runs `train` with the
algorithm's stopping criterion; `validation`, `testing` and `prediction` run
`evaluate` with that mode and the same criterion; `tournament` and `invalid`
raise "Illegal mode" in the unchanged world, neither `train` nor `evaluate`
having run. -/
theorem apply_routes_by_mode (fuel : Nat) (w : World) :
    apply fuel .training w =
      (train fuel w.m_stopping_criteria w >>= fun w => pure (report_timers w)) ∧
    apply fuel .validation w =
      (evaluate fuel .caller .validation w.m_stopping_criteria w >>= fun w =>
        pure (report_timers w)) ∧
    apply fuel .testing w =
      (evaluate fuel .caller .testing w.m_stopping_criteria w >>= fun w =>
        pure (report_timers w)) ∧
    apply fuel .prediction w =
      (evaluate fuel .caller .prediction w.m_stopping_criteria w >>= fun w =>
        pure (report_timers w)) ∧
    apply fuel .tournament w = .error (.illegal_mode .tournament, w) ∧
    apply fuel .invalid w = .error (.illegal_mode .invalid, w) :=
  ⟨rfl, rfl, rfl, rfl, rfl, rfl⟩

set_option maxRecDepth 100000 in
/-- C4, violated by the code: a validation split exists, an epoch has 2
mini-batches, and the only callback sets the early-stop flag of the training
context in every `on_epoch_end`.  Under `EpochTerminationCriteria(3)` the flag
is set 3 times, yet `train` runs all 6 mini-batches: each time the assignment
`c.set_early_stop(evaluation_context.get_early_stop())` clears it before the
next termination check.  Without validation split the same run stops after
the first epoch. -/
theorem early_stop_request_lost :
    summary (train 30 (.EpochTerminationCriteria 3)
      (fresh_world [stop_on .on_epoch_end] (periodic_coordinator 2 1 true))) =
      some (3, 6, 6, 3, 3) ∧
    (train 30 (.EpochTerminationCriteria 3)
      (fresh_world [stop_on .on_epoch_end] (periodic_coordinator 2 1 true))).toOption.map
      (fun w => (w.trace.count (.set_early_stop .caller true),
        w.trace.count (.set_early_stop .caller false))) = some (3, 3) ∧
    summary (train 30 (.EpochTerminationCriteria 3)
      (fresh_world [stop_on .on_epoch_end] (periodic_coordinator 2 1 false))) =
      some (1, 2, 2, 1, 1) := by
  refine ⟨?_, ?_, ?_⟩ <;> decide

end claims_routing

section claims_criteria

/-- C9: on a context whose early-stop flag is clear, `BatchTermination(max)`
holds exactly when `step >= max` and `EpochTermination(max)` exactly when
`epoch >= max`; each holds at the bound and fails one unit below it.  The check
is a function of the context: it returns a boolean and nothing else. -/
theorem termination_criteria_bounds (max : Nat) (c : SGDExecutionContext)
    (h : c.early_stop = false) :
    ((SGDTerminationCriteria.BatchTerminationCriteria max).is_done c = true ↔ max ≤ c.step) ∧
    ((SGDTerminationCriteria.EpochTerminationCriteria max).is_done c = true ↔ max ≤ c.epoch) ∧
    (SGDTerminationCriteria.BatchTerminationCriteria max).is_done { c with step := max } = true ∧
    (SGDTerminationCriteria.BatchTerminationCriteria (max + 1)).is_done { c with step := max } =
      false ∧
    (SGDTerminationCriteria.EpochTerminationCriteria max).is_done { c with epoch := max } = true ∧
    (SGDTerminationCriteria.EpochTerminationCriteria (max + 1)).is_done { c with epoch := max } =
      false := by
  simp [SGDTerminationCriteria.is_done, SGDTerminationCriteria.criterion, h]

/-- Witness of C9: bound 5 on a fresh context. -/
theorem termination_criteria_bounds_witness :
    ((SGDTerminationCriteria.BatchTerminationCriteria 5).is_done do_get_new_execution_context =
        true ↔ 5 ≤ do_get_new_execution_context.step) ∧
    ((SGDTerminationCriteria.EpochTerminationCriteria 5).is_done do_get_new_execution_context =
        true ↔ 5 ≤ do_get_new_execution_context.epoch) ∧
    (SGDTerminationCriteria.BatchTerminationCriteria 5).is_done
      { do_get_new_execution_context with step := 5 } = true ∧
    (SGDTerminationCriteria.BatchTerminationCriteria (5 + 1)).is_done
      { do_get_new_execution_context with step := 5 } = false ∧
    (SGDTerminationCriteria.EpochTerminationCriteria 5).is_done
      { do_get_new_execution_context with epoch := 5 } = true ∧
    (SGDTerminationCriteria.EpochTerminationCriteria (5 + 1)).is_done
      { do_get_new_execution_context with epoch := 5 } = false :=
  termination_criteria_bounds 5 do_get_new_execution_context rfl

/-- C10: for each of the three criteria the termination check is the
disjunction of the explicit criterion and the early-stop flag, so it holds on
every context whose flag is set, whatever step, epoch and elapsed time are;
the loops of `train` and `evaluate` then return without running a
mini-batch. -/
theorem early_stop_ends_every_criterion (t : SGDTerminationCriteria) (c : SGDExecutionContext)
    (h : c.early_stop = true) :
    t.is_done c = (t.criterion c || c.early_stop) ∧ t.is_done c = true ∧
    (∀ (fuel : Nat) (b : Bool) (w : World), w.context .caller = c →
      train_loop t (fuel + 1) b w = .ok w) ∧
    (∀ (fuel : Nat) (r : ContextRef) (mode : execution_mode) (w : World), w.context r = c →
      evaluate_loop r mode t (fuel + 1) w = .ok w) := by
  have hd : t.is_done c = true := by simp [SGDTerminationCriteria.is_done, h]
  refine ⟨rfl, hd, ?_, ?_⟩
  · intro fuel b w hw
    exact train_loop_done t fuel b w (by rw [hw]; exact hd)
  · intro fuel r mode w hw
    exact evaluate_loop_done r mode t fuel w (by rw [hw]; exact hd)

/-- Witness of C10: a seconds criterion far from its bound on a context whose
flag is set. -/
theorem early_stop_ends_every_criterion_witness :
    (SGDTerminationCriteria.SecondsTerminationCriteria 100).is_done
      { do_get_new_execution_context with early_stop := true } = true :=
  (early_stop_ends_every_criterion (.SecondsTerminationCriteria 100)
    { do_get_new_execution_context with early_stop := true } rfl).2.1

end claims_criteria

section claims_validation

set_option maxRecDepth 100000 in
/-- C5, as stated, fails: the claim does not constrain the callbacks.  With a
validation split of `v = 2` mini-batches per epoch and a callback that asks for
a stop in `on_batch_evaluate_end`, the first validation pass runs 1
mini-batch, and after the first completed training epoch the validation
context is still at epoch 0 while `m_validation_epochs` is 2. -/
theorem validation_interleaving_counterexample :
    validation_summary (train 30 (.EpochTerminationCriteria 2)
      (fresh_world [stop_on .on_batch_evaluate_end] (periodic_coordinator 3 2 true))) =
      some (0, 2, 1, true) ∧
    summary (train 30 (.EpochTerminationCriteria 2)
      (fresh_world [stop_on .on_batch_evaluate_end] (periodic_coordinator 3 2 true))) =
      some (1, 3, 3, 1, 1) := by
  constructor <;> decide

/-- C5, amended: with a valid validation split, a data coordinator that reports
the end of a validation epoch on every `v`-th validation mini-batch, a freshly
constructed algorithm (validation context at epoch 0, flag clear, bound 1) and
callbacks that never set the early-stop flag, a run of `train` cut after `M`
training mini-batches, `j` of which completed a training epoch, has run one
validation pass of exactly `v` mini-batches per completed training epoch: the
validation context is at epoch `j`, `m_validation_epochs` is `j + 1`, and
`j * v` evaluation mini-batches were run. -/
theorem validation_interleaving (M v : Nat) (w : World) (fuel : Nat) (hv : 1 ≤ v)
    (hcb : never_stops w.m_callbacks) (hsplit : w.dc.valid .validation = true)
    (hdc : ∀ n, w.dc.complete .validation (w.dc.fetched .validation + (n + 1)) =
      decide ((n + 1) % v = 0))
    (hepoch : w.m_validation_context.epoch = 0)
    (hclear : w.m_validation_context.early_stop = false)
    (hbound : w.m_validation_epochs = 1)
    (hflag : w.caller_context.early_stop = false) (hfuel : M + v + 2 ≤ fuel) :
    ∃ w', train fuel (.BatchTerminationCriteria (w.caller_context.step + M)) w = .ok w' ∧
      training_steps w'.trace = training_steps w.trace + M ∧
      w'.caller_context.epoch = w.caller_context.epoch + completed (upcoming w) M ∧
      w'.m_validation_context.epoch = completed (upcoming w) M ∧
      w'.m_validation_epochs = completed (upcoming w) M + 1 ∧
      evaluation_steps w'.trace = evaluation_steps w.trace + completed (upcoming w) M * v := by
  have hctx := train_entry_never_stops w hcb
  obtain ⟨w1, hrun, hw1⟩ := train_undisturbed
    (.BatchTerminationCriteria (w.caller_context.step + M)) w v M fuel hcb hflag
    (fun _ => ⟨hv, by rw [hbound]; show 1 = w.m_validation_context.epoch + 1; omega, hclear,
      hdc⟩)
    (by
      intro s hs
      apply batch_criterion_not_done
      · simp only [context_after, hctx]
        show w.caller_context.step + s < w.caller_context.step + M
        omega
      · simp only [context_after, hctx]; exact hflag)
    (by
      apply batch_criterion_done
      simp only [context_after, hctx]
      exact Nat.le_refl _)
    (by omega)
  have hn1 : never_stops w1.m_callbacks := by rw [hw1.callbacks]; simpa using hcb
  have hp : validation_passes w (completed (upcoming w) M) = completed (upcoming w) M := by
    simp [validation_passes, hsplit]
  rw [hp] at hw1
  have hcaller : (train_exit w1).caller_context = _ :=
    (train_exit_never_stops w1 hn1 .caller).trans hw1.caller
  have hvalidation : (train_exit w1).m_validation_context = _ :=
    (train_exit_never_stops w1 hn1 .validation).trans hw1.validation
  refine ⟨_, hrun, ?_, ?_, ?_, ?_, ?_⟩
  · have h := hw1.training_steps
    simp only [training_steps] at h ⊢
    rw [train_exit_count _ (.timer_scope .train_minibatch) rfl, h,
      train_entry_count _ (.timer_scope .train_minibatch) rfl]
    simp [List.count_cons]
  · rw [hcaller, hctx]; rfl
  · rw [hvalidation, hctx]
    show w.m_validation_context.epoch + completed (upcoming w) M = completed (upcoming w) M
    omega
  · rw [train_exit_validation_epochs, hw1.validation_epochs, train_entry_validation_epochs]
    omega
  · have h := hw1.evaluation_steps
    simp only [evaluation_steps] at h ⊢
    rw [train_exit_count _ (.timer_scope .eval_minibatch) rfl, h,
      train_entry_count _ (.timer_scope .eval_minibatch) rfl]
    simp [List.count_cons]

/-- Witness of C5, amended: 7 training mini-batches with epochs of 3, hence 2
completed training epochs, and validation epochs of 2 mini-batches. -/
theorem validation_interleaving_witness :
    ∃ w', train 11 (.BatchTerminationCriteria (0 + 7))
        (fresh_world [passive_callback 1] (periodic_coordinator 3 2 true)) = .ok w' ∧
      training_steps w'.trace = 0 + 7 ∧ w'.caller_context.epoch = 0 + 2 ∧
      w'.m_validation_context.epoch = 2 ∧ w'.m_validation_epochs = 2 + 1 ∧
      evaluation_steps w'.trace = 0 + 2 * 2 :=
  validation_interleaving 7 2 (fresh_world [passive_callback 1] (periodic_coordinator 3 2 true))
    11 (by decide) (never_stops_passive 1) rfl
    (fun n => by simp [fresh_world, periodic_coordinator]) rfl rfl rfl rfl (by decide)

end claims_validation

/-! ## Which callbacks a dispatch invokes -/

section callback_counts

theorem invoke_callback_count (w : World) (i0 : Nat) (cb : callback) (h : Hook) (i : Nat)
    (h' : Hook) :
    (w.invoke i0 cb h).trace.count (.callback i h') =
      w.trace.count (.callback i h') + (if i = i0 ∧ h' = h then 1 else 0) := by
  obtain ⟨evs, ht, ha⟩ := invoke_trace w i0 cb h
  have hz : evs.count (.callback i h') = 0 := by
    rw [List.count_eq_zero]
    intro hm
    obtain ⟨r, hr⟩ := ha _ hm
    exact Event.noConfusion hr
  rw [ht, List.count_append, List.count_cons, hz]
  by_cases hc : i = i0 ∧ h' = h
  · obtain ⟨rfl, rfl⟩ := hc; simp
  · have : ¬ (Event.callback i0 h = Event.callback i h') := by
      intro he
      injection he with e1 e2
      exact hc ⟨e1.symm, e2.symm⟩
    simp [hc, this]

/-- A dispatch invokes the hook `h` of the callback at position `i` once if
the gate selects that callback, and no other hook. -/
theorem invoke_where_callback_count (g : callback → Bool) (h : Hook) (cbs : List callback) :
    ∀ (i0 : Nat) (w : World) (i : Nat) (h' : Hook),
      (invoke_where g h i0 cbs w).trace.count (.callback i h') =
        w.trace.count (.callback i h') +
          (if h' = h ∧ i0 ≤ i ∧ (cbs[i - i0]?).map g = some true then 1 else 0) := by
  induction cbs with
  | nil => intro i0 w i h'; simp [invoke_where]
  | cons cb rest ih =>
    intro i0 w i h'
    simp only [invoke_where]
    rw [ih]
    have hw1 : (if g cb = true then w.invoke i0 cb h else w).trace.count (.callback i h') =
        w.trace.count (.callback i h') + (if g cb = true ∧ i = i0 ∧ h' = h then 1 else 0) := by
      by_cases hg : g cb = true
      · simp only [hg, if_true, true_and]; exact invoke_callback_count w i0 cb h i h'
      · simp [hg]
    rw [hw1]
    rcases Nat.lt_trichotomy i i0 with hlt | heq | hgt
    · have e1 : ¬ (i0 + 1 ≤ i) := by omega
      have e2 : ¬ (i0 ≤ i) := by omega
      have e3 : ¬ (i = i0) := by omega
      simp [e1, e2, e3]
    · subst heq
      have e1 : ¬ (i + 1 ≤ i) := by omega
      by_cases hh : h' = h <;> by_cases hg : g cb = true <;> simp [e1, hh, hg]
    · have e3 : ¬ (i = i0) := by omega
      have e4 : i - i0 = (i - (i0 + 1)) + 1 := by omega
      have e5 : (i0 + 1 ≤ i) = True := by simp; omega
      have e6 : (i0 ≤ i) = True := by simp; omega
      rw [e4, List.getElem?_cons_succ]
      simp [e3, e5, e6]

theorem log_callback_count (w : World) (e : Event) (i : Nat) (h : Hook)
    (he : e.is_callback_activity = false) :
    (w.log e).trace.count (.callback i h) = w.trace.count (.callback i h) := by
  have : ¬ (e = Event.callback i h) := by
    intro hc; rw [hc] at he; exact Bool.noConfusion he
  simp [List.count_append, List.count_cons, this]

theorem train_mini_batch_core_callback_count (r : ContextRef) (w : World) (i : Nat) (h : Hook) :
    (train_mini_batch_core r w).trace.count (.callback i h) = w.trace.count (.callback i h) := by
  simp [train_mini_batch_core, World.inc_step, World.dc_epoch_complete, List.count_cons]

theorem evaluate_mini_batch_core_callback_count (r : ContextRef) (m : execution_mode)
    (w : World) (i : Nat) (h : Hook) :
    (evaluate_mini_batch_core r m w).trace.count (.callback i h) =
      w.trace.count (.callback i h) := by
  simp [evaluate_mini_batch_core, World.inc_step, World.dc_epoch_complete, List.count_cons]

/-- Hooks of the callback at position `i` that one `train_mini_batch` invokes:
`on_batch_begin` if the interval divides the step counter at the start of the
mini-batch, `on_batch_end` if it divides the incremented counter. -/
theorem after_train_mini_batch_callback_count (r : ContextRef) (w : World) (i : Nat)
    (cb : callback) (hi : w.m_callbacks[i]? = some cb) (h : Hook) :
    (after_train_mini_batch r w).trace.count (.callback i h) =
      w.trace.count (.callback i h) +
        (if h = .on_batch_begin ∧ (w.context r).step % cb.batch_interval = 0 then 1 else 0) +
        (if h = .on_batch_end ∧ ((w.context r).step + 1) % cb.batch_interval = 0 then 1
          else 0) := by
  simp only [after_train_mini_batch]
  rw [invoke_where_callback_count,
    log_callback_count _ (.timer_scope .batch_end_callbacks) _ _ rfl,
    train_mini_batch_core_callback_count, invoke_where_callback_count,
    log_callback_count _ (.timer_scope .batch_begin_callbacks) _ _ rfl]
  simp [hi, interval_gate, List.count_cons]

/-- Hooks of the callback at position `i` that one `evaluate_mini_batch`
invokes: `on_batch_evaluate_begin` and `on_batch_evaluate_end`, once each. -/
theorem after_evaluate_mini_batch_callback_count (r : ContextRef) (mode : execution_mode)
    (w : World) (i : Nat) (cb : callback) (hi : w.m_callbacks[i]? = some cb) (h : Hook) :
    (after_evaluate_mini_batch r mode w).trace.count (.callback i h) =
      w.trace.count (.callback i h) +
        (if h = .on_batch_evaluate_begin then 1 else 0) +
        (if h = .on_batch_evaluate_end then 1 else 0) := by
  simp only [after_evaluate_mini_batch]
  rw [invoke_where_callback_count,
    log_callback_count _ (.timer_scope .batch_end_callbacks) _ _ rfl,
    evaluate_mini_batch_core_callback_count, invoke_where_callback_count,
    log_callback_count _ (.timer_scope .batch_begin_callbacks) _ _ rfl]
  simp [hi, List.count_cons]

end callback_counts

section claims_batch_hooks

/-- C7, as stated, fails for `on_batch_end`: with interval `K = 2` and a run
that starts at step 0, the mini-batch with step index 0 delivers
`on_batch_begin` but no `on_batch_end`, and the mini-batch with step index 1
delivers `on_batch_end` (and no `on_batch_begin`).  The triples are: step counter
after the mini-batch, `on_batch_begin` calls so far, `on_batch_end` calls so
far. -/
theorem batch_hooks_interval_counterexample :
    (train_mini_batch .caller
      (fresh_world [passive_callback 2] (periodic_coordinator 3 1 false))).toOption.map
      (fun p => (p.2.caller_context.step, p.2.trace.count (.callback 0 .on_batch_begin),
        p.2.trace.count (.callback 0 .on_batch_end))) = some (1, 1, 0) ∧
    ((train_mini_batch .caller
      (fresh_world [passive_callback 2] (periodic_coordinator 3 1 false))) >>= fun p =>
      train_mini_batch .caller p.2).toOption.map
      (fun p => (p.2.caller_context.step, p.2.trace.count (.callback 0 .on_batch_begin),
        p.2.trace.count (.callback 0 .on_batch_end))) = some (2, 1, 1) := by
  constructor <;> decide

/-- C7, amended: for every callback with batch interval `K >= 1`, the training
mini-batch that starts with step counter `s` invokes `on_batch_begin` of that
callback (once) exactly if `s mod K = 0`, and `on_batch_end` (once) exactly if
`(s + 1) mod K = 0`, the gate of `on_batch_end` being evaluated after the step
counter was incremented. -/
theorem batch_hooks_interval_gating (r : ContextRef) (w : World) (i : Nat) (cb : callback)
    (hi : w.m_callbacks[i]? = some cb) (_ : 1 ≤ cb.batch_interval) :
    ∃ b w', train_mini_batch r w = .ok (b, w') ∧
      (w'.context r).step = (w.context r).step + 1 ∧
      w'.trace.count (.callback i .on_batch_begin) =
        w.trace.count (.callback i .on_batch_begin) +
          (if (w.context r).step % cb.batch_interval = 0 then 1 else 0) ∧
      w'.trace.count (.callback i .on_batch_end) =
        w.trace.count (.callback i .on_batch_end) +
          (if ((w.context r).step + 1) % cb.batch_interval = 0 then 1 else 0) := by
  refine ⟨_, _, train_mini_batch_eq r w, by simp, ?_, ?_⟩
  · rw [after_train_mini_batch_callback_count r w i cb hi]; simp
  · rw [after_train_mini_batch_callback_count r w i cb hi]; simp

/-- Witness of C7, amended: interval 2 at step counter 0. -/
theorem batch_hooks_interval_gating_witness :
    ∃ b w', train_mini_batch .caller
        (fresh_world [passive_callback 2] (periodic_coordinator 3 1 false)) = .ok (b, w') ∧
      (w'.context .caller).step = 0 + 1 ∧
      w'.trace.count (.callback 0 .on_batch_begin) = 0 + (if 0 % 2 = 0 then 1 else 0) ∧
      w'.trace.count (.callback 0 .on_batch_end) = 0 + (if (0 + 1) % 2 = 0 then 1 else 0) :=
  batch_hooks_interval_gating .caller
    (fresh_world [passive_callback 2] (periodic_coordinator 3 1 false)) 0 (passive_callback 2)
    rfl (by decide)

/-- C8: for every mode among validation, tournament and testing, every callback
of the model, whatever its batch interval and whatever the step counter,
`evaluate_mini_batch` invokes `on_batch_evaluate_begin` and
`on_batch_evaluate_end` of that callback exactly once, and neither
`on_batch_begin` nor `on_batch_end`. -/
theorem evaluate_batch_hooks_ungated (r : ContextRef) (mode : execution_mode) (w : World)
    (i : Nat) (cb : callback)
    (hm : mode = .validation ∨ mode = .tournament ∨ mode = .testing)
    (hi : w.m_callbacks[i]? = some cb) :
    ∃ b w', evaluate_mini_batch r mode w = .ok (b, w') ∧
      w'.trace.count (.callback i .on_batch_evaluate_begin) =
        w.trace.count (.callback i .on_batch_evaluate_begin) + 1 ∧
      w'.trace.count (.callback i .on_batch_evaluate_end) =
        w.trace.count (.callback i .on_batch_evaluate_end) + 1 ∧
      w'.trace.count (.callback i .on_batch_begin) = w.trace.count (.callback i .on_batch_begin) ∧
      w'.trace.count (.callback i .on_batch_end) = w.trace.count (.callback i .on_batch_end) := by
  have hm' : is_evaluation_mode mode = true := by
    rcases hm with rfl | rfl | rfl <;> rfl
  refine ⟨_, _, evaluate_mini_batch_eq r mode w hm', ?_, ?_, ?_, ?_⟩ <;>
    rw [after_evaluate_mini_batch_callback_count r mode w i cb hi] <;> simp

/-- Witness of C8: a callback with batch interval 7 in a testing mini-batch at
step counter 0. -/
theorem evaluate_batch_hooks_ungated_witness :
    ∃ b w', evaluate_mini_batch .caller .testing
        (fresh_world [passive_callback 7] (periodic_coordinator 3 2 true)) = .ok (b, w') ∧
      w'.trace.count (.callback 0 .on_batch_evaluate_begin) = 0 + 1 ∧
      w'.trace.count (.callback 0 .on_batch_evaluate_end) = 0 + 1 ∧
      w'.trace.count (.callback 0 .on_batch_begin) = 0 ∧
      w'.trace.count (.callback 0 .on_batch_end) = 0 :=
  evaluate_batch_hooks_ungated .caller .testing
    (fresh_world [passive_callback 7] (periodic_coordinator 3 2 true)) 0 (passive_callback 7)
    (Or.inr (Or.inr rfl)) rfl

end claims_batch_hooks

/-! ## Weight reconciliation and epoch boundaries -/

section quiet

variable {r : ContextRef} {mode : execution_mode}

@[simp] theorem world_ok (w : World) : Run.world (.ok w) = w := rfl

@[simp] theorem world_error (e : Abort × World) : Run.world (.error e) = e.2 := rfl

@[simp] theorem world_of_pair_ok (p : Bool × World) : Run.world_of_pair (.ok p) = p.2 := rfl

@[simp] theorem world_of_pair_error (e : Abort × World) :
    Run.world_of_pair (.error e) = e.2 := rfl

theorem quiet_refl (w : World) : Quiet r mode w w := ⟨rfl, fun _ => rfl, fun _ => rfl⟩

theorem quiet_trans {w1 w2 w3 : World} (h1 : Quiet r mode w1 w2) (h2 : Quiet r mode w2 w3) :
    Quiet r mode w1 w3 :=
  ⟨h2.reconciliations.trans h1.reconciliations,
   fun h => (h2.training_completions h).trans (h1.training_completions h),
   fun h => (h2.epoch h).trans (h1.epoch h)⟩

theorem quiet_invoke (w : World) (i : Nat) (cb : callback) (h : Hook) :
    Quiet r mode w (w.invoke i cb h) := by
  have hc : ∀ e : Event, e.is_callback_activity = false →
      (w.invoke i cb h).trace.count e = w.trace.count e := by
    intro e he
    have := invoke_where_count (fun _ => true) h i [cb] w e he
    simpa [invoke_where] using this
  refine ⟨hc _ rfl, fun _ => hc _ rfl, fun _ => ?_⟩
  rw [invoke_context]

theorem quiet_log (w : World) (e : Event) (h1 : e ≠ .model_reconcile_weight_values)
    (h2 : mode ≠ .training → e ≠ .dc_epoch_complete .training true) :
    Quiet r mode w (w.log e) := by
  refine ⟨?_, fun hm => ?_, fun _ => by simp⟩
  · simp [reconciliations, List.count_cons, h1]
  · simp [training_completions, List.count_cons, h2 hm]

theorem quiet_for_each (body : Nat → callback → World → Run World)
    (hb : ∀ i cb w, Quiet r mode w (body i cb w).world) (i : Nat) (cbs : List callback)
    (w : World) : Quiet r mode w (for_each_callback body i cbs w).world := by
  induction cbs generalizing i w with
  | nil => exact quiet_refl w
  | cons cb rest ih =>
    simp only [for_each_callback]
    have h1 := hb i cb w
    cases hbody : body i cb w with
    | error e => rw [hbody] at h1; simpa using h1
    | ok w1 =>
      rw [hbody] at h1
      simp only [ok_bind]
      exact quiet_trans h1 (ih (i + 1) w1)

theorem quiet_batch_begin_body (m : execution_mode) (c : ContextRef) (i : Nat) (cb : callback)
    (w : World) : Quiet r mode w (batch_begin_body m c i cb w).world := by
  cases m <;> simp only [batch_begin_body] <;>
    first
    | exact quiet_invoke w i cb _
    | exact quiet_refl w
    | (split
       · exact quiet_invoke w i cb _
       · exact quiet_refl w)

theorem quiet_batch_end_body (m : execution_mode) (c : ContextRef) (i : Nat) (cb : callback)
    (w : World) : Quiet r mode w (batch_end_body m c i cb w).world := by
  cases m <;> simp only [batch_end_body] <;>
    first
    | exact quiet_invoke w i cb _
    | exact quiet_refl w
    | (split
       · exact quiet_invoke w i cb _
       · exact quiet_refl w)

theorem quiet_evaluate_begin_body (m : execution_mode) (i : Nat) (cb : callback) (w : World) :
    Quiet r mode w (evaluate_begin_body m i cb w).world := by
  cases m <;> simp only [evaluate_begin_body] <;>
    first
    | exact quiet_invoke w i cb _
    | exact quiet_refl w

theorem quiet_evaluate_end_body (m : execution_mode) (i : Nat) (cb : callback) (w : World) :
    Quiet r mode w (evaluate_end_body m i cb w).world := by
  cases m <;> simp only [evaluate_end_body] <;>
    first
    | exact quiet_invoke w i cb _
    | exact quiet_refl w

theorem quiet_do_batch_begin_cbs (m : execution_mode) (w : World) :
    Quiet r mode w (do_batch_begin_cbs m w).world := by
  have h0 : Quiet r mode w (w.log (.timer_scope .batch_begin_callbacks)) :=
    quiet_log w _ (by simp) (fun _ => by simp)
  simp only [do_batch_begin_cbs]
  split
  · simpa using h0
  · exact quiet_trans h0 (quiet_for_each _ (quiet_batch_begin_body m _) _ _ _)

theorem quiet_do_batch_end_cbs (m : execution_mode) (w : World) :
    Quiet r mode w (do_batch_end_cbs m w).world := by
  have h0 : Quiet r mode w (w.log (.timer_scope .batch_end_callbacks)) :=
    quiet_log w _ (by simp) (fun _ => by simp)
  simp only [do_batch_end_cbs]
  split
  · simpa using h0
  · exact quiet_trans h0 (quiet_for_each _ (quiet_batch_end_body m _) _ _ _)

theorem quiet_do_evaluate_begin_cbs (m : execution_mode) (w : World) :
    Quiet r mode w (do_evaluate_begin_cbs m w).world :=
  quiet_trans (quiet_log w _ (by simp) (fun _ => by simp))
    (quiet_for_each _ (quiet_evaluate_begin_body m) _ _ _)

theorem quiet_do_evaluate_end_cbs (m : execution_mode) (w : World) :
    Quiet r mode w (do_evaluate_end_cbs m w).world :=
  quiet_trans (quiet_log w _ (by simp) (fun _ => by simp))
    (quiet_for_each _ (quiet_evaluate_end_body m) _ _ _)

theorem quiet_model_reset_mode (w : World) (c : ContextRef) (m : execution_mode) :
    Quiet r mode w (w.model_reset_mode c m) := by
  refine ⟨?_, fun _ => ?_, fun _ => by simp⟩
  · simp [reconciliations, List.count_cons]
  · simp [training_completions, List.count_cons]

theorem quiet_dc_reset_mode (w : World) (c : ContextRef) :
    Quiet r mode w (w.dc_reset_mode c) := by
  refine ⟨?_, fun _ => ?_, fun _ => by simp⟩
  · simp [reconciliations, List.count_cons]
  · simp [training_completions, List.count_cons]

theorem quiet_evaluate_mini_batch_core (w : World) :
    Quiet r mode w (evaluate_mini_batch_core r mode w) := by
  refine ⟨?_, fun hm => ?_, fun hr => ?_⟩
  · simp [reconciliations, evaluate_mini_batch_core, World.inc_step, World.dc_epoch_complete,
      List.count_cons]
  · simp [training_completions, evaluate_mini_batch_core, World.inc_step,
      World.dc_epoch_complete, List.count_cons, hm]
  · simp [evaluate_mini_batch_core, World.inc_step, World.dc_epoch_complete, Ne.symm hr]

end quiet

section quiet_evaluate

variable {r : ContextRef} {mode : execution_mode}

theorem quiet_inc_epoch (w : World) : Quiet r mode w (w.inc_epoch r) := by
  refine ⟨?_, fun _ => ?_, fun hr => ?_⟩
  · simp [reconciliations, World.inc_epoch, List.count_cons]
  · simp [training_completions, World.inc_epoch, List.count_cons]
  · simp [World.inc_epoch, Ne.symm hr]

/-- Whatever the mode and the callbacks, `evaluate_mini_batch` reconciles no
weights. -/
theorem quiet_evaluate_mini_batch (w : World) :
    Quiet r mode w (evaluate_mini_batch r mode w).world_of_pair := by
  have h0 : Quiet r mode w ((w.model_reset_mode r mode).dc_reset_mode r) :=
    quiet_trans (quiet_model_reset_mode w r mode) (quiet_dc_reset_mode _ r)
  simp only [evaluate_mini_batch]
  have h1 := @quiet_do_batch_begin_cbs r mode mode
    ((w.model_reset_mode r mode).dc_reset_mode r)
  cases hb : do_batch_begin_cbs mode ((w.model_reset_mode r mode).dc_reset_mode r) with
  | error e => rw [hb] at h1; simpa using quiet_trans h0 h1
  | ok w1 =>
    rw [hb] at h1
    simp only [ok_bind]
    have h2 := @quiet_do_batch_end_cbs r mode mode
      (evaluate_mini_batch_core r mode w1)
    have h12 := quiet_trans (quiet_trans h0 h1) (@quiet_evaluate_mini_batch_core r mode w1)
    cases he : do_batch_end_cbs mode (evaluate_mini_batch_core r mode w1) with
    | error e => rw [he] at h2; simpa using quiet_trans h12 h2
    | ok w2 => rw [he] at h2; simpa using quiet_trans h12 h2

theorem quiet_evaluate_loop (term : SGDTerminationCriteria) (fuel : Nat) (w : World) :
    Quiet r mode w (evaluate_loop r mode term fuel w).world := by
  induction fuel generalizing w with
  | zero => simpa [evaluate_loop] using quiet_refl w
  | succ fuel ih =>
    rw [evaluate_loop]
    split
    · simpa using quiet_refl w
    · have h0 : Quiet r mode w (w.log (.timer_scope .eval_minibatch)) :=
        quiet_log w _ (by simp) (fun _ => by simp)
      have h1 := @quiet_evaluate_mini_batch r mode
        (w.log (.timer_scope .eval_minibatch))
      cases hb : evaluate_mini_batch r mode (w.log (.timer_scope .eval_minibatch)) with
      | error e => rw [hb] at h1; simpa using quiet_trans h0 h1
      | ok p =>
        rw [hb] at h1
        simp only [ok_bind]
        have h01 : Quiet r mode w p.2 := by simpa using quiet_trans h0 h1
        refine quiet_trans h01 (quiet_trans ?_ (ih _))
        split
        · exact quiet_inc_epoch p.2
        · exact quiet_refl p.2

/-- Whatever the mode, the criterion and the callbacks, `evaluate` reconciles no
weights. -/
theorem quiet_evaluate (fuel : Nat) (term : SGDTerminationCriteria) (w : World) :
    Quiet r mode w (evaluate fuel r mode term w).world := by
  have h0 : Quiet r mode w ((((w.log (.timer_scope (.evaluate mode))).log
      (.model_reset_epoch_statistics mode)).model_reset_mode r mode).dc_reset_mode r) :=
    quiet_trans (quiet_trans (quiet_trans (quiet_log w _ (by simp) (fun _ => by simp))
      (quiet_log _ _ (by simp) (fun _ => by simp))) (quiet_model_reset_mode _ r mode))
      (quiet_dc_reset_mode _ r)
  simp only [evaluate]
  split
  · simpa using h0
  · split
    · simpa using h0
    · have h1 := @quiet_do_evaluate_begin_cbs r mode mode
        ((((w.log (.timer_scope (.evaluate mode))).log
          (.model_reset_epoch_statistics mode)).model_reset_mode r mode).dc_reset_mode r)
      cases hb : do_evaluate_begin_cbs mode ((((w.log (.timer_scope (.evaluate mode))).log
          (.model_reset_epoch_statistics mode)).model_reset_mode r mode).dc_reset_mode r) with
      | error e => rw [hb] at h1; simpa using quiet_trans h0 h1
      | ok w1 =>
        rw [hb] at h1
        simp only [ok_bind]
        have h2 := @quiet_evaluate_loop r mode term fuel w1
        cases hl : evaluate_loop r mode term fuel w1 with
        | error e => rw [hl] at h2; simpa using quiet_trans (quiet_trans h0 h1) h2
        | ok w2 =>
          rw [hl] at h2
          simp only [ok_bind]
          exact quiet_trans (quiet_trans (quiet_trans h0 h1) h2)
            (quiet_do_evaluate_end_cbs mode w2)

theorem quiet_validation_pass (fuel : Nat) (w : World) :
    Quiet .validation .validation w (validation_pass fuel w).world := by
  simp only [validation_pass]
  split
  · have h1 := @quiet_evaluate .validation .validation fuel
      (.EpochTerminationCriteria w.m_validation_epochs) w
    cases he : evaluate fuel .validation .validation
        (.EpochTerminationCriteria w.m_validation_epochs) w with
    | error e => rw [he] at h1; simpa using h1
    | ok w1 =>
      rw [he] at h1
      simp only [ok_bind, pure_eq_ok, world_ok]
      refine quiet_trans h1 ⟨?_, fun _ => ?_, fun _ => ?_⟩
      · simp [reconciliations, World.set_early_stop, List.count_cons]
      · simp [training_completions, World.set_early_stop, List.count_cons]
      · simp only [World.set_early_stop, log_context, set_context_context, if_true]
        rfl
  · simpa using quiet_refl w

end quiet_evaluate

section balanced

theorem balanced_refl (w : World) : Balanced w w := ⟨0, rfl, rfl, rfl⟩

theorem balanced_trans {w1 w2 w3 : World} (h1 : Balanced w1 w2) (h2 : Balanced w2 w3) :
    Balanced w1 w3 := by
  obtain ⟨n1, a1, b1, c1⟩ := h1
  obtain ⟨n2, a2, b2, c2⟩ := h2
  exact ⟨n1 + n2, by omega, by omega, by omega⟩

theorem balanced_of_quiet {w w' : World} (h : Quiet .validation .validation w w') :
    Balanced w w' :=
  ⟨0, h.reconciliations, h.training_completions (by simp), h.epoch (by simp)⟩

theorem balanced_count {w w' : World}
    (h1 : w'.trace.count .model_reconcile_weight_values =
      w.trace.count .model_reconcile_weight_values)
    (h2 : w'.trace.count (.dc_epoch_complete .training true) =
      w.trace.count (.dc_epoch_complete .training true))
    (h3 : (w'.context .caller).epoch = (w.context .caller).epoch) : Balanced w w' :=
  ⟨0, h1, h2, h3⟩

theorem balanced_initialize_epoch (w : World) : Balanced w (after_initialize_epoch w) := by
  apply balanced_count
  · rw [after_initialize_epoch_count _ .model_reconcile_weight_values rfl]
    simp [List.count_cons]
  · rw [after_initialize_epoch_count _ (.dc_epoch_complete .training true) rfl]
    simp [List.count_cons]
  · simp

theorem balanced_train_entry (w : World) : Balanced w (train_entry w) := by
  apply balanced_count
  · rw [train_entry_count _ .model_reconcile_weight_values rfl]; simp [List.count_cons]
  · rw [train_entry_count _ (.dc_epoch_complete .training true) rfl]; simp [List.count_cons]
  · simp [train_entry, World.set_execution_mode, World.set_mini_batch_sizes]

theorem balanced_train_exit (w : World) : Balanced w (train_exit w) := by
  apply balanced_count
  · rw [train_exit_count _ .model_reconcile_weight_values rfl]; simp [List.count_cons]
  · rw [train_exit_count _ (.dc_epoch_complete .training true) rfl]; simp [List.count_cons]
  · simp [train_exit]

/-- A training mini-batch that does not complete an epoch: no reconciliation. -/
theorem balanced_mini_batch (w : World)
    (h : w.dc.complete .training (w.dc.fetched .training + 1) = false) :
    Balanced w (after_train_mini_batch .caller (w.log (.timer_scope .train_minibatch))) := by
  apply balanced_count
  · rw [after_train_mini_batch_count _ _ .model_reconcile_weight_values rfl]
    simp [List.count_cons, train_mini_batch_calls]
  · rw [after_train_mini_batch_count _ _ (.dc_epoch_complete .training true) rfl]
    simp [List.count_cons, train_mini_batch_calls, h]
  · simp

/-- A training mini-batch that completes an epoch, with the epoch increment,
the reconciliation and the epoch-end callbacks that follow it: exactly one
reconciliation. -/
theorem balanced_mini_batch_epoch_end (w : World)
    (h : w.dc.complete .training (w.dc.fetched .training + 1) = true) :
    Balanced w (after_epoch_end
      (after_train_mini_batch .caller (w.log (.timer_scope .train_minibatch)))) := by
  refine ⟨1, ?_, ?_, ?_⟩
  · simp only [reconciliations]
    rw [after_epoch_end_count _ .model_reconcile_weight_values rfl,
      after_train_mini_batch_count _ _ .model_reconcile_weight_values rfl]
    simp [List.count_cons, train_mini_batch_calls]
  · simp only [training_completions]
    rw [after_epoch_end_count _ (.dc_epoch_complete .training true) rfl,
      after_train_mini_batch_count _ _ (.dc_epoch_complete .training true) rfl]
    simp [List.count_cons, train_mini_batch_calls, h]
  · simp

theorem balanced_train_loop (term : SGDTerminationCriteria) (fuel : Nat) :
    ∀ (b : Bool) (w : World), Balanced w (train_loop term fuel b w).world := by
  induction fuel with
  | zero => intro b w; simpa [train_loop] using balanced_refl w
  | succ fuel ih =>
    intro b w
    cases hd : term.is_done (w.context .caller) with
    | true => rw [train_loop_done term fuel b w hd]; exact balanced_refl w
    | false =>
      rw [train_loop_step term fuel b w hd]
      have h1 : Balanced w (bif b then after_initialize_epoch w else w) := by
        cases b
        · exact balanced_refl w
        · exact balanced_initialize_epoch w
      generalize (bif b then after_initialize_epoch w else w) = w1 at h1 ⊢
      cases hf : w1.dc.complete .training (w1.dc.fetched .training + 1) with
      | false =>
        simp only [Bool.false_eq_true, if_false]
        exact balanced_trans (balanced_trans h1 (balanced_mini_batch w1 hf)) (ih _ _)
      | true =>
        simp only [if_true]
        have h2 := balanced_trans h1 (balanced_mini_batch_epoch_end w1 hf)
        have h3 := quiet_validation_pass fuel (after_epoch_end
          (after_train_mini_batch .caller (w1.log (.timer_scope .train_minibatch))))
        cases hv : validation_pass fuel (after_epoch_end
            (after_train_mini_batch .caller (w1.log (.timer_scope .train_minibatch)))) with
        | error e =>
          rw [hv] at h3
          simpa using balanced_trans h2 (balanced_of_quiet h3)
        | ok w4 =>
          rw [hv] at h3
          simp only [ok_bind]
          exact balanced_trans (balanced_trans h2 (balanced_of_quiet h3)) (ih _ _)

theorem balanced_train (fuel : Nat) (term : SGDTerminationCriteria) (w : World) :
    Balanced w (train fuel term w).world := by
  rw [train_eq]
  have h1 := balanced_train_loop term fuel true (train_entry w)
  cases hl : train_loop term fuel true (train_entry w) with
  | error e => rw [hl] at h1; simpa using balanced_trans (balanced_train_entry w) h1
  | ok w1 =>
    rw [hl] at h1
    simpa using balanced_trans (balanced_trans (balanced_train_entry w) h1)
      (balanced_train_exit w1)

end balanced

section claims_reconcile

/-- C6: in every run of `train`, whatever the criterion, the callbacks and the
data coordinator, and wherever the run is cut, the number `n` of calls of
`model.reconcile_weight_values()` equals the number of training mini-batches
on which the data coordinator reported the end of an epoch and equals the
increase of the epoch counter of the context; `evaluate` and
`evaluate_mini_batch` never call it, whatever the mode. -/
theorem reconcile_once_per_completed_epoch (fuel : Nat) (term : SGDTerminationCriteria)
    (w : World) :
    (∃ n, reconciliations (train fuel term w).world.trace = reconciliations w.trace + n ∧
      training_completions (train fuel term w).world.trace = training_completions w.trace + n ∧
      (train fuel term w).world.caller_context.epoch = w.caller_context.epoch + n) ∧
    (∀ (r : ContextRef) (mode : execution_mode),
      reconciliations (evaluate fuel r mode term w).world.trace = reconciliations w.trace) ∧
    (∀ (r : ContextRef) (mode : execution_mode),
      reconciliations (evaluate_mini_batch r mode w).world_of_pair.trace =
        reconciliations w.trace) :=
  ⟨balanced_train fuel term w,
   fun r mode => (@quiet_evaluate r mode fuel term w).reconciliations,
   fun r mode => (@quiet_evaluate_mini_batch r mode w).reconciliations⟩

end claims_reconcile

/-! ## `evaluate` on modes it does not run -/

section claims_evaluate_guard

/-- World in which `evaluate` leaves when it runs no loop: the statistics of
the mode were reset and the context was handed to the model and to the data
coordinator. -/
theorem evaluate_prologue (fuel : Nat) (r : ContextRef) (mode : execution_mode)
    (term : SGDTerminationCriteria) (w : World) :
    (w.dc.valid mode = false →
      evaluate fuel r mode term w =
        .ok ((((w.log (.timer_scope (.evaluate mode))).log
          (.model_reset_epoch_statistics mode)).model_reset_mode r mode).dc_reset_mode r)) ∧
    (w.dc.valid mode = true → is_evaluation_mode mode = false →
      evaluate fuel r mode term w =
        .error (.invalid_execution_mode_for_evaluation,
          (((w.log (.timer_scope (.evaluate mode))).log
            (.model_reset_epoch_statistics mode)).model_reset_mode r mode).dc_reset_mode r)) := by
  constructor
  · intro hv
    simp [evaluate, hv]
  · intro hv hm
    have hne : mode ≠ .validation ∧ mode ≠ .tournament ∧ mode ≠ .testing := by
      cases mode <;> simp [is_evaluation_mode] at hm ⊢
    simp [evaluate, hv, hne]

/-- C11, as stated, fails: `prediction` is outside {validation, tournament,
testing}, yet with a data coordinator that has no prediction split `evaluate`
returns normally. -/
theorem evaluate_rejects_counterexample :
    (evaluate 5 .caller .prediction (.EpochTerminationCriteria 1)
      (fresh_world [] (periodic_coordinator 3 1 false))).toOption.isSome = true := by
  decide

/-- C11, amended: for every mode outside {validation, tournament, testing},
`evaluate` raises "invalid execution mode for evaluation" if the data
coordinator reports the mode as valid and returns normally if it does not; in
both cases it runs no mini-batch, fetches no data and invokes no callback. -/
theorem evaluate_rejects_valid_foreign_mode (fuel : Nat) (r : ContextRef)
    (mode : execution_mode) (term : SGDTerminationCriteria) (w : World)
    (hm : mode ≠ .validation ∧ mode ≠ .tournament ∧ mode ≠ .testing) :
    ∃ w', (evaluate fuel r mode term w =
        if w.dc.valid mode = true then .error (.invalid_execution_mode_for_evaluation, w')
        else .ok w') ∧
      evaluation_steps w'.trace = evaluation_steps w.trace ∧
      w'.dc.fetched = w.dc.fetched ∧
      ∀ i h, w'.trace.count (.callback i h) = w.trace.count (.callback i h) := by
  have hm' : is_evaluation_mode mode = false := by
    cases mode <;> simp at hm <;> rfl
  refine ⟨(((w.log (.timer_scope (.evaluate mode))).log
    (.model_reset_epoch_statistics mode)).model_reset_mode r mode).dc_reset_mode r, ?_, ?_, ?_, ?_⟩
  · cases hv : w.dc.valid mode with
    | false => simpa using (evaluate_prologue fuel r mode term w).1 hv
    | true => simpa using (evaluate_prologue fuel r mode term w).2 hv hm'
  · simp [evaluation_steps, List.count_cons]
  · simp
  · intro i h; simp [List.count_cons]

/-- Witness of C11, amended: `prediction` on a data coordinator without
prediction split. -/
theorem evaluate_rejects_valid_foreign_mode_witness :
    ∃ w', (evaluate 5 .caller .prediction (.EpochTerminationCriteria 1)
          (fresh_world [] (periodic_coordinator 3 1 false)) =
        if (fresh_world [] (periodic_coordinator 3 1 false)).dc.valid .prediction = true then
          .error (.invalid_execution_mode_for_evaluation, w')
        else .ok w') ∧
      evaluation_steps w'.trace =
        evaluation_steps (fresh_world [] (periodic_coordinator 3 1 false)).trace ∧
      w'.dc.fetched = (fresh_world [] (periodic_coordinator 3 1 false)).dc.fetched ∧
      ∀ i h, w'.trace.count (.callback i h) =
        (fresh_world [] (periodic_coordinator 3 1 false)).trace.count (.callback i h) :=
  evaluate_rejects_valid_foreign_mode 5 .caller .prediction (.EpochTerminationCriteria 1)
    (fresh_world [] (periodic_coordinator 3 1 false)) (by decide)

/-- C12, violated by the code: `evaluate` is called for validation on a data
coordinator without validation split.  It returns without callback, fetch or
mini-batch and leaves the counters and the flag of the context alone, but
before the validity check it has already reset the per-epoch statistics of the
model, made the context the model's current execution context (it was unset)
and handed the context to the data coordinator (which had none). -/
theorem evaluate_invalid_split_not_a_no_op :
    (evaluate 5 .caller .validation (.EpochTerminationCriteria 1)
      (fresh_world [passive_callback 1] (periodic_coordinator 3 1 false))).toOption.map
      (fun w => (w.trace, w.m_execution_context, w.dc.context, w.caller_context)) =
    some ([.timer_scope (.evaluate .validation), .model_reset_epoch_statistics .validation,
        .model_reset_mode .caller .validation, .dc_reset_mode .caller],
      some .caller, some .caller, do_get_new_execution_context) ∧
    (fresh_world [passive_callback 1] (periodic_coordinator 3 1 false)).m_execution_context =
      none ∧
    (fresh_world [passive_callback 1] (periodic_coordinator 3 1 false)).dc.context = none := by
  refine ⟨?_, rfl, rfl⟩
  decide

end claims_evaluate_guard

/-! ## Order of the calls -/

section call_order

@[simp] theorem callback_calls_append (t1 t2 : List Event) :
    callback_calls (t1 ++ t2) = callback_calls t1 ++ callback_calls t2 := by
  simp [callback_calls, List.filterMap_append]

theorem callback_calls_of_no_callback (t : List Event)
    (h : ∀ e ∈ t, ∀ i k, e ≠ Event.callback i k) : callback_calls t = [] := by
  induction t with
  | nil => rfl
  | cons e t ih =>
    have he := h e (List.mem_cons_self _ _)
    have ht := ih (fun e' he' => h e' (List.mem_cons_of_mem _ he'))
    cases e <;> first
      | exact absurd rfl (he _ _)
      | simpa [callback_calls] using ht

theorem selected_lt (g : callback → Bool) (cbs : List callback) :
    ∀ i0 i, i ∈ selected g i0 cbs → i0 ≤ i ∧ i < i0 + cbs.length := by
  induction cbs with
  | nil => intro i0 i h; simp [selected] at h
  | cons cb rest ih =>
    intro i0 i h
    simp only [selected] at h
    split at h
    · rcases List.mem_cons.mp h with rfl | h'
      · simp
      · have := ih _ _ h'; simp only [List.length_cons]; omega
    · have := ih _ _ h; simp only [List.length_cons]; omega

/-- The positions that a gate selects come in strictly increasing order: the
order of the list, none twice. -/
theorem selected_increasing (g : callback → Bool) (cbs : List callback) :
    ∀ i0, (selected g i0 cbs).Pairwise (· < ·) := by
  induction cbs with
  | nil => intro i0; simp [selected]
  | cons cb rest ih =>
    intro i0
    simp only [selected]
    split
    · refine List.pairwise_cons.mpr ⟨?_, ih _⟩
      intro j hj
      have := selected_lt g rest _ _ hj
      omega
    · exact ih _

theorem selected_all (cbs : List callback) :
    ∀ i0, selected (fun _ => true) i0 cbs = List.range' i0 cbs.length := by
  induction cbs with
  | nil => intro i0; rfl
  | cons cb rest ih => intro i0; simp [selected, ih, List.range']

/-- The events a dispatch of the hook `h` appends to the trace: invocations of
`h` on the selected callbacks, in list order, each possibly followed by the
early-stop request of that callback. -/
theorem invoke_where_events (g : callback → Bool) (h : Hook) (cbs : List callback) :
    ∀ (i0 : Nat) (w : World),
      ∃ evs, (invoke_where g h i0 cbs w).trace = w.trace ++ evs ∧
        (∀ e ∈ evs, (∃ i, e = .callback i h) ∨ ∃ r, e = .set_early_stop r true) ∧
        callback_calls evs = (selected g i0 cbs).map fun i => (i, h) := by
  induction cbs with
  | nil => intro i0 w; exact ⟨[], by simp [invoke_where], by simp, rfl⟩
  | cons cb rest ih =>
    intro i0 w
    simp only [invoke_where, selected]
    by_cases hg : g cb = true
    · simp only [hg, if_true]
      obtain ⟨e1, h1, a1⟩ := invoke_trace w i0 cb h
      obtain ⟨e2, h2, a2, c2⟩ := ih (i0 + 1) (w.invoke i0 cb h)
      refine ⟨.callback i0 h :: e1 ++ e2, by rw [h2, h1]; simp, ?_, ?_⟩
      · intro e he
        simp only [List.cons_append, List.mem_cons, List.mem_append] at he
        rcases he with rfl | he | he
        · exact Or.inl ⟨i0, rfl⟩
        · exact Or.inr (a1 e he)
        · exact a2 e he
      · have hz : callback_calls e1 = [] := by
          apply callback_calls_of_no_callback
          intro e he i k hc
          obtain ⟨r, hr⟩ := a1 e he
          rw [hr] at hc
          exact Event.noConfusion hc
        have : callback_calls (.callback i0 h :: e1 ++ e2) =
            (i0, h) :: (callback_calls e1 ++ callback_calls e2) := by
          simp [callback_calls, List.filterMap_append]
        rw [this, hz, c2]; rfl
    · simp only [hg, Bool.false_eq_true, if_false]
      exact ih (i0 + 1) w

/-- C20: every call of `train_mini_batch` returns, and what it appends to the
trace is, in this order: `model.reset_mode`, `dc.reset_mode`, the batch-begin
callbacks, `dc.fetch_data(training)`, `model.clear_gradients`,
`model.forward_prop`, `dc.epoch_complete`, objective `start_evaluation`,
objective `differentiate`, `model.backward_prop`, objective
`compute_weight_regularization`, objective `finish_evaluation` with the same
mini-batch size as `start_evaluation`, `model.evaluate_metrics`,
`model.update_weights`, `model.update_layers`, the step increment, the
batch-end callbacks; each collaborator call occurs once, and the returned
boolean is the answer of `dc.epoch_complete`. -/
theorem train_mini_batch_call_order (r : ContextRef) (w : World) :
    ∃ (finished : Bool) (w' : World) (begin_cbs end_cbs : List Event),
      train_mini_batch r w = .ok (finished, w') ∧
      w'.trace = w.trace ++
        [.model_reset_mode r .training, .dc_reset_mode r,
         .timer_scope .batch_begin_callbacks] ++ begin_cbs ++
        [.dc_fetch_data .training, .model_clear_gradients, .timer_scope .forward_prop,
         .model_forward_prop .training, .dc_epoch_complete .training finished,
         .objective_start_evaluation .training (w.context r).current_mini_batch_size,
         .objective_differentiate, .timer_scope .back_prop, .model_backward_prop,
         .objective_compute_weight_regularization,
         .objective_finish_evaluation .training (w.context r).current_mini_batch_size,
         .model_evaluate_metrics .training (w.context r).current_mini_batch_size,
         .model_update_weights, .model_update_layers, .inc_step r,
         .timer_scope .batch_end_callbacks] ++ end_cbs ∧
      (∀ e ∈ begin_cbs, (∃ i, e = .callback i .on_batch_begin) ∨
        ∃ c, e = .set_early_stop c true) ∧
      (∀ e ∈ end_cbs, (∃ i, e = .callback i .on_batch_end) ∨
        ∃ c, e = .set_early_stop c true) := by
  obtain ⟨e1, h1, a1, _⟩ := invoke_where_events (interval_gate (w.context r).step)
    .on_batch_begin w.m_callbacks 0
    (((w.model_reset_mode r .training).dc_reset_mode r).log
      (.timer_scope .batch_begin_callbacks))
  generalize hw1 : invoke_where (interval_gate (w.context r).step) .on_batch_begin 0
    w.m_callbacks (((w.model_reset_mode r .training).dc_reset_mode r).log
      (.timer_scope .batch_begin_callbacks)) = w1 at h1
  obtain ⟨e2, h2, a2, _⟩ := invoke_where_events (interval_gate ((w.context r).step + 1))
    .on_batch_end w.m_callbacks 0
    ((train_mini_batch_core r w1).log (.timer_scope .batch_end_callbacks))
  refine ⟨_, _, e1, e2, train_mini_batch_eq r w, ?_, a1, a2⟩
  have hw : after_train_mini_batch r w =
      invoke_where (interval_gate ((w.context r).step + 1)) .on_batch_end 0 w.m_callbacks
        ((train_mini_batch_core r w1).log (.timer_scope .batch_end_callbacks)) := by
    rw [← hw1]; simp [after_train_mini_batch]
  have hsize : (w1.context r).current_mini_batch_size =
      (w.context r).current_mini_batch_size := by rw [← hw1]; simp
  have hfin : w1.dc.complete .training (w1.dc.fetched .training + 1) =
      w.dc.complete .training (w.dc.fetched .training + 1) := by rw [← hw1]; simp
  rw [hw, h2]
  simp only [log_trace, train_mini_batch_core, World.inc_step, World.dc_epoch_complete,
    World.epoch_complete, set_context_trace, dc_fetch_data_trace, log_context,
    dc_fetch_data_context, log_dc, dc_fetch_data_complete, dc_fetch_data_fetched, if_true, h1,
    hsize, hfin, model_reset_mode_trace, dc_reset_mode_trace, List.append_assoc,
    List.cons_append, List.nil_append, List.singleton_append]

end call_order

section claims_callback_order

theorem dispatches_to_all (f : World → Run World) (h : Hook) (w w0 : World)
    (hf : f w = .ok (invoke_where (fun _ => true) h 0 w.m_callbacks w0))
    (ht : callback_calls w0.trace = callback_calls w.trace) : DispatchesToAll f h w := by
  obtain ⟨evs, h1, _, h3⟩ := invoke_where_events (fun _ => true) h w.m_callbacks 0 w0
  refine ⟨_, hf, ?_⟩
  rw [h1, callback_calls_append, ht, h3, selected_all, get_callbacks_eq, List.range_eq_range']

theorem dispatches_in_order (f : World → Run World) (g : callback → Bool) (h : Hook)
    (w w0 : World) (hf : f w = .ok (invoke_where g h 0 w.m_callbacks w0))
    (ht : callback_calls w0.trace = callback_calls w.trace) : DispatchesInOrder f h w := by
  obtain ⟨evs, h1, _, h3⟩ := invoke_where_events g h w.m_callbacks 0 w0
  refine ⟨_, selected g 0 w.m_callbacks, hf, selected_increasing g _ 0, ?_, ?_⟩
  · intro i hi
    have := selected_lt g _ _ _ hi
    rw [get_callbacks_eq]; omega
  · rw [h1, callback_calls_append, ht, h3]

theorem callback_calls_log (w : World) (e : Event) (he : e.is_callback_activity = false) :
    callback_calls (w.log e).trace = callback_calls w.trace := by
  rw [log_trace, callback_calls_append, callback_calls_of_no_callback [e], List.append_nil]
  intro e' he' i k hc
  rw [List.mem_singleton] at he'
  rw [← he', hc] at he
  exact Bool.noConfusion he

/-- C15: at every lifecycle point the algorithm dispatches, the callbacks are
invoked in the order of the list that `model::get_callbacks()` returns, each at
most once per dispatch (exactly once where there is no interval gate), and
that list is the list of the registered callbacks, in registration order.
The batch dispatches are taken in a world in which `model.reset_mode` has set
the model's execution context, as `train_mini_batch` and
`evaluate_mini_batch` do before them. -/
theorem callbacks_in_registration_order (w : World) (r : ContextRef) :
    w.get_callbacks = w.m_callbacks ∧
    (∀ cb, (w.add_callback cb).get_callbacks = w.get_callbacks ++ [cb]) ∧
    DispatchesToAll do_train_begin_cbs .on_train_begin w ∧
    DispatchesToAll do_train_end_cbs .on_train_end w ∧
    DispatchesToAll do_epoch_begin_cbs .on_epoch_begin w ∧
    DispatchesToAll do_epoch_end_cbs .on_epoch_end w ∧
    DispatchesToAll (do_evaluate_begin_cbs .validation) .on_validation_begin w ∧
    DispatchesToAll (do_evaluate_begin_cbs .tournament) .on_validation_begin w ∧
    DispatchesToAll (do_evaluate_begin_cbs .testing) .on_test_begin w ∧
    DispatchesToAll (do_evaluate_end_cbs .validation) .on_validation_end w ∧
    DispatchesToAll (do_evaluate_end_cbs .tournament) .on_validation_end w ∧
    DispatchesToAll (do_evaluate_end_cbs .testing) .on_test_end w ∧
    DispatchesInOrder (do_batch_begin_cbs .training) .on_batch_begin
      (w.model_reset_mode r .training) ∧
    DispatchesInOrder (do_batch_end_cbs .training) .on_batch_end
      (w.model_reset_mode r .training) ∧
    DispatchesToAll (do_batch_begin_cbs .validation) .on_batch_evaluate_begin
      (w.model_reset_mode r .validation) ∧
    DispatchesToAll (do_batch_begin_cbs .tournament) .on_batch_evaluate_begin
      (w.model_reset_mode r .tournament) ∧
    DispatchesToAll (do_batch_begin_cbs .testing) .on_batch_evaluate_begin
      (w.model_reset_mode r .testing) ∧
    DispatchesToAll (do_batch_end_cbs .validation) .on_batch_evaluate_end
      (w.model_reset_mode r .validation) ∧
    DispatchesToAll (do_batch_end_cbs .tournament) .on_batch_evaluate_end
      (w.model_reset_mode r .tournament) ∧
    DispatchesToAll (do_batch_end_cbs .testing) .on_batch_evaluate_end
      (w.model_reset_mode r .testing) := by
  refine ⟨get_callbacks_eq w, fun cb => by simp [World.add_callback], ?_, ?_, ?_, ?_, ?_, ?_,
    ?_, ?_, ?_, ?_, ?_, ?_, ?_, ?_, ?_, ?_, ?_, ?_⟩
  · exact dispatches_to_all _ _ w _ (dispatch_eq _ _) (callback_calls_log w _ rfl)
  · exact dispatches_to_all _ _ w _ (dispatch_eq _ _) (callback_calls_log w _ rfl)
  · exact dispatches_to_all _ _ w _ (dispatch_eq _ _) (callback_calls_log w _ rfl)
  · exact dispatches_to_all _ _ w _ (dispatch_eq _ _) (callback_calls_log w _ rfl)
  · exact dispatches_to_all _ _ w _ (do_evaluate_begin_cbs_eq w _ rfl)
      (callback_calls_log w _ rfl)
  · exact dispatches_to_all _ _ w _ (do_evaluate_begin_cbs_eq w _ rfl)
      (callback_calls_log w _ rfl)
  · exact dispatches_to_all _ _ w _ (do_evaluate_begin_cbs_eq w _ rfl)
      (callback_calls_log w _ rfl)
  · exact dispatches_to_all _ _ w _ (do_evaluate_end_cbs_eq w _ rfl)
      (callback_calls_log w _ rfl)
  · exact dispatches_to_all _ _ w _ (do_evaluate_end_cbs_eq w _ rfl)
      (callback_calls_log w _ rfl)
  · exact dispatches_to_all _ _ w _ (do_evaluate_end_cbs_eq w _ rfl)
      (callback_calls_log w _ rfl)
  · exact dispatches_in_order _ _ _ _ _ (do_batch_begin_cbs_training _ r rfl)
      (callback_calls_log _ _ rfl)
  · exact dispatches_in_order _ _ _ _ _ (do_batch_end_cbs_training _ r rfl)
      (callback_calls_log _ _ rfl)
  · exact dispatches_to_all _ _ _ _ (do_batch_begin_cbs_evaluate _ r _ rfl rfl)
      (callback_calls_log _ _ rfl)
  · exact dispatches_to_all _ _ _ _ (do_batch_begin_cbs_evaluate _ r _ rfl rfl)
      (callback_calls_log _ _ rfl)
  · exact dispatches_to_all _ _ _ _ (do_batch_begin_cbs_evaluate _ r _ rfl rfl)
      (callback_calls_log _ _ rfl)
  · exact dispatches_to_all _ _ _ _ (do_batch_end_cbs_evaluate _ r _ rfl rfl)
      (callback_calls_log _ _ rfl)
  · exact dispatches_to_all _ _ _ _ (do_batch_end_cbs_evaluate _ r _ rfl rfl)
      (callback_calls_log _ _ rfl)
  · exact dispatches_to_all _ _ _ _ (do_batch_end_cbs_evaluate _ r _ rfl rfl)
      (callback_calls_log _ _ rfl)

end claims_callback_order

/-! ## Outcomes of `evaluate` with arbitrary callbacks -/

section evaluate_outcome

theorem evaluate_eq_entry_exit (fuel : Nat) (r : ContextRef) (mode : execution_mode)
    (term : SGDTerminationCriteria) (w : World) (hm : is_evaluation_mode mode = true)
    (hv : w.dc.valid mode = true) :
    evaluate fuel r mode term w =
      evaluate_loop r mode term fuel (evaluate_entry r mode w) >>= fun w =>
        .ok (evaluate_exit mode w) := by
  rw [evaluate_eq fuel r mode term w hm hv]
  rfl

/-- The loop of `evaluate` in an accepted mode returns or runs out of fuel; an
invariant of its iterations holds in the world it reaches. -/
theorem evaluate_loop_outcome (r : ContextRef) (mode : execution_mode)
    (term : SGDTerminationCriteria) (hm : is_evaluation_mode mode = true) (I : World → Prop)
    (hstep : ∀ v, I v → I (after_evaluate_iteration r mode v)) (fuel : Nat) :
    ∀ w, I w →
      (∃ w', evaluate_loop r mode term fuel w = .ok w' ∧ I w' ∧
        term.is_done (w'.context r) = true) ∨
      (∃ w', evaluate_loop r mode term fuel w = .error (.fuel_exhausted, w') ∧ I w') := by
  induction fuel with
  | zero => intro w hw; exact Or.inr ⟨w, rfl, hw⟩
  | succ fuel ih =>
    intro w hw
    cases hd : term.is_done (w.context r) with
    | true => exact Or.inl ⟨w, evaluate_loop_done r mode term fuel w hd, hw, hd⟩
    | false =>
      rw [evaluate_loop_step r mode term fuel w hm hd]
      exact ih _ (hstep w hw)

/-- The function `evaluate` in an accepted mode with a valid split returns or
runs out of fuel in its loop. -/
theorem evaluate_outcome (fuel : Nat) (r : ContextRef) (mode : execution_mode)
    (term : SGDTerminationCriteria) (w : World) (hm : is_evaluation_mode mode = true)
    (hv : w.dc.valid mode = true) (I : World → Prop) (h0 : I (evaluate_entry r mode w))
    (hstep : ∀ v, I v → I (after_evaluate_iteration r mode v)) :
    (∃ w1, evaluate fuel r mode term w = .ok (evaluate_exit mode w1) ∧ I w1 ∧
      term.is_done (w1.context r) = true) ∨
    (∃ w1, evaluate fuel r mode term w = .error (.fuel_exhausted, w1) ∧ I w1) := by
  rw [evaluate_eq_entry_exit fuel r mode term w hm hv]
  rcases evaluate_loop_outcome r mode term hm I hstep fuel _ h0 with
    ⟨w1, h1, h2, h3⟩ | ⟨w1, h1, h2⟩
  · exact Or.inl ⟨w1, by rw [h1]; rfl, h2, h3⟩
  · exact Or.inr ⟨w1, by rw [h1]; rfl, h2⟩

end evaluate_outcome

section evaluate_frames

variable (r : ContextRef) (mode : execution_mode) (w : World)

theorem evaluate_entry_count (e : Event) (he : e.is_callback_activity = false) :
    (evaluate_entry r mode w).trace.count e =
      w.trace.count e + [Event.timer_scope (.evaluate mode),
        .model_reset_epoch_statistics mode, .model_reset_mode r mode, .dc_reset_mode r,
        .timer_scope .eval_begin_callbacks].count e := by
  simp only [evaluate_entry, invoke_where_count _ _ _ _ _ e he, log_trace, dc_reset_mode_trace,
    model_reset_mode_trace, List.count_append, List.count_cons, List.count_nil]
  omega

theorem evaluate_exit_count (e : Event) (he : e.is_callback_activity = false) :
    (evaluate_exit mode w).trace.count e =
      w.trace.count e + [Event.timer_scope .eval_end_callbacks].count e := by
  simp only [evaluate_exit, invoke_where_count _ _ _ _ _ e he, log_trace, List.count_append]

@[simp] theorem evaluate_entry_callbacks :
    (evaluate_entry r mode w).m_callbacks = w.m_callbacks := by
  simp [evaluate_entry]

@[simp] theorem evaluate_entry_execution_context :
    (evaluate_entry r mode w).m_execution_context = some r := by
  simp [evaluate_entry]

@[simp] theorem evaluate_entry_validation_epochs :
    (evaluate_entry r mode w).m_validation_epochs = w.m_validation_epochs := by
  simp [evaluate_entry]

@[simp] theorem evaluate_entry_step (r' : ContextRef) :
    ((evaluate_entry r mode w).context r').step = (w.context r').step := by
  simp [evaluate_entry]

@[simp] theorem evaluate_entry_epoch (r' : ContextRef) :
    ((evaluate_entry r mode w).context r').epoch = (w.context r').epoch := by
  simp [evaluate_entry]

theorem evaluate_entry_other (r' : ContextRef) (hne : r' ≠ r) :
    (evaluate_entry r mode w).context r' = w.context r' := by
  simp only [evaluate_entry]
  rw [invoke_where_other_context _ _ _ _ _ r' r (by simp) hne]
  simp

@[simp] theorem evaluate_exit_callbacks :
    (evaluate_exit mode w).m_callbacks = w.m_callbacks := by
  simp [evaluate_exit]

@[simp] theorem evaluate_exit_execution_context :
    (evaluate_exit mode w).m_execution_context = w.m_execution_context := by
  simp [evaluate_exit]

@[simp] theorem evaluate_exit_validation_epochs :
    (evaluate_exit mode w).m_validation_epochs = w.m_validation_epochs := by
  simp [evaluate_exit]

@[simp] theorem evaluate_exit_step (r' : ContextRef) :
    ((evaluate_exit mode w).context r').step = (w.context r').step := by
  simp [evaluate_exit]

@[simp] theorem evaluate_exit_epoch (r' : ContextRef) :
    ((evaluate_exit mode w).context r').epoch = (w.context r').epoch := by
  simp [evaluate_exit]

theorem evaluate_exit_other (r' : ContextRef) (hc : w.m_execution_context = some r)
    (hne : r' ≠ r) : (evaluate_exit mode w).context r' = w.context r' := by
  simp only [evaluate_exit]
  rw [invoke_where_other_context _ _ _ _ _ r' r (by simpa using hc) hne]
  simp

theorem after_evaluate_iteration_count (e : Event) (he : e.is_callback_activity = false) :
    (after_evaluate_iteration r mode w).trace.count e =
      w.trace.count e + (Event.timer_scope .eval_minibatch ::
        evaluate_mini_batch_calls r mode (w.dc.complete mode (w.dc.fetched mode + 1))
          (w.context r).current_mini_batch_size).count e +
        (if w.dc.complete mode (w.dc.fetched mode + 1) = true then [Event.inc_epoch r].count e
          else 0) := by
  simp only [after_evaluate_iteration]
  split
  · simp only [World.inc_epoch, log_trace, set_context_trace, List.count_append,
      after_evaluate_mini_batch_count _ _ _ e he, log_dc, log_context]
    rw [List.count_cons (a := e) (b := Event.timer_scope .eval_minibatch)]
    simp only [List.count_cons, List.count_nil]
    omega
  · simp only [after_evaluate_mini_batch_count _ _ _ e he, log_trace, List.count_append,
      log_dc, log_context]
    rw [List.count_cons (a := e) (b := Event.timer_scope .eval_minibatch)]
    simp only [List.count_cons, List.count_nil]
    omega

@[simp] theorem after_evaluate_iteration_execution_context :
    (after_evaluate_iteration r mode w).m_execution_context = some r := by
  simp only [after_evaluate_iteration]
  split <;> simp [World.inc_epoch]

@[simp] theorem after_evaluate_iteration_callbacks :
    (after_evaluate_iteration r mode w).m_callbacks = w.m_callbacks := by
  simp only [after_evaluate_iteration]
  split <;> simp [World.inc_epoch]

@[simp] theorem after_evaluate_iteration_step :
    ((after_evaluate_iteration r mode w).context r).step = (w.context r).step + 1 := by
  simp only [after_evaluate_iteration]
  split <;> simp [World.inc_epoch]

@[simp] theorem after_evaluate_iteration_epoch :
    ((after_evaluate_iteration r mode w).context r).epoch =
      (w.context r).epoch +
        (if w.dc.complete mode (w.dc.fetched mode + 1) = true then 1 else 0) := by
  simp only [after_evaluate_iteration]
  split <;> simp [World.inc_epoch]

theorem after_evaluate_iteration_other (r' : ContextRef) (hne : r' ≠ r) :
    (after_evaluate_iteration r mode w).context r' = w.context r' := by
  simp only [after_evaluate_iteration]
  split
  · simp only [World.inc_epoch, log_context, set_context_context, if_neg hne]
    rw [after_evaluate_mini_batch_other _ _ _ _ hne]; simp
  · rw [after_evaluate_mini_batch_other _ _ _ _ hne]; simp

end evaluate_frames

section claims_validation_context

theorem spared_entry (w : World) :
    Spared w (evaluate_entry .validation .validation w) := by
  constructor
  · exact evaluate_entry_other _ _ _ _ (by decide)
  · rw [evaluate_entry_count _ _ _ (.inc_step .caller) rfl]; simp [List.count_cons]
  · rw [evaluate_entry_count _ _ _ (.inc_epoch .caller) rfl]; simp [List.count_cons]
  · rw [evaluate_entry_count _ _ _ (.inc_step .validation) rfl]; simp [List.count_cons]
  · rw [evaluate_entry_count _ _ _ (.inc_epoch .validation) rfl]; simp [List.count_cons]

theorem spared_prologue (w : World) :
    Spared w ((((w.log (.timer_scope (.evaluate .validation))).log
      (.model_reset_epoch_statistics .validation)).model_reset_mode .validation
        .validation).dc_reset_mode .validation) := by
  constructor <;> simp [List.count_cons]

theorem spared_iteration {w v : World} (h : Spared w v)
    (hc : v.m_execution_context = some .validation) :
    Spared w (after_evaluate_iteration .validation .validation v) := by
  have _ := hc
  constructor
  · rw [after_evaluate_iteration_other _ _ _ _ (by decide)]; exact h.caller
  · rw [after_evaluate_iteration_count _ _ _ (.inc_step .caller) rfl, h.inc_step_caller]
    simp [List.count_cons, evaluate_mini_batch_calls]
  · rw [after_evaluate_iteration_count _ _ _ (.inc_epoch .caller) rfl, h.inc_epoch_caller]
    simp [List.count_cons, evaluate_mini_batch_calls]
  · rw [after_evaluate_iteration_count _ _ _ (.inc_step .validation) rfl,
      after_evaluate_iteration_step]
    have := h.step
    simp [List.count_cons, evaluate_mini_batch_calls]
    omega
  · rw [after_evaluate_iteration_count _ _ _ (.inc_epoch .validation) rfl,
      after_evaluate_iteration_epoch]
    have := h.epoch
    simp only [List.count_cons, evaluate_mini_batch_calls, List.count_nil, reduceCtorEq,
      beq_iff_eq, if_false, Nat.zero_add, Nat.add_zero, beq_self_eq_true, if_true]
    split <;> omega

theorem spared_exit {w v : World} (h : Spared w v) (hc : v.m_execution_context = some .validation) :
    Spared w (evaluate_exit .validation v) := by
  constructor
  · rw [evaluate_exit_other .validation _ _ _ hc (by decide)]; exact h.caller
  · rw [evaluate_exit_count _ _ (.inc_step .caller) rfl, h.inc_step_caller]
    simp [List.count_cons]
  · rw [evaluate_exit_count _ _ (.inc_epoch .caller) rfl, h.inc_epoch_caller]
    simp [List.count_cons]
  · rw [evaluate_exit_count _ _ (.inc_step .validation) rfl, evaluate_exit_step]
    have := h.step
    simp [List.count_cons]; omega
  · rw [evaluate_exit_count _ _ (.inc_epoch .validation) rfl, evaluate_exit_epoch]
    have := h.epoch
    simp [List.count_cons]; omega

/-- The validation call `evaluate(evaluation_context, ..., validation, ...)` of
`train` leaves the caller's context as it was, wherever it ends. -/
theorem spared_evaluate (fuel : Nat) (term : SGDTerminationCriteria) (w : World) :
    Spared w (evaluate fuel .validation .validation term w).world := by
  cases hv : w.dc.valid .validation with
  | false =>
    rw [(evaluate_prologue fuel .validation .validation term w).1 hv]
    exact spared_prologue w
  | true =>
    rcases evaluate_outcome fuel .validation .validation term w rfl hv
      (fun v => Spared w v ∧ v.m_execution_context = some .validation)
      ⟨spared_entry w, by simp⟩
      (fun v hv' => ⟨spared_iteration hv'.1 hv'.2, by simp⟩) with
      ⟨w1, h1, h2, _⟩ | ⟨w1, h1, h2⟩
    · rw [h1]; exact spared_exit h2.1 h2.2
    · rw [h1]; exact h2.1

/-- C14: the validation pass of `train` runs `evaluate` on
`m_validation_context`, a context other than the caller's (training) context.
Wherever that call ends, the caller's context is exactly as before (epoch,
step, both mini-batch sizes, execution mode), no increment was made on it, and
the step and epoch of the validation context grew by the number of increments
the pass made on the validation context; after the whole pass the caller's
context differs from before at most in its early-stop flag. -/
theorem validation_pass_spares_training_context (fuel : Nat) (term : SGDTerminationCriteria)
    (w : World) :
    ContextRef.validation ≠ ContextRef.caller ∧
    Spared w (evaluate fuel .validation .validation term w).world ∧
    (validation_pass fuel w).world.context .caller =
      { w.context .caller with
        early_stop := ((validation_pass fuel w).world.context .caller).early_stop } := by
  refine ⟨by decide, spared_evaluate fuel term w, ?_⟩
  simp only [validation_pass]
  split
  · have h := spared_evaluate fuel (.EpochTerminationCriteria w.m_validation_epochs) w
    cases he : evaluate fuel .validation .validation
        (.EpochTerminationCriteria w.m_validation_epochs) w with
    | error e =>
      rw [he] at h
      have hc : e.2.context .caller = w.context .caller := h.caller
      simp only [error_bind, world_error]
      rw [hc]
    | ok w1 =>
      rw [he] at h
      have hc : w1.context .caller = w.context .caller := h.caller
      simp only [ok_bind, pure_eq_ok, world_ok, World.set_early_stop, log_context,
        set_context_context, if_true]
      have e1 : ({ w1 with m_validation_epochs := w1.m_validation_epochs + 1 } : World).context
          .caller = w1.context .caller := rfl
      rw [e1, hc]
  · simp

end claims_validation_context

section claims_flag_propagation

theorem early_stop_is_done (term : SGDTerminationCriteria) (c : SGDExecutionContext)
    (h : c.early_stop = true) : term.is_done c = true := by
  simp [SGDTerminationCriteria.is_done, h]

set_option maxRecDepth 100000 in
/-- C13: the block "Evaluate on validation set" of `train`, which runs after
every completed training epoch.  Without validation split it does nothing, so
`train` does not write the early-stop flag of the training context.  With a
validation split it either is cut inside the validation pass (out of fuel) or
returns with the flag of the training context equal to the flag of the
validation context; if that flag is set, the next termination check of the
training loop ends the loop, whatever the criterion.  This holds for the pass
after any epoch, not only the first: in the second run below the callback asks
for the stop in its second `on_validation_end` and training ends after the
second of 3 epochs. -/
theorem validation_flag_propagates (fuel : Nat) (w : World) :
    (w.dc.valid .validation = false → validation_pass fuel w = .ok w) ∧
    (w.dc.valid .validation = true →
      (∃ w', validation_pass fuel w = .error (.fuel_exhausted, w')) ∨
      (∃ w', validation_pass fuel w = .ok w' ∧
        (w'.context .caller).early_stop = (w'.context .validation).early_stop ∧
        ((w'.context .validation).early_stop = true →
          ∀ (term : SGDTerminationCriteria) (n : Nat) (b : Bool),
            train_loop term (n + 1) b w' = .ok w'))) ∧
    summary (train 30 (.EpochTerminationCriteria 3)
      (fresh_world [stop_on .on_validation_end] (periodic_coordinator 2 1 true))) =
      some (1, 2, 2, 1, 1) ∧
    summary (train 30 (.EpochTerminationCriteria 3)
      (fresh_world [stop_on_nth .on_validation_end 1] (periodic_coordinator 2 1 true))) =
      some (2, 4, 4, 2, 2) := by
  refine ⟨fun hv => validation_pass_invalid fuel w hv, ?_, by decide, by decide⟩
  intro hv
  simp only [validation_pass, hv, if_true]
  rcases evaluate_outcome fuel .validation .validation
      (.EpochTerminationCriteria w.m_validation_epochs) w rfl hv (fun _ => True) trivial
      (fun _ _ => trivial) with ⟨w1, h1, _, _⟩ | ⟨w1, h1, _⟩
  · right
    rw [h1]
    refine ⟨_, rfl, ?_, ?_⟩
    · simp only [World.set_early_stop, log_context, set_context_context, if_true,
        reduceCtorEq, if_false]
    · intro hs term n b
      apply train_loop_done
      apply early_stop_is_done
      simp only [World.set_early_stop, log_context, set_context_context, if_true,
        reduceCtorEq, if_false] at hs ⊢
      exact hs
  · left
    rw [h1]
    exact ⟨w1, rfl⟩

end claims_flag_propagation

section claims_evaluate_hooks

theorem evaluate_entry_callback_count (r : ContextRef) (mode : execution_mode) (w : World)
    (i : Nat) (cb : callback) (hi : w.m_callbacks[i]? = some cb) (h : Hook) :
    (evaluate_entry r mode w).trace.count (.callback i h) =
      w.trace.count (.callback i h) + (if h = evaluate_begin_hook mode then 1 else 0) := by
  simp only [evaluate_entry]
  rw [invoke_where_callback_count]
  simp [hi, List.count_cons]

theorem evaluate_exit_callback_count (mode : execution_mode) (w : World)
    (i : Nat) (cb : callback) (hi : w.m_callbacks[i]? = some cb) (h : Hook) :
    (evaluate_exit mode w).trace.count (.callback i h) =
      w.trace.count (.callback i h) + (if h = evaluate_end_hook mode then 1 else 0) := by
  simp only [evaluate_exit]
  rw [invoke_where_callback_count]
  simp [hi, List.count_cons]

theorem after_evaluate_iteration_callback_count (r : ContextRef) (mode : execution_mode)
    (w : World) (i : Nat) (cb : callback) (hi : w.m_callbacks[i]? = some cb) (h : Hook) :
    (after_evaluate_iteration r mode w).trace.count (.callback i h) =
      w.trace.count (.callback i h) +
        (if h = .on_batch_evaluate_begin then 1 else 0) +
        (if h = .on_batch_evaluate_end then 1 else 0) := by
  simp only [after_evaluate_iteration]
  split
  · simp only [World.inc_epoch, log_trace, set_context_trace, List.count_append]
    rw [after_evaluate_mini_batch_callback_count _ _ _ i cb (by simpa using hi)]
    simp [List.count_cons]
  · rw [after_evaluate_mini_batch_callback_count _ _ _ i cb (by simpa using hi)]
    simp [List.count_cons]

/-- C16: in an `evaluate` run of an accepted mode with a valid split, every
callback of the model receives the begin hook of the mode exactly once, before
the loop, and, if the run returns, the end hook of the mode exactly once;
the hooks are `on_validation_begin` / `on_validation_end` for validation and
tournament and `on_test_begin` / `on_test_end` for testing, and no hook of the
other kind is delivered.  A run that does not return was cut in the loop. -/
theorem evaluate_hooks_by_mode (fuel : Nat) (r : ContextRef) (mode : execution_mode)
    (term : SGDTerminationCriteria) (w : World) (i : Nat) (cb : callback)
    (hm : mode = .validation ∨ mode = .tournament ∨ mode = .testing)
    (hv : w.dc.valid mode = true) (hi : w.m_callbacks[i]? = some cb) :
    ∃ (w' : World) (returned : Bool),
      evaluate fuel r mode term w =
        (if returned = true then .ok w' else .error (.fuel_exhausted, w')) ∧
      evaluate_begin_hook mode = (if mode = .testing then .on_test_begin
        else .on_validation_begin) ∧
      evaluate_end_hook mode = (if mode = .testing then .on_test_end
        else .on_validation_end) ∧
      w'.trace.count (.callback i (evaluate_begin_hook mode)) =
        w.trace.count (.callback i (evaluate_begin_hook mode)) + 1 ∧
      w'.trace.count (.callback i (evaluate_end_hook mode)) =
        w.trace.count (.callback i (evaluate_end_hook mode)) +
          (if returned = true then 1 else 0) ∧
      (∀ h, (h = .on_validation_begin ∨ h = .on_validation_end ∨ h = .on_test_begin ∨
          h = .on_test_end) → h ≠ evaluate_begin_hook mode → h ≠ evaluate_end_hook mode →
        w'.trace.count (.callback i h) = w.trace.count (.callback i h)) := by
  have hm' : is_evaluation_mode mode = true := by
    rcases hm with rfl | rfl | rfl <;> rfl
  have hb : evaluate_begin_hook mode ≠ .on_batch_evaluate_begin ∧
      evaluate_begin_hook mode ≠ .on_batch_evaluate_end ∧
      evaluate_end_hook mode ≠ .on_batch_evaluate_begin ∧
      evaluate_end_hook mode ≠ .on_batch_evaluate_end ∧
      evaluate_begin_hook mode ≠ evaluate_end_hook mode := by
    rcases hm with rfl | rfl | rfl <;> simp [evaluate_begin_hook, evaluate_end_hook]
  rcases evaluate_outcome fuel r mode term w hm' hv
      (fun v => v.m_callbacks = w.m_callbacks ∧
        ∀ h, h ≠ .on_batch_evaluate_begin → h ≠ .on_batch_evaluate_end →
          v.trace.count (.callback i h) =
            w.trace.count (.callback i h) + (if h = evaluate_begin_hook mode then 1 else 0))
      ⟨by simp, fun h _ _ => evaluate_entry_callback_count r mode w i cb hi h⟩
      (fun v hv' => ⟨by simp [hv'.1], fun h h1 h2 => by
        rw [after_evaluate_iteration_callback_count r mode v i cb (by rw [hv'.1]; exact hi),
          hv'.2 h h1 h2]
        simp [h1, h2]⟩) with ⟨w1, h1, h2, _⟩ | ⟨w1, h1, h2⟩
  · have hi1 : w1.m_callbacks[i]? = some cb := by rw [h2.1]; exact hi
    refine ⟨evaluate_exit mode w1, true, by simpa using h1, ?_, ?_, ?_, ?_, ?_⟩
    · rcases hm with rfl | rfl | rfl <;> rfl
    · rcases hm with rfl | rfl | rfl <;> rfl
    · rw [evaluate_exit_callback_count mode w1 i cb hi1, h2.2 _ hb.1 hb.2.1]
      simp [hb.2.2.2.2]
    · rw [evaluate_exit_callback_count mode w1 i cb hi1, h2.2 _ hb.2.2.1 hb.2.2.2.1]
      simp [Ne.symm hb.2.2.2.2]
    · intro h hk hnb hne
      have h3 : h ≠ .on_batch_evaluate_begin ∧ h ≠ .on_batch_evaluate_end := by
        rcases hk with rfl | rfl | rfl | rfl <;> simp
      rw [evaluate_exit_callback_count mode w1 i cb hi1, h2.2 _ h3.1 h3.2]
      simp [hnb, hne]
  · refine ⟨w1, false, by simpa using h1, ?_, ?_, ?_, ?_, ?_⟩
    · rcases hm with rfl | rfl | rfl <;> rfl
    · rcases hm with rfl | rfl | rfl <;> rfl
    · rw [h2.2 _ hb.1 hb.2.1]; simp
    · rw [h2.2 _ hb.2.2.1 hb.2.2.2.1]; simp [Ne.symm hb.2.2.2.2]
    · intro h hk hnb _
      have h3 : h ≠ .on_batch_evaluate_begin ∧ h ≠ .on_batch_evaluate_end := by
        rcases hk with rfl | rfl | rfl | rfl <;> simp
      rw [h2.2 _ h3.1 h3.2]
      simp [hnb]

end claims_evaluate_hooks

section claims_evaluate_hooks_witness

/-- Witness of C16: a validation run over one epoch of 2 mini-batches with one
callback. -/
theorem evaluate_hooks_by_mode_witness :
    ∃ (w' : World) (returned : Bool),
      evaluate 5 .caller .validation (.EpochTerminationCriteria 1)
          (fresh_world [passive_callback 1] (periodic_coordinator 3 2 true)) =
        (if returned = true then .ok w' else .error (.fuel_exhausted, w')) ∧
      evaluate_begin_hook .validation = (if execution_mode.validation = .testing then
        .on_test_begin else .on_validation_begin) ∧
      evaluate_end_hook .validation = (if execution_mode.validation = .testing then
        .on_test_end else .on_validation_end) ∧
      w'.trace.count (.callback 0 (evaluate_begin_hook .validation)) =
        (fresh_world [passive_callback 1] (periodic_coordinator 3 2 true)).trace.count
          (.callback 0 (evaluate_begin_hook .validation)) + 1 ∧
      w'.trace.count (.callback 0 (evaluate_end_hook .validation)) =
        (fresh_world [passive_callback 1] (periodic_coordinator 3 2 true)).trace.count
          (.callback 0 (evaluate_end_hook .validation)) +
          (if returned = true then 1 else 0) ∧
      (∀ h, (h = .on_validation_begin ∨ h = .on_validation_end ∨ h = .on_test_begin ∨
          h = .on_test_end) → h ≠ evaluate_begin_hook .validation →
        h ≠ evaluate_end_hook .validation →
        w'.trace.count (.callback 0 h) =
          (fresh_world [passive_callback 1] (periodic_coordinator 3 2 true)).trace.count
            (.callback 0 h)) :=
  evaluate_hooks_by_mode 5 .caller .validation (.EpochTerminationCriteria 1)
    (fresh_world [passive_callback 1] (periodic_coordinator 3 2 true)) 0 (passive_callback 1)
    (Or.inl rfl) rfl rfl

end claims_evaluate_hooks_witness

section claims_resume

theorem completed_add (C : Nat → Bool) (a b : Nat) :
    completed C (a + b) = completed C a + completed (fun n => C (a + n)) b := by
  induction b with
  | zero => simp [completed]
  | succ b ih =>
    rw [← Nat.add_assoc, completed, ih, completed]
    simp [Nat.add_assoc]

/-- What an undisturbed batch-bounded run of `train` leaves behind: the world
`w1` reached from `w` after `N` further mini-batches. -/
theorem train_batches (w : World) (v N fuel : Nat) (hn : never_stops w.m_callbacks)
    (hes : (w.context .caller).early_stop = false)
    (hr : w.dc.valid .validation = true → ValidationReady v w) (hfuel : N + v + 2 ≤ fuel) :
    ∃ w1, train fuel (.BatchTerminationCriteria ((w.context .caller).step + N)) w =
        .ok (train_exit w1) ∧
      Progress (train_entry w) v N (completed (upcoming w) N) (begun (upcoming w) N)
        (validation_passes w (completed (upcoming w) N)) w1 := by
  have hctx := train_entry_never_stops w hn
  exact train_undisturbed _ w v N fuel hn hes hr
    (by
      intro s hs
      apply batch_criterion_not_done
      · simp only [context_after, hctx]
        show (w.context .caller).step + s < (w.context .caller).step + N
        omega
      · simp only [context_after, hctx]; exact hes)
    (by
      apply batch_criterion_done
      simp only [context_after, hctx]
      exact Nat.le_refl _)
    hfuel

end claims_resume

section claims_resume_run

theorem train_batches_result (w : World) (v N fuel : Nat) (hn : never_stops w.m_callbacks)
    (hes : (w.context .caller).early_stop = false)
    (hr : w.dc.valid .validation = true → ValidationReady v w) (hfuel : N + v + 2 ≤ fuel) :
    ∃ R, train fuel (.BatchTerminationCriteria ((w.context .caller).step + N)) w = .ok R ∧
      BatchRun w v N R := by
  obtain ⟨w1, hrun, hw1⟩ := train_batches w v N fuel hn hes hr hfuel
  have hn1 : never_stops w1.m_callbacks := by rw [hw1.callbacks]; simpa using hn
  have hctx := train_entry_never_stops w hn
  refine ⟨_, hrun, ?_⟩
  constructor
  · simp [hw1.callbacks]
  · simp [hw1.valid]
  · simp [hw1.complete]
  · simp [hw1.fetched_training]
  · simp [hw1.fetched_validation]
  · rw [train_exit_never_stops w1 hn1, hw1.caller, hctx]
  · rw [train_exit_never_stops w1 hn1, hw1.validation, hctx]
  · simp [hw1.validation_epochs]
  · have h := hw1.training_steps
    simp only [training_steps] at h ⊢
    rw [train_exit_count _ (.timer_scope .train_minibatch) rfl, h,
      train_entry_count _ (.timer_scope .train_minibatch) rfl]
    simp [List.count_cons]

/-- C17: resuming at a mini-batch boundary.  With callbacks that never set the
early-stop flag, a run of `train` under `BatchTermination(n)`, `n` being `a`
mini-batches ahead, returns in a world `R1`; a second call under
`BatchTermination(M)`, `M` being `b` further mini-batches ahead, made in any
world that carries the context, the callbacks, the data coordinator and the
validation state of `R1`, runs exactly the `b` remaining mini-batches and ends
with the same context (epoch and step included) and the same position of the
data coordinator as the uninterrupted run under `BatchTermination(M)`. -/
theorem resume_at_mini_batch_boundary (w : World) (a b v fuel : Nat)
    (hcb : never_stops w.m_callbacks) (hflag : w.caller_context.early_stop = false)
    (hval : w.dc.valid .validation = true → ValidationReady v w)
    (hfuel : a + b + v + 2 ≤ fuel) :
    ∃ R1 R3,
      train fuel (.BatchTerminationCriteria (w.caller_context.step + a)) w = .ok R1 ∧
      R1.caller_context.step = w.caller_context.step + a ∧
      train fuel (.BatchTerminationCriteria (w.caller_context.step + a + b)) w = .ok R3 ∧
      training_steps R3.trace = training_steps w.trace + (a + b) ∧
      ∀ w2 : World, w2.caller_context = R1.caller_context → w2.m_callbacks = R1.m_callbacks →
        w2.dc = R1.dc → w2.m_validation_context = R1.m_validation_context →
        w2.m_validation_epochs = R1.m_validation_epochs →
        ∃ R2, train fuel (.BatchTerminationCriteria (w.caller_context.step + a + b)) w2 =
            .ok R2 ∧
          training_steps R2.trace = training_steps w2.trace + b ∧
          R2.caller_context = R3.caller_context ∧
          R2.dc.fetched .training = R3.dc.fetched .training := by
  obtain ⟨R1, hrun1, h1⟩ := train_batches_result w v a fuel hcb hflag hval (by omega)
  obtain ⟨R3, hrun3, h3⟩ := train_batches_result w v (a + b) fuel hcb hflag hval (by omega)
  have hstep1 : R1.caller_context.step = w.caller_context.step + a := by
    have := h1.caller
    simp only [context_caller] at this
    rw [this]
  refine ⟨R1, R3, hrun1, hstep1, by rw [Nat.add_assoc]; exact hrun3, h3.training_steps, ?_⟩
  intro w2 hc2 hcb2 hdc2 hvc2 hve2
  have hn2 : never_stops w2.m_callbacks := by rw [hcb2, h1.callbacks]; exact hcb
  have hcaller2 : w2.context .caller = R1.context .caller := hc2
  have hes2 : (w2.context .caller).early_stop = false := by
    rw [hcaller2, h1.caller]; exact hflag
  have hup : upcoming w2 = fun n => upcoming w (a + n) := by
    funext n
    simp only [upcoming, hdc2, h1.complete, h1.fetched_training, Nat.add_assoc]
  have hr2 : w2.dc.valid .validation = true → ValidationReady v w2 := by
    intro hv2
    have hv : w.dc.valid .validation = true := by
      rw [hdc2, h1.valid] at hv2; exact hv2
    have hr := hval hv
    have hval2 : w2.context .validation = R1.context .validation := hvc2
    constructor
    · exact hr.positive
    · rw [hve2, h1.validation_epochs, hval2, h1.validation, hr.bound]
      simp only []
      omega
    · rw [hval2, h1.validation]; exact hr.early_stop
    · intro n
      rw [hdc2, h1.complete, h1.fetched_validation,
        show w.dc.fetched .validation + validation_passes w (completed (upcoming w) a) * v +
          (n + 1) = w.dc.fetched .validation +
            (validation_passes w (completed (upcoming w) a) * v + n + 1) by omega,
        hr.periodic, Nat.add_assoc, Nat.mul_add_mod']
  obtain ⟨R2, hrun2, h2⟩ := train_batches_result w2 v b fuel hn2 hes2 hr2 (by omega)
  have hs2 : (w2.context .caller).step + b = w.caller_context.step + a + b := by
    rw [hcaller2, h1.caller]; rfl
  rw [hs2] at hrun2
  refine ⟨R2, hrun2, h2.training_steps, ?_, ?_⟩
  · have e2 := h2.caller
    have e3 := h3.caller
    simp only [context_caller] at e2 e3
    rw [e2, e3]
    have e1 : w2.caller_context = _ := hc2.trans h1.caller
    rw [e1, hup, completed_add]
    simp only [context_caller, SGDExecutionContext.mk.injEq, true_and, and_true]
    constructor <;> omega
  · rw [h2.fetched_training, h3.fetched_training, hdc2, h1.fetched_training]
    omega

end claims_resume_run

/-! ## Peer exchange of weights -/

section claims_resume_witness

/-- Witness of C17: epochs of 3 mini-batches, validation epochs of 2, a first
run of 2 mini-batches and a resumed run of 3 more. -/
theorem resume_at_mini_batch_boundary_witness :
    ∃ R1 R3,
      train 9 (.BatchTerminationCriteria
        ((fresh_world [passive_callback 1] (periodic_coordinator 3 2 true)).caller_context.step
          + 2)) (fresh_world [passive_callback 1] (periodic_coordinator 3 2 true)) = .ok R1 ∧
      R1.caller_context.step =
        (fresh_world [passive_callback 1] (periodic_coordinator 3 2 true)).caller_context.step
          + 2 ∧
      train 9 (.BatchTerminationCriteria
        ((fresh_world [passive_callback 1] (periodic_coordinator 3 2 true)).caller_context.step
          + 2 + 3)) (fresh_world [passive_callback 1] (periodic_coordinator 3 2 true)) =
        .ok R3 ∧
      training_steps R3.trace =
        training_steps (fresh_world [passive_callback 1]
          (periodic_coordinator 3 2 true)).trace + (2 + 3) ∧
      ∀ w2 : World, w2.caller_context = R1.caller_context → w2.m_callbacks = R1.m_callbacks →
        w2.dc = R1.dc → w2.m_validation_context = R1.m_validation_context →
        w2.m_validation_epochs = R1.m_validation_epochs →
        ∃ R2, train 9 (.BatchTerminationCriteria
            ((fresh_world [passive_callback 1]
              (periodic_coordinator 3 2 true)).caller_context.step + 2 + 3)) w2 = .ok R2 ∧
          training_steps R2.trace = training_steps w2.trace + 3 ∧
          R2.caller_context = R3.caller_context ∧
          R2.dc.fetched .training = R3.dc.fetched .training :=
  resume_at_mini_batch_boundary (fresh_world [passive_callback 1] (periodic_coordinator 3 2 true))
    2 3 2 9 (never_stops_passive 1) rfl
    (fun _ => ⟨by decide, rfl, rfl, fun n => by simp [fresh_world, periodic_coordinator]⟩)
    (by decide)

end claims_resume_witness

section claims_partner_model

theorem save_weights_lookup_skip (names : List String) (n : String) (l : weights_list) :
    ∀ acc : List (String × weights), (∀ w ∈ l, w.name = n → w.name ∈ names) →
      (save_weights names l acc).lookup n = acc.lookup n := by
  induction l with
  | nil => intro acc _; rfl
  | cons x rest ih =>
    intro acc h
    have hrest : ∀ w ∈ rest, w.name = n → w.name ∈ names :=
      fun w hw => h w (List.mem_cons_of_mem _ hw)
    simp only [save_weights]
    split
    · exact ih acc hrest
    · next hx =>
      rw [ih _ hrest]
      have hne : ¬ (n = x.name) := by
        intro hc
        exact hx (h x (List.mem_cons_self _ _) hc.symm)
      have hb : (n == x.name) = false := by simpa using hne
      rw [List.lookup_cons, hb]

theorem save_weights_lookup_saved (names : List String) (l : weights_list) :
    ∀ (acc : List (String × weights)) (w : weights), (l.map weights.name).Nodup → w ∈ l →
      w.name ∉ names → (save_weights names l acc).lookup w.name = some w := by
  induction l with
  | nil => intro acc w _ hw; simp at hw
  | cons x rest ih =>
    intro acc w hnd hw hn
    rw [List.map_cons, List.nodup_cons] at hnd
    simp only [save_weights]
    rcases List.mem_cons.mp hw with rfl | hw'
    · simp only [hn, if_false]
      rw [save_weights_lookup_skip names w.name rest _ (fun y hy hyn => by
        exfalso
        apply hnd.1
        rw [← hyn]
        exact List.mem_map_of_mem _ hy)]
      simp [List.lookup_cons]
    · split
      · exact ih acc w hnd.2 hw' hn
      · exact ih _ w hnd.2 hw' hn

theorem save_weights_lookup_origin (names : List String) (l : weights_list) :
    ∀ (acc : List (String × weights)) (n : String) (s : weights),
      (save_weights names l acc).lookup n = some s →
      (s ∈ l ∧ s.name = n) ∨ acc.lookup n = some s := by
  induction l with
  | nil => intro acc n s h; exact Or.inr h
  | cons x rest ih =>
    intro acc n s h
    simp only [save_weights] at h
    split at h
    · rcases ih acc n s h with ⟨h1, h2⟩ | h1
      · exact Or.inl ⟨List.mem_cons_of_mem _ h1, h2⟩
      · exact Or.inr h1
    · rcases ih _ n s h with ⟨h1, h2⟩ | h1
      · exact Or.inl ⟨List.mem_cons_of_mem _ h1, h2⟩
      · by_cases hn : n = x.name
        · subst hn
          simp [List.lookup_cons] at h1
          subst h1
          exact Or.inl ⟨List.mem_cons_self _ _, rfl⟩
        · have hb : (n == x.name) = false := by simpa using hn
          rw [List.lookup_cons, hb] at h1
          exact Or.inr h1

/-- C18: `get_partner_model` leaves the model `m` as it is and exchanges a
copy.  With a non-empty set of weights names, every weights object of the
returned model whose name is not in the set is the object that `m` has under
that name, whatever the exchange did, so that only weights named in the set
can differ from `m`, and a received object whose name is in the set is kept;
with an empty set the returned model is what the exchange produced.  The
names of the weights of `m` are pairwise distinct. -/
theorem partner_model_restores_unnamed_weights (weights_names : List String)
    (exchange : weights_list → weights_list) (m : weights_list)
    (hnames : (m.map weights.name).Nodup) :
    (get_partner_model weights_names exchange m).1 = m ∧
    (weights_names ≠ [] →
      (∀ w' ∈ (get_partner_model weights_names exchange m).2, w'.name ∉ weights_names →
        ∀ w ∈ m, w.name = w'.name → w' = w) ∧
      (∀ x ∈ exchange (copy_model m), x.name ∈ weights_names →
        x ∈ (get_partner_model weights_names exchange m).2)) ∧
    (weights_names = [] →
      (get_partner_model weights_names exchange m).2 = exchange (copy_model m)) := by
  refine ⟨rfl, ?_, ?_⟩
  · intro hne
    simp only [get_partner_model, hne, ne_eq, not_false_eq_true, if_true, copy_model,
      restore_model_weights, List.mem_map]
    constructor
    · rintro w' ⟨x, hx, rfl⟩ hw' w hw hname
      cases hl : (save_weights weights_names m []).lookup x.name with
      | none =>
        simp only [hl] at hw' hname ⊢
        have := save_weights_lookup_saved weights_names m [] w hnames hw (by rw [hname]; exact hw')
        rw [hname, hl] at this
        exact Option.noConfusion this
      | some s =>
        simp only [hl] at hw' hname ⊢
        rcases save_weights_lookup_origin weights_names m [] _ _ hl with ⟨hs, _⟩ | hc
        · have := save_weights_lookup_saved weights_names m [] w hnames hw
            (by rw [hname]; exact hw')
          have h2 := save_weights_lookup_saved weights_names m [] s hnames hs hw'
          rw [hname, h2] at this
          exact Option.some.inj this
        · simp at hc
    · intro x hx hxn
      refine ⟨x, hx, ?_⟩
      rw [save_weights_lookup_skip weights_names x.name m [] (fun w _ hw => by rw [hw]; exact hxn)]
      rfl
  · intro he
    simp only [get_partner_model, he, ne_eq, not_true_eq_false, if_false, copy_model,
      restore_model_weights, List.lookup_nil]
    exact List.map_id' _

/-- Witness of C18: three weights, the set names the second; the exchange
brings new values for all three and the first and third are restored. -/
theorem partner_model_restores_unnamed_weights_witness :
    (get_partner_model ["b"] (fun l => l.map fun w => { w with value := w.value + 100 })
      [⟨"a", 1⟩, ⟨"b", 2⟩, ⟨"c", 3⟩]).2 = [⟨"a", 1⟩, ⟨"b", 102⟩, ⟨"c", 3⟩] ∧
    (get_partner_model [] (fun l => l.map fun w => { w with value := w.value + 100 })
      [⟨"a", 1⟩, ⟨"b", 2⟩, ⟨"c", 3⟩]).2 = [⟨"a", 101⟩, ⟨"b", 102⟩, ⟨"c", 103⟩] ∧
    (get_partner_model ["b"] (fun l => l.map fun w => { w with value := w.value + 100 })
      [⟨"a", 1⟩, ⟨"b", 2⟩, ⟨"c", 3⟩]).1 = [⟨"a", 1⟩, ⟨"b", 2⟩, ⟨"c", 3⟩] :=
  ⟨by decide, by decide,
   (partner_model_restores_unnamed_weights ["b"]
    (fun l => l.map fun w => { w with value := w.value + 100 })
    [⟨"a", 1⟩, ⟨"b", 2⟩, ⟨"c", 3⟩] (by decide)).1⟩

end claims_partner_model

/-! ## The scale operator -/

section claims_scale

/-- C19: for every scale operator with constant `c`, every layout and every
input, `fp_compute` makes every entry of the output `c` times the entry of the
input and `bp_compute` makes every entry of the gradient with respect to the
input `c` times the entry of the gradient with respect to the output, whatever
the two buffers held before; a default-constructed operator has constant 0;
with `c = 13` an input filled with 2 gives an output filled with 26. -/
theorem scale_operator_action {α : Type} [Mul α] {height width : Nat} (op : ScaleOperator α)
    (input output output' grad_wrt_output grad_wrt_input grad_wrt_input' :
      dist_matrix α height width) (i : Fin height) (j : Fin width) :
    (op.fp_compute input output).entry i j = op.constant * input.entry i j ∧
    (op.fp_compute input output).entry = (op.fp_compute input output').entry ∧
    (op.bp_compute input grad_wrt_output grad_wrt_input).entry i j =
      op.constant * grad_wrt_output.entry i j ∧
    (op.bp_compute input grad_wrt_output grad_wrt_input).entry =
      (op.bp_compute input grad_wrt_output grad_wrt_input').entry ∧
    (ScaleOperator.default_constructed : ScaleOperator Int).constant = 0 ∧
    (∀ (layout : data_layout) (a : Fin 13) (b : Fin 17),
      ((ScaleOperator.mk (13 : Int)).fp_compute (dist_matrix.fill layout 13 17 2)
        (dist_matrix.fill layout 13 17 (-32))).entry a b = 26) :=
  ⟨rfl, rfl, rfl, rfl, rfl, fun _ _ _ => rfl⟩

end claims_scale


/-! ## The events of one mini-batch, in their order -/

section mini_batch_traces

/-- What `train_mini_batch` appends to the trace. -/
theorem after_train_mini_batch_trace (r : ContextRef) (w : World) :
    ∃ begin_cbs end_cbs : List Event,
      (after_train_mini_batch r w).trace = w.trace ++
        [.model_reset_mode r .training, .dc_reset_mode r,
         .timer_scope .batch_begin_callbacks] ++ begin_cbs ++
        [.dc_fetch_data .training, .model_clear_gradients, .timer_scope .forward_prop,
         .model_forward_prop .training,
         .dc_epoch_complete .training (w.dc.complete .training (w.dc.fetched .training + 1)),
         .objective_start_evaluation .training (w.context r).current_mini_batch_size,
         .objective_differentiate, .timer_scope .back_prop, .model_backward_prop,
         .objective_compute_weight_regularization,
         .objective_finish_evaluation .training (w.context r).current_mini_batch_size,
         .model_evaluate_metrics .training (w.context r).current_mini_batch_size,
         .model_update_weights, .model_update_layers, .inc_step r,
         .timer_scope .batch_end_callbacks] ++ end_cbs ∧
      (∀ e ∈ begin_cbs, (∃ i, e = .callback i .on_batch_begin) ∨
        ∃ c, e = .set_early_stop c true) ∧
      (∀ e ∈ end_cbs, (∃ i, e = .callback i .on_batch_end) ∨
        ∃ c, e = .set_early_stop c true) := by
  obtain ⟨e1, h1, a1, _⟩ := invoke_where_events (interval_gate (w.context r).step)
    .on_batch_begin w.m_callbacks 0
    (((w.model_reset_mode r .training).dc_reset_mode r).log
      (.timer_scope .batch_begin_callbacks))
  generalize hw1 : invoke_where (interval_gate (w.context r).step) .on_batch_begin 0
    w.m_callbacks (((w.model_reset_mode r .training).dc_reset_mode r).log
      (.timer_scope .batch_begin_callbacks)) = w1 at h1
  obtain ⟨e2, h2, a2, _⟩ := invoke_where_events (interval_gate ((w.context r).step + 1))
    .on_batch_end w.m_callbacks 0
    ((train_mini_batch_core r w1).log (.timer_scope .batch_end_callbacks))
  refine ⟨e1, e2, ?_, a1, a2⟩
  have hw : after_train_mini_batch r w =
      invoke_where (interval_gate ((w.context r).step + 1)) .on_batch_end 0 w.m_callbacks
        ((train_mini_batch_core r w1).log (.timer_scope .batch_end_callbacks)) := by
    rw [← hw1]; simp [after_train_mini_batch]
  have hsize : (w1.context r).current_mini_batch_size =
      (w.context r).current_mini_batch_size := by rw [← hw1]; simp
  have hfin : w1.dc.complete .training (w1.dc.fetched .training + 1) =
      w.dc.complete .training (w.dc.fetched .training + 1) := by rw [← hw1]; simp
  rw [hw, h2]
  simp only [log_trace, train_mini_batch_core, World.inc_step, World.dc_epoch_complete,
    World.epoch_complete, set_context_trace, dc_fetch_data_trace, log_context,
    dc_fetch_data_context, log_dc, dc_fetch_data_complete, dc_fetch_data_fetched, if_true, h1,
    hsize, hfin, model_reset_mode_trace, dc_reset_mode_trace, List.append_assoc,
    List.cons_append, List.nil_append, List.singleton_append]

/-- What `evaluate_mini_batch` appends to the trace in an accepted mode. -/
theorem after_evaluate_mini_batch_trace (r : ContextRef) (mode : execution_mode) (w : World) :
    ∃ begin_cbs end_cbs : List Event,
      (after_evaluate_mini_batch r mode w).trace = w.trace ++
        [.model_reset_mode r mode, .dc_reset_mode r,
         .timer_scope .batch_begin_callbacks] ++ begin_cbs ++
        [.dc_fetch_data mode, .model_forward_prop mode,
         .dc_epoch_complete mode (w.dc.complete mode (w.dc.fetched mode + 1)),
         .objective_start_evaluation mode (w.context r).current_mini_batch_size,
         .objective_finish_evaluation mode (w.context r).current_mini_batch_size,
         .model_evaluate_metrics mode (w.context r).current_mini_batch_size,
         .model_update_layers, .inc_step r,
         .timer_scope .batch_end_callbacks] ++ end_cbs ∧
      (∀ e ∈ begin_cbs, (∃ i, e = .callback i .on_batch_evaluate_begin) ∨
        ∃ c, e = .set_early_stop c true) ∧
      (∀ e ∈ end_cbs, (∃ i, e = .callback i .on_batch_evaluate_end) ∨
        ∃ c, e = .set_early_stop c true) := by
  obtain ⟨e1, h1, a1, _⟩ := invoke_where_events (fun _ => true)
    .on_batch_evaluate_begin w.m_callbacks 0
    (((w.model_reset_mode r mode).dc_reset_mode r).log (.timer_scope .batch_begin_callbacks))
  generalize hw1 : invoke_where (fun _ => true) .on_batch_evaluate_begin 0
    w.m_callbacks (((w.model_reset_mode r mode).dc_reset_mode r).log
      (.timer_scope .batch_begin_callbacks)) = w1 at h1
  obtain ⟨e2, h2, a2, _⟩ := invoke_where_events (fun _ => true)
    .on_batch_evaluate_end w.m_callbacks 0
    ((evaluate_mini_batch_core r mode w1).log (.timer_scope .batch_end_callbacks))
  refine ⟨e1, e2, ?_, a1, a2⟩
  have hw : after_evaluate_mini_batch r mode w =
      invoke_where (fun _ => true) .on_batch_evaluate_end 0 w.m_callbacks
        ((evaluate_mini_batch_core r mode w1).log (.timer_scope .batch_end_callbacks)) := by
    rw [← hw1]; simp [after_evaluate_mini_batch]
  have hsize : (w1.context r).current_mini_batch_size =
      (w.context r).current_mini_batch_size := by rw [← hw1]; simp
  have hfin : w1.dc.complete mode (w1.dc.fetched mode + 1) =
      w.dc.complete mode (w.dc.fetched mode + 1) := by rw [← hw1]; simp
  rw [hw, h2]
  simp only [log_trace, evaluate_mini_batch_core, World.inc_step, World.dc_epoch_complete,
    World.epoch_complete, set_context_trace, dc_fetch_data_trace, log_context,
    dc_fetch_data_context, log_dc, dc_fetch_data_complete, dc_fetch_data_fetched, if_true, h1,
    hsize, hfin, model_reset_mode_trace, dc_reset_mode_trace, List.append_assoc,
    List.cons_append, List.nil_append, List.singleton_append]

end mini_batch_traces

section claims_latched_flag

/-- C21: every call of `train_mini_batch` returns with the step counter of the
context increased by exactly 1 and its epoch counter unchanged; among the
events it appends there is exactly one query `dc.epoch_complete(training)`, it
directly follows `model.forward_prop` and precedes `model.backward_prop`, and
the returned boolean is the answer recorded at that query, whatever the
callbacks of the later batch-end dispatch do.  The same holds for
`evaluate_mini_batch` in each of the modes validation, tournament and testing,
where the query lies between `model.forward_prop` and the objective's
`start_evaluation`.  The callbacks of the model can ask for an early stop and
cannot write the counters. -/
theorem mini_batch_step_and_latched_flag (r : ContextRef) (w : World) :
    (∃ (finished : Bool) (w' : World) (before later : List Event),
      train_mini_batch r w = .ok (finished, w') ∧
      (w'.context r).step = (w.context r).step + 1 ∧
      (w'.context r).epoch = (w.context r).epoch ∧
      w'.trace = w.trace ++ before ++
        [.model_forward_prop .training, .dc_epoch_complete .training finished] ++ later ∧
      (∀ e ∈ before ++ later, ∀ m b, e ≠ .dc_epoch_complete m b) ∧
      Event.model_backward_prop ∉ before ∧ Event.model_backward_prop ∈ later ∧
      finished = (w.dc_fetch_data .training).epoch_complete .training) ∧
    (∀ mode, is_evaluation_mode mode = true →
      ∃ (finished : Bool) (w' : World) (before later : List Event),
        evaluate_mini_batch r mode w = .ok (finished, w') ∧
        (w'.context r).step = (w.context r).step + 1 ∧
        (w'.context r).epoch = (w.context r).epoch ∧
        w'.trace = w.trace ++ before ++
          [.model_forward_prop mode, .dc_epoch_complete mode finished] ++ later ∧
        (∀ e ∈ before ++ later, ∀ m b, e ≠ .dc_epoch_complete m b) ∧
        later.head? =
          some (.objective_start_evaluation mode (w.context r).current_mini_batch_size) ∧
        finished = (w.dc_fetch_data mode).epoch_complete mode) := by
  constructor
  · obtain ⟨e1, e2, ht, a1, a2⟩ := after_train_mini_batch_trace r w
    refine ⟨_, _, [.model_reset_mode r .training, .dc_reset_mode r,
        .timer_scope .batch_begin_callbacks] ++ e1 ++
        [.dc_fetch_data .training, .model_clear_gradients, .timer_scope .forward_prop],
      [.objective_start_evaluation .training (w.context r).current_mini_batch_size,
        .objective_differentiate, .timer_scope .back_prop, .model_backward_prop,
        .objective_compute_weight_regularization,
        .objective_finish_evaluation .training (w.context r).current_mini_batch_size,
        .model_evaluate_metrics .training (w.context r).current_mini_batch_size,
        .model_update_weights, .model_update_layers, .inc_step r,
        .timer_scope .batch_end_callbacks] ++ e2,
      train_mini_batch_eq r w, by simp, by simp, ?_, ?_, ?_, ?_, ?_⟩
    · rw [ht]; simp
    · intro e he m b hc
      subst hc
      simp only [List.mem_append, List.mem_cons, List.mem_singleton, reduceCtorEq,
        List.not_mem_nil, or_false, false_or] at he
      rcases he with he | he
      · rcases a1 _ he with ⟨i, hi⟩ | ⟨c, hc⟩
        · exact Event.noConfusion hi
        · exact Event.noConfusion hc
      · rcases a2 _ he with ⟨i, hi⟩ | ⟨c, hc⟩
        · exact Event.noConfusion hi
        · exact Event.noConfusion hc
    · intro he
      simp only [List.mem_append, List.mem_cons, List.mem_singleton, reduceCtorEq,
        List.not_mem_nil, or_false, false_or] at he
      rcases a1 _ he with ⟨i, hi⟩ | ⟨c, hc⟩
      · exact Event.noConfusion hi
      · exact Event.noConfusion hc
    · simp
    · simp [World.epoch_complete]
  · intro mode hm
    obtain ⟨e1, e2, ht, a1, a2⟩ := after_evaluate_mini_batch_trace r mode w
    refine ⟨_, _, [.model_reset_mode r mode, .dc_reset_mode r,
        .timer_scope .batch_begin_callbacks] ++ e1 ++ [.dc_fetch_data mode],
      [.objective_start_evaluation mode (w.context r).current_mini_batch_size,
        .objective_finish_evaluation mode (w.context r).current_mini_batch_size,
        .model_evaluate_metrics mode (w.context r).current_mini_batch_size,
        .model_update_layers, .inc_step r, .timer_scope .batch_end_callbacks] ++ e2,
      evaluate_mini_batch_eq r mode w hm, by simp, by simp, ?_, ?_, ?_, ?_⟩
    · rw [ht]; simp
    · intro e he m b hc
      subst hc
      simp only [List.mem_append, List.mem_cons, List.mem_singleton, reduceCtorEq,
        List.not_mem_nil, or_false, false_or] at he
      rcases he with he | he
      · rcases a1 _ he with ⟨i, hi⟩ | ⟨c, hc⟩
        · exact Event.noConfusion hi
        · exact Event.noConfusion hc
      · rcases a2 _ he with ⟨i, hi⟩ | ⟨c, hc⟩
        · exact Event.noConfusion hi
        · exact Event.noConfusion hc
    · simp
    · simp [World.epoch_complete]

end claims_latched_flag


/-! ## The events that `evaluate` appends -/

section appends

variable {p : Event → Bool}

theorem appends_refl (w : World) : Appends p w w := ⟨[], by simp, by simp⟩

theorem appends_trans {w1 w2 w3 : World} (h1 : Appends p w1 w2) (h2 : Appends p w2 w3) :
    Appends p w1 w3 := by
  obtain ⟨e1, t1, a1⟩ := h1
  obtain ⟨e2, t2, a2⟩ := h2
  refine ⟨e1 ++ e2, by rw [t2, t1, List.append_assoc], ?_⟩
  intro e he
  rcases List.mem_append.mp he with h | h
  · exact a1 e h
  · exact a2 e h

theorem appends_mono {q : Event → Bool} {w w' : World} (h : Appends p w w')
    (hpq : ∀ e, p e = true → q e = true) : Appends q w w' := by
  obtain ⟨evs, t, a⟩ := h
  exact ⟨evs, t, fun e he => hpq e (a e he)⟩

theorem appends_log (w : World) (e : Event) (he : p e = true) : Appends p w (w.log e) :=
  ⟨[e], rfl, by simpa using he⟩

theorem appends_model_reset_mode (w : World) (c : ContextRef) (m : execution_mode)
    (he : p (.model_reset_mode c m) = true) : Appends p w (w.model_reset_mode c m) :=
  ⟨[.model_reset_mode c m], rfl, by simpa using he⟩

theorem appends_dc_reset_mode (w : World) (c : ContextRef)
    (he : p (.dc_reset_mode c) = true) : Appends p w (w.dc_reset_mode c) :=
  ⟨[.dc_reset_mode c], rfl, by simpa using he⟩

theorem appends_inc_epoch (w : World) (c : ContextRef)
    (he : p (.inc_epoch c) = true) : Appends p w (w.inc_epoch c) :=
  ⟨[.inc_epoch c], by simp [World.inc_epoch], by simpa using he⟩

theorem appends_of_callback_activity (h : Hook) {evs : List Event} {w w' : World}
    (ht : w'.trace = w.trace ++ evs)
    (ha : ∀ e ∈ evs, (∃ i, e = .callback i h) ∨ ∃ c, e = .set_early_stop c true)
    (hc : ∀ i, p (.callback i h) = true) (hs : ∀ c, p (.set_early_stop c true) = true) :
    Appends p w w' := by
  refine ⟨evs, ht, fun e he => ?_⟩
  rcases ha e he with ⟨i, rfl⟩ | ⟨c, rfl⟩
  · exact hc i
  · exact hs c

theorem appends_invoke_where (g : callback → Bool) (h : Hook) (i : Nat) (cbs : List callback)
    (w : World) (hc : ∀ i, p (.callback i h) = true)
    (hs : ∀ c, p (.set_early_stop c true) = true) :
    Appends p w (invoke_where g h i cbs w) := by
  obtain ⟨evs, ht, ha, _⟩ := invoke_where_events g h cbs i w
  exact appends_of_callback_activity h ht ha hc hs

theorem appends_invoke (w : World) (i : Nat) (cb : callback) (h : Hook)
    (hc : ∀ i, p (.callback i h) = true) (hs : ∀ c, p (.set_early_stop c true) = true) :
    Appends p w (w.invoke i cb h) := by
  have := appends_invoke_where (fun _ => true) h i [cb] w hc hs
  simpa [invoke_where] using this

theorem appends_for_each (body : Nat → callback → World → Run World)
    (hb : ∀ i cb w, Appends p w (body i cb w).world) (i : Nat) (cbs : List callback)
    (w : World) : Appends p w (for_each_callback body i cbs w).world := by
  induction cbs generalizing i w with
  | nil => exact appends_refl w
  | cons cb rest ih =>
    simp only [for_each_callback]
    have h1 := hb i cb w
    cases hbody : body i cb w with
    | error e => rw [hbody] at h1; simpa using h1
    | ok w1 =>
      rw [hbody] at h1
      simp only [ok_bind]
      exact appends_trans h1 (ih (i + 1) w1)

end appends

section appends_evaluate

variable {r : ContextRef} {mode : execution_mode}

theorem of_evaluate_early_stop (c : ContextRef) :
    Event.of_evaluate r mode (.set_early_stop c true) = true := rfl

theorem appends_batch_begin_body (c : ContextRef) (i : Nat) (cb : callback) (w : World) :
    Appends (Event.of_evaluate r mode) w (batch_begin_body mode c i cb w).world := by
  cases mode <;> simp only [batch_begin_body] <;>
    first
    | exact appends_invoke w i cb _ (fun _ => rfl) (fun _ => rfl)
    | exact appends_refl w
    | (split
       · exact appends_invoke w i cb _ (fun _ => rfl) (fun _ => rfl)
       · exact appends_refl w)

theorem appends_batch_end_body (c : ContextRef) (i : Nat) (cb : callback) (w : World) :
    Appends (Event.of_evaluate r mode) w (batch_end_body mode c i cb w).world := by
  cases mode <;> simp only [batch_end_body] <;>
    first
    | exact appends_invoke w i cb _ (fun _ => rfl) (fun _ => rfl)
    | exact appends_refl w
    | (split
       · exact appends_invoke w i cb _ (fun _ => rfl) (fun _ => rfl)
       · exact appends_refl w)

theorem appends_evaluate_begin_body (i : Nat) (cb : callback) (w : World) :
    Appends (Event.of_evaluate r mode) w (evaluate_begin_body mode i cb w).world := by
  cases mode <;> simp only [evaluate_begin_body] <;>
    first
    | exact appends_invoke w i cb _ (fun _ => rfl) (fun _ => rfl)
    | exact appends_refl w

theorem appends_evaluate_end_body (i : Nat) (cb : callback) (w : World) :
    Appends (Event.of_evaluate r mode) w (evaluate_end_body mode i cb w).world := by
  cases mode <;> simp only [evaluate_end_body] <;>
    first
    | exact appends_invoke w i cb _ (fun _ => rfl) (fun _ => rfl)
    | exact appends_refl w

theorem appends_do_batch_begin_cbs (w : World) :
    Appends (Event.of_evaluate r mode) w (do_batch_begin_cbs mode w).world := by
  have h0 : Appends (Event.of_evaluate r mode) w (w.log (.timer_scope .batch_begin_callbacks)) :=
    appends_log w _ rfl
  simp only [do_batch_begin_cbs]
  split
  · simpa using h0
  · exact appends_trans h0 (appends_for_each _ (appends_batch_begin_body _) _ _ _)

theorem appends_do_batch_end_cbs (w : World) :
    Appends (Event.of_evaluate r mode) w (do_batch_end_cbs mode w).world := by
  have h0 : Appends (Event.of_evaluate r mode) w (w.log (.timer_scope .batch_end_callbacks)) :=
    appends_log w _ rfl
  simp only [do_batch_end_cbs]
  split
  · simpa using h0
  · exact appends_trans h0 (appends_for_each _ (appends_batch_end_body _) _ _ _)

theorem appends_do_evaluate_begin_cbs (w : World) :
    Appends (Event.of_evaluate r mode) w (do_evaluate_begin_cbs mode w).world :=
  appends_trans (appends_log w (.timer_scope .eval_begin_callbacks) rfl)
    (appends_for_each _ appends_evaluate_begin_body _ _ _)

theorem appends_do_evaluate_end_cbs (w : World) :
    Appends (Event.of_evaluate r mode) w (do_evaluate_end_cbs mode w).world :=
  appends_trans (appends_log w (.timer_scope .eval_end_callbacks) rfl)
    (appends_for_each _ appends_evaluate_end_body _ _ _)

theorem appends_evaluate_mini_batch_core (w : World) :
    Appends (Event.of_evaluate r mode) w (evaluate_mini_batch_core r mode w) := by
  refine ⟨[.dc_fetch_data mode, .model_forward_prop mode,
    .dc_epoch_complete mode ((w.dc_fetch_data mode).epoch_complete mode),
    .objective_start_evaluation mode (w.context r).current_mini_batch_size,
    .objective_finish_evaluation mode (w.context r).current_mini_batch_size,
    .model_evaluate_metrics mode (w.context r).current_mini_batch_size,
    .model_update_layers, .inc_step r], ?_, ?_⟩
  · simp [evaluate_mini_batch_core, World.inc_step, World.dc_epoch_complete,
      World.epoch_complete]
  · intro e he
    simp only [List.mem_cons, List.mem_singleton, List.not_mem_nil, or_false] at he
    rcases he with rfl | rfl | rfl | rfl | rfl | rfl | rfl | rfl <;>
      simp [Event.of_evaluate]

/-- Whatever the mode and the callbacks, and wherever it ends,
`evaluate_mini_batch` appends only events of an evaluation. -/
theorem appends_evaluate_mini_batch (w : World) :
    Appends (Event.of_evaluate r mode) w (evaluate_mini_batch r mode w).world_of_pair := by
  have h0 : Appends (Event.of_evaluate r mode) w ((w.model_reset_mode r mode).dc_reset_mode r) :=
    appends_trans (appends_model_reset_mode w r mode (by simp [Event.of_evaluate]))
      (appends_dc_reset_mode _ r (by simp [Event.of_evaluate]))
  simp only [evaluate_mini_batch]
  have h1 := @appends_do_batch_begin_cbs r mode ((w.model_reset_mode r mode).dc_reset_mode r)
  cases hb : do_batch_begin_cbs mode ((w.model_reset_mode r mode).dc_reset_mode r) with
  | error e => rw [hb] at h1; simpa using appends_trans h0 h1
  | ok w1 =>
    rw [hb] at h1
    simp only [ok_bind]
    have h2 := @appends_do_batch_end_cbs r mode (evaluate_mini_batch_core r mode w1)
    have h12 := appends_trans (appends_trans h0 h1) (@appends_evaluate_mini_batch_core r mode w1)
    cases he : do_batch_end_cbs mode (evaluate_mini_batch_core r mode w1) with
    | error e => rw [he] at h2; simpa using appends_trans h12 h2
    | ok w2 => rw [he] at h2; simpa using appends_trans h12 h2

theorem appends_evaluate_loop (term : SGDTerminationCriteria) (fuel : Nat) (w : World) :
    Appends (Event.of_evaluate r mode) w (evaluate_loop r mode term fuel w).world := by
  induction fuel generalizing w with
  | zero => simpa [evaluate_loop] using appends_refl w
  | succ fuel ih =>
    rw [evaluate_loop]
    split
    · simpa using appends_refl w
    · have h0 : Appends (Event.of_evaluate r mode) w (w.log (.timer_scope .eval_minibatch)) :=
        appends_log w _ rfl
      have h1 := @appends_evaluate_mini_batch r mode (w.log (.timer_scope .eval_minibatch))
      cases hb : evaluate_mini_batch r mode (w.log (.timer_scope .eval_minibatch)) with
      | error e => rw [hb] at h1; simpa using appends_trans h0 h1
      | ok q =>
        rw [hb] at h1
        simp only [ok_bind]
        have h01 : Appends (Event.of_evaluate r mode) w q.2 := by
          simpa using appends_trans h0 h1
        refine appends_trans h01 (appends_trans ?_ (ih _))
        split
        · exact appends_inc_epoch q.2 r (by simp [Event.of_evaluate])
        · exact appends_refl q.2

/-- Whatever the mode, the criterion and the callbacks, and wherever it ends,
`evaluate` appends only events of an evaluation in that mode. -/
theorem appends_evaluate (fuel : Nat) (term : SGDTerminationCriteria) (w : World) :
    Appends (Event.of_evaluate r mode) w (evaluate fuel r mode term w).world := by
  have h0 : Appends (Event.of_evaluate r mode) w
      ((((w.log (.timer_scope (.evaluate mode))).log
        (.model_reset_epoch_statistics mode)).model_reset_mode r mode).dc_reset_mode r) :=
    appends_trans (appends_trans (appends_trans
      (appends_log w _ (by simp [Event.of_evaluate, Scope.of_evaluate]))
      (appends_log _ _ (by simp [Event.of_evaluate])))
      (appends_model_reset_mode _ r mode (by simp [Event.of_evaluate])))
      (appends_dc_reset_mode _ r (by simp [Event.of_evaluate]))
  simp only [evaluate]
  split
  · simpa using h0
  · split
    · simpa using h0
    · have h1 := @appends_do_evaluate_begin_cbs r mode
        ((((w.log (.timer_scope (.evaluate mode))).log
          (.model_reset_epoch_statistics mode)).model_reset_mode r mode).dc_reset_mode r)
      cases hb : do_evaluate_begin_cbs mode ((((w.log (.timer_scope (.evaluate mode))).log
          (.model_reset_epoch_statistics mode)).model_reset_mode r mode).dc_reset_mode r) with
      | error e => rw [hb] at h1; simpa using appends_trans h0 h1
      | ok w1 =>
        rw [hb] at h1
        simp only [ok_bind]
        have h2 := @appends_evaluate_loop r mode term fuel w1
        cases hl : evaluate_loop r mode term fuel w1 with
        | error e => rw [hl] at h2; simpa using appends_trans (appends_trans h0 h1) h2
        | ok w2 =>
          rw [hl] at h2
          simp only [ok_bind]
          exact appends_trans (appends_trans (appends_trans h0 h1) h2)
            (appends_do_evaluate_end_cbs w2)

end appends_evaluate


section claims_no_weight_update

theorem of_evaluate_not_weight_update (r : ContextRef) (mode : execution_mode) (e : Event)
    (h : e.of_evaluate r mode = true) : e.is_weight_update = false := by
  cases e <;> first | rfl | exact absurd h (by simp [Event.of_evaluate])

/-- Wherever `evaluate` ends, it has incremented the epoch of its context as
often as the data coordinator reported the end of an epoch of the mode, and
the epoch counter grew by that number. -/
theorem evaluate_epoch_balance (fuel : Nat) (r : ContextRef) (mode : execution_mode)
    (term : SGDTerminationCriteria) (w : World) :
    (evaluate fuel r mode term w).world.trace.count (.inc_epoch r) +
        w.trace.count (.dc_epoch_complete mode true) =
      w.trace.count (.inc_epoch r) +
        (evaluate fuel r mode term w).world.trace.count (.dc_epoch_complete mode true) ∧
    ((evaluate fuel r mode term w).world.context r).epoch + w.trace.count (.inc_epoch r) =
      (w.context r).epoch + (evaluate fuel r mode term w).world.trace.count (.inc_epoch r) := by
  have hp : ∀ v : World, v = (((w.log (.timer_scope (.evaluate mode))).log
      (.model_reset_epoch_statistics mode)).model_reset_mode r mode).dc_reset_mode r →
      (v.trace.count (.inc_epoch r) + w.trace.count (.dc_epoch_complete mode true) =
        w.trace.count (.inc_epoch r) + v.trace.count (.dc_epoch_complete mode true) ∧
      (v.context r).epoch + w.trace.count (.inc_epoch r) =
        (w.context r).epoch + v.trace.count (.inc_epoch r)) := by
    intro v hv
    subst hv
    simp [List.count_cons]
  cases hv : w.dc.valid mode with
  | false =>
    rw [(evaluate_prologue fuel r mode term w).1 hv]
    exact hp _ rfl
  | true =>
    cases hm : is_evaluation_mode mode with
    | false =>
      rw [(evaluate_prologue fuel r mode term w).2 hv hm]
      exact hp _ rfl
    | true =>
      have hstep : ∀ v : World,
          (v.trace.count (.inc_epoch r) + w.trace.count (.dc_epoch_complete mode true) =
            w.trace.count (.inc_epoch r) + v.trace.count (.dc_epoch_complete mode true) ∧
          (v.context r).epoch + w.trace.count (.inc_epoch r) =
            (w.context r).epoch + v.trace.count (.inc_epoch r)) →
          ((after_evaluate_iteration r mode v).trace.count (.inc_epoch r) +
              w.trace.count (.dc_epoch_complete mode true) =
            w.trace.count (.inc_epoch r) +
              (after_evaluate_iteration r mode v).trace.count (.dc_epoch_complete mode true) ∧
          ((after_evaluate_iteration r mode v).context r).epoch +
              w.trace.count (.inc_epoch r) =
            (w.context r).epoch +
              (after_evaluate_iteration r mode v).trace.count (.inc_epoch r)) := by
        intro v hI
        rw [after_evaluate_iteration_count _ _ _ (.inc_epoch r) rfl,
          after_evaluate_iteration_count _ _ _ (.dc_epoch_complete mode true) rfl,
          after_evaluate_iteration_epoch]
        obtain ⟨h1, h2⟩ := hI
        cases hc : v.dc.complete mode (v.dc.fetched mode + 1) <;>
          simp [List.count_cons, evaluate_mini_batch_calls] <;> omega
      rcases evaluate_outcome fuel r mode term w hm hv _
        (by
          rw [evaluate_entry_count _ _ _ (.inc_epoch r) rfl,
            evaluate_entry_count _ _ _ (.dc_epoch_complete mode true) rfl, evaluate_entry_epoch]
          simp [List.count_cons]) hstep with ⟨w1, h1, h2, _⟩ | ⟨w1, h1, h2⟩
      · rw [h1]
        simp only [world_ok]
        rw [evaluate_exit_count _ _ (.inc_epoch r) rfl,
          evaluate_exit_count _ _ (.dc_epoch_complete mode true) rfl, evaluate_exit_epoch]
        simpa [List.count_cons] using h2
      · rw [h1]; exact h2

/-- C22: `evaluate` and `evaluate_mini_batch` update no weights.  Whatever the
mode, the criterion and the callbacks, and wherever the run ends, none of the
events that `evaluate` or `evaluate_mini_batch` appends is a call of
`model.clear_gradients`, of the objective's `differentiate`, of
`model.backward_prop`, of the objective's `compute_weight_regularization`, of
`model.update_weights` or of `model.reconcile_weight_values`.  In each of the
modes validation, tournament and testing `evaluate_mini_batch` returns, and
between the batch-begin and the batch-end callbacks it has called, in this
order, `dc.fetch_data`, `model.forward_prop`, `dc.epoch_complete`, the
objective's `start_evaluation` and `finish_evaluation`,
`model.evaluate_metrics`, `model.update_layers`, and has incremented the step.
Among the events of `evaluate` there are as many epoch increments of the
context as answers `true` of `dc.epoch_complete(mode)`, and the epoch counter
of the context grew by that number. -/
theorem evaluate_updates_no_weights (fuel : Nat) (r : ContextRef) (mode : execution_mode)
    (term : SGDTerminationCriteria) (w : World) :
    (∃ evs, (evaluate fuel r mode term w).world.trace = w.trace ++ evs ∧
      (∀ e ∈ evs, e.is_weight_update = false) ∧
      evs.count (.inc_epoch r) = evs.count (.dc_epoch_complete mode true) ∧
      ((evaluate fuel r mode term w).world.context r).epoch =
        (w.context r).epoch + evs.count (.dc_epoch_complete mode true)) ∧
    (∃ evs, (evaluate_mini_batch r mode w).world_of_pair.trace = w.trace ++ evs ∧
      ∀ e ∈ evs, e.is_weight_update = false) ∧
    (is_evaluation_mode mode = true →
      ∃ (finished : Bool) (w' : World) (begin_cbs end_cbs : List Event),
        evaluate_mini_batch r mode w = .ok (finished, w') ∧
        w'.trace = w.trace ++
          [.model_reset_mode r mode, .dc_reset_mode r,
           .timer_scope .batch_begin_callbacks] ++ begin_cbs ++
          [.dc_fetch_data mode, .model_forward_prop mode, .dc_epoch_complete mode finished,
           .objective_start_evaluation mode (w.context r).current_mini_batch_size,
           .objective_finish_evaluation mode (w.context r).current_mini_batch_size,
           .model_evaluate_metrics mode (w.context r).current_mini_batch_size,
           .model_update_layers, .inc_step r,
           .timer_scope .batch_end_callbacks] ++ end_cbs ∧
        (∀ e ∈ begin_cbs, (∃ i, e = .callback i .on_batch_evaluate_begin) ∨
          ∃ c, e = .set_early_stop c true) ∧
        (∀ e ∈ end_cbs, (∃ i, e = .callback i .on_batch_evaluate_end) ∨
          ∃ c, e = .set_early_stop c true)) := by
  refine ⟨?_, ?_, ?_⟩
  · obtain ⟨evs, ht, ha⟩ := @appends_evaluate r mode fuel term w
    obtain ⟨h1, h2⟩ := evaluate_epoch_balance fuel r mode term w
    rw [ht, List.count_append, List.count_append] at h1
    rw [ht, List.count_append] at h2
    refine ⟨evs, ht, fun e he => of_evaluate_not_weight_update r mode e (ha e he), ?_, ?_⟩
    · omega
    · omega
  · obtain ⟨evs, ht, ha⟩ := @appends_evaluate_mini_batch r mode w
    exact ⟨evs, ht, fun e he => of_evaluate_not_weight_update r mode e (ha e he)⟩
  · intro hm
    obtain ⟨e1, e2, ht, a1, a2⟩ := after_evaluate_mini_batch_trace r mode w
    exact ⟨_, _, e1, e2, evaluate_mini_batch_eq r mode w hm, ht, a1, a2⟩

end claims_no_weight_update


section claims_gate_steps

/-- C24: in a training mini-batch that starts with step counter `s`, for a
callback with batch interval `K >= 1`: `on_batch_begin` is delivered (once)
exactly if `s mod K = 0` and `on_batch_end` is delivered (once) exactly if
`(s + 1) mod K = 0`, the step increment preceding the batch-end dispatch in
the trace.  Hence for `K >= 2` the mini-batch delivers at most one of the two
hooks to that callback, and the mini-batch with step index 0 does not deliver
`on_batch_end`. -/
theorem batch_gates_on_different_steps (r : ContextRef) (w : World) (i : Nat) (cb : callback)
    (hi : w.m_callbacks[i]? = some cb) (_ : 1 ≤ cb.batch_interval) :
    ∃ (b : Bool) (w' : World) (pre post : List Event),
      train_mini_batch r w = .ok (b, w') ∧
      w'.trace.count (.callback i .on_batch_begin) =
        w.trace.count (.callback i .on_batch_begin) +
          (if (w.context r).step % cb.batch_interval = 0 then 1 else 0) ∧
      w'.trace.count (.callback i .on_batch_end) =
        w.trace.count (.callback i .on_batch_end) +
          (if ((w.context r).step + 1) % cb.batch_interval = 0 then 1 else 0) ∧
      w'.trace = w.trace ++ pre ++ [.inc_step r, .timer_scope .batch_end_callbacks] ++ post ∧
      (∀ e ∈ pre, ∀ j, e ≠ .callback j .on_batch_end) ∧
      (∀ e ∈ post, ∀ j, e ≠ .callback j .on_batch_begin) ∧
      (w'.context r).step = (w.context r).step + 1 ∧
      (2 ≤ cb.batch_interval →
        w'.trace.count (.callback i .on_batch_begin) +
            w'.trace.count (.callback i .on_batch_end) ≤
          w.trace.count (.callback i .on_batch_begin) +
            w.trace.count (.callback i .on_batch_end) + 1) ∧
      (2 ≤ cb.batch_interval → (w.context r).step = 0 →
        w'.trace.count (.callback i .on_batch_end) =
          w.trace.count (.callback i .on_batch_end)) := by
  obtain ⟨e1, e2, ht, a1, a2⟩ := after_train_mini_batch_trace r w
  have hb := after_train_mini_batch_callback_count r w i cb hi .on_batch_begin
  have he := after_train_mini_batch_callback_count r w i cb hi .on_batch_end
  simp only [true_and, reduceCtorEq, false_and, if_false, Nat.add_zero] at hb he
  refine ⟨_, _, [.model_reset_mode r .training, .dc_reset_mode r,
      .timer_scope .batch_begin_callbacks] ++ e1 ++
      [.dc_fetch_data .training, .model_clear_gradients, .timer_scope .forward_prop,
       .model_forward_prop .training,
       .dc_epoch_complete .training (w.dc.complete .training (w.dc.fetched .training + 1)),
       .objective_start_evaluation .training (w.context r).current_mini_batch_size,
       .objective_differentiate, .timer_scope .back_prop, .model_backward_prop,
       .objective_compute_weight_regularization,
       .objective_finish_evaluation .training (w.context r).current_mini_batch_size,
       .model_evaluate_metrics .training (w.context r).current_mini_batch_size,
       .model_update_weights, .model_update_layers], e2,
    train_mini_batch_eq r w, hb, he, ?_, ?_, ?_, by simp, ?_, ?_⟩
  · rw [ht]; simp
  · intro e hm j hc
    subst hc
    simp only [List.mem_append, List.mem_cons, List.mem_singleton, reduceCtorEq,
      List.not_mem_nil, or_false, false_or] at hm
    rcases a1 _ hm with ⟨k, hk⟩ | ⟨c, hk⟩
    · injection hk with _ h2; exact Hook.noConfusion h2
    · exact Event.noConfusion hk
  · intro e hm j hc
    subst hc
    rcases a2 _ hm with ⟨k, hk⟩ | ⟨c, hk⟩
    · injection hk with _ h2; exact Hook.noConfusion h2
    · exact Event.noConfusion hk
  · intro hK
    rw [hb, he]
    have hboth : ¬ ((w.context r).step % cb.batch_interval = 0 ∧
        ((w.context r).step + 1) % cb.batch_interval = 0) := by
      rintro ⟨h1, h2⟩
      have d1 := Nat.dvd_of_mod_eq_zero h1
      have d2 := Nat.dvd_of_mod_eq_zero h2
      have d3 : cb.batch_interval ∣ 1 := (Nat.dvd_add_right d1).mp d2
      have := Nat.le_of_dvd (by decide) d3
      omega
    by_cases h1 : (w.context r).step % cb.batch_interval = 0
    · have h2 : ¬ (((w.context r).step + 1) % cb.batch_interval = 0) := fun h => hboth ⟨h1, h⟩
      simp only [h1, h2, if_true, if_false]
      omega
    · simp only [h1, if_false]
      split <;> omega
  · intro hK hs
    rw [he, hs]
    have : ¬ ((0 + 1) % cb.batch_interval = 0) := by
      rw [Nat.zero_add, Nat.mod_eq_of_lt (by omega)]; decide
    simp [this]

end claims_gate_steps

section claims_gate_steps_witness

/-- Witness of C24: a callback with interval 2 in the mini-batch with step
index 0 of a fresh run. -/
theorem batch_gates_on_different_steps_witness :
    (fresh_world [passive_callback 2] (periodic_coordinator 3 1 false)).m_callbacks[0]? =
      some (passive_callback 2) ∧
    1 ≤ (passive_callback 2).batch_interval ∧
    ∃ (b : Bool) (w' : World) (pre post : List Event),
      train_mini_batch .caller
        (fresh_world [passive_callback 2] (periodic_coordinator 3 1 false)) = .ok (b, w') ∧
      w'.trace.count (.callback 0 .on_batch_begin) = 0 + (if 0 % 2 = 0 then 1 else 0) ∧
      w'.trace.count (.callback 0 .on_batch_end) = 0 + (if (0 + 1) % 2 = 0 then 1 else 0) ∧
      w'.trace = [] ++ pre ++ [.inc_step .caller, .timer_scope .batch_end_callbacks] ++ post ∧
      (∀ e ∈ pre, ∀ j, e ≠ .callback j .on_batch_end) ∧
      (∀ e ∈ post, ∀ j, e ≠ .callback j .on_batch_begin) ∧
      (w'.context .caller).step = 0 + 1 ∧
      (2 ≤ 2 → w'.trace.count (.callback 0 .on_batch_begin) +
          w'.trace.count (.callback 0 .on_batch_end) ≤ 0 + 0 + 1) ∧
      (2 ≤ 2 → 0 = 0 → w'.trace.count (.callback 0 .on_batch_end) = 0) :=
  ⟨rfl, by decide,
   batch_gates_on_different_steps .caller
    (fresh_world [passive_callback 2] (periodic_coordinator 3 1 false)) 0 (passive_callback 2)
    rfl (by decide)⟩

end claims_gate_steps_witness


section claims_apply_prediction

set_option maxRecDepth 100000 in
/-- C26: `apply` with mode prediction passes the mode on to `evaluate`, which
runs no mini-batch and invokes no callback: the four calls before its guards
are all it appends to the trace, no data is fetched and the contexts are
untouched; without valid prediction split the call returns (and `apply` then
reports the timers), with one it raises "invalid execution mode for
evaluation".  The mode tournament is rejected by `apply` as "Illegal mode",
in a world it left untouched, whereas `evaluate` called with tournament on a
valid split enters its loop: it returns through the evaluate-end dispatch or
is cut in the loop, and on a data coordinator whose epochs have 2 mini-batches
it runs 2 mini-batches under a criterion of one epoch. -/
theorem apply_prediction_runs_nothing (fuel : Nat) (w : World) :
    (∃ w1 : World,
      w1.trace = w.trace ++ [.timer_scope (.evaluate .prediction),
        .model_reset_epoch_statistics .prediction, .model_reset_mode .caller .prediction,
        .dc_reset_mode .caller] ∧
      w1.dc.fetched = w.dc.fetched ∧
      (∀ c, w1.context c = w.context c) ∧
      (w.dc.valid .prediction = false → apply fuel .prediction w = .ok (report_timers w1)) ∧
      (w.dc.valid .prediction = true →
        apply fuel .prediction w = .error (.invalid_execution_mode_for_evaluation, w1)) ∧
      (∀ e ∈ (report_timers w1).trace, e ∈ w1.trace ∨ e = .print_timers)) ∧
    apply fuel .tournament w = .error (.illegal_mode .tournament, w) ∧
    (∀ (r : ContextRef) (term : SGDTerminationCriteria), w.dc.valid .tournament = true →
      (∃ w1, evaluate fuel r .tournament term w = .ok (evaluate_exit .tournament w1)) ∨
      (∃ w1, evaluate fuel r .tournament term w = .error (.fuel_exhausted, w1))) ∧
    (evaluate 5 .caller .tournament (.EpochTerminationCriteria 1)
      (fresh_world [passive_callback 1] (full_coordinator 2))).toOption.map
        (fun v => (evaluation_steps v.trace, v.caller_context.epoch)) = some (2, 1) := by
  refine ⟨⟨(((w.log (.timer_scope (.evaluate .prediction))).log
      (.model_reset_epoch_statistics .prediction)).model_reset_mode .caller
        .prediction).dc_reset_mode .caller, by simp, by simp, by simp, ?_, ?_, ?_⟩, rfl, ?_, ?_⟩
  · intro hv
    simp only [apply]
    rw [(evaluate_prologue fuel .caller .prediction w.m_stopping_criteria w).1 hv]
    rfl
  · intro hv
    simp only [apply]
    rw [(evaluate_prologue fuel .caller .prediction w.m_stopping_criteria w).2 hv rfl]
    rfl
  · intro e he
    simp only [report_timers] at he
    split at he
    · simp only [log_trace, List.mem_append, List.mem_singleton] at he
      exact he
    · exact Or.inl he
  · intro r term hv
    rcases evaluate_outcome fuel r .tournament term w rfl hv (fun _ => True) trivial
      (fun _ _ => trivial) with ⟨w1, h1, _, _⟩ | ⟨w1, h1, _⟩
    · exact Or.inl ⟨w1, h1⟩
    · exact Or.inr ⟨w1, h1⟩
  · decide

end claims_apply_prediction


/-! ## The early-stop flag of a context is only ever set by the dispatches -/

section early_stop_mono

variable (w : World) (r' : ContextRef)

theorem after_initialize_epoch_early_stop_mono (hs : (w.context r').early_stop = true) :
    ((after_initialize_epoch w).context r').early_stop = true := by
  simp only [after_initialize_epoch]
  apply invoke_where_early_stop_mono
  simpa using hs

theorem after_epoch_end_early_stop_mono (hs : (w.context r').early_stop = true) :
    ((after_epoch_end w).context r').early_stop = true := by
  simp only [after_epoch_end]
  apply invoke_where_early_stop_mono
  simp only [log_context, World.inc_epoch, set_context_context]
  split
  · next h => subst h; exact hs
  · exact hs

theorem train_entry_early_stop_mono (hs : (w.context r').early_stop = true) :
    ((train_entry w).context r').early_stop = true := by
  simp only [train_entry, log_context]
  apply invoke_where_early_stop_mono
  simp only [log_context, dc_reset_mode_context, model_reset_mode_context,
    World.set_execution_mode, World.set_mini_batch_sizes, set_context_context, log_dc]
  split
  · next h => subst h; simpa using hs
  · split
    · next h => subst h; exact hs
    · exact hs

theorem train_exit_early_stop_mono (hs : (w.context r').early_stop = true) :
    ((train_exit w).context r').early_stop = true := by
  simp only [train_exit]
  apply invoke_where_early_stop_mono
  simpa using hs

theorem evaluate_entry_early_stop_mono (r : ContextRef) (mode : execution_mode)
    (hs : (w.context r').early_stop = true) :
    ((evaluate_entry r mode w).context r').early_stop = true := by
  simp only [evaluate_entry]
  apply invoke_where_early_stop_mono
  simpa using hs

theorem evaluate_exit_early_stop_mono (mode : execution_mode)
    (hs : (w.context r').early_stop = true) :
    ((evaluate_exit mode w).context r').early_stop = true := by
  simp only [evaluate_exit]
  apply invoke_where_early_stop_mono
  simpa using hs

end early_stop_mono

section validation_flag_set

/-- With the early-stop flag of the validation context set, the block
"Evaluate on validation set" runs no mini-batch. -/
theorem validation_pass_flag_set (fuel : Nat) (w : World)
    (hs : (w.context .validation).early_stop = true) (hv : w.dc.valid .validation = true) :
    validation_pass (fuel + 1) w =
      .ok (World.set_early_stop
        { evaluate_exit .validation (evaluate_entry .validation .validation w) with
          m_validation_epochs := w.m_validation_epochs + 1 } .caller true) := by
  have hd : (SGDTerminationCriteria.EpochTerminationCriteria w.m_validation_epochs).is_done
      ((evaluate_entry .validation .validation w).context .validation) = true :=
    early_stop_is_done _ _ (evaluate_entry_early_stop_mono w .validation _ _ hs)
  have hx : ((evaluate_exit .validation
      (evaluate_entry .validation .validation w)).context .validation).early_stop = true :=
    evaluate_exit_early_stop_mono _ _ _ (evaluate_entry_early_stop_mono w .validation _ _ hs)
  simp only [validation_pass, hv, if_true]
  rw [evaluate_eq_entry_exit (fuel + 1) .validation .validation _ w rfl hv,
    evaluate_loop_done _ _ _ _ _ hd]
  simp only [ok_bind, pure_eq_ok, evaluate_exit_validation_epochs,
    evaluate_entry_validation_epochs]
  have e1 : ({ evaluate_exit .validation (evaluate_entry .validation .validation w) with
      m_validation_epochs := w.m_validation_epochs + 1 } : World).context .validation =
      (evaluate_exit .validation (evaluate_entry .validation .validation w)).context
        .validation := rfl
  rw [e1, hx]

theorem validation_pass_keeps_flag (fuel : Nat) (w : World)
    (hs : (w.context .validation).early_stop = true) :
    ((validation_pass fuel w).world.context .validation).early_stop = true := by
  cases hv : w.dc.valid .validation with
  | false => rw [validation_pass_invalid fuel w hv]; exact hs
  | true =>
    have hx : ((evaluate_exit .validation
        (evaluate_entry .validation .validation w)).context .validation).early_stop = true :=
      evaluate_exit_early_stop_mono _ _ _ (evaluate_entry_early_stop_mono w .validation _ _ hs)
    cases fuel with
    | zero =>
      simp only [validation_pass, hv, if_true]
      rw [evaluate_eq_entry_exit 0 .validation .validation _ w rfl hv]
      simp only [evaluate_loop, throw_eq_error, error_bind, world_error]
      exact evaluate_entry_early_stop_mono w .validation _ _ hs
    | succ fuel =>
      rw [validation_pass_flag_set fuel w hs hv]
      simp only [world_ok, World.set_early_stop, log_context, set_context_context,
        reduceCtorEq, if_false]
      exact hx

theorem train_loop_keeps_flag (term : SGDTerminationCriteria) (fuel : Nat) :
    ∀ (b : Bool) (w : World), (w.context .validation).early_stop = true →
      ((train_loop term fuel b w).world.context .validation).early_stop = true := by
  induction fuel with
  | zero => intro b w hs; simpa [train_loop] using hs
  | succ fuel ih =>
    intro b w hs
    cases hd : term.is_done (w.context .caller) with
    | true => rw [train_loop_done term fuel b w hd]; exact hs
    | false =>
      rw [train_loop_step term fuel b w hd]
      have h1 : ((bif b then after_initialize_epoch w else w).context .validation).early_stop
          = true := by
        cases b
        · exact hs
        · exact after_initialize_epoch_early_stop_mono w _ hs
      generalize (bif b then after_initialize_epoch w else w) = w1 at h1 ⊢
      have h2 := after_train_mini_batch_early_stop_mono .caller
        (w1.log (.timer_scope .train_minibatch)) .validation (by simpa using h1)
      split
      · have h3 := validation_pass_keeps_flag fuel _
          (after_epoch_end_early_stop_mono _ _ h2)
        cases hv : validation_pass fuel (after_epoch_end
            (after_train_mini_batch .caller (w1.log (.timer_scope .train_minibatch)))) with
        | error e => rw [hv] at h3; simpa using h3
        | ok w4 =>
          rw [hv] at h3
          simp only [ok_bind]
          exact ih _ _ (by simpa using h3)
      · exact ih _ _ h2

theorem train_keeps_flag (fuel : Nat) (term : SGDTerminationCriteria) (w : World)
    (hs : (w.context .validation).early_stop = true) :
    ((train fuel term w).world.context .validation).early_stop = true := by
  rw [train_eq]
  have h1 := train_loop_keeps_flag term fuel true (train_entry w)
    (train_entry_early_stop_mono w _ hs)
  cases hl : train_loop term fuel true (train_entry w) with
  | error e => rw [hl] at h1; simpa using h1
  | ok w1 =>
    rw [hl] at h1
    simp only [ok_bind, world_ok]
    exact train_exit_early_stop_mono w1 _ (by simpa using h1)

end validation_flag_set


section claims_validation_flag

/-- C25: the algorithm never clears the early-stop flag of its validation
context.  In a world in which that flag is set: wherever a call of `train`
ends, the flag is still set; on a data coordinator with a validation split the
block "Evaluate on validation set" returns after zero validation mini-batches
and without fetch, the step and epoch of the validation context are unchanged,
`m_validation_epochs` has grown by one, and the early-stop flag of the training
context is set; the same holds for the whole block "Finalize epoch" that
follows a completed training epoch, after which the training loop ends at its
next check. -/
theorem validation_early_stop_never_cleared (fuel : Nat) (term : SGDTerminationCriteria)
    (w : World) (hs : (w.context .validation).early_stop = true) :
    ((train fuel term w).world.context .validation).early_stop = true ∧
    (w.dc.valid .validation = true →
      ∃ w', validation_pass (fuel + 1) w = .ok w' ∧
        evaluation_steps w'.trace = evaluation_steps w.trace ∧
        w'.dc.fetched = w.dc.fetched ∧
        (w'.context .validation).epoch = (w.context .validation).epoch ∧
        (w'.context .validation).step = (w.context .validation).step ∧
        w'.m_validation_epochs = w.m_validation_epochs + 1 ∧
        (w'.context .validation).early_stop = true ∧
        (w'.context .caller).early_stop = true) ∧
    (w.dc.valid .validation = true →
      ∃ w', finalize_epoch (fuel + 1) w = .ok w' ∧
        evaluation_steps w'.trace = evaluation_steps w.trace ∧
        (w'.context .validation).epoch = (w.context .validation).epoch ∧
        w'.m_validation_epochs = w.m_validation_epochs + 1 ∧
        (w'.context .validation).early_stop = true ∧
        (w'.context .caller).early_stop = true ∧
        ∀ (n : Nat) (b : Bool), train_loop term (n + 1) b w' = .ok w') := by
  have key : ∀ v : World, (v.context .validation).early_stop = true →
      v.dc.valid .validation = true →
      ∃ w', validation_pass (fuel + 1) v = .ok w' ∧
        evaluation_steps w'.trace = evaluation_steps v.trace ∧
        w'.dc.fetched = v.dc.fetched ∧
        (w'.context .validation).epoch = (v.context .validation).epoch ∧
        (w'.context .validation).step = (v.context .validation).step ∧
        w'.m_validation_epochs = v.m_validation_epochs + 1 ∧
        (w'.context .validation).early_stop = true ∧
        (w'.context .caller).early_stop = true := by
    intro v hsv hv
    have hx : ((evaluate_exit .validation
        (evaluate_entry .validation .validation v)).context .validation).early_stop = true :=
      evaluate_exit_early_stop_mono _ _ _ (evaluate_entry_early_stop_mono v .validation _ _ hsv)
    refine ⟨_, validation_pass_flag_set fuel v hsv hv, ?_, ?_, ?_, ?_, ?_, ?_, ?_⟩
    · simp only [evaluation_steps, World.set_early_stop, log_trace, set_context_trace]
      rw [List.count_append, evaluate_exit_count _ _ (.timer_scope .eval_minibatch) rfl,
        evaluate_entry_count _ _ _ (.timer_scope .eval_minibatch) rfl]
      simp [List.count_cons]
    · simp [World.set_early_stop, evaluate_exit, evaluate_entry]
    · simp only [World.set_early_stop, log_context, set_context_context, reduceCtorEq, if_false]
      exact (evaluate_exit_epoch .validation (evaluate_entry .validation .validation v)
        .validation).trans (evaluate_entry_epoch .validation .validation v .validation)
    · simp only [World.set_early_stop, log_context, set_context_context, reduceCtorEq, if_false]
      exact (evaluate_exit_step .validation (evaluate_entry .validation .validation v)
        .validation).trans (evaluate_entry_step .validation .validation v .validation)
    · simp [World.set_early_stop]
    · simp only [World.set_early_stop, log_context, set_context_context, reduceCtorEq, if_false]
      exact hx
    · simp [World.set_early_stop]
  refine ⟨train_keeps_flag fuel term w hs, key w hs, ?_⟩
  intro hv
  rw [finalize_epoch_eq]
  obtain ⟨w', h1, h2, _, h4, _, h6, h7, h8⟩ :=
    key (after_epoch_end w) (after_epoch_end_early_stop_mono w _ hs) (by simpa using hv)
  refine ⟨w', h1, ?_, ?_, ?_, h7, h8, ?_⟩
  · rw [h2]
    simp only [evaluation_steps]
    rw [after_epoch_end_count _ (.timer_scope .eval_minibatch) rfl]
    simp [List.count_cons]
  · rw [h4]; simp
  · rw [h6]; simp
  · intro n b
    exact train_loop_done term n b w' (early_stop_is_done _ _ h8)

set_option maxRecDepth 100000 in
/-- Witness of C25: after a first run of `train` in which a callback asked for
a stop in its first `on_validation_end` (and never again), a second run on a
new caller's context trains one epoch of 2 mini-batches, runs no validation
mini-batch (their number stays 1), leaves the epoch of the validation context
at 1, raises `m_validation_epochs` from 2 to 3 and ends with the flag of the
caller's context set, under a criterion of 3 epochs. -/
theorem validation_early_stop_never_cleared_witness :
    (stopped_world.context .validation).early_stop = true ∧
    ((train 30 (.EpochTerminationCriteria 3) stopped_world).world.context
      .validation).early_stop = true ∧
    validation_summary (.ok stopped_world) = some (1, 2, 1, false) ∧
    validation_summary (train 30 (.EpochTerminationCriteria 3) stopped_world) =
      some (1, 3, 1, true) ∧
    summary (train 30 (.EpochTerminationCriteria 3) stopped_world) = some (1, 2, 4, 2, 2) :=
  ⟨by decide,
   (validation_early_stop_never_cleared 30 (.EpochTerminationCriteria 3) stopped_world
     (by decide)).1,
   by decide, by decide, by decide⟩

end claims_validation_flag


/-! ## The lifecycle of a run of `train` -/

section lifecycle_steps

theorem step_depth (s : Phase) (m : Mark) (s' : Phase) (h : s.step m = some s') :
    (if (m == .epoch_begin_round) = true then 1 else 0) + s.depth =
      (if (m == .epoch_end_round) = true then 1 else 0) + s'.depth := by
  rcases s with _ | _ | _ | _ | _ | _ | o | o | o <;>
  rcases m with _ | _ | _ | _ | _ | _ | _ | _ | _ | _ | _ | k | _ | _ <;>
  (try cases k) <;> (try cases o) <;>
  simp [Phase.step, Phase.is_loose, Mark.is_plain] at h <;> (try subst h) <;> rfl

theorem step_pending (s : Phase) (m : Mark) (s' : Phase) (h : s.step m = some s') :
    (if (m == .reset_epoch_statistics) = true then 1 else 0) + s.pending =
      (if (m == .epoch_begin_round) = true then 1 else 0) + s'.pending := by
  rcases s with _ | _ | _ | _ | _ | _ | o | o | o <;>
  rcases m with _ | _ | _ | _ | _ | _ | _ | _ | _ | _ | _ | k | _ | _ <;>
  (try cases k) <;> (try cases o) <;>
  simp [Phase.step, Phase.is_loose, Mark.is_plain] at h <;> (try subst h) <;> rfl

theorem step_started (s : Phase) (m : Mark) (s' : Phase) (h : s.step m = some s') :
    (if (m == .train_begin_round) = true then 1 else 0) + s.started =
      (if false = true then 1 else 0) + s'.started := by
  rcases s with _ | _ | _ | _ | _ | _ | o | o | o <;>
  rcases m with _ | _ | _ | _ | _ | _ | _ | _ | _ | _ | _ | k | _ | _ <;>
  (try cases k) <;> (try cases o) <;>
  simp [Phase.step, Phase.is_loose, Mark.is_plain] at h <;> (try subst h) <;> rfl

theorem step_ended (s : Phase) (m : Mark) (s' : Phase) (h : s.step m = some s') :
    (if (m == .train_end_round) = true then 1 else 0) + s.ended =
      (if false = true then 1 else 0) + s'.ended := by
  rcases s with _ | _ | _ | _ | _ | _ | o | o | o <;>
  rcases m with _ | _ | _ | _ | _ | _ | _ | _ | _ | _ | _ | k | _ | _ <;>
  (try cases k) <;> (try cases o) <;>
  simp [Phase.step, Phase.is_loose, Mark.is_plain] at h <;> (try subst h) <;> rfl

/-- The only way into the station `coordinator_reset`. -/
theorem step_into_coordinator_reset (s : Phase) (m : Mark)
    (h : s.step m = some .coordinator_reset) : s = .statistics_reset ∧ m = .dc_reset := by
  rcases s with _ | _ | _ | _ | _ | _ | o | o | o <;>
  rcases m with _ | _ | _ | _ | _ | _ | _ | _ | _ | _ | _ | k | _ | _ <;>
  (try cases k) <;> (try cases o) <;>
  simp [Phase.step, Phase.is_loose, Mark.is_plain] at h ⊢

/-- The only way into the station `statistics_reset`. -/
theorem step_into_statistics_reset (s : Phase) (m : Mark)
    (h : s.step m = some .statistics_reset) :
    s = .between_epochs ∧ m = .reset_epoch_statistics := by
  rcases s with _ | _ | _ | _ | _ | _ | o | o | o <;>
  rcases m with _ | _ | _ | _ | _ | _ | _ | _ | _ | _ | _ | k | _ | _ <;>
  (try cases k) <;> (try cases o) <;>
  simp [Phase.step, Phase.is_loose, Mark.is_plain] at h ⊢

theorem step_train_minibatch (s s' : Phase) (h : s.step .train_minibatch = some s') :
    s = .in_epoch := by
  rcases s with _ | _ | _ | _ | _ | _ | o | o | o <;>
  simp [Phase.step, Phase.is_loose, Mark.is_plain] at h ⊢

theorem step_epoch_begin_round (s s' : Phase) (h : s.step .epoch_begin_round = some s') :
    s = .coordinator_reset := by
  rcases s with _ | _ | _ | _ | _ | _ | o | o | o <;>
  simp [Phase.step, Phase.is_loose, Mark.is_plain] at h ⊢

theorem step_on_train_begin (s s' : Phase) (h : s.step (.hook .on_train_begin) = some s') :
    s = .begun := by
  rcases s with _ | _ | _ | _ | _ | _ | o | o | o <;>
  simp [Phase.step, Phase.is_loose, Mark.is_plain] at h ⊢

/-- No epoch or batch hook is in order before the loop. -/
theorem step_epoch_or_batch_hook (s : Phase) (m : Mark) (s' : Phase) (h : s.step m = some s')
    (hm : m.is_epoch_or_batch_hook = true) :
    s ≠ .start ∧ s ≠ .begun ∧ s' ≠ .start ∧ s' ≠ .begun := by
  rcases s with _ | _ | _ | _ | _ | _ | o | o | o <;>
  rcases m with _ | _ | _ | _ | _ | _ | _ | _ | _ | _ | _ | k | _ | _ <;>
  (try cases k) <;> (try cases o) <;>
  simp [Phase.step, Phase.is_loose, Mark.is_plain, Mark.is_epoch_or_batch_hook] at h hm ⊢ <;>
  (try subst h) <;> simp

/-- The stations before the loop are only reached from stations before the
loop. -/
theorem step_into_early (s : Phase) (m : Mark) (s' : Phase) (h : s.step m = some s')
    (hs : s' = .start ∨ s' = .begun) : s = .start ∨ s = .begun := by
  rcases s with _ | _ | _ | _ | _ | _ | o | o | o <;>
  rcases m with _ | _ | _ | _ | _ | _ | _ | _ | _ | _ | _ | k | _ | _ <;>
  (try cases k) <;> (try cases o) <;>
  simp [Phase.step, Phase.is_loose, Mark.is_plain] at h ⊢ <;>
  (try subst h) <;> simp at hs

/-- The train-end round is the last station. -/
theorem step_from_finished (o : Bool) (m : Mark) (s' : Phase)
    (h : (Phase.finished o).step m = some s') : s' = .finished o := by
  rcases m with _ | _ | _ | _ | _ | _ | _ | _ | _ | _ | _ | k | _ | _ <;>
  (try cases k) <;> (try cases o) <;>
  simp [Phase.step, Phase.is_loose, Mark.is_plain] at h ⊢ <;> exact h.symm

theorem step_on_train_end (s s' : Phase) (h : s.step (.hook .on_train_end) = some s') :
    ∃ o, s' = .finished o := by
  rcases s with _ | _ | _ | _ | _ | _ | o | o | o <;>
  first
  | exact ⟨_, (Option.some.inj h).symm⟩
  | simp [Phase.step, Phase.is_loose, Mark.is_plain] at h

end lifecycle_steps


section lifecycle_lists

theorem lifecycle_cons (s : Phase) (e : Event) (rest : List Event) (s' : Phase) :
    lifecycle s (e :: rest) = some s' ↔
      ∃ s1, s.step e.mark = some s1 ∧ lifecycle s1 rest = some s' := by
  simp only [lifecycle]
  cases h : s.step e.mark with
  | none => simp
  | some s1 => simp

theorem lifecycle_append (a b : List Event) (s s' : Phase) :
    lifecycle s (a ++ b) = some s' ↔
      ∃ s1, lifecycle s a = some s1 ∧ lifecycle s1 b = some s' := by
  induction a generalizing s with
  | nil => simp [lifecycle]
  | cons e rest ih =>
    rw [List.cons_append, lifecycle_cons]
    constructor
    · rintro ⟨s1, h1, h2⟩
      obtain ⟨s2, h3, h4⟩ := (ih s1).mp h2
      exact ⟨s2, (lifecycle_cons s e rest s2).mpr ⟨s1, h1, h3⟩, h4⟩
    · rintro ⟨s2, h1, h2⟩
      obtain ⟨s1, h3, h4⟩ := (lifecycle_cons s e rest s2).mp h1
      exact ⟨s1, h3, (ih s1).mpr ⟨s2, h4, h2⟩⟩

theorem lifecycle_singleton (s : Phase) (e : Event) (s' : Phase) :
    lifecycle s [e] = some s' ↔ s.step e.mark = some s' := by
  rw [lifecycle_cons]
  constructor
  · rintro ⟨s1, h1, h2⟩
    simp only [lifecycle, Option.some.injEq] at h2
    rw [← h2]; exact h1
  · intro h; exact ⟨s', h, rfl⟩

/-- Every prefix of a sequence that is in order is in order. -/
theorem lifecycle_prefix {p evs : List Event} {s s' : Phase} (hp : p <+: evs)
    (h : lifecycle s evs = some s') :
    ∃ s1 rest, evs = p ++ rest ∧ lifecycle s p = some s1 ∧ lifecycle s1 rest = some s' := by
  obtain ⟨rest, rfl⟩ := hp
  obtain ⟨s1, h1, h2⟩ := (lifecycle_append p rest s s').mp h
  exact ⟨s1, rest, rfl, h1, h2⟩

/-- A quantity of the stations that every step changes by the difference of
two kinds of marks changes over a sequence by the difference of their
numbers. -/
theorem lifecycle_countP (a b : Mark → Bool) (f : Phase → Nat)
    (hstep : ∀ s m s', Phase.step s m = some s' →
      (if a m = true then 1 else 0) + f s = (if b m = true then 1 else 0) + f s') :
    ∀ (evs : List Event) (s s' : Phase), lifecycle s evs = some s' →
      evs.countP (fun e => a e.mark) + f s = evs.countP (fun e => b e.mark) + f s' := by
  intro evs
  induction evs with
  | nil =>
    intro s s' h
    simp only [lifecycle, Option.some.injEq] at h
    simp [h]
  | cons e rest ih =>
    intro s s' h
    obtain ⟨s1, h1, h2⟩ := (lifecycle_cons s e rest s').mp h
    have h3 := hstep s e.mark s1 h1
    have h4 := ih s1 s' h2
    rw [List.countP_cons, List.countP_cons]
    omega

theorem countP_mark (M : Mark) (E : Event) (h : ∀ e : Event, e.mark = M ↔ e = E)
    (evs : List Event) : evs.countP (fun e => e.mark == M) = evs.count E := by
  rw [List.count]
  apply List.countP_congr
  intro e _
  simp [h e]

theorem mark_epoch_begin_round (e : Event) :
    e.mark = .epoch_begin_round ↔ e = .timer_scope .epoch_begin_callbacks := by
  unfold Event.mark
  split <;> simp_all

theorem mark_epoch_end_round (e : Event) :
    e.mark = .epoch_end_round ↔ e = .timer_scope .epoch_end_callbacks := by
  unfold Event.mark
  split <;> simp_all

theorem mark_train_begin_round (e : Event) :
    e.mark = .train_begin_round ↔ e = .timer_scope .train_begin_callbacks := by
  unfold Event.mark
  split <;> simp_all

theorem mark_train_end_round (e : Event) :
    e.mark = .train_end_round ↔ e = .timer_scope .train_end_callbacks := by
  unfold Event.mark
  split <;> simp_all

theorem mark_reset_epoch_statistics (e : Event) :
    e.mark = .reset_epoch_statistics ↔ e = .model_reset_epoch_statistics .training := by
  unfold Event.mark
  split <;> simp_all

theorem mark_dc_reset (e : Event) : e.mark = .dc_reset ↔ e = .dc_reset_mode .caller := by
  unfold Event.mark
  split <;> simp_all

/-- Over a sequence in order, the epoch-begin rounds exceed the epoch-end
rounds by the epochs the sequence opened. -/
theorem lifecycle_depth {evs : List Event} {s s' : Phase} (h : lifecycle s evs = some s') :
    epoch_begin_rounds evs + s.depth = epoch_end_rounds evs + s'.depth := by
  have := lifecycle_countP (fun m => m == .epoch_begin_round) (fun m => m == .epoch_end_round)
    Phase.depth step_depth evs s s' h
  rwa [countP_mark _ _ mark_epoch_begin_round, countP_mark _ _ mark_epoch_end_round] at this

theorem lifecycle_pending {evs : List Event} {s s' : Phase} (h : lifecycle s evs = some s') :
    evs.count (.model_reset_epoch_statistics .training) + s.pending =
      epoch_begin_rounds evs + s'.pending := by
  have := lifecycle_countP (fun m => m == .reset_epoch_statistics)
    (fun m => m == .epoch_begin_round) Phase.pending step_pending evs s s' h
  rwa [countP_mark _ _ mark_reset_epoch_statistics, countP_mark _ _ mark_epoch_begin_round]
    at this

theorem lifecycle_started {evs : List Event} {s s' : Phase} (h : lifecycle s evs = some s') :
    evs.count (.timer_scope .train_begin_callbacks) + s.started = s'.started := by
  have := lifecycle_countP (fun m => m == .train_begin_round) (fun _ => false)
    Phase.started step_started evs s s' h
  rw [countP_mark _ _ mark_train_begin_round] at this
  simpa using this

theorem lifecycle_ended {evs : List Event} {s s' : Phase} (h : lifecycle s evs = some s') :
    evs.count (.timer_scope .train_end_callbacks) + s.ended = s'.ended := by
  have := lifecycle_countP (fun m => m == .train_end_round) (fun _ => false)
    Phase.ended step_ended evs s s' h
  rw [countP_mark _ _ mark_train_end_round] at this
  simpa using this

/-- A sequence in order that ends in the station `coordinator_reset` ends with
the reset of the training statistics and the reset of the data coordinator. -/
theorem lifecycle_coordinator_reset {evs : List Event} {s : Phase}
    (h : lifecycle s evs = some .coordinator_reset)
    (hs : s ≠ .coordinator_reset ∧ s ≠ .statistics_reset) :
    ∃ q, evs = q ++ [.model_reset_epoch_statistics .training, .dc_reset_mode .caller] ∧
      lifecycle s q = some .between_epochs := by
  rcases List.eq_nil_or_concat evs with rfl | ⟨p1, e1, rfl⟩
  · simp only [lifecycle, Option.some.injEq] at h
    exact absurd h hs.1
  · rw [List.concat_eq_append] at h ⊢
    obtain ⟨s1, h1, h2⟩ := (lifecycle_append p1 [e1] s _).mp h
    rw [lifecycle_singleton] at h2
    obtain ⟨hs1, hm1⟩ := step_into_coordinator_reset s1 e1.mark h2
    subst hs1
    rw [mark_dc_reset] at hm1
    subst hm1
    rcases List.eq_nil_or_concat p1 with rfl | ⟨p2, e2, rfl⟩
    · simp only [lifecycle, Option.some.injEq] at h1
      exact absurd h1 hs.2
    · rw [List.concat_eq_append] at h1 ⊢
      obtain ⟨s2, h3, h4⟩ := (lifecycle_append p2 [e2] s _).mp h1
      rw [lifecycle_singleton] at h4
      obtain ⟨hs2, hm2⟩ := step_into_statistics_reset s2 e2.mark h4
      subst hs2
      rw [mark_reset_epoch_statistics] at hm2
      subst hm2
      exact ⟨p2, by simp, h3⟩

/-- A sequence in order that ends before the loop began there and holds no
epoch or batch hook. -/
theorem lifecycle_early {evs : List Event} {s s' : Phase} (h : lifecycle s evs = some s')
    (hs : s' = .start ∨ s' = .begun) :
    (s = .start ∨ s = .begun) ∧ ∀ e ∈ evs, e.mark.is_epoch_or_batch_hook = false := by
  induction evs generalizing s with
  | nil =>
    simp only [lifecycle, Option.some.injEq] at h
    subst h
    exact ⟨hs, by simp⟩
  | cons e rest ih =>
    obtain ⟨s1, h1, h2⟩ := (lifecycle_cons s e rest s').mp h
    obtain ⟨hs1, hr⟩ := ih h2
    refine ⟨step_into_early s e.mark s1 h1 hs1, ?_⟩
    intro x hx
    rcases List.mem_cons.mp hx with rfl | hx
    · cases hk : x.mark.is_epoch_or_batch_hook with
      | false => rfl
      | true =>
        have := step_epoch_or_batch_hook s x.mark s1 h1 hk
        rcases hs1 with h | h
        · exact absurd h this.2.2.1
        · exact absurd h this.2.2.2
    · exact hr x hx

theorem lifecycle_from_finished {evs : List Event} {o : Bool} {s' : Phase}
    (h : lifecycle (.finished o) evs = some s') : s' = .finished o := by
  induction evs with
  | nil => simp only [lifecycle, Option.some.injEq] at h; exact h.symm
  | cons e rest ih =>
    obtain ⟨s1, h1, h2⟩ := (lifecycle_cons _ e rest s').mp h
    rw [step_from_finished o e.mark s1 h1] at h2
    exact ih h2

/-- A sequence in order that does not end in the train-end round holds no
invocation of `on_train_end`. -/
theorem lifecycle_no_train_end {evs : List Event} {s s' : Phase}
    (h : lifecycle s evs = some s') (hs : s'.ended = 0) :
    ∀ e ∈ evs, ∀ i, e ≠ .callback i .on_train_end := by
  induction evs generalizing s with
  | nil => simp
  | cons e rest ih =>
    obtain ⟨s1, h1, h2⟩ := (lifecycle_cons s e rest s').mp h
    intro x hx i hc
    rcases List.mem_cons.mp hx with rfl | hx
    · subst hc
      obtain ⟨o, ho⟩ := step_on_train_end s s1 h1
      subst ho
      rw [lifecycle_from_finished h2] at hs
      simp [Phase.ended] at hs
    · exact ih h2 x hx i hc

/-- Events that change no station leave a station as it is. -/
theorem lifecycle_neutral (s : Phase) (evs : List Event)
    (h : ∀ e ∈ evs, s.step e.mark = some s) : lifecycle s evs = some s := by
  induction evs with
  | nil => rfl
  | cons e rest ih =>
    rw [lifecycle_cons]
    exact ⟨s, h e (List.mem_cons_self _ _), ih (fun x hx => h x (List.mem_cons_of_mem _ hx))⟩

end lifecycle_lists


section lifecycle_train

theorem after_initialize_epoch_trace (w : World) :
    ∃ cbs : List Event,
      (after_initialize_epoch w).trace = w.trace ++
        [.model_reset_mode .caller .training, .model_reset_epoch_statistics .training,
         .dc_reset_mode .caller, .timer_scope .epoch_begin_callbacks] ++ cbs ∧
      ∀ e ∈ cbs, (∃ i, e = .callback i .on_epoch_begin) ∨ ∃ c, e = .set_early_stop c true := by
  obtain ⟨evs, h1, a1, _⟩ := invoke_where_events (fun _ => true) .on_epoch_begin w.m_callbacks 0
    ((((w.model_reset_mode .caller .training).log
      (.model_reset_epoch_statistics .training)).dc_reset_mode .caller).log
        (.timer_scope .epoch_begin_callbacks))
  refine ⟨evs, ?_, a1⟩
  simp only [after_initialize_epoch, log_callbacks, dc_reset_mode_callbacks,
    model_reset_mode_callbacks]
  rw [h1]
  simp

theorem after_epoch_end_trace (w : World) :
    ∃ cbs : List Event,
      (after_epoch_end w).trace = w.trace ++
        [.inc_epoch .caller, .model_reconcile_weight_values,
         .timer_scope .epoch_end_callbacks] ++ cbs ∧
      ∀ e ∈ cbs, (∃ i, e = .callback i .on_epoch_end) ∨ ∃ c, e = .set_early_stop c true := by
  obtain ⟨evs, h1, a1, _⟩ := invoke_where_events (fun _ => true) .on_epoch_end w.m_callbacks 0
    (((w.inc_epoch .caller).log .model_reconcile_weight_values).log
      (.timer_scope .epoch_end_callbacks))
  refine ⟨evs, ?_, a1⟩
  simp only [after_epoch_end, log_callbacks]
  have : (w.inc_epoch .caller).m_callbacks = w.m_callbacks := by simp [World.inc_epoch]
  rw [this, h1]
  simp [World.inc_epoch]

theorem train_entry_trace (w : World) :
    ∃ cbs : List Event,
      (train_entry w).trace = w.trace ++
        [.timer_scope .train,
         .set_mini_batch_sizes .validation (w.dc.mini_batch_size .validation),
         .set_execution_mode .caller .training, .model_reset_mode .caller .training,
         .dc_reset_mode .caller, .timer_scope .train_begin_callbacks] ++ cbs ++
        [.start_timer .caller] ∧
      ∀ e ∈ cbs, (∃ i, e = .callback i .on_train_begin) ∨ ∃ c, e = .set_early_stop c true := by
  obtain ⟨evs, h1, a1, _⟩ := invoke_where_events (fun _ => true) .on_train_begin w.m_callbacks 0
    ((((((w.log (.timer_scope .train)).set_mini_batch_sizes .validation
      (w.dc.mini_batch_size .validation)).set_execution_mode .caller .training).model_reset_mode
        .caller .training).dc_reset_mode .caller).log (.timer_scope .train_begin_callbacks))
  refine ⟨evs, ?_, a1⟩
  simp only [train_entry, log_callbacks, dc_reset_mode_callbacks, model_reset_mode_callbacks,
    log_dc, log_trace]
  have : ((((w.log (.timer_scope .train)).set_mini_batch_sizes .validation
      (w.dc.mini_batch_size .validation)).set_execution_mode .caller .training)).m_callbacks =
      w.m_callbacks := by simp [World.set_execution_mode, World.set_mini_batch_sizes]
  rw [this, h1]
  simp [World.set_execution_mode, World.set_mini_batch_sizes]

theorem train_exit_trace (w : World) :
    ∃ cbs : List Event,
      (train_exit w).trace = w.trace ++
        [.stop_timer .caller, .model_reset_mode .caller .training,
         .timer_scope .train_end_callbacks] ++ cbs ∧
      ∀ e ∈ cbs, (∃ i, e = .callback i .on_train_end) ∨ ∃ c, e = .set_early_stop c true := by
  obtain ⟨evs, h1, a1, _⟩ := invoke_where_events (fun _ => true) .on_train_end w.m_callbacks 0
    (((w.log (.stop_timer .caller)).model_reset_mode .caller .training).log
      (.timer_scope .train_end_callbacks))
  refine ⟨evs, ?_, a1⟩
  simp only [train_exit, log_callbacks, model_reset_mode_callbacks]
  rw [h1]
  simp

/-- The invocations of a hook that is in order in a station, and the stop
requests that follow them, leave the station as it is. -/
theorem lifecycle_hook_activity (s : Phase) (h : Hook) (hadm : s.step (.hook h) = some s)
    (hreq : s.step .stop_request = some s) (evs : List Event)
    (ha : ∀ e ∈ evs, (∃ i, e = .callback i h) ∨ ∃ c, e = .set_early_stop c true) :
    lifecycle s evs = some s := by
  apply lifecycle_neutral
  intro e he
  rcases ha e he with ⟨i, rfl⟩ | ⟨c, rfl⟩
  · exact hadm
  · exact hreq

theorem lc_refl (s : Phase) (w : World) : Lifecycle s w s w := ⟨[], by simp, rfl⟩

theorem lc_trans {s1 s2 s3 : Phase} {w1 w2 w3 : World} (h1 : Lifecycle s1 w1 s2 w2)
    (h2 : Lifecycle s2 w2 s3 w3) : Lifecycle s1 w1 s3 w3 := by
  obtain ⟨e1, t1, a1⟩ := h1
  obtain ⟨e2, t2, a2⟩ := h2
  exact ⟨e1 ++ e2, by rw [t2, t1, List.append_assoc],
    (lifecycle_append e1 e2 s1 s3).mpr ⟨s2, a1, a2⟩⟩

theorem lc_initialize_epoch (w : World) :
    Lifecycle .between_epochs w .in_epoch (after_initialize_epoch w) := by
  obtain ⟨cbs, ht, ha⟩ := after_initialize_epoch_trace w
  simp only [List.append_assoc] at ht
  refine ⟨_, ht, ?_⟩
  rw [lifecycle_append]
  exact ⟨.in_epoch, rfl, lifecycle_hook_activity .in_epoch .on_epoch_begin rfl rfl cbs ha⟩

theorem lc_train_mini_batch (w : World) :
    Lifecycle .in_epoch w .in_epoch
      (after_train_mini_batch .caller (w.log (.timer_scope .train_minibatch))) := by
  obtain ⟨e1, e2, ht, a1, a2⟩ :=
    after_train_mini_batch_trace .caller (w.log (.timer_scope .train_minibatch))
  simp only [log_trace, List.append_assoc] at ht
  refine ⟨_, ht, ?_⟩
  rw [lifecycle_append]
  refine ⟨.in_epoch, rfl, ?_⟩
  rw [lifecycle_append]
  refine ⟨.in_epoch, rfl, ?_⟩
  rw [lifecycle_append]
  refine ⟨.in_epoch, lifecycle_hook_activity .in_epoch .on_batch_begin rfl rfl e1 a1, ?_⟩
  rw [lifecycle_append]
  exact ⟨.in_epoch, rfl, lifecycle_hook_activity .in_epoch .on_batch_end rfl rfl e2 a2⟩

theorem lc_epoch_end (w : World) :
    Lifecycle .in_epoch w .between_epochs (after_epoch_end w) := by
  obtain ⟨cbs, ht, ha⟩ := after_epoch_end_trace w
  simp only [List.append_assoc] at ht
  refine ⟨_, ht, ?_⟩
  rw [lifecycle_append]
  exact ⟨.between_epochs, rfl,
    lifecycle_hook_activity .between_epochs .on_epoch_end rfl rfl cbs ha⟩

/-- Between two epochs, the events of an evaluation in validation mode on the
validation context change no station. -/
theorem of_evaluate_between_epochs (e : Event)
    (h : e.of_evaluate .validation .validation = true) :
    Phase.between_epochs.step e.mark = some .between_epochs := by
  cases e with
  | timer_scope s => cases s <;> simp [Event.of_evaluate, Scope.of_evaluate] at h <;> rfl
  | callback i k =>
    cases k <;> simp [Event.of_evaluate, Hook.of_evaluate, is_evaluation_mode] at h <;> rfl
  | set_early_stop c b => cases b <;> rfl
  | model_reset_mode c m =>
    simp only [Event.of_evaluate, Bool.and_eq_true, decide_eq_true_eq] at h
    obtain ⟨rfl, rfl⟩ := h
    rfl
  | model_reset_epoch_statistics m =>
    simp only [Event.of_evaluate, decide_eq_true_eq] at h
    subst h
    rfl
  | dc_reset_mode c =>
    simp only [Event.of_evaluate, decide_eq_true_eq] at h
    subst h
    rfl
  | _ => first | rfl | exact absurd h (by simp [Event.of_evaluate])

theorem lc_validation_pass (fuel : Nat) (w : World) :
    Lifecycle .between_epochs w .between_epochs (validation_pass fuel w).world := by
  simp only [validation_pass]
  split
  · obtain ⟨evs, ht, ha⟩ := @appends_evaluate .validation .validation fuel
      (.EpochTerminationCriteria w.m_validation_epochs) w
    have h1 : lifecycle .between_epochs evs = some .between_epochs :=
      lifecycle_neutral _ _ (fun e he => of_evaluate_between_epochs e (ha e he))
    cases he : evaluate fuel .validation .validation
        (.EpochTerminationCriteria w.m_validation_epochs) w with
    | error x =>
      rw [he] at ht
      exact ⟨evs, by simpa using ht, h1⟩
    | ok w1 =>
      rw [he] at ht
      simp only [world_ok] at ht
      simp only [ok_bind, pure_eq_ok, world_ok]
      refine ⟨evs ++ [.set_early_stop .caller (w1.context .validation).early_stop], ?_, ?_⟩
      · simp only [World.set_early_stop, log_trace, set_context_trace, ht, List.append_assoc]
        rfl
      · rw [lifecycle_append]
        refine ⟨_, h1, ?_⟩
        cases (w1.context .validation).early_stop <;> rfl
  · exact lc_refl _ w

/-- Wherever the loop of `train` ends, its events were in order, from the
station between two epochs if it started with `is_start_of_epoch`, from an
open epoch otherwise. -/
theorem lc_train_loop (term : SGDTerminationCriteria) (fuel : Nat) :
    ∀ (b : Bool) (w : World),
      ∃ s', Lifecycle (bif b then .between_epochs else .in_epoch) w s'
          (train_loop term fuel b w).world ∧
        (s' = .between_epochs ∨ s' = .in_epoch) := by
  induction fuel with
  | zero =>
    intro b w
    refine ⟨_, by simpa [train_loop] using lc_refl _ w, ?_⟩
    cases b <;> simp
  | succ fuel ih =>
    intro b w
    cases hd : term.is_done (w.context .caller) with
    | true =>
      rw [train_loop_done term fuel b w hd]
      refine ⟨_, lc_refl _ w, ?_⟩
      cases b <;> simp
    | false =>
      rw [train_loop_step term fuel b w hd]
      have h1 : Lifecycle (bif b then .between_epochs else .in_epoch) w .in_epoch
          (bif b then after_initialize_epoch w else w) := by
        cases b
        · exact lc_refl _ w
        · exact lc_initialize_epoch w
      generalize (bif b then after_initialize_epoch w else w) = w1 at h1 ⊢
      have h2 := lc_trans h1 (lc_train_mini_batch w1)
      split
      · have h3 := lc_trans h2 (lc_trans (lc_epoch_end _) (lc_validation_pass fuel (after_epoch_end
          (after_train_mini_batch .caller (w1.log (.timer_scope .train_minibatch))))))
        cases hv : validation_pass fuel (after_epoch_end
            (after_train_mini_batch .caller (w1.log (.timer_scope .train_minibatch)))) with
        | error e =>
          rw [hv] at h3
          exact ⟨.between_epochs, by simpa using h3, Or.inl rfl⟩
        | ok w4 =>
          rw [hv] at h3
          simp only [ok_bind]
          obtain ⟨s', h4, h5⟩ := ih true w4
          exact ⟨s', lc_trans (by simpa using h3) h4, h5⟩
      · obtain ⟨s', h4, h5⟩ := ih false
          (after_train_mini_batch .caller (w1.log (.timer_scope .train_minibatch)))
        exact ⟨s', lc_trans h2 h4, h5⟩

theorem lc_train_entry (w : World) : Lifecycle .start w .between_epochs (train_entry w) := by
  obtain ⟨cbs, ht, ha⟩ := train_entry_trace w
  simp only [List.append_assoc] at ht
  refine ⟨_, ht, ?_⟩
  rw [lifecycle_append]
  refine ⟨.begun, rfl, ?_⟩
  rw [lifecycle_append]
  exact ⟨.begun, lifecycle_hook_activity .begun .on_train_begin rfl rfl cbs ha, rfl⟩

theorem train_entry_callback_count (w : World) (i : Nat) (cb : callback)
    (hi : w.m_callbacks[i]? = some cb) (h : Hook) :
    (train_entry w).trace.count (.callback i h) =
      w.trace.count (.callback i h) + (if h = .on_train_begin then 1 else 0) := by
  simp only [train_entry, log_trace, List.count_append]
  rw [invoke_where_callback_count]
  simp [hi, List.count_cons, World.set_execution_mode, World.set_mini_batch_sizes]

theorem train_exit_callback_count (w : World) (i : Nat) (cb : callback)
    (hi : w.m_callbacks[i]? = some cb) (h : Hook) :
    (train_exit w).trace.count (.callback i h) =
      w.trace.count (.callback i h) + (if h = .on_train_end then 1 else 0) := by
  simp only [train_exit]
  rw [invoke_where_callback_count]
  simp [hi, List.count_cons]

/-- A sequence in order that starts in the loop holds no invocation of
`on_train_begin`. -/
theorem lifecycle_no_train_begin {evs : List Event} {s s' : Phase}
    (h : lifecycle s evs = some s') (hs : s ≠ .start ∧ s ≠ .begun) :
    ∀ e ∈ evs, ∀ i, e ≠ .callback i .on_train_begin := by
  induction evs generalizing s with
  | nil => simp
  | cons e rest ih =>
    obtain ⟨s1, h1, h2⟩ := (lifecycle_cons s e rest s').mp h
    have hs1 : s1 ≠ .start ∧ s1 ≠ .begun := by
      constructor
      · intro hc
        rcases step_into_early s e.mark s1 h1 (Or.inl hc) with h' | h'
        · exact hs.1 h'
        · exact hs.2 h'
      · intro hc
        rcases step_into_early s e.mark s1 h1 (Or.inr hc) with h' | h'
        · exact hs.1 h'
        · exact hs.2 h'
    intro x hx i hc
    rcases List.mem_cons.mp hx with rfl | hx
    · subst hc
      exact hs.2 (step_on_train_begin s s1 h1)
    · exact ih h2 hs1 x hx i hc

/-- Outcome of `train` as far as the lifecycle goes: it returns from the world
in which its loop ended, or it is cut in the loop; the events of the loop were
in order from the station between two epochs. -/
theorem lc_train_outcome (fuel : Nat) (term : SGDTerminationCriteria) (w : World) :
    ∃ (w1 : World) (s1 : Phase), Lifecycle .between_epochs (train_entry w) s1 w1 ∧
      (s1 = .between_epochs ∨ s1 = .in_epoch) ∧
      (train fuel term w = .ok (train_exit w1) ∨
        ∃ a, train fuel term w = .error (a, w1)) := by
  rw [train_eq]
  obtain ⟨s1, h1, h2⟩ := lc_train_loop term fuel true (train_entry w)
  cases hl : train_loop term fuel true (train_entry w) with
  | error e =>
    rw [hl] at h1
    exact ⟨e.2, s1, by simpa using h1, h2, Or.inr ⟨e.1, rfl⟩⟩
  | ok w1 =>
    rw [hl] at h1
    exact ⟨w1, s1, by simpa using h1, h2, Or.inl rfl⟩

end lifecycle_train


section claims_lifecycle

/-- What it means for the events of a run to be in order from the start to a
station in which no reset of the statistics waits for its epoch-begin round. -/
theorem lifecycle_nested {evs : List Event} {s : Phase} (h : lifecycle .start evs = some s)
    (hp : s.pending = 0) (hb : s.started = 1) :
    evs.count (.timer_scope .train_begin_callbacks) = 1 ∧
    (∀ p e, p ++ [e] <+: evs → e.mark.is_epoch_or_batch_hook = true →
      p.count (.timer_scope .train_begin_callbacks) = 1) ∧
    (∀ p i, p ++ [.callback i .on_train_begin] <+: evs →
      p.count (.timer_scope .train_begin_callbacks) = 1 ∧
      ∀ x ∈ p, x.mark.is_epoch_or_batch_hook = false) ∧
    (∀ p, p <+: evs → epoch_begin_rounds p = epoch_end_rounds p ∨
      epoch_begin_rounds p = epoch_end_rounds p + 1) ∧
    (∀ p, p ++ [.timer_scope .train_minibatch] <+: evs →
      epoch_begin_rounds p = epoch_end_rounds p + 1) ∧
    (∀ p, p ++ [.timer_scope .epoch_begin_callbacks] <+: evs →
      ∃ q, p = q ++ [.model_reset_epoch_statistics .training, .dc_reset_mode .caller]) ∧
    evs.count (.model_reset_epoch_statistics .training) = epoch_begin_rounds evs := by
  have hstep : ∀ p e, p ++ [e] <+: evs →
      ∃ s1 s2, lifecycle .start p = some s1 ∧ s1.step e.mark = some s2 := by
    intro p e hpe
    obtain ⟨s2, _, _, h2, _⟩ := lifecycle_prefix hpe h
    obtain ⟨s1, h3, h4⟩ := (lifecycle_append p [e] _ _).mp h2
    exact ⟨s1, s2, h3, (lifecycle_singleton _ _ _).mp h4⟩
  refine ⟨?_, ?_, ?_, ?_, ?_, ?_, ?_⟩
  · have := lifecycle_started h
    rw [hb] at this
    simpa [Phase.started] using this
  · intro p e hpe he
    obtain ⟨s1, s2, h1, h2⟩ := hstep p e hpe
    have h3 := lifecycle_started h1
    have h4 := (step_epoch_or_batch_hook s1 e.mark s2 h2 he).1
    cases s1 <;> simp [Phase.started] at h3 h4 ⊢ <;> omega
  · intro p i hpe
    obtain ⟨s1, s2, h1, h2⟩ := hstep p _ hpe
    have h3 : s1 = .begun := step_on_train_begin s1 s2 h2
    subst h3
    have h4 := lifecycle_started h1
    simp only [Phase.started] at h4
    exact ⟨by omega, (lifecycle_early h1 (Or.inr rfl)).2⟩
  · intro p hpe
    obtain ⟨s1, _, _, h1, _⟩ := lifecycle_prefix hpe h
    have h2 := lifecycle_depth h1
    cases s1 <;> simp [Phase.depth] at h2 ⊢ <;> first | omega | (split at h2 <;> omega)
  · intro p hpe
    obtain ⟨s1, s2, h1, h2⟩ := hstep p _ hpe
    have h3 : s1 = .in_epoch := step_train_minibatch s1 s2 h2
    subst h3
    have h4 := lifecycle_depth h1
    simp only [Phase.depth] at h4
    omega
  · intro p hpe
    obtain ⟨s1, s2, h1, h2⟩ := hstep p _ hpe
    have h3 : s1 = .coordinator_reset := step_epoch_begin_round s1 s2 h2
    subst h3
    obtain ⟨q, hq, _⟩ := lifecycle_coordinator_reset h1 (by decide)
    exact ⟨q, hq⟩
  · have := lifecycle_pending h
    rw [hp] at this
    simpa [Phase.pending] using this

/-- C23, as stated, fails in one point: `model.reset_epoch_statistics(training)`
is not called immediately before the epoch-begin callbacks.  In the run of
`train` on a fresh algorithm, the event directly before the first round of
epoch-begin callbacks (position 11 of the trace) is `dc.reset_mode(c)`; the
reset of the statistics lies one call earlier. -/
theorem lifecycle_hooks_counterexample :
    (train 30 (.EpochTerminationCriteria 1)
      (fresh_world [passive_callback 1] (periodic_coordinator 1 1 false))).toOption.map
      (fun v => (v.trace[9]?, v.trace[10]?, v.trace[11]?)) =
    some (some (.model_reset_epoch_statistics .training), some (.dc_reset_mode .caller),
      some (.timer_scope .epoch_begin_callbacks)) := by
  decide

/-- C23, amended: in every run of `train`, wherever it ends, the events the run
appends are in order in the sense of `lifecycle`.  Explicitly: there is exactly
one round of train-begin callbacks, in which every callback of the model
receives `on_train_begin` once and never again; the round precedes every epoch
or batch hook, and every invocation of `on_train_begin` precedes all of them;
at every point of the run the rounds of epoch-begin callbacks exceed the
rounds of epoch-end callbacks by 0 or 1, and by 1 wherever a training
mini-batch starts; every round of epoch-begin callbacks is directly preceded
by `model.reset_epoch_statistics(training)` followed by `dc.reset_mode(c)`,
and there are as many such resets as rounds; if the run returns, it ends with
`c.stop_timer()`, `model.reset_mode(c, training)`, the round of train-end
callbacks and nothing but invocations of `on_train_end` and their stop
requests, every callback of the model has received `on_train_end` exactly
once, no train-end round and no invocation of `on_train_end` lies before the
final three calls, and the model's execution context is the caller's; if the
run does not return, no train-end round has taken place. -/
theorem lifecycle_hooks_nested (fuel : Nat) (term : SGDTerminationCriteria) (w : World) :
    ∃ evs : List Event, (train fuel term w).world.trace = w.trace ++ evs ∧
      (∃ s, lifecycle .start evs = some s) ∧
      evs.count (.timer_scope .train_begin_callbacks) = 1 ∧
      (∀ i cb, w.m_callbacks[i]? = some cb → evs.count (.callback i .on_train_begin) = 1) ∧
      (∀ p e, p ++ [e] <+: evs → e.mark.is_epoch_or_batch_hook = true →
        p.count (.timer_scope .train_begin_callbacks) = 1) ∧
      (∀ p i, p ++ [.callback i .on_train_begin] <+: evs →
        p.count (.timer_scope .train_begin_callbacks) = 1 ∧
        ∀ x ∈ p, x.mark.is_epoch_or_batch_hook = false) ∧
      (∀ p, p <+: evs → epoch_begin_rounds p = epoch_end_rounds p ∨
        epoch_begin_rounds p = epoch_end_rounds p + 1) ∧
      (∀ p, p ++ [.timer_scope .train_minibatch] <+: evs →
        epoch_begin_rounds p = epoch_end_rounds p + 1) ∧
      (∀ p, p ++ [.timer_scope .epoch_begin_callbacks] <+: evs →
        ∃ q, p = q ++ [.model_reset_epoch_statistics .training, .dc_reset_mode .caller]) ∧
      evs.count (.model_reset_epoch_statistics .training) = epoch_begin_rounds evs ∧
      (∀ w', train fuel term w = .ok w' →
        ∃ body cbs, evs = body ++ [.stop_timer .caller, .model_reset_mode .caller .training,
            .timer_scope .train_end_callbacks] ++ cbs ∧
          (∀ e ∈ cbs, (∃ i, e = .callback i .on_train_end) ∨ ∃ c, e = .set_early_stop c true) ∧
          (∀ i cb, w'.m_callbacks[i]? = some cb →
            evs.count (.callback i .on_train_end) = 1) ∧
          body.count (.timer_scope .train_end_callbacks) = 0 ∧
          (∀ e ∈ body, ∀ i, e ≠ .callback i .on_train_end) ∧
          w'.m_execution_context = some .caller) ∧
      ((train fuel term w).toOption = none →
        evs.count (.timer_scope .train_end_callbacks) = 0 ∧
        ∀ e ∈ evs, ∀ i, e ≠ .callback i .on_train_end) := by
  obtain ⟨w1, s1, ⟨evsL, htL, hlL⟩, hs1, hout⟩ := lc_train_outcome fuel term w
  obtain ⟨evsE, htE, hlE⟩ := lc_train_entry w
  have ht0 : w1.trace = w.trace ++ (evsE ++ evsL) := by
    rw [htL, htE, List.append_assoc]
  have hl0 : lifecycle .start (evsE ++ evsL) = some s1 :=
    (lifecycle_append evsE evsL _ _).mpr ⟨_, hlE, hlL⟩
  have hend0 : s1.ended = 0 := by rcases hs1 with rfl | rfl <;> rfl
  have hcount0 : (evsE ++ evsL).count (.timer_scope .train_end_callbacks) = 0 := by
    have := lifecycle_ended hl0
    rw [hend0] at this
    simpa [Phase.ended] using this
  have hbegin0 : ∀ i cb, w.m_callbacks[i]? = some cb →
      (evsE ++ evsL).count (.callback i .on_train_begin) = 1 := by
    intro i cb hi
    have h1 := train_entry_callback_count w i cb hi .on_train_begin
    rw [htE, List.count_append] at h1
    have h2 : evsL.count (.callback i .on_train_begin) = 0 :=
      List.count_eq_zero.mpr
        (fun hm => lifecycle_no_train_begin hlL (by decide) _ hm i rfl)
    rw [List.count_append, h2]
    simp only [if_true] at h1
    omega
  rcases hout with hok | ⟨a, herr⟩
  · obtain ⟨cbs, ht1, ha1⟩ := train_exit_trace w1
    have hl1 : lifecycle .start ((evsE ++ evsL) ++ ([.stop_timer .caller,
        .model_reset_mode .caller .training, .timer_scope .train_end_callbacks] ++ cbs)) =
        some (.finished (decide (s1 = .in_epoch))) := by
      rw [lifecycle_append]
      refine ⟨s1, hl0, ?_⟩
      rw [lifecycle_append]
      refine ⟨.finished (decide (s1 = .in_epoch)), ?_,
        lifecycle_hook_activity (.finished (decide (s1 = .in_epoch))) .on_train_end rfl rfl
          cbs ha1⟩
      rcases hs1 with rfl | rfl <;> rfl
    have hcbs : ∀ i, cbs.count (.callback i .on_train_begin) = 0 := by
      intro i
      apply List.count_eq_zero.mpr
      intro hm
      rcases ha1 _ hm with ⟨j, hj⟩ | ⟨c, hc⟩
      · injection hj with _ hh; exact Hook.noConfusion hh
      · exact Event.noConfusion hc
    obtain ⟨n1, n2, n3, n4, n5, n6, n7⟩ := lifecycle_nested hl1 rfl rfl
    refine ⟨_, ?_, ⟨_, hl1⟩, n1, ?_, n2, n3, n4, n5, n6, n7, ?_, ?_⟩
    · rw [hok, world_ok, ht1, ht0]
      simp only [List.append_assoc]
    · intro i cb hi
      rw [List.count_append, hbegin0 i cb hi, List.count_append, hcbs i]
      simp [List.count_cons]
    · intro w' hw'
      rw [hok] at hw'
      have hw1 : train_exit w1 = w' := by injection hw'
      subst hw1
      refine ⟨evsE ++ evsL, cbs, by simp only [List.append_assoc], ha1, ?_, hcount0,
        lifecycle_no_train_end hl0 hend0, by simp [train_exit]⟩
      intro i cb hi
      have h1 := train_exit_callback_count w1 i cb (by simpa using hi) .on_train_end
      rw [ht1, List.append_assoc, List.count_append] at h1
      have h2 : (evsE ++ evsL).count (.callback i .on_train_end) = 0 :=
        List.count_eq_zero.mpr (fun hm => lifecycle_no_train_end hl0 hend0 _ hm i rfl)
      rw [List.count_append, h2]
      simp only [if_true] at h1
      omega
    · intro hn
      rw [hok] at hn
      exact absurd hn (by simp [Except.toOption])
  · have hp1 : s1.pending = 0 := by rcases hs1 with rfl | rfl <;> rfl
    have hb1 : s1.started = 1 := by rcases hs1 with rfl | rfl <;> rfl
    obtain ⟨n1, n2, n3, n4, n5, n6, n7⟩ := lifecycle_nested hl0 hp1 hb1
    refine ⟨evsE ++ evsL, ?_, ⟨_, hl0⟩, n1, hbegin0, n2, n3, n4, n5, n6, n7, ?_, ?_⟩
    · rw [herr, world_error]; exact ht0
    · intro w' hw'
      rw [herr] at hw'
      exact Except.noConfusion hw'
    · intro _
      exact ⟨hcount0, lifecycle_no_train_end hl0 hend0⟩

end claims_lifecycle


/-! ## The early-stopping callback -/

section early_stopping_consulted

theorem consulted_eq_some {α : Type} {ms : List (metric α)} {x : metric α} (h : consulted ms = some x) :
    ∃ pre post, ms = pre ++ x :: post ∧ (∀ y ∈ pre, y.supports_early_termination = false) ∧
      x.supports_early_termination = true := by
  induction ms with
  | nil => simp [consulted] at h
  | cons y rest ih =>
    simp only [consulted, List.find?_cons] at h
    cases hy : y.supports_early_termination with
    | true =>
      rw [hy] at h
      simp only [Option.some.injEq] at h
      subst h
      exact ⟨[], rest, rfl, by simp, hy⟩
    | false =>
      rw [hy] at h
      obtain ⟨pre, post, h1, h2, h3⟩ := ih h
      refine ⟨y :: pre, post, by rw [h1]; rfl, ?_, h3⟩
      intro z hz
      rcases List.mem_cons.mp hz with rfl | hz
      · exact hy
      · exact h2 z hz

end early_stopping_consulted

section early_stopping

open lbann_callback_early_stopping

variable {α : Type} [LinearOrder α]

theorem on_validation_end_loop_skip (cb : lbann_callback_early_stopping α) (m : model α)
    (pre rest : List (metric α)) (h : ∀ y ∈ pre, y.supports_early_termination = false) :
    on_validation_end_loop cb m (pre ++ rest) = on_validation_end_loop cb m rest := by
  induction pre with
  | nil => rfl
  | cons y pre ih =>
    have hy := h y (List.mem_cons_self _ _)
    simp only [List.cons_append, on_validation_end_loop, hy, Bool.false_eq_true, if_false]
    exact ih (fun z hz => h z (List.mem_cons_of_mem _ hz))

theorem on_validation_end_loop_first (cb : lbann_callback_early_stopping α) (m : model α)
    (x : metric α) (post : List (metric α)) (hx : x.supports_early_termination = true) :
    on_validation_end_loop cb m (x :: post) =
      if cb.is_improving x = true then
        ({ cb with last_score := x.report_metric .validation, wait := 0 }, m)
      else if cb.wait ≥ cb.patience then (cb, m.set_terminate_training true)
      else ({ cb with wait := cb.wait + 1 }, m) := by
  simp only [on_validation_end_loop, hx, if_true]

/-- The outcome of `on_validation_end` is decided by the consulted metric. -/
theorem on_validation_end_consulted (cb : lbann_callback_early_stopping α) (m : model α)
    (ms : List (metric α)) (x : metric α) (h : consulted ms = some x) :
    cb.on_validation_end { m with metrics := ms } =
      if cb.is_improving x = true then
        ({ cb with last_score := x.report_metric .validation, wait := 0 },
          { m with metrics := ms })
      else if cb.wait ≥ cb.patience then
        (cb, ({ m with metrics := ms } : model α).set_terminate_training true)
      else ({ cb with wait := cb.wait + 1 }, { m with metrics := ms }) := by
  obtain ⟨pre, post, h1, h2, h3⟩ := consulted_eq_some h
  simp only [on_validation_end]
  rw [h1, on_validation_end_loop_skip _ _ _ _ h2, on_validation_end_loop_first _ _ _ _ h3]

theorem on_validation_end_not_consulted (cb : lbann_callback_early_stopping α) (m : model α)
    (ms : List (metric α)) (h : consulted ms = none) :
    cb.on_validation_end { m with metrics := ms } = (cb, { m with metrics := ms }) := by
  simp only [on_validation_end]
  have hall : ∀ y ∈ ms, y.supports_early_termination = false := by
    intro y hy
    have := List.find?_eq_none.mp h y hy
    simpa using this
  have := on_validation_end_loop_skip cb { m with metrics := ms } ms [] hall
  rw [List.append_nil] at this
  rw [this]
  rfl

/-- One validation keeps `wait` between 0 and `patience`. -/
theorem on_validation_end_wait (cb : lbann_callback_early_stopping α) (m : model α)
    (ms : List (metric α)) (h0 : 0 ≤ cb.wait) (h1 : cb.wait ≤ cb.patience) :
    0 ≤ (cb.on_validation_end { m with metrics := ms }).1.wait ∧
    (cb.on_validation_end { m with metrics := ms }).1.wait ≤
      (cb.on_validation_end { m with metrics := ms }).1.patience ∧
    (cb.on_validation_end { m with metrics := ms }).1.patience = cb.patience := by
  cases hc : consulted ms with
  | none => rw [on_validation_end_not_consulted cb m ms hc]; exact ⟨h0, h1, rfl⟩
  | some x =>
    rw [on_validation_end_consulted cb m ms x hc]
    split
    · exact ⟨le_refl _, by simpa using le_trans h0 h1, rfl⟩
    · split
      · exact ⟨h0, h1, rfl⟩
      · next hlt =>
        simp only [ge_iff_le, not_le] at hlt
        exact ⟨by simp only; omega, by simp only; omega, rfl⟩

theorem validations_wait (cb : lbann_callback_early_stopping α) (m : model α)
    (rounds : List (List (metric α))) (h0 : 0 ≤ cb.wait) (h1 : cb.wait ≤ cb.patience) :
    0 ≤ (validations cb m rounds).1.wait ∧
    (validations cb m rounds).1.wait ≤ cb.patience ∧
    (validations cb m rounds).1.patience = cb.patience := by
  induction rounds generalizing cb m with
  | nil => exact ⟨h0, h1, rfl⟩
  | cons ms rest ih =>
    obtain ⟨a, b, c⟩ := on_validation_end_wait cb m ms h0 h1
    obtain ⟨a', b', c'⟩ := ih (cb.on_validation_end { m with metrics := ms }).1
      (cb.on_validation_end { m with metrics := ms }).2 a b
    simp only [validations]
    exact ⟨a', by rw [← c]; exact b', by rw [c', c]⟩

/-- A validation that is not an improvement invokes
`set_terminate_training(true)` exactly if `wait` has reached `patience`, and
increments `wait` otherwise. -/
theorem on_validation_end_non_improving (cb : lbann_callback_early_stopping α) (m : model α)
    (ms : List (metric α)) (h : NonImproving cb ms) :
    (cb.on_validation_end { m with metrics := ms }).1 =
      (if cb.wait ≥ cb.patience then cb else { cb with wait := cb.wait + 1 }) ∧
    (cb.stops m ms = true ↔ cb.patience ≤ cb.wait) := by
  obtain ⟨x, hc, hi⟩ := h
  simp only [stops]
  rw [on_validation_end_consulted cb m ms x hc]
  simp only [hi, Bool.false_eq_true, if_false]
  by_cases hw : cb.wait ≥ cb.patience
  · simp only [if_pos hw]
    exact ⟨trivial, by simpa [model.set_terminate_training] using hw⟩
  · simp only [if_neg hw]
    refine ⟨trivial, ?_⟩
    have hne : ¬ (m.set_terminate_training_calls = true :: m.set_terminate_training_calls) := by
      intro hl
      have := congrArg List.length hl
      simp at this
    simp only [decide_eq_true_eq]
    exact ⟨fun hl => absurd hl hne, fun hle => absurd hle hw⟩

theorem non_improving_wait (cb : lbann_callback_early_stopping α) (k : Int)
    (ms : List (metric α)) (h : NonImproving cb ms) :
    NonImproving { cb with wait := k } ms := h

/-- After `n` validations in a row that are no improvement, counted from a
state with `wait = 0`, `wait` is the smaller of `n` and `patience`. -/
theorem validations_non_improving (cb : lbann_callback_early_stopping α) (m : model α)
    (rounds : List (List (metric α))) (h0 : 0 ≤ cb.wait) (h1 : cb.wait ≤ cb.patience)
    (hr : ∀ ms ∈ rounds, NonImproving cb ms) :
    (validations cb m rounds).1 =
      { cb with wait := min (cb.wait + rounds.length) cb.patience } := by
  induction rounds generalizing cb m with
  | nil =>
    simp only [validations, List.length_nil, Nat.cast_zero, add_zero]
    rw [min_eq_left h1]
  | cons ms rest ih =>
    have hms := hr ms (List.mem_cons_self _ _)
    obtain ⟨e1, _⟩ := on_validation_end_non_improving cb m ms hms
    simp only [validations]
    rw [e1]
    by_cases hw : cb.wait ≥ cb.patience
    · simp only [hw, if_true]
      rw [ih cb _ h0 h1 (fun z hz => hr z (List.mem_cons_of_mem _ hz))]
      have e2 : min (cb.wait + (rest.length : Int)) cb.patience = cb.patience := by
        apply min_eq_right; omega
      have e3 : min (cb.wait + ((ms :: rest).length : Int)) cb.patience = cb.patience := by
        apply min_eq_right; simp only [List.length_cons, Nat.cast_add, Nat.cast_one]; omega
      rw [e2, e3]
    · simp only [hw, if_false]
      simp only [ge_iff_le, not_le] at hw
      rw [ih { cb with wait := cb.wait + 1 } _ (by simp only; omega) (by simp only; omega)
        (fun z hz => hr z (List.mem_cons_of_mem _ hz))]
      simp only [List.length_cons, Nat.cast_add, Nat.cast_one]
      congr 1
      congr 1
      omega

end early_stopping


section claims_early_stopping

open lbann_callback_early_stopping

variable {α : Type} [LinearOrder α]

/-- A run of validations that are no improvement, from a state with `wait = 0`
and patience `p >= 0`: before the `(n + 1)`-th of them `wait` is the smaller of
`n` and `p`, and the `(n + 1)`-th invokes `set_terminate_training(true)`
exactly if `n >= p`. -/
theorem non_improving_run (cb : lbann_callback_early_stopping α) (m : model α)
    (rounds : List (List (metric α))) (p : Int) (hp : 0 ≤ p) (hpat : cb.patience = p)
    (hw : cb.wait = 0) (hr : ∀ ms ∈ rounds, NonImproving cb ms) :
    (∀ n, n ≤ rounds.length →
      (validations cb m (rounds.take n)).1 = { cb with wait := min (n : Int) p }) ∧
    (∀ n (hn : n < rounds.length),
      ((validations cb m (rounds.take n)).1.stops (validations cb m (rounds.take n)).2
        rounds[n] = true ↔ p + 1 ≤ (n : Int) + 1)) := by
  have hstate : ∀ n, n ≤ rounds.length →
      (validations cb m (rounds.take n)).1 = { cb with wait := min (n : Int) p } := by
    intro n hn
    rw [validations_non_improving cb m (rounds.take n) (by omega) (by omega)
      (fun ms hms => hr ms (List.mem_of_mem_take hms))]
    rw [List.length_take, min_eq_left hn, hw, hpat, zero_add]
  refine ⟨hstate, ?_⟩
  intro n hn
  have hni : NonImproving (validations cb m (rounds.take n)).1 rounds[n] := by
    rw [hstate n (le_of_lt hn)]
    exact hr _ (List.getElem_mem _)
  rw [(on_validation_end_non_improving _ _ _ hni).2, hstate n (le_of_lt hn)]
  simp only [hpat]
  constructor
  · intro h
    have := le_min_iff.mp h
    omega
  · intro h
    exact le_min (by omega) (le_refl _)

/-- C27: the early-stopping callback with patience `p >= 0`.  From the state
the constructor makes (`wait = 0`), whatever the validations, `wait` stays
between 0 and `p`.  A validation whose consulted score is taken for an
improvement sets `wait` to 0 and `last_score` to that score and does not
invoke `set_terminate_training`.  From a state with `wait = 0`, of the
validations in a row that are no improvement the `(n + 1)`-th finds
`wait = min n p` and invokes `set_terminate_training(true)` exactly if
`p + 1 <= n + 1`.  Only the first metric that supports early termination
decides the outcome; without such a metric nothing happens. -/
theorem early_stopping_patience [Zero α] (p : Int) (hp : 0 ≤ p) :
    (∀ (m : model α) (rounds : List (List (metric α))),
      0 ≤ (validations (construct p) m rounds).1.wait ∧
      (validations (construct p) m rounds).1.wait ≤ p) ∧
    (∀ (cb : lbann_callback_early_stopping α) (m : model α) (ms : List (metric α))
      (x : metric α), consulted ms = some x → cb.is_improving x = true →
        (cb.on_validation_end { m with metrics := ms }).1 =
          { cb with last_score := x.report_metric .validation, wait := 0 } ∧
        cb.stops m ms = false) ∧
    (∀ (cb : lbann_callback_early_stopping α) (m : model α) (rounds : List (List (metric α))),
      cb.patience = p → cb.wait = 0 → (∀ ms ∈ rounds, NonImproving cb ms) →
      ∀ n (hn : n < rounds.length),
        (validations cb m (rounds.take n)).1 = { cb with wait := min (n : Int) p } ∧
        ((validations cb m (rounds.take n)).1.stops (validations cb m (rounds.take n)).2
          rounds[n] = true ↔ p + 1 ≤ (n : Int) + 1)) ∧
    (∀ (cb : lbann_callback_early_stopping α) (m : model α) (pre post : List (metric α))
      (x : metric α), (∀ y ∈ pre, y.supports_early_termination = false) →
        x.supports_early_termination = true →
        on_validation_end_loop cb m (pre ++ x :: post) = on_validation_end_loop cb m [x]) ∧
    (∀ (cb : lbann_callback_early_stopping α) (m : model α) (ms : List (metric α)),
      consulted ms = none →
        cb.on_validation_end { m with metrics := ms } = (cb, { m with metrics := ms })) := by
  refine ⟨?_, ?_, ?_, ?_, ?_⟩
  · intro m rounds
    obtain ⟨a, b, _⟩ := validations_wait (construct p) m rounds (le_refl _) hp
    exact ⟨a, b⟩
  · intro cb m ms x hc hi
    simp only [stops]
    rw [on_validation_end_consulted cb m ms x hc]
    simp only [hi, if_true, decide_eq_false_iff_not, true_and]
    intro hl
    have := congrArg List.length hl
    simp at this
  · intro cb m rounds hpat hw hr n hn
    obtain ⟨h1, h2⟩ := non_improving_run cb m rounds p hp hpat hw hr
    exact ⟨h1 n (le_of_lt hn), h2 n hn⟩
  · intro cb m pre post x hpre hx
    rw [on_validation_end_loop_skip _ _ _ _ hpre, on_validation_end_loop_first _ _ _ _ hx,
      on_validation_end_loop_first _ _ _ _ hx]
  · intro cb m ms hc
    exact on_validation_end_not_consulted cb m ms hc

/-- Witness of C27: patience 2 and a metric for which a higher score is better.
The scores 5, 4, 3, 2 are an improvement followed by three validations that are
none; only the last of them invokes `set_terminate_training(true)`, and
`wait` ends at 2 with `last_score = 5`. -/
theorem early_stopping_patience_witness :
    (0 : Int) ≤ 2 ∧
    (∀ (m : model Int) (rounds : List (List (metric Int))),
      0 ≤ (validations (construct 2) m rounds).1.wait ∧
      (validations (construct 2) m rounds).1.wait ≤ 2) ∧
    ((validations (construct 2 : lbann_callback_early_stopping Int) ⟨[], []⟩
      [[⟨true, true, false, fun _ => 5⟩], [⟨true, true, false, fun _ => 4⟩],
       [⟨true, true, false, fun _ => 3⟩]]).2.set_terminate_training_calls = []) ∧
    ((fun r : lbann_callback_early_stopping Int × model Int =>
        (r.1.wait, r.1.last_score, r.2.set_terminate_training_calls))
      (validations (construct 2 : lbann_callback_early_stopping Int) ⟨[], []⟩
        [[⟨true, true, false, fun _ => 5⟩], [⟨true, true, false, fun _ => 4⟩],
         [⟨true, true, false, fun _ => 3⟩], [⟨true, true, false, fun _ => 2⟩]]) =
      (2, 5, [true])) :=
  ⟨by decide, (@early_stopping_patience Int _ _ 2 (by decide)).1, by decide, by decide⟩

/-- C28: the constructor sets `last_score` to 0.  With patience `p >= 0` and
validations whose consulted metric is one for which a lower score is better
(and a higher score is not) and reports a score `>= 0`: no score is taken for
an improvement, before the `(n + 1)`-th validation `last_score` is still 0 and
`wait` is `min n p`, never set back, and the `(n + 1)`-th validation invokes
`set_terminate_training(true)` exactly if `p + 1 <= n + 1`: not before the
`(p + 1)`-th validation, and at it.  For a metric for which a higher score is
better (and a lower score is not), the first score is taken for an improvement
exactly if it is greater than 0. -/
theorem early_stopping_initial_score [Zero α] (p : Int) (hp : 0 ≤ p) (m : model α)
    (rounds : List (List (metric α)))
    (hlow : ∀ ms ∈ rounds, ∃ x, consulted ms = some x ∧ x.lower_score_is_better = true ∧
      x.higher_score_is_better = false ∧ 0 ≤ x.report_metric .validation) :
    (∀ n, n ≤ rounds.length →
      (validations (construct p) m (rounds.take n)).1 =
        { patience := p, last_score := 0, wait := min (n : Int) p }) ∧
    (∀ n (_ : n < rounds.length), ∀ ms ∈ rounds, ∀ x, consulted ms = some x →
      (validations (construct p) m (rounds.take n)).1.is_improving x = false) ∧
    (∀ n (hn : n < rounds.length),
      ((validations (construct p) m (rounds.take n)).1.stops
        (validations (construct p) m (rounds.take n)).2 rounds[n] = true ↔
          p + 1 ≤ (n : Int) + 1)) ∧
    (∀ x : metric α, x.higher_score_is_better = true → x.lower_score_is_better = false →
      ((construct p : lbann_callback_early_stopping α).is_improving x = true ↔
        0 < x.report_metric .validation)) := by
  have hni : ∀ ms ∈ rounds, NonImproving (construct p : lbann_callback_early_stopping α) ms := by
    intro ms hms
    obtain ⟨x, hc, hl, hh, hs⟩ := hlow ms hms
    refine ⟨x, hc, ?_⟩
    simp only [is_improving, hh, hl, Bool.false_and, Bool.true_and, Bool.false_or,
      decide_eq_false_iff_not, construct, not_lt]
    exact hs
  obtain ⟨h1, h2⟩ := non_improving_run (construct p) m rounds p hp rfl rfl hni
  refine ⟨fun n hn => h1 n hn, ?_, h2, ?_⟩
  · intro n hn ms hms x hc
    rw [h1 n (le_of_lt hn)]
    obtain ⟨y, hy, hl, hh, hs⟩ := hlow ms hms
    rw [hc] at hy
    injection hy with hy
    subst hy
    simp only [is_improving, hh, hl, Bool.false_and, Bool.true_and, Bool.false_or,
      decide_eq_false_iff_not, construct, not_lt]
    exact hs
  · intro x hh hl
    simp [is_improving, hh, hl, construct]

/-- Witness of C28: patience 1 and a metric for which a lower score is better,
with the scores 3, 1, 0.  The scores fall, yet none is taken for an
improvement, and `set_terminate_training(true)` is invoked at the second
validation and not at the first. -/
theorem early_stopping_initial_score_witness :
    (0 : Int) ≤ 1 ∧
    ((validations (construct 1 : lbann_callback_early_stopping Int) ⟨[], []⟩
      ([[⟨true, false, true, fun _ => 3⟩], [⟨true, false, true, fun _ => 1⟩],
        [⟨true, false, true, fun _ => 0⟩]].take 2)).1 =
      { patience := 1, last_score := 0, wait := min ((2 : Nat) : Int) 1 }) ∧
    ((fun r : lbann_callback_early_stopping Int × model Int =>
        (r.1.wait, r.1.last_score, r.2.set_terminate_training_calls))
      (validations (construct 1 : lbann_callback_early_stopping Int) ⟨[], []⟩
        [[⟨true, false, true, fun _ => 3⟩]]) = (1, 0, [])) ∧
    ((fun r : lbann_callback_early_stopping Int × model Int =>
        (r.1.wait, r.1.last_score, r.2.set_terminate_training_calls))
      (validations (construct 1 : lbann_callback_early_stopping Int) ⟨[], []⟩
        [[⟨true, false, true, fun _ => 3⟩], [⟨true, false, true, fun _ => 1⟩]]) =
      (1, 0, [true])) :=
  ⟨by decide,
   (@early_stopping_initial_score Int _ _ 1 (by decide) ⟨[], []⟩
      [[⟨true, false, true, fun _ => 3⟩], [⟨true, false, true, fun _ => 1⟩],
       [⟨true, false, true, fun _ => 0⟩]]
      (by
        intro ms hms
        simp only [List.mem_cons, List.mem_singleton, List.not_mem_nil, or_false] at hms
        rcases hms with rfl | rfl | rfl <;> exact ⟨_, rfl, rfl, rfl, by decide⟩)).1 2
      (by decide),
   by decide, by decide⟩

end claims_early_stopping


/-! ## The categorical accuracy metric -/

section highest_row_facts

theorem highest_row_some {P : Nat → Bool} {height i : Nat} (h : highest_row P height = some i) :
    i < height ∧ P i = true ∧ ∀ k, i < k → k < height → P k = false := by
  induction height with
  | zero => simp [highest_row] at h
  | succ n ih =>
    simp only [highest_row] at h
    split at h
    · next hP =>
      injection h with h
      subst h
      exact ⟨Nat.lt_succ_self _, hP, fun k h1 h2 => by omega⟩
    · next hP =>
      obtain ⟨a, b, c⟩ := ih h
      refine ⟨by omega, b, fun k h1 h2 => ?_⟩
      rcases Nat.lt_or_ge k n with hk | hk
      · exact c k h1 hk
      · have : k = n := by omega
        subst this
        simpa using hP

theorem highest_row_none {P : Nat → Bool} {height : Nat} (h : highest_row P height = none) :
    ∀ k, k < height → P k = false := by
  induction height with
  | zero => intro k hk; omega
  | succ n ih =>
    simp only [highest_row] at h
    split at h
    · exact Option.noConfusion h
    · next hP =>
      intro k hk
      rcases Nat.lt_or_ge k n with hk' | hk'
      · exact ih h k hk'
      · have : k = n := by omega
        subst this
        simpa using hP

theorem highest_row_of {P : Nat → Bool} {height i : Nat} (hi : i < height) (hP : P i = true)
    (hk : ∀ k, i < k → k < height → P k = false) : highest_row P height = some i := by
  cases h : highest_row P height with
  | none => rw [highest_row_none h i hi] at hP; exact Bool.noConfusion hP
  | some j =>
    obtain ⟨a, b, c⟩ := highest_row_some h
    rcases Nat.lt_trichotomy i j with hlt | heq | hgt
    · rw [hk j hlt a] at b; exact Bool.noConfusion b
    · rw [heq]
    · rw [c i hgt hi] at hP; exact Bool.noConfusion hP

theorem highest_row_congr {P Q : Nat → Bool} {height : Nat}
    (h : ∀ k, k < height → P k = Q k) : highest_row P height = highest_row Q height := by
  induction height with
  | zero => rfl
  | succ n ih =>
    simp only [highest_row, h n (Nat.lt_succ_self _)]
    rw [ih (fun k hk => h k (by omega))]

/-- A loop over the rows from the top that overwrites a value at every row
satisfying `P` leaves the value written at the highest such row. -/
theorem foldl_highest_row {β : Type} (P : Nat → Prop) [DecidablePred P] (u : Nat → β → β)
    (hu : ∀ a b x, u a (u b x) = u a x) (init : β) (height : Nat) :
    (List.range height).foldl (fun acc f => if P f then u f acc else acc) init =
      match highest_row (fun i => decide (P i)) height with
      | some i => u i init
      | none => init := by
  induction height with
  | zero => rfl
  | succ n ih =>
    rw [List.range_succ, List.foldl_append, ih]
    simp only [List.foldl_cons, List.foldl_nil, highest_row, decide_eq_true_eq]
    by_cases hP : P n
    · simp only [hP, if_true]
      cases highest_row (fun i => decide (P i)) n with
      | none => rfl
      | some j => exact hu _ _ _
    · simp only [hP, if_false]

end highest_row_facts

section categorical_accuracy_loops

open categorical_accuracy

variable {α : Type} [LinearOrder α]

/-- The first loop nest over the first `n` columns. -/
theorem find_max_index_columns (predictions : ElMat α) (Y : Nat → α)
    (hrow : ∀ i, predictions.GlobalRow i = i) (hcol : ∀ j, predictions.GlobalCol j = j)
    (n : Nat) :
    (List.range n).foldl
      (fun m_max_index mb_index =>
        (List.range predictions.LocalHeight).foldl
          (fun m_max_index f_index =>
            if predictions.GetLocal f_index mb_index = Y (predictions.GlobalCol mb_index) then
              Function.update m_max_index (predictions.GlobalCol mb_index)
                (predictions.GlobalRow f_index : Int)
            else m_max_index)
          m_max_index)
      (fun _ => 0) =
    fun j =>
      if j < n then
        match highest_row (fun i => decide (predictions.GetLocal i j = Y j))
          predictions.LocalHeight with
        | some i => (i : Int)
        | none => 0
      else 0 := by
  induction n with
  | zero => simp
  | succ n ih =>
    rw [List.range_succ, List.foldl_append, ih]
    simp only [List.foldl_cons, List.foldl_nil, hrow, hcol]
    rw [@foldl_highest_row (Nat → Int) (fun f => predictions.GetLocal f n = Y n) _
      (fun f (m : Nat → Int) => Function.update m n (f : Int))
      (fun a b x => Function.update_idem _ _ _) _ predictions.LocalHeight]
    funext j
    rcases Nat.lt_trichotomy j n with hlt | heq | hgt
    · have h1 : j < n + 1 := by omega
      have h2 : j ≠ n := by omega
      cases highest_row (fun i => decide (predictions.GetLocal i n = Y n))
          predictions.LocalHeight with
      | none => simp [hlt, h1]
      | some i => simp [hlt, h1, Function.update, h2]
    · subst heq
      cases highest_row (fun i => decide (predictions.GetLocal i j = Y j))
          predictions.LocalHeight with
      | none => simp
      | some i => simp
    · have h1 : ¬ j < n + 1 := by omega
      have h2 : ¬ j < n := by omega
      have h3 : j ≠ n := by omega
      cases highest_row (fun i => decide (predictions.GetLocal i n = Y n))
          predictions.LocalHeight with
      | none => simp [h1, h2]
      | some i => simp [h1, h2, Function.update, h3]

theorem find_max_index_eq (predictions : ElMat α) (Y : Nat → α)
    (hrow : ∀ i, predictions.GlobalRow i = i) (hcol : ∀ j, predictions.GlobalCol j = j)
    (j : Nat) (hj : j < predictions.LocalWidth) :
    find_max_index predictions Y j =
      match highest_row (fun i => decide (predictions.GetLocal i j = Y j))
        predictions.LocalHeight with
      | some i => (i : Int)
      | none => 0 := by
  simp only [find_max_index]
  rw [find_max_index_columns predictions Y hrow hcol]
  simp [hj]

theorem find_target_eq [One α] (groundtruth : ElMat α) (hrow : ∀ i, groundtruth.GlobalRow i = i)
    (j : Nat) :
    find_target groundtruth j =
      match ground_truth_class groundtruth j with
      | some t => (t : Int)
      | none => -1 := by
  simp only [find_target, ground_truth_class, hrow]
  exact foldl_highest_row (fun f => groundtruth.GetLocal f j = 1) (fun f _ => (f : Int))
    (fun _ _ _ => rfl) (-1) groundtruth.LocalHeight

/-- A loop that counts adds up the columns that satisfy the condition. -/
theorem foldl_count (c : Nat → Prop) [DecidablePred c] (n : Nat) :
    (List.range n).foldl (fun (k : Int) j => if c j then k + 1 else k) 0 =
      (((List.range n).filter fun j => decide (c j)).length : Int) := by
  induction n with
  | zero => rfl
  | succ n ih =>
    rw [List.range_succ, List.foldl_append, ih, List.filter_append]
    by_cases hc : c n
    · simp [hc]
    · simp [hc]

end categorical_accuracy_loops

section claims_categorical_accuracy

open categorical_accuracy

variable {α : Type} [LinearOrder α] [One α]

/-- C29: `compute_metric` on a single process (the reductions return their
argument, local rows and columns are the global ones), for predictions and
ground truth of the same shape, `ColumnMax` yielding for every column its
greatest entry.  The result is the number of columns `j` that count as an
error: columns with a ground-truth class from which the predicted class
differs.  The ground-truth class of a column is the highest row holding 1 and
there is none exactly if no row holds 1; the predicted class is the highest row
at which the column takes its maximum.  The result lies between 0 and the
number of columns. -/
theorem categorical_accuracy_counts_errors (ColumnMax : ElMat α → Nat → α)
    (predictions groundtruth : ElMat α)
    (hprow : ∀ i, predictions.GlobalRow i = i) (hpcol : ∀ j, predictions.GlobalCol j = j)
    (hgrow : ∀ i, groundtruth.GlobalRow i = i) (hgcol : ∀ j, groundtruth.GlobalCol j = j)
    (hheight : groundtruth.LocalHeight = predictions.LocalHeight)
    (hwidth : groundtruth.LocalWidth = predictions.LocalWidth)
    (hmax : ∀ j, j < predictions.LocalWidth →
      (∀ i, i < predictions.LocalHeight → predictions.GetLocal i j ≤ ColumnMax predictions j) ∧
      (0 < predictions.LocalHeight →
        ∃ i, i < predictions.LocalHeight ∧ predictions.GetLocal i j = ColumnMax predictions j)) :
    compute_metric lbann_comm.single_process ColumnMax predictions groundtruth =
      (((List.range groundtruth.LocalWidth).filter
        (is_error predictions groundtruth)).length : Int) ∧
    0 ≤ compute_metric lbann_comm.single_process ColumnMax predictions groundtruth ∧
    compute_metric lbann_comm.single_process ColumnMax predictions groundtruth ≤
      (groundtruth.LocalWidth : Int) ∧
    (∀ j t, ground_truth_class groundtruth j = some t ↔
      (t < groundtruth.LocalHeight ∧ groundtruth.GetLocal t j = 1 ∧
        ∀ k, t < k → k < groundtruth.LocalHeight → groundtruth.GetLocal k j ≠ 1)) ∧
    (∀ j, ground_truth_class groundtruth j = none ↔
      ∀ k, k < groundtruth.LocalHeight → groundtruth.GetLocal k j ≠ 1) ∧
    (∀ j i, predicted_class predictions j = some i ↔
      (i < predictions.LocalHeight ∧
        (∀ k, k < predictions.LocalHeight →
          predictions.GetLocal k j ≤ predictions.GetLocal i j) ∧
        ∀ k, i < k → k < predictions.LocalHeight →
          predictions.GetLocal k j < predictions.GetLocal i j)) := by
  have hpred : ∀ j i, predicted_class predictions j = some i ↔
      (i < predictions.LocalHeight ∧
        (∀ k, k < predictions.LocalHeight →
          predictions.GetLocal k j ≤ predictions.GetLocal i j) ∧
        ∀ k, i < k → k < predictions.LocalHeight →
          predictions.GetLocal k j < predictions.GetLocal i j) := by
    intro j i
    constructor
    · intro h
      obtain ⟨a, b, c⟩ := highest_row_some h
      simp only [decide_eq_true_eq] at b
      refine ⟨a, b, fun k h1 h2 => ?_⟩
      have := c k h1 h2
      simp only [decide_eq_false_iff_not, not_forall, not_le] at this
      obtain ⟨k', hk', hlt⟩ := this
      exact lt_of_lt_of_le hlt (b k' hk')
    · rintro ⟨a, b, c⟩
      apply highest_row_of a (by simpa using b)
      intro k h1 h2
      simp only [decide_eq_false_iff_not, not_forall, not_le]
      exact ⟨i, a, c k h1 h2⟩
  have htruth : ∀ j t, ground_truth_class groundtruth j = some t ↔
      (t < groundtruth.LocalHeight ∧ groundtruth.GetLocal t j = 1 ∧
        ∀ k, t < k → k < groundtruth.LocalHeight → groundtruth.GetLocal k j ≠ 1) := by
    intro j t
    constructor
    · intro h
      obtain ⟨a, b, c⟩ := highest_row_some h
      exact ⟨a, by simpa using b, fun k h1 h2 => by simpa using c k h1 h2⟩
    · rintro ⟨a, b, c⟩
      exact highest_row_of a (by simpa using b) (fun k h1 h2 => by simpa using c k h1 h2)
  have hnone : ∀ j, ground_truth_class groundtruth j = none ↔
      ∀ k, k < groundtruth.LocalHeight → groundtruth.GetLocal k j ≠ 1 := by
    intro j
    constructor
    · intro h k hk
      simpa using highest_row_none h k hk
    · intro h
      cases hc : ground_truth_class groundtruth j with
      | none => rfl
      | some t =>
        obtain ⟨a, b, _⟩ := (htruth j t).mp hc
        exact absurd b (h t a)
  have hcount : compute_metric lbann_comm.single_process ColumnMax predictions groundtruth =
      (((List.range groundtruth.LocalWidth).filter
        (is_error predictions groundtruth)).length : Int) := by
    simp only [compute_metric, lbann_comm.single_process, count_errors]
    have hstep : ∀ (k : Int) (j : Nat),
        (if find_target groundtruth j ≠ -1 then
          if find_max_index predictions (ColumnMax predictions) (groundtruth.GlobalCol j) ≠
              find_target groundtruth j then k + 1
          else k
        else k) =
        if (find_target groundtruth j ≠ -1 ∧
          find_max_index predictions (ColumnMax predictions) j ≠ find_target groundtruth j)
        then k + 1 else k := by
      intro k j
      rw [hgcol]
      by_cases h1 : find_target groundtruth j ≠ -1
      · by_cases h2 : find_max_index predictions (ColumnMax predictions) j ≠
            find_target groundtruth j
        · simp [h1, h2]
        · simp [h1, h2]
      · simp [h1]
    simp only [hstep]
    rw [foldl_count (fun j => find_target groundtruth j ≠ -1 ∧
      find_max_index predictions (ColumnMax predictions) j ≠ find_target groundtruth j)]
    congr 2
    apply List.filter_congr
    intro j hj
    have hjw : j < predictions.LocalWidth := by
      rw [← hwidth]; exact List.mem_range.mp hj
    rw [find_target_eq groundtruth hgrow, find_max_index_eq predictions _ hprow hpcol j hjw]
    simp only [is_error]
    cases hc : ground_truth_class groundtruth j with
    | none => simp
    | some t =>
      obtain ⟨ht, _, _⟩ := (htruth j t).mp hc
      have hpos : 0 < predictions.LocalHeight := by omega
      obtain ⟨hle, hex⟩ := hmax j hjw
      obtain ⟨i0, hi0, he0⟩ := hex hpos
      have hsame : highest_row (fun i => decide (predictions.GetLocal i j =
          ColumnMax predictions j)) predictions.LocalHeight = predicted_class predictions j := by
        apply highest_row_congr
        intro k hk
        apply Bool.eq_iff_iff.mpr
        simp only [decide_eq_true_eq]
        constructor
        · intro hk' k' hk''
          rw [hk']; exact hle k' hk''
        · intro hall
          exact le_antisymm (hle k hk) (by rw [← he0]; exact hall i0 hi0)
      rw [hsame]
      cases hq : predicted_class predictions j with
      | none =>
        have := highest_row_none hq i0 hi0
        simp only [decide_eq_false_iff_not, not_forall, not_le] at this
        obtain ⟨k', hk', hlt⟩ := this
        rw [he0] at hlt
        exact absurd (hle k' hk') (not_le.mpr hlt)
      | some i =>
        have h1 : ((t : Int) ≠ -1) := by omega
        simp only [h1, ne_eq, not_false_eq_true, true_and, Nat.cast_inj, Option.some.injEq,
          decide_not]
  refine ⟨hcount, ?_, ?_, htruth, hnone, hpred⟩
  · rw [hcount]; exact Int.natCast_nonneg _
  · rw [hcount]
    have := List.length_filter_le (is_error predictions groundtruth)
      (List.range groundtruth.LocalWidth)
    rw [List.length_range] at this
    exact_mod_cast this

set_option maxRecDepth 100000 in
/-- Witness of C29: four samples and three classes.  In column 0 the maximum 5
occurs in rows 1 and 2, the predicted class is 2 and the ground truth is 1: an
error.  Column 1 is predicted right.  Column 2 has no ground-truth entry and is
not counted, whatever the prediction.  In column 3 the value 1 occurs in rows
1 and 2 of the ground truth, the class is 2 and the prediction is 1: an error.
The result is 2. -/
theorem categorical_accuracy_counts_errors_witness :
    (ElMat.of_columns 3 [[0, 1, 0], [1, 0, 0], [0, 0, 0], [0, 1, 1]]).LocalWidth =
      (ElMat.of_columns 3 [[1, 5, 5], [7, 2, 3], [0, 0, 0], [4, 9, 1]]).LocalWidth ∧
    compute_metric lbann_comm.single_process column_max
      (ElMat.of_columns 3 [[1, 5, 5], [7, 2, 3], [0, 0, 0], [4, 9, 1]])
      (ElMat.of_columns 3 [[0, 1, 0], [1, 0, 0], [0, 0, 0], [0, 1, 1]]) =
      (((List.range
          (ElMat.of_columns 3 [[0, 1, 0], [1, 0, 0], [0, 0, 0], [0, 1, 1]]).LocalWidth).filter
        (is_error (ElMat.of_columns 3 [[1, 5, 5], [7, 2, 3], [0, 0, 0], [4, 9, 1]])
          (ElMat.of_columns 3 [[0, 1, 0], [1, 0, 0], [0, 0, 0], [0, 1, 1]]))).length : Int) ∧
    compute_metric lbann_comm.single_process column_max
      (ElMat.of_columns 3 [[1, 5, 5], [7, 2, 3], [0, 0, 0], [4, 9, 1]])
      (ElMat.of_columns 3 [[0, 1, 0], [1, 0, 0], [0, 0, 0], [0, 1, 1]]) = 2 ∧
    (List.range 4).map (predicted_class
      (ElMat.of_columns 3 [[1, 5, 5], [7, 2, 3], [0, 0, 0], [4, 9, 1]])) =
      [some 2, some 0, some 2, some 1] ∧
    (List.range 4).map (ground_truth_class
      (ElMat.of_columns 3 [[0, 1, 0], [1, 0, 0], [0, 0, 0], [0, 1, 1]])) =
      [some 1, some 0, none, some 2] :=
  ⟨rfl,
   (categorical_accuracy_counts_errors column_max
      (ElMat.of_columns 3 [[1, 5, 5], [7, 2, 3], [0, 0, 0], [4, 9, 1]])
      (ElMat.of_columns 3 [[0, 1, 0], [1, 0, 0], [0, 0, 0], [0, 1, 1]])
      (fun _ => rfl) (fun _ => rfl) (fun _ => rfl) (fun _ => rfl) rfl rfl (by decide)).1,
   by decide, by decide, by decide⟩

end claims_categorical_accuracy


/-! ## The batch-normalization branch of the layer factory -/

section claims_batch_normalization

/-- The conversion to `int` lands in the range of `int`. -/
theorem to_int_range (x : Int) : -2 ^ 31 ≤ to_int x ∧ to_int x < 2 ^ 31 := by
  unfold to_int
  constructor <;> omega

/-- The conversion to `int` keeps a value that is in the range of `int`. -/
theorem to_int_of_range (x : Int) (hl : -2 ^ 31 ≤ x) (hu : x < 2 ^ 31) : to_int x = x := by
  unfold to_int
  omega

/-- The conversion to `int` changes a value by a multiple of 2^32. -/
theorem to_int_congruent (x : Int) : (2 ^ 32 : Int) ∣ x - to_int x := by
  unfold to_int
  omega

/-- C30, the claim as stated fails: the configured value is converted to `int`
before it is tested.  With the data-parallel layout and an empty
`stats_aggregation`, the positive configured value 2^32 + 5 gives the layer the
group size 5, the positive value 2^31 gives 0 (global statistics), the positive
value 2^32 gives 1 (local statistics), and the negative value 5 - 2^32 gives 5
and not 0. -/
theorem batch_normalization_group_size_counterexample :
    ((0 : Int) < 2 ^ 32 + 5 ∧
      (construct_layer_legacy .DATA_PARALLEL 4
          { decay := 0, epsilon := 0, statistics_group_size := 2 ^ 32 + 5,
            stats_aggregation := "" }).toOption.map
        (fun built => built.2.statistics_group_size) = some 5 ∧
      (5 : Int) ≠ 2 ^ 32 + 5) ∧
    ((0 : Int) < 2 ^ 31 ∧
      (construct_layer_legacy .DATA_PARALLEL 4
          { decay := 0, epsilon := 0, statistics_group_size := 2 ^ 31,
            stats_aggregation := "" }).toOption.map
        (fun built => built.2.statistics_group_size) = some 0) ∧
    ((0 : Int) < 2 ^ 32 ∧
      (construct_layer_legacy .DATA_PARALLEL 4
          { decay := 0, epsilon := 0, statistics_group_size := 2 ^ 32,
            stats_aggregation := "" }).toOption.map
        (fun built => built.2.statistics_group_size) = some 1) ∧
    ((5 : Int) - 2 ^ 32 < 0 ∧
      (construct_layer_legacy .DATA_PARALLEL 4
          { decay := 0, epsilon := 0, statistics_group_size := 5 - 2 ^ 32,
            stats_aggregation := "" }).toOption.map
        (fun built => built.2.statistics_group_size) = some 5) := by
  refine ⟨⟨by norm_num, ?_, by norm_num⟩, ⟨by norm_num, ?_⟩, ⟨by norm_num, ?_⟩,
    ⟨by norm_num, ?_⟩⟩ <;>
  norm_num [construct_layer_legacy, Except.toOption, to_int]

/-- C30, amended: `construct_layer_legacy` on a batch-normalization message.
With a layout other than data-parallel the construction raises an error,
whatever the message.  With the data-parallel layout the configured value is
first converted to `int`; with an empty `stats_aggregation` the layer is built
with statistics group size 0 if the converted value is negative, 1 if it is 0,
and the converted value if it is positive.  For a configured value in the
range of `int` that is: 0 if the configured value is negative, 1 if it is 0,
the configured value itself if it is positive.  A non-empty
`stats_aggregation` overrides this, whatever the configured value: 1 for
"local", the number of processes per node (an `int`) for "node_local", 0 for
"global", and an error for any other string.  The conversion to `int` keeps a
value of the range [-2^31, 2^31) and moves any other value into it by a
multiple of 2^32.  Two evaluated messages: a configured size of -3 without
aggregation string gives group size 0, and the string "node_local" on 4
processes per node gives 4 whatever the configured size. -/
theorem batch_normalization_group_size_narrowed (procs_per_node : Int)
    (params : BatchNormalization) :
    (∀ Layout : data_layout, Layout ≠ .DATA_PARALLEL →
      construct_layer_legacy Layout procs_per_node params =
        .error "batch normalization layer is only supported with a data-parallel layout") ∧
    (params.stats_aggregation = "" →
      ∃ warnings layer,
        construct_layer_legacy .DATA_PARALLEL procs_per_node params = .ok (warnings, layer) ∧
        (to_int params.statistics_group_size < 0 → layer.statistics_group_size = 0) ∧
        (to_int params.statistics_group_size = 0 → layer.statistics_group_size = 1) ∧
        (0 < to_int params.statistics_group_size →
          layer.statistics_group_size = to_int params.statistics_group_size) ∧
        (-2 ^ 31 ≤ params.statistics_group_size → params.statistics_group_size < 0 →
          layer.statistics_group_size = 0) ∧
        (params.statistics_group_size = 0 → layer.statistics_group_size = 1) ∧
        (0 < params.statistics_group_size → params.statistics_group_size < 2 ^ 31 →
          layer.statistics_group_size = params.statistics_group_size)) ∧
    (params.stats_aggregation = "local" →
      ∃ warnings layer,
        construct_layer_legacy .DATA_PARALLEL procs_per_node params = .ok (warnings, layer) ∧
        layer.statistics_group_size = 1) ∧
    (params.stats_aggregation = "node_local" →
      ∃ warnings layer,
        construct_layer_legacy .DATA_PARALLEL procs_per_node params = .ok (warnings, layer) ∧
        layer.statistics_group_size = to_int procs_per_node ∧
        (-2 ^ 31 ≤ procs_per_node → procs_per_node < 2 ^ 31 →
          layer.statistics_group_size = procs_per_node)) ∧
    (params.stats_aggregation = "global" →
      ∃ warnings layer,
        construct_layer_legacy .DATA_PARALLEL procs_per_node params = .ok (warnings, layer) ∧
        layer.statistics_group_size = 0) ∧
    (params.stats_aggregation ≠ "" → params.stats_aggregation ≠ "local" →
      params.stats_aggregation ≠ "node_local" → params.stats_aggregation ≠ "global" →
      construct_layer_legacy .DATA_PARALLEL procs_per_node params =
        .error ("Invalid batch normalization stats aggregation " ++
          params.stats_aggregation)) ∧
    (∀ x : Int, (-2 ^ 31 ≤ to_int x ∧ to_int x < 2 ^ 31) ∧ (2 ^ 32 : Int) ∣ x - to_int x ∧
      (-2 ^ 31 ≤ x → x < 2 ^ 31 → to_int x = x)) ∧
    (construct_layer_legacy .DATA_PARALLEL 4
        { decay := 0, epsilon := 0, statistics_group_size := -3,
          stats_aggregation := "" }).toOption =
      some ([], { decay := 9 / 10, epsilon := 1 / 100000, statistics_group_size := 0 }) ∧
    (construct_layer_legacy .DATA_PARALLEL 4
        { decay := 1 / 2, epsilon := 0, statistics_group_size := 7,
          stats_aggregation := "node_local" }).toOption =
      some (["stats_aggregation field for BatchNormalization is deprecated"],
        { decay := 1 / 2, epsilon := 1 / 100000, statistics_group_size := 4 }) := by
  have n1 : ("node_local" : String) ≠ "" := by decide
  have n2 : ("node_local" : String) ≠ "local" := by decide
  refine ⟨?_, ?_, ?_, ?_, ?_, ?_, ?_,
    by norm_num [construct_layer_legacy, Except.toOption, to_int],
    by norm_num [construct_layer_legacy, Except.toOption, to_int, n1, n2]⟩
  · intro Layout hl
    simp [construct_layer_legacy, hl]
  · intro h
    refine ⟨_, _, by simp only [construct_layer_legacy, h]; rfl, ?_, ?_, ?_, ?_, ?_, ?_⟩
    · intro hn; simp [hn]
    · intro hz; simp [hz]
    · intro hpos
      have h1 : ¬ to_int params.statistics_group_size < 0 := by omega
      have h2 : ¬ to_int params.statistics_group_size = 0 := by omega
      simp [h1, h2]
    · intro hl hn
      have hn' : to_int params.statistics_group_size < 0 := by
        rw [to_int_of_range _ hl (by omega)]; exact hn
      simp [hn']
    · intro hz
      have hz' : to_int params.statistics_group_size = 0 := by
        rw [hz]; exact to_int_of_range 0 (by norm_num) (by norm_num)
      simp [hz']
    · intro hpos hu
      have he : to_int params.statistics_group_size = params.statistics_group_size :=
        to_int_of_range _ (by omega) hu
      have h1 : ¬ params.statistics_group_size < 0 := by omega
      have h2 : ¬ params.statistics_group_size = 0 := by omega
      simp [he, h1, h2]
  · intro h
    exact ⟨_, _, by simp only [construct_layer_legacy, h]; rfl, rfl⟩
  · intro h
    exact ⟨_, _, by simp only [construct_layer_legacy, h]; rfl, rfl,
      fun hl hu => to_int_of_range _ hl hu⟩
  · intro h
    exact ⟨_, _, by simp only [construct_layer_legacy, h]; rfl, rfl⟩
  · intro h0 h1 h2 h3
    simp [construct_layer_legacy, h0, h1, h2, h3]
  · intro x
    exact ⟨to_int_range x, to_int_congruent x, to_int_of_range x⟩

end claims_batch_normalization

end lbann
